import Mathlib

/-!
# FEC ethernet driver (drivers/net/fec.c): descriptor rings, restart, link handling

A shallow embedding of the transmit/receive ring code of `drivers/net/fec.c`.

Conventions of the embedding

* Descriptor pointers (`cur_tx`, `dirty_tx`, `cur_rx`, the local `bdp`) are
  indices relative to the base of their ring: `tx_bd_base` and `rx_bd_base`
  are index `0`, `bdp++` is `bdp + 1`.  The descriptor memory is a total
  function of the index, so an index past the ring is memory outside the ring,
  exactly as a C pointer that ran past the last descriptor.
* The `BD_ENET_*` masks of `fec.h` and the kernel configuration switches are
  not fixed here; their values are the fields of `Params`, and nothing is
  assumed about them except where a theorem says so.
* Calls that leave the driver (`writel`, `dev_kfree_skb_any`, `netif_rx`) are
  recorded in order in `State.trace`.  `printk`, `udelay`, the spin lock and
  the DMA mapping calls have no effect on the state that is modelled;
  `dma_map_single` is the identity on addresses.
* `unsigned short` values are kept below `2 ^ 16` by explicit masking where the
  C code truncates; the statistics counters (`unsigned long`) are natural
  numbers without wrap-around.
* Loops whose exit depends on descriptor contents take a fuel argument and
  return `none` when it runs out.  A call that does not return at all (a
  length below zero handed to `skb_put`) gives `none` for every fuel.
* A buffer (a frame's data, a bounce buffer, a receive buffer) is the list of
  its bytes from its start; memory past the end of the list holds 0, and a
  write past the end makes the list longer.
* `ptp_prtc` stands for `fep->ptp_priv`: `none` for a null pointer, otherwise
  the counter `prtc` of the structure pointed to.
* Helpers of the kernel that are not part of fec.c (`is_valid_ether_addr`,
  the results of `dma_alloc_coherent`, `kmalloc`, `dev_alloc_skb`, the value
  read from `FEC_IEVENT`) are arguments of the functions that use them; the
  host is little-endian.
-/

namespace Fec

/-! ## Constants of fec.c -/

/-- Number of transmit descriptors (`#define TX_RING_SIZE 16`). -/
def TX_RING_SIZE : Nat := 16

/-- Mask for the transmit ring index (`#define TX_RING_MOD_MASK 15`). -/
def TX_RING_MOD_MASK : Nat := 15

def FEC_ENET_RX_PAGES : Nat := 8
def FEC_ENET_RX_FRSIZE : Nat := 2048
def FEC_ENET_TX_FRSIZE : Nat := 2048
def PKT_MAXBUF_SIZE : Nat := 1518
def PKT_MINBUF_SIZE : Nat := 64
def PKT_MAXBLR_SIZE : Nat := 1536

def FEC_ENET_TXF : Nat := 0x08000000
def FEC_ENET_RXF : Nat := 0x02000000
def FEC_ENET_MII : Nat := 0x00800000
def FEC_ENET_GRA : Nat := 0x10000000
def FEC_ENET_TS_AVAIL : Nat := 0x00010000
def FEC_ENET_TS_TIMER : Nat := 0x00008000

/-- Values that come from headers and from the kernel configuration rather
than from fec.c: the descriptor bit masks of `fec.h`, the layout constants,
and the `CONFIG_*` switches tested by `fec.c`. -/
structure Params where
  BD_SC_WRAP : Nat
  BD_ENET_RX_EMPTY : Nat
  BD_ENET_RX_WRAP : Nat
  BD_ENET_RX_LAST : Nat
  BD_ENET_RX_LG : Nat
  BD_ENET_RX_NO : Nat
  BD_ENET_RX_SH : Nat
  BD_ENET_RX_CR : Nat
  BD_ENET_RX_OV : Nat
  BD_ENET_RX_CL : Nat
  BD_ENET_RX_STATS : Nat
  BD_ENET_RX_INT : Nat
  BD_ENET_TX_READY : Nat
  BD_ENET_TX_WRAP : Nat
  BD_ENET_TX_INTR : Nat
  BD_ENET_TX_LAST : Nat
  BD_ENET_TX_TC : Nat
  BD_ENET_TX_DEF : Nat
  BD_ENET_TX_HB : Nat
  BD_ENET_TX_LC : Nat
  BD_ENET_TX_RL : Nat
  BD_ENET_TX_UN : Nat
  BD_ENET_TX_CSL : Nat
  BD_ENET_TX_STATS : Nat
  BD_ENET_TX_PTP : Nat
  BD_ENET_TX_TS : Nat
  BD_ENET_TX_INT : Nat
  PAGE_SIZE : Nat
  NET_IP_ALIGN : Nat
  sizeof_bufdesc : Nat
  CONFIG_ARCH_MXC : Bool
  CONFIG_ARCH_MXS : Bool
  CONFIG_ARCH_MX28 : Bool
  CONFIG_FEC_1588 : Bool
  CONFIG_ENHANCED_BD : Bool
  CONFIG_M5272 : Bool
  CONFIG_M523x : Bool
  CONFIG_M527x : Bool
  CONFIG_M528x : Bool
  CONFIG_M520x : Bool
  CONFIG_M532x : Bool
  HAVE_FEC_MIIGSK_ENR : Bool

/-- The alignment mask of fec.c: `0xf` on MXC and MXS, `0x3` otherwise. -/
def FEC_ALIGNMENT (K : Params) : Nat :=
  if K.CONFIG_ARCH_MXC || K.CONFIG_ARCH_MXS then 0xf else 0x3

def FEC_ENET_RX_FRPPG (K : Params) : Nat := K.PAGE_SIZE / FEC_ENET_RX_FRSIZE

def RX_RING_SIZE (K : Params) : Nat := FEC_ENET_RX_FRPPG K * FEC_ENET_RX_PAGES

def FEC_DEFAULT_IMASK (K : Params) : Nat :=
  if K.CONFIG_FEC_1588 && K.CONFIG_ARCH_MX28 then
    FEC_ENET_TXF ||| FEC_ENET_RXF ||| FEC_ENET_MII ||| FEC_ENET_TS_AVAIL ||| FEC_ENET_TS_TIMER
  else
    FEC_ENET_TXF ||| FEC_ENET_RXF ||| FEC_ENET_MII

def OPT_FRAME_SIZE (K : Params) : Nat :=
  if K.CONFIG_M523x || K.CONFIG_M527x || K.CONFIG_M528x || K.CONFIG_M520x
      || K.CONFIG_M532x || K.CONFIG_ARCH_MXC || K.CONFIG_ARCH_MXS then
    PKT_MAXBUF_SIZE <<< 16
  else 0

/-! ## Data model -/

/-- One buffer descriptor (`struct bufdesc`); the last three words exist only
with `CONFIG_ENHANCED_BD`. -/
structure Bufdesc where
  cbd_datlen : Nat
  cbd_sc : Nat
  cbd_bufaddr : Nat
  cbd_esc : Nat
  cbd_prot : Nat
  cbd_bdu : Nat

/-- The part of `struct sk_buff` the driver reads: the address `data`, the
bytes of the buffer starting there, the frame length `len`, and the answer
`fec_ptp_do_txstamp` gives for this frame. -/
structure SkBuff where
  data : Nat
  buf : List Nat
  len : Nat
  txstamp : Bool
deriving DecidableEq

/-- Return values of `ndo_start_xmit`. -/
inductive NetdevTx where
  | NETDEV_TX_OK
  | NETDEV_TX_BUSY
deriving DecidableEq

/-- The controller registers written or read by the code embedded here. -/
inductive FecReg where
  | FEC_ECNTRL
  | FEC_IEVENT
  | FEC_IMASK
  | FEC_ADDR_LOW
  | FEC_ADDR_HIGH
  | FEC_GRP_HASH_TABLE_HIGH
  | FEC_GRP_HASH_TABLE_LOW
  | FEC_HASH_TABLE_HIGH
  | FEC_HASH_TABLE_LOW
  | FEC_R_BUFF_SIZE
  | FEC_R_DES_START
  | FEC_X_DES_START
  | FEC_R_DES_ACTIVE
  | FEC_X_DES_ACTIVE
  | FEC_R_CNTRL
  | FEC_X_CNTRL
  | FEC_MII_SPEED
  | FEC_MII_DATA
  | FEC_MIIGSK_ENR
  | FEC_MIIGSK_CFGR
deriving DecidableEq

/-- States of the PHY state machine (`enum phy_state`). -/
inductive PhyState where
  | PHY_DOWN
  | PHY_STARTING
  | PHY_READY
  | PHY_PENDING
  | PHY_UP
  | PHY_AN
  | PHY_RUNNING
  | PHY_NOLINK
  | PHY_FORCING
  | PHY_CHANGELINK
  | PHY_HALTED
  | PHY_RESUMING
deriving DecidableEq

/-- The interface modes told apart by the driver. -/
inductive PhyInterface where
  | PHY_INTERFACE_MODE_MII
  | PHY_INTERFACE_MODE_RMII
deriving DecidableEq

def SPEED_10 : Nat := 10
def SPEED_100 : Nat := 100

/-- The fields of `struct phy_device` read or written by the driver. -/
structure PhyDevice where
  link : Nat
  duplex : Nat
  speed : Nat
  state : PhyState
deriving DecidableEq

/-- The counters of `dev->stats` touched by the driver. -/
structure NetStats where
  tx_bytes : Nat
  tx_packets : Nat
  tx_errors : Nat
  tx_heartbeat_errors : Nat
  tx_window_errors : Nat
  tx_aborted_errors : Nat
  tx_fifo_errors : Nat
  tx_carrier_errors : Nat
  collisions : Nat
  rx_packets : Nat
  rx_bytes : Nat
  rx_errors : Nat
  rx_length_errors : Nat
  rx_frame_errors : Nat
  rx_crc_errors : Nat
  rx_fifo_errors : Nat
  rx_dropped : Nat
deriving DecidableEq

/-- A call that leaves the driver.  `netif_rx` carries, besides the bytes of
the frame handed up, the index of the descriptor it was taken from. -/
inductive Call where
  | writel (v : Nat) (r : FecReg)
  | dev_kfree_skb_any (skb : Option SkBuff)
  | netif_rx (slot : Nat) (frame : List Nat)
deriving DecidableEq

/-- The device: `struct fec_enet_private`, the parts of `struct net_device`
the driver uses, the descriptor and buffer memory, and what the environment
contributes (controller position, register contents, results of calls whose
code is elsewhere). -/
structure State where
  /- descriptor memory, indexed from the ring base -/
  tx_bd : Nat → Bufdesc
  rx_bd : Nat → Bufdesc
  /- struct fec_enet_private -/
  tx_bounce : Nat → Nat
  tx_skbuff : Nat → Option SkBuff
  skb_cur : Nat
  skb_dirty : Nat
  bd_dma : Nat
  cur_rx : Nat
  cur_tx : Nat
  dirty_tx : Nat
  tx_full : Nat
  opened : Nat
  phy_dev : Option PhyDevice
  mii_timeout : Nat
  phy_speed : Nat
  phy_interface : PhyInterface
  link : Nat
  full_duplex : Nat
  mdio_done : Nat
  ptimer_present : Nat
  ptp_prtc : Option Nat
  /- struct net_device -/
  dev_addr : List Nat
  stats : NetStats
  queue_stopped : Bool
  /- buffer memory: contents of the bounce buffers and of the receive buffers, per slot -/
  tx_bounce_buf : Nat → List Nat
  rx_buf : Nat → List Nat
  /- environment -/
  regs : FecReg → Nat
  hw_tx : Nat
  alloc_fails : List Bool
  ptp_start_ret : Nat
  stack_garbage : Nat
  trace : List Call

/-! ## Small helpers standing for C operators and kernel primitives -/

/-- The C expression `x & ~m` on an `unsigned short`. -/
def clear_bits (x m : Nat) : Nat := x &&& (0xFFFF ^^^ m)

/-- The C expression `x & ~m` on a 32-bit `unsigned long`. -/
def clear_bits32 (x m : Nat) : Nat := x &&& (0xFFFFFFFF ^^^ m)

/-- Register write: recorded in the trace and kept as the register content.
Writing the reset bit of `FEC_ECNTRL` also sends the controller back to the
first transmit descriptor. -/
def writel (s : State) (v : Nat) (r : FecReg) : State :=
  { s with
    regs := Function.update s.regs r v
    hw_tx := if r = FecReg.FEC_ECNTRL ∧ v &&& 1 ≠ 0 then 0 else s.hw_tx
    trace := s.trace ++ [Call.writel v r] }

/-- Register read. -/
def readl (s : State) (r : FecReg) : Nat := s.regs r

def netif_stop_queue (s : State) : State := { s with queue_stopped := true }

def netif_wake_queue (s : State) : State := { s with queue_stopped := false }

def netif_start_queue (s : State) : State := { s with queue_stopped := false }

def netif_queue_stopped (s : State) : Bool := s.queue_stopped

def dev_kfree_skb_any (s : State) (skb : Option SkBuff) : State :=
  { s with trace := s.trace ++ [Call.dev_kfree_skb_any skb] }

/-- The first `n` bytes of a buffer.  A buffer is given by the list of its
bytes from its start; memory past the end of the list holds 0. -/
def mem_read (buf : List Nat) (n : Nat) : List Nat :=
  (List.range n).map (fun i => buf.getD i 0)

/-- The function `swap_buffer` of fec.c (compiled with `CONFIG_ARCH_MXS`):
each of the first `(len + 3) / 4` 32-bit words of the buffer is replaced by
its `__swab32`, so byte `i` of such a word-aligned group of four becomes byte
`3 - i`.  The whole words are swapped, also where they reach past `len`. -/
def swap_buffer (buf : List Nat) (len : Nat) : List Nat :=
  (List.range (max buf.length (4 * ((len + 3) / 4)))).map
    (fun i => if i < 4 * ((len + 3) / 4) then buf.getD (i / 4 * 4 + (3 - i % 4)) 0
      else buf.getD i 0)

/-- The C call `memcpy(dst, src, n)` on buffers: the first `n` bytes of `dst`
are replaced by the first `n` bytes of `src`. -/
def memcpy (dst src : List Nat) (n : Nat) : List Nat :=
  mem_read src n ++ dst.drop n

def set_tx_sc (s : State) (i : Nat) (v : Nat) : State :=
  { s with tx_bd := Function.update s.tx_bd i { s.tx_bd i with cbd_sc := v } }

def set_rx_sc (s : State) (i : Nat) (v : Nat) : State :=
  { s with rx_bd := Function.update s.rx_bd i { s.rx_bd i with cbd_sc := v } }

/-! ## Transmit submission -/

/-- The status word `fec_enet_start_xmit` writes to the descriptor at `cur_tx`:
the old word with the status bits cleared, `BD_ENET_TX_PTP` when a timer is
present and the frame asks for a time stamp, and the four control bits. -/
def xmit_status (K : Params) (s : State) (skb : SkBuff) : Nat :=
  let status := clear_bits (s.tx_bd s.cur_tx).cbd_sc K.BD_ENET_TX_STATS
  let status := if s.ptimer_present ≠ 0 ∧ skb.txstamp = true
    then status ||| K.BD_ENET_TX_PTP else status
  status ||| (K.BD_ENET_TX_READY ||| K.BD_ENET_TX_INTR ||| K.BD_ENET_TX_LAST ||| K.BD_ENET_TX_TC)

/-- Whether the frame goes through the bounce buffer:
`((unsigned long) bufaddr) & FEC_ALIGNMENT`. -/
def xmit_bounce (K : Params) (skb : SkBuff) : Bool :=
  decide (skb.data &&& FEC_ALIGNMENT K ≠ 0)

/-- The descriptor at `cur_tx` as `fec_enet_start_xmit` leaves it. -/
def xmit_bd (K : Params) (s : State) (skb : SkBuff) : Bufdesc :=
  let bdp := s.tx_bd s.cur_tx
  let estatus := if skb.txstamp then K.BD_ENET_TX_TS else 0
  { cbd_datlen := skb.len % 65536
    cbd_sc := xmit_status K s skb
    cbd_bufaddr := if xmit_bounce K skb then s.tx_bounce s.cur_tx else skb.data
    cbd_esc := if s.ptimer_present ≠ 0 ∧ K.CONFIG_ENHANCED_BD = true
      then estatus ||| K.BD_ENET_TX_INT else bdp.cbd_esc
    cbd_prot := bdp.cbd_prot
    cbd_bdu := if s.ptimer_present ≠ 0 ∧ K.CONFIG_ENHANCED_BD = true then 0 else bdp.cbd_bdu }

/-- Contents of the bounce buffer of slot `cur_tx` after the copy and, on MXS,
the word swap. -/
def xmit_bounce_buf (K : Params) (s : State) (skb : SkBuff) : List Nat :=
  if xmit_bounce K skb then
    let b := memcpy (s.tx_bounce_buf s.cur_tx) skb.buf skb.len
    if K.CONFIG_ARCH_MXS then swap_buffer b skb.len else b
  else s.tx_bounce_buf s.cur_tx

/-- The frame object as it is in memory once `fec_enet_start_xmit` has run: on
MXS an aligned frame is word-swapped in place. -/
def xmit_skb (K : Params) (skb : SkBuff) : SkBuff :=
  if K.CONFIG_ARCH_MXS = true ∧ xmit_bounce K skb = false
  then { skb with buf := swap_buffer skb.buf skb.len } else skb

/-- Where `cur_tx` goes after an accepted frame: back to the base when the
status word just written has the wrap bit, one further otherwise. -/
def xmit_next (K : Params) (s : State) (skb : SkBuff) : Nat :=
  if xmit_status K s skb &&& K.BD_ENET_TX_WRAP ≠ 0 then 0 else s.cur_tx + 1

/-- The part of `fec_enet_start_xmit` after the two early returns. -/
def xmit_enqueue (K : Params) (s : State) (skb : SkBuff) : State :=
  let bdp := s.cur_tx
  let s1 : State :=
    { s with
      tx_bd := Function.update s.tx_bd bdp (xmit_bd K s skb)
      tx_bounce_buf := Function.update s.tx_bounce_buf bdp (xmit_bounce_buf K s skb)
      tx_skbuff := Function.update s.tx_skbuff s.skb_cur (some (xmit_skb K skb))
      stats := { s.stats with tx_bytes := s.stats.tx_bytes + skb.len }
      skb_cur := (s.skb_cur + 1) &&& TX_RING_MOD_MASK }
  let s2 := writel s1 0 FecReg.FEC_X_DES_ACTIVE
  let next := xmit_next K s skb
  let s3 := if next = s2.dirty_tx then netif_stop_queue { s2 with tx_full := 1 } else s2
  { s3 with cur_tx := next }

/-- The function `fec_enet_start_xmit`. -/
def fec_enet_start_xmit (K : Params) (s : State) (skb : SkBuff) : NetdevTx × State :=
  if s.link = 0 then
    (NetdevTx.NETDEV_TX_BUSY, netif_stop_queue s)
  else if (s.tx_bd s.cur_tx).cbd_sc &&& K.BD_ENET_TX_READY ≠ 0 then
    (NetdevTx.NETDEV_TX_BUSY, s)
  else
    (NetdevTx.NETDEV_TX_OK, xmit_enqueue K s skb)

/-! ## Transmit completion -/

/-- Add one to a counter when the condition holds. -/
def bump (c : Bool) (n : Nat) : Nat := if c then n + 1 else n

/-- The statistics after one reclaimed descriptor with status word `status`. -/
def tx_stats (K : Params) (st : NetStats) (status : Nat) : NetStats :=
  let st :=
    if status &&& (K.BD_ENET_TX_HB ||| K.BD_ENET_TX_LC ||| K.BD_ENET_TX_RL
        ||| K.BD_ENET_TX_UN ||| K.BD_ENET_TX_CSL) ≠ 0 then
      { st with
        tx_errors := st.tx_errors + 1
        tx_heartbeat_errors := bump (decide (status &&& K.BD_ENET_TX_HB ≠ 0)) st.tx_heartbeat_errors
        tx_window_errors := bump (decide (status &&& K.BD_ENET_TX_LC ≠ 0)) st.tx_window_errors
        tx_aborted_errors := bump (decide (status &&& K.BD_ENET_TX_RL ≠ 0)) st.tx_aborted_errors
        tx_fifo_errors := bump (decide (status &&& K.BD_ENET_TX_UN ≠ 0)) st.tx_fifo_errors
        tx_carrier_errors := bump (decide (status &&& K.BD_ENET_TX_CSL ≠ 0)) st.tx_carrier_errors }
    else
      { st with tx_packets := st.tx_packets + 1 }
  { st with collisions := bump (decide (status &&& K.BD_ENET_TX_DEF ≠ 0)) st.collisions }

/-- One pass through the body of the `while` loop of `fec_enet_tx`, for the
descriptor `bdp`: everything between the `break` test and the loop head,
except the move of `bdp` itself. -/
def fec_enet_tx_one (K : Params) (s : State) (bdp : Nat) : State :=
  let status := (s.tx_bd bdp).cbd_sc
  let skb := s.tx_skbuff s.skb_dirty
  let s1 : State :=
    { s with
      tx_bd := Function.update s.tx_bd bdp { s.tx_bd bdp with cbd_bufaddr := 0 }
      stats := tx_stats K s.stats status }
  let s2 := dev_kfree_skb_any s1 skb
  let s3 : State :=
    { s2 with
      tx_skbuff := Function.update s2.tx_skbuff s2.skb_dirty none
      skb_dirty := (s2.skb_dirty + 1) &&& TX_RING_MOD_MASK }
  if s3.tx_full ≠ 0 then
    let s4 : State := { s3 with tx_full := 0 }
    if netif_queue_stopped s4 then netif_wake_queue s4 else s4
  else s3

/-- Where `bdp` goes after a reclaimed descriptor: back to the base when the
status word read at the loop head has the wrap bit, one further otherwise. -/
def tx_next (K : Params) (s : State) (bdp : Nat) : Nat :=
  if (s.tx_bd bdp).cbd_sc &&& K.BD_ENET_TX_WRAP ≠ 0 then 0 else bdp + 1

/-- The `while` loop of `fec_enet_tx` followed by `fep->dirty_tx = bdp`; each
evaluation of the loop condition costs one unit of fuel. -/
def fec_enet_tx_loop (K : Params) : Nat → State → Nat → Option State
  | 0, _, _ => none
  | fuel + 1, s, bdp =>
    if (s.tx_bd bdp).cbd_sc &&& K.BD_ENET_TX_READY ≠ 0 then
      some { s with dirty_tx := bdp }
    else if bdp = s.cur_tx ∧ s.tx_full = 0 then
      some { s with dirty_tx := bdp }
    else
      fec_enet_tx_loop K fuel (fec_enet_tx_one K s bdp) (tx_next K s bdp)

/-- The function `fec_enet_tx`. -/
def fec_enet_tx (K : Params) (fuel : Nat) (s : State) : Option State :=
  fec_enet_tx_loop K fuel s s.dirty_tx

/-- Fuel that suffices for `fec_enet_tx` on a well-formed ring. -/
def TX_FUEL : Nat := TX_RING_SIZE + 1

/-! ## Receive -/

/-- The error counters after the test of the five per-frame error bits. -/
def rx_err_stats (K : Params) (st : NetStats) (status : Nat) : NetStats :=
  if status &&& (K.BD_ENET_RX_LG ||| K.BD_ENET_RX_SH ||| K.BD_ENET_RX_NO
      ||| K.BD_ENET_RX_CR ||| K.BD_ENET_RX_OV) ≠ 0 then
    { st with
      rx_errors := st.rx_errors + 1
      rx_length_errors :=
        bump (decide (status &&& (K.BD_ENET_RX_LG ||| K.BD_ENET_RX_SH) ≠ 0)) st.rx_length_errors
      rx_frame_errors := bump (decide (status &&& K.BD_ENET_RX_NO ≠ 0)) st.rx_frame_errors
      rx_crc_errors := bump (decide (status &&& K.BD_ENET_RX_CR ≠ 0)) st.rx_crc_errors
      rx_fifo_errors := bump (decide (status &&& K.BD_ENET_RX_OV ≠ 0)) st.rx_fifo_errors }
  else st

/-- The receive buffer of slot `bdp` as the frame block leaves it: word-swapped
in place over the frame length on MXS, untouched otherwise. -/
def rx_data (K : Params) (s : State) (bdp : Nat) : List Nat :=
  if K.CONFIG_ARCH_MXS then swap_buffer (s.rx_buf bdp) (s.rx_bd bdp).cbd_datlen
  else s.rx_buf bdp

/-- The bytes copied into the frame object handed up: the first `pkt_len - 4`
bytes of the buffer.  `fec_enet_rx_frame` comes here only with
`pkt_len ≥ 4`. -/
def rx_frame (K : Params) (s : State) (bdp : Nat) : List Nat :=
  mem_read (rx_data K s bdp) ((s.rx_bd bdp).cbd_datlen - 4)

/-- The block of `fec_enet_rx` from "Process the incoming frame" down to the
label `rx_processing_done`: count the frame, word-swap the buffer on MXS,
allocate, and either count a drop or hand the first `pkt_len - 4` bytes up.
The next entry of `alloc_fails` tells whether `dev_alloc_skb` fails.  With
the allocation succeeding and `pkt_len < 4` the length `pkt_len - 4` passed
to `skb_put` and `skb_copy_to_linear_data` is negative, about 4 GiB as an
unsigned value, and the call does not return: the result is `none`. -/
def fec_enet_rx_frame (K : Params) (s : State) (bdp : Nat) : Option State :=
  let pkt_len := (s.rx_bd bdp).cbd_datlen
  let s1 : State :=
    { s with
      stats := { s.stats with
        rx_packets := s.stats.rx_packets + 1
        rx_bytes := s.stats.rx_bytes + pkt_len }
      rx_buf := Function.update s.rx_buf bdp (rx_data K s bdp)
      alloc_fails := s.alloc_fails.tail }
  if s.alloc_fails.headD false then
    some { s1 with stats := { s1.stats with rx_dropped := s1.stats.rx_dropped + 1 } }
  else if pkt_len < 4 then none
  else
    some { s1 with trace := s1.trace ++ [Call.netif_rx bdp (rx_frame K s bdp)] }

/-- The status word written back at `rx_processing_done`. -/
def rx_rearm (K : Params) (status : Nat) : Nat :=
  clear_bits status K.BD_ENET_RX_STATS ||| K.BD_ENET_RX_EMPTY

/-- The part of the loop body of `fec_enet_rx` from the label
`rx_processing_done` on, for the descriptor `bdp` whose status word was read
as `status`, except the move of `bdp` itself. -/
def rx_processing_done (K : Params) (s1 : State) (status bdp : Nat) : State :=
  let d := s1.rx_bd bdp
  let d1 : Bufdesc :=
    if K.CONFIG_ENHANCED_BD then
      { d with cbd_sc := rx_rearm K status, cbd_esc := K.BD_ENET_RX_INT, cbd_prot := 0, cbd_bdu := 0 }
    else { d with cbd_sc := rx_rearm K status }
  writel { s1 with rx_bd := Function.update s1.rx_bd bdp d1 } 0 FecReg.FEC_R_DES_ACTIVE

/-- The part of the loop body of `fec_enet_rx` before the label
`rx_processing_done`, for the descriptor `bdp`; `none` when the call does not
return. -/
def rx_process (K : Params) (s : State) (bdp : Nat) : Option State :=
  let status := (s.rx_bd bdp).cbd_sc
  if s.opened = 0 then some s
  else
    let sa : State := { s with stats := rx_err_stats K s.stats status }
    if status &&& K.BD_ENET_RX_CL ≠ 0 then
      some { sa with stats := { sa.stats with
          rx_errors := sa.stats.rx_errors + 1
          rx_frame_errors := sa.stats.rx_frame_errors + 1 } }
    else fec_enet_rx_frame K sa bdp

/-- One pass through the body of the `while` loop of `fec_enet_rx` for the
descriptor `bdp`, except the move of `bdp` itself; `none` when the call does
not return. -/
def fec_enet_rx_one (K : Params) (s : State) (bdp : Nat) : Option State :=
  (rx_process K s bdp).map (fun s1 => rx_processing_done K s1 (s.rx_bd bdp).cbd_sc bdp)

/-- Where `bdp` goes after a processed receive descriptor; the wrap test is
made on the status word just written back. -/
def rx_next (K : Params) (s : State) (bdp : Nat) : Nat :=
  if rx_rearm K (s.rx_bd bdp).cbd_sc &&& K.BD_ENET_RX_WRAP ≠ 0 then 0 else bdp + 1

/-- The `while` loop of `fec_enet_rx` followed by `fep->cur_rx = bdp`; each
evaluation of the loop condition costs one unit of fuel, and the result is
`none` also when a pass does not return. -/
def fec_enet_rx_loop (K : Params) : Nat → State → Nat → Option State
  | 0, _, _ => none
  | fuel + 1, s, bdp =>
    if (s.rx_bd bdp).cbd_sc &&& K.BD_ENET_RX_EMPTY ≠ 0 then
      some { s with cur_rx := bdp }
    else
      match fec_enet_rx_one K s bdp with
      | none => none
      | some s1 => fec_enet_rx_loop K fuel s1 (rx_next K s bdp)

/-- The function `fec_enet_rx`. -/
def fec_enet_rx (K : Params) (fuel : Nat) (s : State) : Option State :=
  fec_enet_rx_loop K fuel s s.cur_rx

/-! ## Restart, stop, link changes -/

/-- The value written to `FEC_ADDR_LOW`: `cpu_to_be32` of the first word of
`temp_mac`, that is, the first four address bytes in big-endian order. -/
def restart_addr_low (s : State) : Nat :=
  (s.dev_addr.getD 0 0 <<< 24) ||| (s.dev_addr.getD 1 0 <<< 16)
    ||| (s.dev_addr.getD 2 0 <<< 8) ||| s.dev_addr.getD 3 0

/-- The value written to `FEC_ADDR_HIGH`: `cpu_to_be32` of the second word of
`temp_mac`, whose last two bytes were never written by the `memcpy`. -/
def restart_addr_high (s : State) : Nat :=
  (s.dev_addr.getD 4 0 <<< 24) ||| (s.dev_addr.getD 5 0 <<< 16) ||| (s.stack_garbage % 65536)

/-- One pass of the loop "Reset SKB transmit buffers" of `fec_restart`. -/
def restart_free_skb (s : State) (i : Nat) : State :=
  match s.tx_skbuff i with
  | some skb =>
    { dev_kfree_skb_any s (some skb) with tx_skbuff := Function.update s.tx_skbuff i none }
  | none => s

/-- The MXS block of `fec_restart` that rewrites `FEC_R_CNTRL`. -/
def restart_mxs_rcntrl (s : State) : State :=
  let reg := readl s FecReg.FEC_R_CNTRL
  let reg := reg ||| (0x40000000 ||| 0x00000020)
  let reg := if s.phy_interface = PhyInterface.PHY_INTERFACE_MODE_RMII
    then reg ||| 0x00000100 else clear_bits32 reg 0x00000100
  let reg := if (s.phy_dev.map (fun p => decide (p.speed = SPEED_100))).getD false
    then clear_bits32 reg 0x00000200 else reg ||| 0x00000200
  writel s reg FecReg.FEC_R_CNTRL

/-- The gasket block of `fec_restart` (compiled when `FEC_MIIGSK_ENR` exists).
The busy-wait reads back the `0` just written and so ends at once. -/
def restart_miigsk (s : State) : State :=
  if s.phy_interface = PhyInterface.PHY_INTERFACE_MODE_RMII then
    let s1 := writel s 0 FecReg.FEC_MIIGSK_ENR
    let val := if (s1.phy_dev.map (fun p => decide (p.speed = SPEED_10))).getD false
      then 1 ||| (1 <<< 6) else 1
    writel (writel s1 val FecReg.FEC_MIIGSK_CFGR) 2 FecReg.FEC_MIIGSK_ENR
  else s

/-- First part of `fec_restart`: the reset and the register writes down to
the ring base addresses. -/
def restart_head (K : Params) (s : State) : State :=
  let s1 := writel s 1 FecReg.FEC_ECNTRL
  let s2 := writel s1 (restart_addr_low s) FecReg.FEC_ADDR_LOW
  let s3 := writel s2 (restart_addr_high s) FecReg.FEC_ADDR_HIGH
  let s4 := writel s3 0xffc00000 FecReg.FEC_IEVENT
  let s5 := writel s4 0 FecReg.FEC_GRP_HASH_TABLE_HIGH
  let s6 := writel s5 0 FecReg.FEC_GRP_HASH_TABLE_LOW
  let s7 := if K.CONFIG_M5272 then s6
    else writel (writel s6 0 FecReg.FEC_HASH_TABLE_HIGH) 0 FecReg.FEC_HASH_TABLE_LOW
  let s8 := writel s7 PKT_MAXBLR_SIZE FecReg.FEC_R_BUFF_SIZE
  let s9 := writel s8 s.bd_dma FecReg.FEC_R_DES_START
  writel s9 ((s.bd_dma + K.sizeof_bufdesc * RX_RING_SIZE K) % 2 ^ 32) FecReg.FEC_X_DES_START

/-- Second part of `fec_restart`: the cursors go back to the ring bases and
the loop "Reset SKB transmit buffers" releases what `tx_skbuff` still holds. -/
def restart_rings (s : State) : State :=
  (List.range (TX_RING_MOD_MASK + 1)).foldl restart_free_skb
    { s with dirty_tx := 0, cur_tx := 0, cur_rx := 0, skb_cur := 0, skb_dirty := 0 }

/-- Third part of `fec_restart`: the duplex-dependent control registers and
`fep->full_duplex = duplex`. -/
def restart_duplex (K : Params) (s : State) (duplex : Nat) : State :=
  let s1 := if duplex ≠ 0 then
      writel (writel s (OPT_FRAME_SIZE K ||| 0x04) FecReg.FEC_R_CNTRL) 0x04 FecReg.FEC_X_CNTRL
    else
      writel (writel s (OPT_FRAME_SIZE K ||| 0x06) FecReg.FEC_R_CNTRL) 0x0 FecReg.FEC_X_CNTRL
  { s1 with full_duplex := duplex }

/-- Last part of `fec_restart`: the MXS rewrite of `FEC_R_CNTRL`, the MII
speed, the timer start (`ptp_start_ret` is what `fec_ptp_start` returns), the
gasket, and the enabling writes. -/
def restart_tail (K : Params) (s : State) : State :=
  let s1 := if K.CONFIG_ARCH_MXS then restart_mxs_rcntrl s else s
  let s2 := writel s1 s.phy_speed FecReg.FEC_MII_SPEED
  let reg := if s.ptimer_present ≠ 0 ∧ s.ptp_start_ret = 0 ∧ K.CONFIG_ARCH_MX28 = true
    then 0x00000010 else 0x0
  let s3 : State := if s.ptimer_present ≠ 0 ∧ s.ptp_start_ret ≠ 0
    then { s2 with ptimer_present := 0 } else s2
  let s4 := if K.HAVE_FEC_MIIGSK_ENR then restart_miigsk s3 else s3
  let s5 := writel s4 (reg ||| 0x00000002) FecReg.FEC_ECNTRL
  let s6 := writel s5 0 FecReg.FEC_R_DES_ACTIVE
  writel s6 (FEC_DEFAULT_IMASK K) FecReg.FEC_IMASK

/-- The function `fec_restart`, its four parts in the order of the source. -/
def fec_restart (K : Params) (s : State) (duplex : Nat) : State :=
  restart_tail K (restart_duplex K (restart_rings (restart_head K s)) duplex)

/-- The function `fec_stop`. -/
def fec_stop (K : Params) (s : State) : State :=
  let s := if s.link ≠ 0 then writel s 1 FecReg.FEC_X_CNTRL else s
  let s := writel s 1 FecReg.FEC_ECNTRL
  let s := if K.CONFIG_ARCH_MXS then
      let s := writel s (0x1 <<< 1) FecReg.FEC_ECNTRL
      if s.phy_interface = PhyInterface.PHY_INTERFACE_MODE_RMII then
        writel s (readl s FecReg.FEC_R_CNTRL ||| 0x100) FecReg.FEC_R_CNTRL
      else
        writel s (clear_bits32 (readl s FecReg.FEC_R_CNTRL) 0x100) FecReg.FEC_R_CNTRL
    else s
  let s := writel s FEC_ENET_MII FecReg.FEC_IEVENT
  let s := writel s s.phy_speed FecReg.FEC_MII_SPEED
  let s := writel s (FEC_DEFAULT_IMASK K) FecReg.FEC_IMASK
  let s := netif_stop_queue s
  { s with link := 0 }

/-- The function `fec_enet_adjust_link`; `none` stands for the dereference of
a null `phy_dev`. -/
def fec_enet_adjust_link (K : Params) (s : State) : Option State :=
  match s.phy_dev with
  | none => none
  | some phy =>
    if s.mii_timeout ≠ 0 ∧ phy.state = PhyState.PHY_HALTED then
      some { s with phy_dev := some { phy with state := PhyState.PHY_RESUMING } }
    else
      let s1 := if phy.link ≠ 0 ∧ s.full_duplex ≠ phy.duplex
        then fec_restart K s phy.duplex else s
      if phy.link ≠ s1.link then
        let s2 : State := { s1 with link := phy.link }
        if phy.link ≠ 0 then
          let s3 := fec_restart K s2 phy.duplex
          some (if netif_queue_stopped s3 then netif_wake_queue (netif_start_queue s3) else s3)
        else some (fec_stop K s2)
      else some s1

/-- The function `fec_timeout`. -/
def fec_timeout (K : Params) (s : State) : State :=
  let s1 : State := { s with stats := { s.stats with tx_errors := s.stats.tx_errors + 1 } }
  netif_wake_queue (fec_restart K s1 s1.full_duplex)

/-! ## The controller, ring occupancy, runs -/

/-- The controller finishes the frame of the descriptor it stands on: when the
descriptor is ready it clears `BD_ENET_TX_READY`, reports the status bits `e`,
and moves on (to the base after a descriptor with the wrap bit).  It does
nothing on a descriptor that is not ready. -/
def hw_tx_complete (K : Params) (s : State) (e : Nat) : State :=
  let sc := (s.tx_bd s.hw_tx).cbd_sc
  if sc &&& K.BD_ENET_TX_READY ≠ 0 then
    { s with
      tx_bd := Function.update s.tx_bd s.hw_tx
        { s.tx_bd s.hw_tx with
          cbd_sc := clear_bits sc K.BD_ENET_TX_READY ||| (e &&& K.BD_ENET_TX_STATS) }
      hw_tx := if sc &&& K.BD_ENET_TX_WRAP ≠ 0 then 0 else s.hw_tx + 1 }
  else s

/-- Occupancy of the transmit ring as the driver's own fields give it: the
whole ring when `tx_full` is set, otherwise `(cur_tx - dirty_tx) mod 16`. -/
def tx_occupancy (s : State) : Int :=
  if s.tx_full ≠ 0 then (TX_RING_SIZE : Int)
  else ((s.cur_tx : Int) - (s.dirty_tx : Int)) % (TX_RING_SIZE : Int)

/-- The transmit side of a freshly restarted device with the link up and no
frame in flight: all cursors and the controller at the base, `tx_full` clear,
nothing retained, the wrap bit on the last descriptor and on no other, and
`BD_ENET_TX_READY` on no descriptor.  This is the ring as `fec_enet_init`
(status words `0`, then `BD_SC_WRAP` on the last) and `fec_restart` leave it,
and as every later `fec_restart` leaves it when it finds no descriptor ready
and `tx_full` clear.  A `fec_restart` on a ring that still holds frames does
not lead here, as it leaves the status words and `tx_full` as they are. -/
def TxFresh (K : Params) (s : State) : Prop :=
  s.cur_tx = 0 ∧ s.dirty_tx = 0 ∧ s.tx_full = 0 ∧ s.skb_cur = 0 ∧ s.skb_dirty = 0 ∧
  s.hw_tx = 0 ∧ s.link ≠ 0 ∧
  (∀ i, i < TX_RING_SIZE →
    ((s.tx_bd i).cbd_sc &&& K.BD_ENET_TX_WRAP ≠ 0 ↔ i = TX_RING_SIZE - 1) ∧
    (s.tx_bd i).cbd_sc &&& K.BD_ENET_TX_READY = 0) ∧
  (∀ i, i < TX_RING_SIZE → s.tx_skbuff i = none)

/-- What the theorems need to know about the masks of `fec.h`: they are 16-bit
values, the ready bit is not zero, the two names of the wrap bit agree, and
the wrap bit is none of the bits the driver or the controller sets or clears
in a transmit status word. -/
def Params.TxMasks (K : Params) : Prop :=
  K.BD_ENET_TX_READY < 65536 ∧ K.BD_ENET_TX_WRAP < 65536 ∧
  K.BD_ENET_TX_READY ≠ 0 ∧ K.BD_ENET_TX_WRAP ≠ 0 ∧
  K.BD_SC_WRAP = K.BD_ENET_TX_WRAP ∧
  K.BD_ENET_TX_WRAP &&& K.BD_ENET_TX_READY = 0 ∧
  K.BD_ENET_TX_WRAP &&& K.BD_ENET_TX_STATS = 0 ∧
  K.BD_ENET_TX_WRAP &&& K.BD_ENET_TX_PTP = 0 ∧
  K.BD_ENET_TX_WRAP &&& K.BD_ENET_TX_INTR = 0 ∧
  K.BD_ENET_TX_WRAP &&& K.BD_ENET_TX_LAST = 0 ∧
  K.BD_ENET_TX_WRAP &&& K.BD_ENET_TX_TC = 0 ∧
  K.BD_ENET_TX_READY &&& K.BD_ENET_TX_STATS = 0

/-- States reached from a fresh transmit ring by frame submissions,
completion drains and completions by the controller, in any order. -/
inductive TxReach (K : Params) : State → Prop where
  | fresh (s : State) : TxFresh K s → TxReach K s
  | xmit (s : State) (skb : SkBuff) : TxReach K s → TxReach K (fec_enet_start_xmit K s skb).2
  | drain (s s' : State) (fuel : Nat) :
      TxReach K s → fec_enet_tx K fuel s = some s' → TxReach K s'
  | hw (s : State) (e : Nat) : TxReach K s → TxReach K (hw_tx_complete K s e)

/-- Number of `dev_kfree_skb_any` calls in a trace. -/
def kfree_count (t : List Call) : Nat :=
  t.countP (fun c => match c with | Call.dev_kfree_skb_any _ => true | _ => false)

/-- The frames handed to `netif_rx` in a trace, with the slot each came from. -/
def delivered (t : List Call) : List (Nat × List Nat) :=
  t.filterMap (fun c => match c with | Call.netif_rx slot frame => some (slot, frame) | _ => none)

/-- Submit the frames of a list one after the other; the result is the list of
return values and the final state. -/
def xmit_all (K : Params) : State → List SkBuff → List NetdevTx × State
  | s, [] => ([], s)
  | s, skb :: rest =>
    let r := fec_enet_start_xmit K s skb
    let rs := xmit_all K r.2 rest
    (r.1 :: rs.1, rs.2)

/-- What can happen to the transmit side in a run. -/
inductive TxEvent where
  | xmit (skb : SkBuff)
  | hw (e : Nat)
  | drain
  | restart (duplex : Nat)

/-- One event of a run; a drain runs `fec_enet_tx` with `TX_FUEL`. -/
def tx_step (K : Params) (s : State) : TxEvent → Option State
  | TxEvent.xmit skb => some (fec_enet_start_xmit K s skb).2
  | TxEvent.hw e => some (hw_tx_complete K s e)
  | TxEvent.drain => fec_enet_tx K TX_FUEL s
  | TxEvent.restart duplex => some (fec_restart K s duplex)

/-- A run: the events of a list in order. -/
def tx_run (K : Params) : State → List TxEvent → Option State
  | s, [] => some s
  | s, ev :: evs =>
    match tx_step K s ev with
    | none => none
    | some s' => tx_run K s' evs

/-- Number of frames released by the drains of a run: for every drain event,
the `dev_kfree_skb_any` calls made between its entry and its return. -/
def tx_reclaimed (K : Params) : State → List TxEvent → Nat
  | _, [] => 0
  | s, ev :: evs =>
    match tx_step K s ev with
    | none => 0
    | some s' =>
      (match ev with
        | TxEvent.drain => kfree_count s'.trace - kfree_count s.trace
        | _ => 0) + tx_reclaimed K s' evs

/-- Number of frames accepted in a run: the `xmit` events whose call returned
`NETDEV_TX_OK`. -/
def tx_accepted (K : Params) : State → List TxEvent → Nat
  | _, [] => 0
  | s, ev :: evs =>
    match tx_step K s ev with
    | none => 0
    | some s' =>
      (match ev with
        | TxEvent.xmit skb =>
          if (fec_enet_start_xmit K s skb).1 = NetdevTx.NETDEV_TX_OK then 1 else 0
        | _ => 0) + tx_accepted K s' evs

/-- Number of frames the controller completed in a run: the `hw` events that
found `BD_ENET_TX_READY` set on the descriptor the controller stands on, and
cleared it. -/
def tx_completed (K : Params) : State → List TxEvent → Nat
  | _, [] => 0
  | s, ev :: evs =>
    match tx_step K s ev with
    | none => 0
    | some s' =>
      (match ev with
        | TxEvent.hw _ =>
          if (s.tx_bd s.hw_tx).cbd_sc &&& K.BD_ENET_TX_READY ≠ 0 then 1 else 0
        | _ => 0) + tx_completed K s' evs

/-- Whether an event is a restart. -/
def TxEvent.is_restart : TxEvent → Bool
  | TxEvent.restart _ => true
  | _ => false

/-- The wrap bit sits on the last descriptor of the transmit ring and on no
other, and the producer cursor and `bdp` point into the ring. -/
def TxRingOk (K : Params) (s : State) (bdp : Nat) : Prop :=
  (∀ i, i < TX_RING_SIZE →
    ((s.tx_bd i).cbd_sc &&& K.BD_ENET_TX_WRAP ≠ 0 ↔ i = TX_RING_SIZE - 1)) ∧
  s.cur_tx < TX_RING_SIZE ∧ bdp < TX_RING_SIZE

/-- Invariant of the transmit ring, with `n` frames accepted, `h` completed
by the controller and `j` reclaimed so far, and `bdp` the consumer position:
the descriptors carrying `BD_ENET_TX_READY` are the last `n - h` handed out. -/
def TxInvAt (K : Params) (s : State) (n h j bdp : Nat) : Prop :=
  (∀ i, i < TX_RING_SIZE →
    ((s.tx_bd i).cbd_sc &&& K.BD_ENET_TX_WRAP ≠ 0 ↔ i = TX_RING_SIZE - 1)) ∧
  s.link ≠ 0 ∧
  s.cur_tx = n % TX_RING_SIZE ∧ s.hw_tx = h % TX_RING_SIZE ∧ bdp = j % TX_RING_SIZE ∧
  j ≤ h ∧ h ≤ n ∧ n ≤ h + TX_RING_SIZE ∧
  (∀ i, i < TX_RING_SIZE →
    ((s.tx_bd i).cbd_sc &&& K.BD_ENET_TX_READY ≠ 0 ↔
      (n + (TX_RING_SIZE - 1) - i) % TX_RING_SIZE < n - h)) ∧
  (s.tx_full ≠ 0 → j + TX_RING_SIZE ≤ n)

/-- The invariant in the regime where no frame was accepted on a full ring:
at most 16 frames are outstanding and `tx_full` is `1` exactly when 16 are. -/
def TxNormAt (K : Params) (s : State) (n h j bdp : Nat) : Prop :=
  TxInvAt K s n h j bdp ∧ n ≤ j + TX_RING_SIZE ∧ s.tx_full ≤ 1 ∧
  (s.tx_full ≠ 0 ↔ n = j + TX_RING_SIZE)

/-- The masks in the customary layout of the FEC descriptors, with the
switches of an i.MX28 build. -/
def mx28 : Params where
  BD_SC_WRAP := 0x2000
  BD_ENET_RX_EMPTY := 0x8000
  BD_ENET_RX_WRAP := 0x2000
  BD_ENET_RX_LAST := 0x0800
  BD_ENET_RX_LG := 0x0020
  BD_ENET_RX_NO := 0x0010
  BD_ENET_RX_SH := 0x0008
  BD_ENET_RX_CR := 0x0004
  BD_ENET_RX_OV := 0x0002
  BD_ENET_RX_CL := 0x0001
  BD_ENET_RX_STATS := 0x013f
  BD_ENET_RX_INT := 0x00800000
  BD_ENET_TX_READY := 0x8000
  BD_ENET_TX_WRAP := 0x2000
  BD_ENET_TX_INTR := 0x1000
  BD_ENET_TX_LAST := 0x0800
  BD_ENET_TX_TC := 0x0400
  BD_ENET_TX_DEF := 0x0200
  BD_ENET_TX_HB := 0x0100
  BD_ENET_TX_LC := 0x0080
  BD_ENET_TX_RL := 0x0040
  BD_ENET_TX_UN := 0x0002
  BD_ENET_TX_CSL := 0x0001
  BD_ENET_TX_STATS := 0x03ff
  BD_ENET_TX_PTP := 0x0100
  BD_ENET_TX_TS := 0x20000000
  BD_ENET_TX_INT := 0x40000000
  PAGE_SIZE := 4096
  NET_IP_ALIGN := 2
  sizeof_bufdesc := 8
  CONFIG_ARCH_MXC := false
  CONFIG_ARCH_MXS := true
  CONFIG_ARCH_MX28 := true
  CONFIG_FEC_1588 := false
  CONFIG_ENHANCED_BD := false
  CONFIG_M5272 := false
  CONFIG_M523x := false
  CONFIG_M527x := false
  CONFIG_M528x := false
  CONFIG_M520x := false
  CONFIG_M532x := false
  HAVE_FEC_MIIGSK_ENR := false

def zero_stats : NetStats where
  tx_bytes := 0
  tx_packets := 0
  tx_errors := 0
  tx_heartbeat_errors := 0
  tx_window_errors := 0
  tx_aborted_errors := 0
  tx_fifo_errors := 0
  tx_carrier_errors := 0
  collisions := 0
  rx_packets := 0
  rx_bytes := 0
  rx_errors := 0
  rx_length_errors := 0
  rx_frame_errors := 0
  rx_crc_errors := 0
  rx_fifo_errors := 0
  rx_dropped := 0

/-- A descriptor with the given status word and everything else zero. -/
def bd_of_sc (sc : Nat) : Bufdesc where
  cbd_datlen := 0
  cbd_sc := sc
  cbd_bufaddr := 0
  cbd_esc := 0
  cbd_prot := 0
  cbd_bdu := 0

/-- A device as `fec_enet_open` leaves it, after the PHY has reported the link
up at half duplex: transmit descriptors clear, receive descriptors empty, the
wrap bit on descriptor 15 of each ring. -/
def dev0 : State where
  tx_bd := fun i => bd_of_sc (if i = 15 then 0x2000 else 0)
  rx_bd := fun i => bd_of_sc (if i = 15 then 0xa000 else 0x8000)
  tx_bounce := fun i => 0x100000 + 2048 * i
  tx_skbuff := fun _ => none
  skb_cur := 0
  skb_dirty := 0
  bd_dma := 0x40000000
  cur_rx := 0
  cur_tx := 0
  dirty_tx := 0
  tx_full := 0
  opened := 1
  phy_dev := some { link := 1, duplex := 0, speed := 100, state := PhyState.PHY_RUNNING }
  mii_timeout := 0
  phy_speed := 0x28
  phy_interface := PhyInterface.PHY_INTERFACE_MODE_RMII
  link := 1
  full_duplex := 0
  mdio_done := 0
  ptimer_present := 0
  ptp_prtc := none
  dev_addr := [0x00, 0x04, 0x9f, 0x01, 0x02, 0x03]
  stats := zero_stats
  queue_stopped := false
  tx_bounce_buf := fun _ => []
  rx_buf := fun _ => []
  regs := fun _ => 0
  hw_tx := 0
  alloc_fails := []
  ptp_start_ret := 0
  stack_garbage := 0
  trace := []

/-- A 64-byte frame at a 16-byte aligned address. -/
def frame64 : SkBuff where
  data := 0x200000
  buf := List.replicate 64 0
  len := 64
  txstamp := false

instance (K : Params) (s : State) : Decidable (TxFresh K s) := by
  unfold TxFresh; infer_instance

instance (K : Params) : Decidable K.TxMasks := by
  unfold Params.TxMasks; infer_instance

instance (K : Params) (s : State) (bdp : Nat) : Decidable (TxRingOk K s bdp) := by
  unfold TxRingOk; infer_instance

/-- A run with a restart in it: a frame is accepted, completed and drained, a
second drain follows at once, then two frames are accepted, the device is
restarted, and one more frame is accepted, completed and drained. -/
def run_with_restart : List TxEvent :=
  [TxEvent.xmit frame64, TxEvent.hw 0, TxEvent.drain, TxEvent.drain,
   TxEvent.xmit frame64, TxEvent.xmit frame64, TxEvent.restart 1,
   TxEvent.xmit frame64, TxEvent.hw 0, TxEvent.drain]

/-- A receive ring whose first descriptor was released with the
late-collision bit (and `BD_ENET_RX_LAST`) and whose second was released with
a good 64-byte frame. -/
def dev_rx_cl : State :=
  { dev0 with
    rx_bd := fun i =>
      if i = 0 then { bd_of_sc 0x0801 with cbd_datlen := 64 }
      else if i = 1 then { bd_of_sc 0x0800 with cbd_datlen := 64 }
      else bd_of_sc (if i = 15 then 0xa000 else 0x8000)
    rx_buf := fun _ => List.range 64 }

/-- The state `fec_enet_rx` returns on `dev_rx_cl`. -/
def dev_rx_cl_done : State := (fec_enet_rx mx28 3 dev_rx_cl).getD dev_rx_cl

/-- One frame accepted on the fresh device. -/
def dev1 : State := (fec_enet_start_xmit mx28 dev0 frame64).2

/-- The frame of `dev1` completed by the controller without error. -/
def dev1_done : State := hw_tx_complete mx28 dev1 0

/-- The device after the completion drain that follows `dev1_done`. -/
def dev1_drained : State := (fec_enet_tx mx28 TX_FUEL dev1_done).getD dev1_done

/-- The fresh device with the link down. -/
def dev0_down : State := { dev0 with link := 0 }

/-- The ring filled by 16 accepted frames, nothing completed yet. -/
def dev16 : State := (xmit_all mx28 dev0 (List.replicate 16 frame64)).2

/-- The full ring after the controller has completed the oldest frame and
before any drain has run. -/
def dev16_one_done : State := hw_tx_complete mx28 dev16 0

/-- The device after the transmit watchdog has fired (`fec_timeout`) on the
full ring whose oldest frame the controller has completed. -/
def dev_timeout : State := fec_timeout mx28 dev16_one_done

/-- The device `dev_timeout` after one more frame has been accepted and the
controller has completed it. -/
def dev_timeout_sent : State :=
  hw_tx_complete mx28 (fec_enet_start_xmit mx28 dev_timeout frame64).2 0

/-- The device after the completion drain that follows `dev_timeout_sent`. -/
def dev_timeout_drained : State :=
  (fec_enet_tx mx28 TX_FUEL dev_timeout_sent).getD dev_timeout_sent

/-- What the PHY reports after negotiating full duplex. -/
def phy_fd : PhyDevice := { link := 1, duplex := 1, speed := 100, state := PhyState.PHY_RUNNING }

/-- The fresh device, link up at half duplex, with the PHY now reporting the
link up at full duplex. -/
def dev0_fd : State := { dev0 with phy_dev := some phy_fd }

/-- Two frames accepted and not completed on `dev0_fd`. -/
def dev2_fd : State := (xmit_all mx28 dev0_fd [frame64, frame64]).2

/-- What the PHY reports once the link is lost. -/
def phy_lost : PhyDevice := { link := 0, duplex := 0, speed := 100, state := PhyState.PHY_NOLINK }

/-- A full-duplex device with two frames accepted and not completed, after the
PHY has reported the link lost: `fec_enet_adjust_link` has run `fec_stop`. -/
def dev2_lost : State :=
  (fec_enet_adjust_link mx28
    { (xmit_all mx28 { dev0 with full_duplex := 1 } [frame64, frame64]).2 with
      phy_dev := some phy_lost }).getD dev0

/-- The device `dev2_lost` with the PHY now reporting the link up again at
full duplex. -/
def dev2_found : State := { dev2_lost with phy_dev := some phy_fd }

/-! ## MDIO read -/

def FEC_MMFR_ST : Nat := 1 <<< 30
def FEC_MMFR_OP_READ : Nat := 2 <<< 28
def FEC_MMFR_OP_WRITE : Nat := 1 <<< 28
def FEC_MMFR_PA (v : Nat) : Nat := (v &&& 0x1f) <<< 23
def FEC_MMFR_RA (v : Nat) : Nat := (v &&& 0x1f) <<< 18
def FEC_MMFR_TA : Nat := 2 <<< 16
def FEC_MMFR_DATA (v : Nat) : Nat := v &&& 0xffff

/-- The error number `ETIMEDOUT` of the kernel's errno table. -/
def ETIMEDOUT : Int := 110

/-- The function `fec_enet_mdio_read`.  `time_left` is what
`wait_for_completion_timeout` returns (0 when no completion arrived in the
window) and `data` what `FEC_MII_DATA` holds once the transfer is over.
`mdio_done` is the counter of the completion object: `init_completion` clears
it, and a completion that arrives is consumed by the wait. -/
def fec_enet_mdio_read (s : State) (mii_id regnum time_left data : Nat) : Int × State :=
  if mii_id = 0x18 ∧ regnum = 0x0 then (0x3100, s)
  else if mii_id = 0x18 ∧ regnum = 0x1 then (0x782d, s)
  else if mii_id = 0x18 ∧ regnum = 0x4 then (0x1e1, s)
  else if mii_id = 0x18 ∧ regnum = 0x5 then (0xc5e1, s)
  else
    let s1 : State := { s with mii_timeout := 0, mdio_done := 0 }
    let s2 := writel s1
      (FEC_MMFR_ST ||| FEC_MMFR_OP_READ ||| FEC_MMFR_PA mii_id ||| FEC_MMFR_RA regnum
        ||| FEC_MMFR_TA) FecReg.FEC_MII_DATA
    if time_left = 0 then (-ETIMEDOUT, { s2 with mii_timeout := 1 })
    else ((FEC_MMFR_DATA data : Nat), s2)

/-! ## Reading the trace -/

/-- The values written to register `r`, in order. -/
def writes_to (r : FecReg) (t : List Call) : List Nat :=
  t.filterMap (fun c => match c with
    | Call.writel v r' => if r' = r then some v else none
    | _ => none)

/-- The arguments of the `dev_kfree_skb_any` calls, in order. -/
def kfreed (t : List Call) : List (Option SkBuff) :=
  t.filterMap (fun c => match c with
    | Call.dev_kfree_skb_any skb => some skb
    | _ => none)

/-- The fresh device with the link still down and the queue stopped, and the
PHY now reporting the link up at full duplex. -/
def dev_link_found : State :=
  { dev0 with link := 0, queue_stopped := true, phy_dev := some phy_fd }

/-- A receive ring whose first descriptor was released with a good 64-byte
frame, on a device where the next `dev_alloc_skb` fails. -/
def dev_rx_squeeze : State :=
  { dev0 with
    rx_bd := fun i =>
      if i = 0 then { bd_of_sc 0x0800 with cbd_datlen := 64 }
      else bd_of_sc (if i = 15 then 0xa000 else 0x8000)
    rx_buf := fun _ => List.range 64
    alloc_fails := [true] }

/-- The state `fec_enet_rx` returns on `dev_rx_squeeze`. -/
def dev_rx_squeeze_done : State := (fec_enet_rx mx28 2 dev_rx_squeeze).getD dev_rx_squeeze

/-! ## Retained frames -/

/-- The frames accepted in a run, in order: the arguments of the `xmit`
events whose call returned `NETDEV_TX_OK`. -/
def tx_accepted_frames (K : Params) : State → List TxEvent → List SkBuff
  | _, [] => []
  | s, ev :: evs =>
    match tx_step K s ev with
    | none => []
    | some s' =>
      (match ev with
        | TxEvent.xmit skb =>
          if (fec_enet_start_xmit K s skb).1 = NetdevTx.NETDEV_TX_OK then [skb] else []
        | _ => []) ++ tx_accepted_frames K s' evs

/-- What the drains of a run released, in order: for every drain event, the
arguments of the `dev_kfree_skb_any` calls made between its entry and its
return. -/
def tx_released (K : Params) : State → List TxEvent → List (Option SkBuff)
  | _, [] => []
  | s, ev :: evs =>
    match tx_step K s ev with
    | none => []
    | some s' =>
      (match ev with
        | TxEvent.drain => (kfreed s'.trace).drop (kfreed s.trace).length
        | _ => []) ++ tx_released K s' evs

/-- Whether every `xmit` event of a run happens while the queue offered to the
network stack is not stopped. -/
def tx_gated (K : Params) : State → List TxEvent → Bool
  | _, [] => true
  | s, ev :: evs =>
    (match ev with
      | TxEvent.xmit _ => !(netif_queue_stopped s)
      | _ => true) &&
    (match tx_step K s ev with
      | none => true
      | some s' => tx_gated K s' evs)

/-- Invariant of the retained frames, with `n` frames accepted and `j`
reclaimed, `acc` the accepted frames in order and `base` what the trace held
released at the start: `skb_cur` and `skb_dirty` follow the counts, the slots
of the frames `j .. n - 1` hold them as `fec_enet_start_xmit` left them, every
other slot is empty, the first `j` accepted frames have been released in
order, and `tx_full` is set only with the queue stopped. -/
def TxSkbAt (K : Params) (s : State) (n j : Nat) (acc : List SkBuff)
    (base : List (Option SkBuff)) : Prop :=
  s.skb_cur = n % TX_RING_SIZE ∧ s.skb_dirty = j % TX_RING_SIZE ∧ acc.length = n ∧
  (∀ k, j ≤ k → k < n → s.tx_skbuff (k % TX_RING_SIZE) = (acc[k]?).map (xmit_skb K)) ∧
  (∀ i, i < TX_RING_SIZE → (∀ k, j ≤ k → k < n → k % TX_RING_SIZE ≠ i) → s.tx_skbuff i = none) ∧
  kfreed s.trace = base ++ (acc.take j).map (fun skb => some (xmit_skb K skb)) ∧
  (s.tx_full ≠ 0 → s.queue_stopped = true)

/-- The 64-byte frame number `a`, at a 16-byte aligned address of its own. -/
def frame_at (a : Nat) : SkBuff where
  data := 0x200000 + 2048 * a
  buf := List.replicate 64 a
  len := 64
  txstamp := false

/-- A run in which a frame is accepted on a full ring: frames 0 to 15 fill the
ring, the controller completes frame 0, frame 16 is submitted before any
drain, the controller completes the 16 frames now in the ring, and a drain
follows. -/
def run_overrun : List TxEvent :=
  (List.range 16).map (fun a => TxEvent.xmit (frame_at a))
    ++ [TxEvent.hw 0, TxEvent.xmit (frame_at 16)]
    ++ List.replicate 16 (TxEvent.hw 0) ++ [TxEvent.drain]

/-- A run in which two frames are accepted on a full ring: frames 0 to 15 fill
the ring, the controller completes frames 0 and 1, frames 16 and 17 are
submitted before any drain, the controller completes frames 2 to 15 and frame
16, and a drain follows. -/
def run_overrun2 : List TxEvent :=
  (List.range 16).map (fun a => TxEvent.xmit (frame_at a))
    ++ [TxEvent.hw 0, TxEvent.hw 0, TxEvent.xmit (frame_at 16), TxEvent.xmit (frame_at 17)]
    ++ List.replicate 15 (TxEvent.hw 0) ++ [TxEvent.drain]

/-- A run that keeps to the queue: frames 0 to 15 fill the ring, the controller
completes three of them, a drain, two more frames, two more completions, a
drain. -/
def run_gated : List TxEvent :=
  (List.range 16).map (fun a => TxEvent.xmit (frame_at a))
    ++ [TxEvent.hw 0, TxEvent.hw 0, TxEvent.hw 0, TxEvent.drain,
        TxEvent.xmit (frame_at 16), TxEvent.xmit (frame_at 17),
        TxEvent.hw 0, TxEvent.hw 0, TxEvent.drain]

/-- An 8-byte frame at an address that is not 16-byte aligned. -/
def frame_odd : SkBuff where
  data := 0x200002
  buf := [1, 2, 3, 4, 5, 6, 7, 8]
  len := 8
  txstamp := false

/-- A 6-byte frame at an address that is not 16-byte aligned. -/
def frame6 : SkBuff where
  data := 0x200002
  buf := [1, 2, 3, 4, 5, 6]
  len := 6
  txstamp := false

/-- The frame of `dev1` completed by the controller with an underrun
reported. -/
def dev1_underrun : State := hw_tx_complete mx28 dev1 2

/-! ## The receive ring -/

/-- What the theorems need to know about the receive masks of `fec.h` and the
page size: 16-bit values, the empty bit and the wrap bit not zero, the two
names of the wrap bit agree, the wrap bit is none of the bits the driver sets
or clears in a receive status word, the empty bit is no status bit, and the
ring has at least one descriptor. -/
def Params.RxMasks (K : Params) : Prop :=
  K.BD_ENET_RX_EMPTY < 65536 ∧ K.BD_ENET_RX_WRAP < 65536 ∧ K.BD_ENET_RX_STATS < 65536 ∧
  K.BD_ENET_RX_EMPTY ≠ 0 ∧ K.BD_ENET_RX_WRAP ≠ 0 ∧
  K.BD_SC_WRAP = K.BD_ENET_RX_WRAP ∧
  K.BD_ENET_RX_WRAP &&& K.BD_ENET_RX_STATS = 0 ∧
  K.BD_ENET_RX_WRAP &&& K.BD_ENET_RX_EMPTY = 0 ∧
  K.BD_ENET_RX_EMPTY &&& K.BD_ENET_RX_STATS = 0 ∧
  0 < RX_RING_SIZE K

/-- The wrap bit sits on the last descriptor of the receive ring and on no
other, and `bdp` points into the ring. -/
def RxRingOk (K : Params) (s : State) (bdp : Nat) : Prop :=
  (∀ i, i < RX_RING_SIZE K →
    ((s.rx_bd i).cbd_sc &&& K.BD_ENET_RX_WRAP ≠ 0 ↔ i + 1 = RX_RING_SIZE K)) ∧
  bdp < RX_RING_SIZE K

/-- Number of descriptors of the receive ring the controller has released
(`BD_ENET_RX_EMPTY` clear). -/
def rx_released (K : Params) (s : State) : Nat :=
  (List.range (RX_RING_SIZE K)).countP
    (fun i => decide ((s.rx_bd i).cbd_sc &&& K.BD_ENET_RX_EMPTY = 0))

/-- Every released descriptor whose frame the drain would hand up (device
opened, no late collision) carries a length of at least 4, the frame-check
sequence. -/
def RxLenOk (K : Params) (s : State) : Prop :=
  s.opened ≠ 0 → ∀ i, i < RX_RING_SIZE K →
    (s.rx_bd i).cbd_sc &&& K.BD_ENET_RX_EMPTY = 0 →
    (s.rx_bd i).cbd_sc &&& K.BD_ENET_RX_CL = 0 → 4 ≤ (s.rx_bd i).cbd_datlen

instance (K : Params) (s : State) : Decidable (RxLenOk K s) := by
  unfold RxLenOk; infer_instance

/-- Fuel that suffices for `fec_enet_rx` on a well-formed ring. -/
def RX_FUEL (K : Params) : Nat := RX_RING_SIZE K + 1

/-- Number of descriptors the receive drains of a trace have processed: each
pass ends with one write to `FEC_R_DES_ACTIVE`. -/
def rx_processed (t : List Call) : Nat := (writes_to FecReg.FEC_R_DES_ACTIVE t).length

instance (K : Params) : Decidable K.RxMasks := by
  unfold Params.RxMasks; infer_instance

instance (K : Params) (s : State) (bdp : Nat) : Decidable (RxRingOk K s bdp) := by
  unfold RxRingOk; infer_instance

/-- A receive ring in which the controller has released every descriptor,
each with a good 64-byte frame. -/
def dev_rx_all : State :=
  { dev0 with
    rx_bd := fun i => { bd_of_sc (if i = 15 then 0x2800 else 0x0800) with cbd_datlen := 64 }
    rx_buf := fun _ => List.range 64 }

/-- A receive ring whose first descriptor was released with a good 64-byte
frame; every other descriptor is empty. -/
def dev_rx_one : State :=
  { dev0 with
    rx_bd := fun i =>
      if i = 0 then { bd_of_sc 0x0800 with cbd_datlen := 64 }
      else bd_of_sc (if i = 15 then 0xa000 else 0x8000)
    rx_buf := fun _ => List.range 64 }

/-- A receive ring whose first descriptor was released with a length of 2
(and `BD_ENET_RX_LAST`, no error bit); every other descriptor is empty. -/
def dev_rx_short : State :=
  { dev0 with
    rx_bd := fun i =>
      if i = 0 then { bd_of_sc 0x0800 with cbd_datlen := 2 }
      else bd_of_sc (if i = 15 then 0xa000 else 0x8000)
    rx_buf := fun _ => List.range 64 }

/-! ## Both rings, initialisation -/

def ENOMEM : Int := 12

/-- Both rings well formed: the wrap bit on the last descriptor of each ring
and on no other, and `cur_tx`, `dirty_tx`, `cur_rx` inside their rings. -/
def RingsOk (K : Params) (s : State) : Prop :=
  TxRingOk K s s.dirty_tx ∧ RxRingOk K s s.cur_rx

/-- The statement `bdp->cbd_sc |= BD_SC_WRAP` on descriptor `i` of the receive
ring. -/
def rx_set_wrap (K : Params) (s : State) (i : Nat) : State :=
  set_rx_sc s i (((s.rx_bd i).cbd_sc ||| K.BD_SC_WRAP) % 65536)

/-- The statement `bdp->cbd_sc |= BD_SC_WRAP` on descriptor `i` of the transmit
ring. -/
def tx_set_wrap (K : Params) (s : State) (i : Nat) : State :=
  set_tx_sc s i (((s.tx_bd i).cbd_sc ||| K.BD_SC_WRAP) % 65536)

/-- One pass of the transmit loop of `fec_enet_init`. -/
def init_tx_bd (s : State) (i : Nat) : State :=
  { s with tx_bd := Function.update s.tx_bd i { s.tx_bd i with cbd_sc := 0, cbd_bufaddr := 0 } }

/-- Byte reversal of a 32-bit word (`__swab32`). -/
def swab32 (x : Nat) : Nat :=
  (x % 256) * 2 ^ 24 + (x / 2 ^ 8 % 256) * 2 ^ 16 + (x / 2 ^ 16 % 256) * 2 ^ 8 + x / 2 ^ 24 % 256

/-- Byte reversal of a 16-bit word (`__swab16`). -/
def swab16 (x : Nat) : Nat := (x % 256) * 2 ^ 8 + x / 2 ^ 8 % 256

/-- On a little-endian host `be32_to_cpu` and `cpu_to_be32` reverse the bytes. -/
def be32_to_cpu (x : Nat) : Nat := swab32 (x % 2 ^ 32)

/-- On a little-endian host `be16_to_cpu` reverses the two bytes of its
16-bit argument. -/
def be16_to_cpu (x : Nat) : Nat := swab16 (x % 2 ^ 16)

/-- The four bytes a little-endian host stores for a 32-bit word. -/
def le_bytes32 (x : Nat) : List Nat :=
  [x % 256, x / 2 ^ 8 % 256, x / 2 ^ 16 % 256, x / 2 ^ 24 % 256]

/-- The two bytes a little-endian host stores for a 16-bit word. -/
def le_bytes16 (x : Nat) : List Nat := [x % 256, x / 2 ^ 8 % 256]

/-- The local array `tmpaddr` of `fec_get_mac` after the two stores of its
register branch. -/
def get_mac_regs (s : State) : List Nat :=
  le_bytes32 (be32_to_cpu (readl s FecReg.FEC_ADDR_LOW))
    ++ le_bytes16 (be16_to_cpu (readl s FecReg.FEC_ADDR_HIGH >>> 16))

/-- The function `fec_get_mac`.  `valid` is `is_valid_ether_addr`,
`mac_default` the array `fec_mac_default`, `flashmac` the six bytes at
`FEC_FLASHMAC` (`none` when that macro is 0), `index` the static counter of
the function, whose new value is returned with the device. -/
def fec_get_mac (K : Params) (s : State) (valid : List Nat → Bool) (mac_default : List Nat)
    (flashmac : Option (List Nat)) (index : Nat) : State × Nat :=
  let use_default : Bool :=
    if K.CONFIG_M5272 then
      match flashmac with
      | some f =>
        let zero := (List.range 6).all (fun i => f.getD i 0 == 0)
        let iap := if zero then mac_default else f
        zero || (List.range 6).all (fun i => iap.getD i 0 == 0xff)
      | none => false
    else valid mac_default
  let from_regs : Bool := if K.CONFIG_M5272 then flashmac.isNone else !(valid mac_default)
  let iap : List Nat :=
    if use_default then mac_default
    else if from_regs then get_mac_regs s
    else flashmac.getD []
  let s1 : State := { s with dev_addr := memcpy s.dev_addr iap 6 }
  if use_default then
    ({ s1 with dev_addr := s1.dev_addr.set 5 ((mac_default.getD 5 0 + index) % 256) }, index + 1)
  else (s1, index)

/-- The function `fec_enet_init`, with the device memory it works on: `dma` is
what `dma_alloc_coherent` gives (`none` when it fails, otherwise the bus
address of the descriptor page, whose contents are whatever the descriptor
memory of `s` holds).  The result is the return value, the device and the
static counter of `fec_get_mac`. -/
def fec_enet_init (K : Params) (s : State) (valid : List Nat → Bool) (mac_default : List Nat)
    (flashmac : Option (List Nat)) (index : Nat) (dma : Option Nat) : Int × State × Nat :=
  match dma with
  | none => (-ENOMEM, s, index)
  | some bd_dma =>
    let s1 : State := { s with bd_dma := bd_dma }
    let r := fec_get_mac K s1 valid mac_default flashmac index
    let s2 := (List.range (RX_RING_SIZE K)).foldl (fun x i => set_rx_sc x i 0) r.1
    let s3 := rx_set_wrap K s2 (RX_RING_SIZE K - 1)
    let s4 := (List.range TX_RING_SIZE).foldl init_tx_bd s3
    let s5 := tx_set_wrap K s4 (TX_RING_SIZE - 1)
    (0, fec_restart K s5 0, r.2)

/-- One pass of the receive loop of `fec_enet_alloc_buffers` for a buffer that
was allocated at address `data`. -/
def alloc_rx_bd (K : Params) (s : State) (i data : Nat) : State :=
  { s with
    rx_bd := Function.update s.rx_bd i
      { s.rx_bd i with
        cbd_bufaddr := data
        cbd_sc := K.BD_ENET_RX_EMPTY
        cbd_esc := if K.CONFIG_ENHANCED_BD then K.BD_ENET_RX_INT else (s.rx_bd i).cbd_esc }
    alloc_fails := s.alloc_fails.tail }

/-- The receive loop of `fec_enet_alloc_buffers`, `n` passes from index `i` on;
the flag tells whether a `dev_alloc_skb` failed.  `skb_data i` is the address of
the buffer allocated in pass `i`. -/
def alloc_rx_loop (K : Params) (skb_data : Nat → Nat) : Nat → Nat → State → Bool × State
  | 0, _, s => (false, s)
  | n + 1, i, s =>
    if s.alloc_fails.headD false then (true, { s with alloc_fails := s.alloc_fails.tail })
    else alloc_rx_loop K skb_data n (i + 1) (alloc_rx_bd K s i (skb_data i))

/-- One pass of the transmit loop of `fec_enet_alloc_buffers`; `bounce` is what
`kmalloc` returned. -/
def alloc_tx_bd (K : Params) (bounce : Nat → Nat) (s : State) (i : Nat) : State :=
  { s with
    tx_bounce := Function.update s.tx_bounce i (bounce i)
    tx_bd := Function.update s.tx_bd i
      { s.tx_bd i with
        cbd_sc := 0
        cbd_bufaddr := 0
        cbd_esc := if K.CONFIG_ENHANCED_BD then K.BD_ENET_TX_INT else (s.tx_bd i).cbd_esc } }

/-- The function `fec_enet_alloc_buffers`.  On a failed allocation
`fec_enet_free_buffers` runs, which releases memory and changes nothing that is
modelled here. -/
def fec_enet_alloc_buffers (K : Params) (s : State) (skb_data bounce : Nat → Nat) : Int × State :=
  let r := alloc_rx_loop K skb_data (RX_RING_SIZE K) 0 s
  if r.1 then (-ENOMEM, r.2)
  else
    let s1 := rx_set_wrap K r.2 (RX_RING_SIZE K - 1)
    let s2 := (List.range TX_RING_SIZE).foldl (alloc_tx_bd K bounce) s1
    (0, tx_set_wrap K s2 (TX_RING_SIZE - 1))

/-- The controller fills the receive descriptor `i`: when the descriptor is
empty it clears `BD_ENET_RX_EMPTY`, reports the status bits `e` and the length
`len`.  It does nothing on a descriptor that is not empty. -/
def hw_rx_complete (K : Params) (s : State) (i e len : Nat) : State :=
  let sc := (s.rx_bd i).cbd_sc
  if sc &&& K.BD_ENET_RX_EMPTY ≠ 0 then
    { s with
      rx_bd := Function.update s.rx_bd i
        { s.rx_bd i with
          cbd_sc := clear_bits sc K.BD_ENET_RX_EMPTY ||| (e &&& K.BD_ENET_RX_STATS)
          cbd_datlen := len % 65536 } }
  else s

/-- What can happen to the device in a run: an event of the transmit side, a
receive drain, or the controller filling a receive descriptor. -/
inductive DevEvent where
  | tx (ev : TxEvent)
  | rx
  | hw_rx (i e len : Nat)

/-- Whether the length the controller reports in an event is at least 4 (as
stored in the 16-bit length field); true for every other event. -/
def DevEvent.len_ok : DevEvent → Bool
  | DevEvent.hw_rx _ _ len => decide (4 ≤ len % 65536)
  | _ => true

/-- One event of a run of the device. -/
def dev_step (K : Params) (s : State) : DevEvent → Option State
  | DevEvent.tx ev => tx_step K s ev
  | DevEvent.rx => fec_enet_rx K (RX_FUEL K) s
  | DevEvent.hw_rx i e len => some (hw_rx_complete K s i e len)

/-- A run of the device: the events of a list in order. -/
def dev_run (K : Params) : State → List DevEvent → Option State
  | s, [] => some s
  | s, ev :: evs =>
    match dev_step K s ev with
    | none => none
    | some s' => dev_run K s' evs

instance (K : Params) (s : State) : Decidable (RingsOk K s) := by
  unfold RingsOk; infer_instance

/-- A run that touches both rings: a frame is sent and reclaimed, the
controller fills two receive descriptors, a receive drain, a restart, another
frame. -/
def run_both : List DevEvent :=
  [DevEvent.tx (TxEvent.xmit frame64), DevEvent.tx (TxEvent.hw 0), DevEvent.tx TxEvent.drain,
   DevEvent.hw_rx 0 0 64, DevEvent.hw_rx 1 4 64, DevEvent.rx,
   DevEvent.tx (TxEvent.restart 1), DevEvent.tx (TxEvent.xmit frame64)]

/-- A device whose descriptor memory holds arbitrary values before
initialisation. -/
def dev_raw : State :=
  { dev0 with
    tx_bd := fun i => bd_of_sc (0xffff - i)
    rx_bd := fun i => bd_of_sc (0x1234 + i)
    cur_tx := 77, dirty_tx := 78, cur_rx := 79 }

/-- The device `dev_raw` after `fec_enet_init`, with no default address
configured and the descriptor page at bus address `0x40000000`. -/
def dev_init : State :=
  (fec_enet_init mx28 dev_raw (fun _ => false) [0, 0, 0, 0, 0, 0] none 0 (some 0x40000000)).2.1

/-- The device `dev_init` after `fec_enet_alloc_buffers`. -/
def dev_alloc : State :=
  (fec_enet_alloc_buffers mx28 dev_init (fun i => 0x300000 + 2048 * i)
    (fun i => 0x100000 + 2048 * i)).2

/-! ## The interrupt handler -/

/-- Return values of an interrupt handler (`irqreturn_t`). -/
inductive IrqReturn where
  | IRQ_NONE
  | IRQ_HANDLED
deriving DecidableEq

/-- The `do ... while (int_events)` loop of `fec_enet_interrupt`.  The list
holds the values successive reads of `FEC_IEVENT` return; `none` when it is
used up before a read returns 0, or when a drain runs out of fuel. -/
def fec_enet_interrupt_loop (K : Params) :
    List Nat → State → IrqReturn → Option (IrqReturn × State)
  | [], _, _ => none
  | v :: reads, s, ret =>
    let int_events := v % 2 ^ 32
    let s1 := writel s int_events FecReg.FEC_IEVENT
    match (if int_events &&& FEC_ENET_RXF ≠ 0
        then (fec_enet_rx K (RX_FUEL K) s1).map (fun x => (IrqReturn.IRQ_HANDLED, x))
        else some (ret, s1)) with
    | none => none
    | some r2 =>
      match (if int_events &&& FEC_ENET_TXF ≠ 0
          then (fec_enet_tx K TX_FUEL r2.2).map (fun x => (IrqReturn.IRQ_HANDLED, x))
          else some r2) with
      | none => none
      | some r3 =>
        let r4 : IrqReturn × State :=
          if int_events &&& FEC_ENET_TS_TIMER ≠ 0 then
            (IrqReturn.IRQ_HANDLED,
              if r3.2.ptimer_present ≠ 0
              then { r3.2 with ptp_prtc := r3.2.ptp_prtc.map (fun c => c + 1) } else r3.2)
          else r3
        let r5 : IrqReturn × State :=
          if int_events &&& FEC_ENET_MII ≠ 0 then
            (IrqReturn.IRQ_HANDLED, { r4.2 with mdio_done := r4.2.mdio_done + 1 })
          else r4
        if int_events ≠ 0 then fec_enet_interrupt_loop K reads r5.2 r5.1 else some r5

/-- The function `fec_enet_interrupt`. -/
def fec_enet_interrupt (K : Params) (reads : List Nat) (s : State) : Option (IrqReturn × State) :=
  fec_enet_interrupt_loop K reads s IrqReturn.IRQ_NONE

/-- One round of the dispatcher in the words of the specification: the value
read is acknowledged by writing it back to `FEC_IEVENT`; then the receive drain
runs if and only if `FEC_ENET_RXF` is set; then the transmit drain if and only
if `FEC_ENET_TXF` is set; the timer tick is counted when `FEC_ENET_TS_TIMER` is
set and a timer is present; and the MDIO completion is signalled if and only
if `FEC_ENET_MII` is set. -/
def irq_round (K : Params) (v : Nat) (s : State) : Option State :=
  (if v &&& FEC_ENET_RXF ≠ 0 then fec_enet_rx K (RX_FUEL K) (writel s v FecReg.FEC_IEVENT)
    else some (writel s v FecReg.FEC_IEVENT)).bind fun s2 =>
  (if v &&& FEC_ENET_TXF ≠ 0 then fec_enet_tx K TX_FUEL s2 else some s2).map fun s3 =>
  let s4 : State :=
    if v &&& FEC_ENET_TS_TIMER ≠ 0 ∧ s3.ptimer_present ≠ 0
    then { s3 with ptp_prtc := s3.ptp_prtc.map (fun c => c + 1) } else s3
  if v &&& FEC_ENET_MII ≠ 0 then { s4 with mdio_done := s4.mdio_done + 1 } else s4

/-- The rounds for a list of values read, in order. -/
def irq_rounds (K : Params) : List Nat → State → Option State
  | [], s => some s
  | v :: vs, s => (irq_round K v s).bind (irq_rounds K vs)

/-- Whether a value read has any of the four events the handler serves. -/
def irq_claims (v : Nat) : Bool :=
  decide (v &&& FEC_ENET_RXF ≠ 0) || decide (v &&& FEC_ENET_TXF ≠ 0) ||
  decide (v &&& FEC_ENET_TS_TIMER ≠ 0) || decide (v &&& FEC_ENET_MII ≠ 0)

/-- The device `dev_rx_one` with a frame sent and completed by the
controller. -/
def dev_irq : State :=
  hw_tx_complete mx28 (fec_enet_start_xmit mx28 dev_rx_one frame64).2 0

/-! ## Station address and multicast filter -/

/-- The errno `EADDRNOTAVAIL`. -/
def EADDRNOTAVAIL : Int := 99

/-- The function `fec_set_mac_address`.  `valid` is `is_valid_ether_addr`,
`sa_data` the bytes of `addr->sa_data`, `addr_len` the field `dev->addr_len`.
The result is the return value and the device. -/
def fec_set_mac_address (s : State) (valid : List Nat → Bool) (sa_data : List Nat)
    (addr_len : Nat) : Int × State :=
  if !valid sa_data then (-EADDRNOTAVAIL, s)
  else
    let s1 : State := { s with dev_addr := memcpy s.dev_addr sa_data addr_len }
    let s2 := writel s1
      ((s1.dev_addr.getD 3 0 ||| (s1.dev_addr.getD 2 0 <<< 8) |||
        (s1.dev_addr.getD 1 0 <<< 16) ||| (s1.dev_addr.getD 0 0 <<< 24)) % 2 ^ 32)
      FecReg.FEC_ADDR_LOW
    let s3 := writel s2
      (((s1.dev_addr.getD 5 0 <<< 16) ||| (s1.dev_addr.getD 4 0 <<< 24)) % 2 ^ 32)
      FecReg.FEC_ADDR_HIGH
    (0, s3)

/-- Number of bits in the hash (`#define HASH_BITS 6`). -/
def HASH_BITS : Nat := 6

/-- The polynomial (`#define CRC32_POLY 0xEDB88320`). -/
def CRC32_POLY : Nat := 0xEDB88320

/-- The inner loop of `set_multicast_list`,
`for (bit = 0; bit < 8; bit++, data >>= 1)`, with `n` passes left. -/
def crc_bits : Nat → Nat → Nat → Nat
  | 0, crc, _ => crc
  | n + 1, crc, data =>
    crc_bits n ((crc >>> 1) ^^^ (if (crc ^^^ data) &&& 1 ≠ 0 then CRC32_POLY else 0))
      (data >>> 1)

/-- The loop over the address bytes, `for (i = 0; i < dev->addr_len; i++)`,
started from `crc = 0xffffffff`. -/
def mc_crc (addr : List Nat) (addr_len : Nat) : Nat :=
  (List.range addr_len).foldl (fun crc i => crc_bits 8 crc (addr.getD i 0)) 0xffffffff

/-- The local `hash` of `set_multicast_list`:
`(crc >> (32 - HASH_BITS)) & 0x3f`. -/
def mc_hash (addr : List Nat) (addr_len : Nat) : Nat :=
  (mc_crc addr addr_len >>> (32 - HASH_BITS)) &&& 0x3f

/-- One pass of the loop `netdev_for_each_mc_addr` of `set_multicast_list`
for the address `addr`. -/
def mc_add (addr_len : Nat) (s : State) (addr : List Nat) : State :=
  if addr.getD 0 0 &&& 1 = 0 then s
  else
    let hash := mc_hash addr addr_len
    if hash > 31 then
      writel s ((readl s FecReg.FEC_GRP_HASH_TABLE_HIGH ||| (1 <<< (hash - 32))) % 2 ^ 32)
        FecReg.FEC_GRP_HASH_TABLE_HIGH
    else
      writel s ((readl s FecReg.FEC_GRP_HASH_TABLE_LOW ||| (1 <<< hash)) % 2 ^ 32)
        FecReg.FEC_GRP_HASH_TABLE_LOW

/-- The function `set_multicast_list`.  `flags` is `dev->flags`, `promisc` and
`allmulti` are the masks `IFF_PROMISC` and `IFF_ALLMULTI` of the kernel
headers, `addr_len` is `dev->addr_len`, and `mc_list` holds the addresses that
`netdev_for_each_mc_addr` visits, in order. -/
def set_multicast_list (s : State) (flags promisc allmulti addr_len : Nat)
    (mc_list : List (List Nat)) : State :=
  if flags &&& promisc ≠ 0 then
    writel s (readl s FecReg.FEC_R_CNTRL ||| 0x8) FecReg.FEC_R_CNTRL
  else
    let s1 := writel s (clear_bits32 (readl s FecReg.FEC_R_CNTRL) 0x8) FecReg.FEC_R_CNTRL
    if flags &&& allmulti ≠ 0 then
      writel (writel s1 0xffffffff FecReg.FEC_GRP_HASH_TABLE_HIGH) 0xffffffff
        FecReg.FEC_GRP_HASH_TABLE_LOW
    else
      let s2 := writel (writel s1 0 FecReg.FEC_GRP_HASH_TABLE_HIGH) 0
        FecReg.FEC_GRP_HASH_TABLE_LOW
      mc_list.foldl (mc_add addr_len) s2

/-- The bit-reflected CRC-32 in the words of its usual description: `n` times,
the register is shifted right by one bit and the polynomial is added when the
bit shifted out was 1. -/
def crc32_shift : Nat → Nat → Nat
  | 0, c => c
  | n + 1, c => crc32_shift n (if c &&& 1 ≠ 0 then (c >>> 1) ^^^ CRC32_POLY else c >>> 1)

/-- The bit-reflected CRC-32 of a byte string with polynomial `0xEDB88320`,
initial value `0xffffffff` and no final inversion, in the words of its usual
description: each byte is added to the low end of the register, which is then
shifted eight times. -/
def crc32_reflected (bytes : List Nat) : Nat :=
  bytes.foldl (fun c b => crc32_shift 8 (c ^^^ b)) 0xffffffff

/-- The ASCII bytes of `123456789`, the usual test input of CRC-32. -/
def crc_check_input : List Nat := [0x31, 0x32, 0x33, 0x34, 0x35, 0x36, 0x37, 0x38, 0x39]

/-- A multicast list: two group addresses and one address without the group
bit. -/
def mc_demo : List (List Nat) :=
  [[0x01, 0x00, 0x5e, 0x00, 0x00, 0x01], [0x00, 0x11, 0x22, 0x33, 0x44, 0x55],
   [0x33, 0x33, 0x00, 0x00, 0x00, 0x01]]

end Fec

namespace Fec

/-! ## Bit masks -/

theorem testBit_ffff (i : Nat) : (0xFFFF : Nat).testBit i = decide (i < 16) := by
  have h : (0xFFFF : Nat) = 2 ^ 16 - 1 := by norm_num
  rw [h, Nat.testBit_two_pow_sub_one]

theorem testBit_of_lt_65536 {w : Nat} (hw : w < 65536) {i : Nat} (hi : w.testBit i = true) :
    i < 16 := by
  by_contra hge
  have h16 : 16 ≤ i := Nat.le_of_not_lt hge
  have hlt : w < 2 ^ i :=
    lt_of_lt_of_le hw (by
      have := Nat.pow_le_pow_right (show 0 < 2 by norm_num) h16
      simpa using this)
  rw [Nat.testBit_lt_two_pow hlt] at hi
  exact Bool.noConfusion hi

theorem and_or_distrib_r (a b w : Nat) : (a ||| b) &&& w = (a &&& w) ||| (b &&& w) := by
  apply Nat.eq_of_testBit_eq
  intro i
  simp only [Nat.testBit_and, Nat.testBit_or]
  cases a.testBit i <;> cases b.testBit i <;> cases w.testBit i <;> rfl

theorem or_eq_zero_iff (a b : Nat) : a ||| b = 0 ↔ a = 0 ∧ b = 0 := by
  constructor
  · intro h
    constructor
    · apply Nat.eq_of_testBit_eq
      intro i
      have := congrArg (fun x => Nat.testBit x i) h
      simp only [Nat.testBit_or, Nat.zero_testBit] at this
      simp only [Nat.zero_testBit]
      cases ha : a.testBit i
      · rfl
      · rw [ha] at this; simp at this
    · apply Nat.eq_of_testBit_eq
      intro i
      have := congrArg (fun x => Nat.testBit x i) h
      simp only [Nat.testBit_or, Nat.zero_testBit] at this
      simp only [Nat.zero_testBit]
      cases hb : b.testBit i
      · rfl
      · rw [hb] at this; simp at this
  · rintro ⟨rfl, rfl⟩
    rfl

theorem and_disjoint_testBit {w m : Nat} (hd : w &&& m = 0) (i : Nat)
    (hw : w.testBit i = true) : m.testBit i = false := by
  have := congrArg (fun x => Nat.testBit x i) hd
  simp only [Nat.testBit_and, Nat.zero_testBit, hw, Bool.true_and] at this
  exact this

theorem clear_bits_and_of_disjoint (x : Nat) {m w : Nat} (hw : w < 65536) (hd : w &&& m = 0) :
    clear_bits x m &&& w = x &&& w := by
  apply Nat.eq_of_testBit_eq
  intro i
  simp only [clear_bits, Nat.testBit_and, Nat.testBit_xor, testBit_ffff]
  cases hwi : w.testBit i
  · simp
  · have h1 := testBit_of_lt_65536 hw hwi
    have h2 := and_disjoint_testBit hd i hwi
    simp [h1, h2]

theorem clear_bits_and_self (x : Nat) {m : Nat} (hm : m < 65536) : clear_bits x m &&& m = 0 := by
  apply Nat.eq_of_testBit_eq
  intro i
  simp only [clear_bits, Nat.testBit_and, Nat.testBit_xor, testBit_ffff, Nat.zero_testBit]
  cases hmi : m.testBit i
  · simp
  · have h1 := testBit_of_lt_65536 hm hmi
    simp [h1]

theorem or_and_ne_zero (x : Nat) {m : Nat} (hm : m ≠ 0) : (x ||| m) &&& m ≠ 0 := by
  rw [and_or_distrib_r, Nat.and_self]
  intro h
  exact hm ((or_eq_zero_iff _ _).1 h).2

theorem and_15_eq_mod (x : Nat) : x &&& TX_RING_MOD_MASK = x % 16 := by
  have := Nat.and_pow_two_sub_one_eq_mod x 4
  simpa [TX_RING_MOD_MASK] using this

/-! ## Counting -/

theorem countP_lt_of_flip (p q : Nat → Bool) (a : Nat) (hpa : p a = true) (hqa : q a = false)
    (himp : ∀ x, q x = true → p x = true) :
    ∀ l : List Nat, a ∈ l → l.countP q < l.countP p := by
  intro l
  induction l with
  | nil => intro h; exact absurd h (List.not_mem_nil a)
  | cons x xs ih =>
    intro h
    have hmono : xs.countP q ≤ xs.countP p :=
      List.countP_mono_left (fun y _ hy => himp y hy)
    rw [List.countP_cons, List.countP_cons]
    rcases List.mem_cons.1 h with e | e
    · subst e
      rw [hpa, hqa]
      simp only [if_true, Bool.false_eq_true, if_false]
      omega
    · have := ih e
      by_cases hq : q x = true
      · rw [hq, himp x hq]; simp only [if_true]; omega
      · have hq' : q x = false := by simpa using hq
        rw [hq']
        simp only [Bool.false_eq_true, if_false]
        split <;> omega

end Fec

namespace Fec

/-! ## Status words written by the driver and by the controller -/

theorem xmit_status_wrap (K : Params) (hK : K.TxMasks) (s : State) (skb : SkBuff) :
    xmit_status K s skb &&& K.BD_ENET_TX_WRAP = (s.tx_bd s.cur_tx).cbd_sc &&& K.BD_ENET_TX_WRAP := by
  obtain ⟨_, hw, _, _, _, hr, hs, hp, hi, hl, ht, _⟩ := hK
  have e1 := clear_bits_and_of_disjoint (s.tx_bd s.cur_tx).cbd_sc hw hs
  have hr' : K.BD_ENET_TX_READY &&& K.BD_ENET_TX_WRAP = 0 := by rw [Nat.and_comm]; exact hr
  have hp' : K.BD_ENET_TX_PTP &&& K.BD_ENET_TX_WRAP = 0 := by rw [Nat.and_comm]; exact hp
  have hi' : K.BD_ENET_TX_INTR &&& K.BD_ENET_TX_WRAP = 0 := by rw [Nat.and_comm]; exact hi
  have hl' : K.BD_ENET_TX_LAST &&& K.BD_ENET_TX_WRAP = 0 := by rw [Nat.and_comm]; exact hl
  have ht' : K.BD_ENET_TX_TC &&& K.BD_ENET_TX_WRAP = 0 := by rw [Nat.and_comm]; exact ht
  unfold xmit_status
  by_cases hc : s.ptimer_present ≠ 0 ∧ skb.txstamp = true
  · simp only [hc, and_self, if_true, and_or_distrib_r, e1, hr', hp', hi', hl', ht', Nat.or_zero,
      ne_eq, not_false_eq_true]
  · simp only [hc, if_false, and_or_distrib_r, e1, hr', hi', hl', ht', Nat.or_zero]

theorem xmit_status_ready (K : Params) (hK : K.TxMasks) (s : State) (skb : SkBuff) :
    xmit_status K s skb &&& K.BD_ENET_TX_READY ≠ 0 := by
  obtain ⟨_, _, hne, _⟩ := hK
  unfold xmit_status
  intro h
  rw [and_or_distrib_r, and_or_distrib_r _ K.BD_ENET_TX_TC, and_or_distrib_r _ K.BD_ENET_TX_LAST,
    and_or_distrib_r _ K.BD_ENET_TX_INTR, Nat.and_self] at h
  have h1 := ((or_eq_zero_iff _ _).1 h).2
  have h2 := ((or_eq_zero_iff _ _).1 h1).1
  have h3 := ((or_eq_zero_iff _ _).1 h2).1
  exact hne ((or_eq_zero_iff _ _).1 h3).1

theorem hw_status_wrap (K : Params) (hK : K.TxMasks) (sc e : Nat) :
    (clear_bits sc K.BD_ENET_TX_READY ||| (e &&& K.BD_ENET_TX_STATS)) &&& K.BD_ENET_TX_WRAP
      = sc &&& K.BD_ENET_TX_WRAP := by
  obtain ⟨_, hw, _, _, _, hr, hs, _⟩ := hK
  have hs' : K.BD_ENET_TX_STATS &&& K.BD_ENET_TX_WRAP = 0 := by rw [Nat.and_comm]; exact hs
  rw [and_or_distrib_r, clear_bits_and_of_disjoint sc hw hr, Nat.and_assoc, hs', Nat.and_zero,
    Nat.or_zero]

theorem hw_status_ready (K : Params) (hK : K.TxMasks) (sc e : Nat) :
    (clear_bits sc K.BD_ENET_TX_READY ||| (e &&& K.BD_ENET_TX_STATS)) &&& K.BD_ENET_TX_READY = 0 := by
  obtain ⟨hr, _, _, _, _, _, _, _, _, _, _, hrs⟩ := hK
  have hs' : K.BD_ENET_TX_STATS &&& K.BD_ENET_TX_READY = 0 := by rw [Nat.and_comm]; exact hrs
  rw [and_or_distrib_r, clear_bits_and_self sc hr, Nat.and_assoc, hs', Nat.and_zero]
  rfl

end Fec

namespace Fec

/-! ## The transmit ring invariant -/

theorem xmit_enqueue_fields (K : Params) (s : State) (skb : SkBuff) :
    (xmit_enqueue K s skb).tx_bd = Function.update s.tx_bd s.cur_tx (xmit_bd K s skb) ∧
    (xmit_enqueue K s skb).cur_tx = xmit_next K s skb ∧
    (xmit_enqueue K s skb).dirty_tx = s.dirty_tx ∧
    (xmit_enqueue K s skb).hw_tx = s.hw_tx ∧
    (xmit_enqueue K s skb).link = s.link ∧
    (xmit_enqueue K s skb).tx_full = (if xmit_next K s skb = s.dirty_tx then 1 else s.tx_full) := by
  unfold xmit_enqueue
  simp only [writel, netif_stop_queue]
  by_cases hn : xmit_next K s skb = s.dirty_tx
  · simp [hn]
  · simp [hn]

theorem TxInvAt.cur_lt {K : Params} {s : State} {n h j bdp : Nat} (hi : TxInvAt K s n h j bdp) :
    s.cur_tx < 16 ∧ bdp < 16 ∧ s.hw_tx < 16 := by
  obtain ⟨_, _, hc, hh, hb, _⟩ := hi
  simp only [TX_RING_SIZE] at hc hh hb
  omega

theorem TxInvAt.ready_cur {K : Params} {s : State} {n h j bdp : Nat} (hi : TxInvAt K s n h j bdp) :
    ((s.tx_bd s.cur_tx).cbd_sc &&& K.BD_ENET_TX_READY ≠ 0 ↔ n = h + 16) := by
  have hlt := hi.cur_lt.1
  obtain ⟨_, _, hc, _, _, _, hhn, hnh, hr, _⟩ := hi
  have := hr s.cur_tx hlt
  simp only [TX_RING_SIZE] at this hc hnh
  rw [this]
  omega

theorem TxInvAt.xmit_ok {K : Params} (hK : K.TxMasks) {s : State} {n h j : Nat}
    (hi : TxInvAt K s n h j s.dirty_tx)
    (hr : (s.tx_bd s.cur_tx).cbd_sc &&& K.BD_ENET_TX_READY = 0) (skb : SkBuff) :
    TxInvAt K (xmit_enqueue K s skb) (n + 1) h j (xmit_enqueue K s skb).dirty_tx := by
  have hlt := hi.cur_lt.1
  have hnot : ¬ n = h + 16 := fun e => (hi.ready_cur.2 e) hr
  obtain ⟨hbd, hcur, hdirty, hhw, hlink, hfull⟩ := xmit_enqueue_fields K s skb
  obtain ⟨hw, hl, hc, hh, hb, hjh, hhn, hnh, hrd, hf⟩ := hi
  simp only [TX_RING_SIZE] at hw hc hh hb hnh hrd hf
  have hwc := hw s.cur_tx hlt
  have hsw := xmit_status_wrap K hK s skb
  have hnext : (xmit_enqueue K s skb).cur_tx = (n + 1) % 16 := by
    rw [hcur, xmit_next, hsw]
    by_cases h15 : s.cur_tx = 15
    · rw [if_pos (hwc.2 h15)]; omega
    · rw [if_neg (fun e => h15 (hwc.1 e))]; omega
  refine ⟨?_, ?_, ?_, ?_, ?_, hjh, by omega, by simp only [TX_RING_SIZE]; omega, ?_, ?_⟩
  · intro i hi16
    simp only [TX_RING_SIZE] at hi16 ⊢
    rw [hbd]
    by_cases hic : i = s.cur_tx
    · subst hic
      rw [Function.update_same]
      show (xmit_status K s skb &&& K.BD_ENET_TX_WRAP ≠ 0 ↔ _)
      rw [hsw]; exact hwc
    · rw [Function.update_noteq hic]; exact hw i hi16
  · rw [hlink]; exact hl
  · simp only [TX_RING_SIZE]; exact hnext
  · rw [hhw]; simp only [TX_RING_SIZE]; exact hh
  · rw [hdirty]; simp only [TX_RING_SIZE]; exact hb
  · intro i hi16
    simp only [TX_RING_SIZE] at hi16 ⊢
    rw [hbd]
    by_cases hic : i = s.cur_tx
    · subst hic
      rw [Function.update_same]
      show (xmit_status K s skb &&& K.BD_ENET_TX_READY ≠ 0 ↔ _)
      have := xmit_status_ready K hK s skb
      constructor
      · intro _; omega
      · intro _; exact this
    · rw [Function.update_noteq hic, hrd i hi16]
      omega
  · rw [hfull]
    simp only [TX_RING_SIZE]
    rw [← hcur, hnext]
    intro hne
    by_cases hd : (n + 1) % 16 = s.dirty_tx
    · omega
    · rw [if_neg hd] at hne
      have := hf hne
      omega

end Fec

namespace Fec

theorem fec_enet_tx_one_fields (K : Params) (s : State) (bdp : Nat) :
    (∀ i, ((fec_enet_tx_one K s bdp).tx_bd i).cbd_sc = (s.tx_bd i).cbd_sc) ∧
    (fec_enet_tx_one K s bdp).cur_tx = s.cur_tx ∧
    (fec_enet_tx_one K s bdp).hw_tx = s.hw_tx ∧
    (fec_enet_tx_one K s bdp).link = s.link ∧
    (fec_enet_tx_one K s bdp).tx_full = 0 ∧
    (fec_enet_tx_one K s bdp).trace
      = s.trace ++ [Call.dev_kfree_skb_any (s.tx_skbuff s.skb_dirty)] ∧
    (fec_enet_tx_one K s bdp).stats = tx_stats K s.stats (s.tx_bd bdp).cbd_sc := by
  have hbd : ∀ i, ((Function.update s.tx_bd bdp { s.tx_bd bdp with cbd_bufaddr := 0 }) i).cbd_sc
      = (s.tx_bd i).cbd_sc := by
    intro i
    by_cases hi : i = bdp
    · subst hi; rw [Function.update_same]
    · rw [Function.update_noteq hi]
  unfold fec_enet_tx_one
  simp only [dev_kfree_skb_any, netif_queue_stopped, netif_wake_queue]
  by_cases hf : s.tx_full ≠ 0
  · by_cases hq : s.queue_stopped = true
    · simp only [hf, hq, if_true, ne_eq, not_false_eq_true]
      refine ⟨hbd, ?_, ?_, ?_, ?_, ?_, ?_⟩ <;> first | rfl | trivial
    · simp only [hf, hq, if_true, if_false, ne_eq, not_false_eq_true]
      refine ⟨hbd, ?_, ?_, ?_, ?_, ?_, ?_⟩ <;> rfl
  · have hf0 : s.tx_full = 0 := by simpa using hf
    simp only [hf, if_false]
    refine ⟨hbd, ?_, ?_, ?_, ?_, ?_, ?_⟩
    all_goals first | rfl | trivial

theorem kfree_count_append_kfree (t : List Call) (skb : Option SkBuff) :
    kfree_count (t ++ [Call.dev_kfree_skb_any skb]) = kfree_count t + 1 := by
  simp [kfree_count, List.countP_append]

theorem kfree_count_append_writel (t : List Call) (v : Nat) (r : FecReg) :
    kfree_count (t ++ [Call.writel v r]) = kfree_count t := by
  simp [kfree_count, List.countP_append]

theorem tx_stats_sum (K : Params) (st : NetStats) (status : Nat) :
    (tx_stats K st status).tx_packets + (tx_stats K st status).tx_errors
      = st.tx_packets + st.tx_errors + 1 := by
  unfold tx_stats
  by_cases h : status &&& (K.BD_ENET_TX_HB ||| K.BD_ENET_TX_LC ||| K.BD_ENET_TX_RL
      ||| K.BD_ENET_TX_UN ||| K.BD_ENET_TX_CSL) ≠ 0
  · simp only [h, if_true, ne_eq, not_false_eq_true]; omega
  · simp only [h, if_false]; omega

/-- One reclaimed descriptor keeps the ring invariant and moves the consumer
count from `j` to `j + 1`. -/
theorem TxInvAt.reclaim {K : Params} {s : State} {n h j bdp : Nat}
    (hi : TxInvAt K s n h j bdp)
    (hr : (s.tx_bd bdp).cbd_sc &&& K.BD_ENET_TX_READY = 0)
    (hb : ¬ (bdp = s.cur_tx ∧ s.tx_full = 0)) :
    TxInvAt K (fec_enet_tx_one K s bdp) n h (j + 1) (tx_next K s bdp) := by
  have hlt := hi.cur_lt.2.1
  obtain ⟨hsc, hcur, hhw, hlink, hfull, _, _⟩ := fec_enet_tx_one_fields K s bdp
  obtain ⟨hw, hl, hc, hh, hbj, hjh, hhn, hnh, hrd, hf⟩ := hi
  simp only [TX_RING_SIZE] at hw hc hh hbj hnh hrd hf
  have hrb := hrd bdp hlt
  have hnr : ¬ (n + (16 - 1) - bdp) % 16 < n - h := fun e => (hrb.2 e) hr
  have hjlt : j < h := by
    by_contra hge
    have hjeq : j = h := by omega
    have hnh' : n = h := by omega
    apply hb
    constructor
    · omega
    · by_contra hne
      have := hf hne
      omega
  refine ⟨?_, ?_, ?_, ?_, ?_, by omega, hhn, hnh, ?_, ?_⟩
  · intro i hi16
    rw [hsc]; exact hw i hi16
  · rw [hlink]; exact hl
  · rw [hcur]; exact hc
  · rw [hhw]; exact hh
  · simp only [TX_RING_SIZE, tx_next]
    have hwb := hw bdp hlt
    by_cases h15 : bdp = 15
    · rw [if_pos (hwb.2 h15)]; omega
    · rw [if_neg (fun e => h15 (hwb.1 e))]; omega
  · intro i hi16
    rw [hsc]; exact hrd i hi16
  · intro hne
    exact absurd hfull hne

/-- The drain loop keeps the ring invariant; it moves the consumer count from
`j` to some `j'` and makes exactly `j' - j` calls of `dev_kfree_skb_any`. -/
theorem tx_loop_inv (K : Params) (n h : Nat) :
    ∀ (fuel : Nat) (s : State) (bdp j : Nat) (s' : State),
      TxInvAt K s n h j bdp → fec_enet_tx_loop K fuel s bdp = some s' →
      ∃ j', j ≤ j' ∧ TxInvAt K s' n h j' s'.dirty_tx ∧
        kfree_count s'.trace = kfree_count s.trace + (j' - j) := by
  intro fuel
  induction fuel with
  | zero => intro s bdp j s' _ hrun; simp [fec_enet_tx_loop] at hrun
  | succ fuel ih =>
    intro s bdp j s' hi hrun
    unfold fec_enet_tx_loop at hrun
    by_cases hr : (s.tx_bd bdp).cbd_sc &&& K.BD_ENET_TX_READY ≠ 0
    · rw [if_pos hr] at hrun
      cases hrun
      exact ⟨j, Nat.le_refl _, hi, by simp⟩
    · rw [if_neg hr] at hrun
      by_cases hb : bdp = s.cur_tx ∧ s.tx_full = 0
      · rw [if_pos hb] at hrun
        cases hrun
        exact ⟨j, Nat.le_refl _, hi, by simp⟩
      · rw [if_neg hb] at hrun
        have hr0 : (s.tx_bd bdp).cbd_sc &&& K.BD_ENET_TX_READY = 0 := by simpa using hr
        obtain ⟨j', hj', hinv', hk⟩ := ih _ _ (j + 1) s' (hi.reclaim hr0 hb) hrun
        refine ⟨j', by omega, hinv', ?_⟩
        rw [hk, (fec_enet_tx_one_fields K s bdp).2.2.2.2.2.1, kfree_count_append_kfree]
        omega

end Fec

namespace Fec

theorem TxInvAt.ready_hw {K : Params} {s : State} {n h j bdp : Nat} (hi : TxInvAt K s n h j bdp) :
    ((s.tx_bd s.hw_tx).cbd_sc &&& K.BD_ENET_TX_READY ≠ 0 ↔ h < n) := by
  have hlt := hi.cur_lt.2.2
  obtain ⟨_, _, hc, hh, _, _, hhn, hnh, hr, _⟩ := hi
  have := hr s.hw_tx hlt
  simp only [TX_RING_SIZE] at this hc hh hnh
  rw [this]
  omega

/-- A completion by the controller keeps the ring invariant and moves the
completed count from `h` to `h + 1`. -/
theorem TxInvAt.hw_step {K : Params} (hK : K.TxMasks) {s : State} {n h j bdp : Nat}
    (hi : TxInvAt K s n h j bdp) (hlt : h < n) (e : Nat) :
    TxInvAt K (hw_tx_complete K s e) n (h + 1) j bdp := by
  have hrdy := hi.ready_hw.2 hlt
  have hhwlt := hi.cur_lt.2.2
  obtain ⟨hw, hl, hc, hh, hbj, hjh, hhn, hnh, hrd, hf⟩ := hi
  simp only [TX_RING_SIZE] at hw hc hh hbj hnh hrd hf
  unfold hw_tx_complete
  simp only [hrdy, if_true, ne_eq, not_false_eq_true]
  refine ⟨?_, hl, hc, ?_, hbj, by omega, by omega, by simp only [TX_RING_SIZE]; omega, ?_, hf⟩
  · intro i hi16
    simp only [TX_RING_SIZE] at hi16 ⊢
    by_cases hic : i = s.hw_tx
    · subst hic
      simp only [Function.update_same]
      rw [hw_status_wrap K hK]; exact hw _ hi16
    · simp only [Function.update_noteq hic]; exact hw i hi16
  · simp only [TX_RING_SIZE]
    have hwb := hw s.hw_tx hhwlt
    by_cases h15 : s.hw_tx = 15
    · have := hwb.2 h15
      simp only [ne_eq] at this
      simp only [this, not_false_eq_true, if_true]; omega
    · have : (s.tx_bd s.hw_tx).cbd_sc &&& K.BD_ENET_TX_WRAP = 0 := by
        by_contra hne; exact h15 (hwb.1 hne)
      simp only [this, not_true_eq_false, if_false]; omega
  · intro i hi16
    simp only [TX_RING_SIZE] at hi16 ⊢
    by_cases hic : i = s.hw_tx
    · subst hic
      simp only [Function.update_same]
      rw [hw_status_ready K hK]
      constructor
      · intro hne; exact absurd rfl hne
      · intro hlt'; omega
    · simp only [Function.update_noteq hic]
      rw [hrd i hi16]
      omega

theorem hw_tx_complete_dirty (K : Params) (s : State) (e : Nat) :
    (hw_tx_complete K s e).dirty_tx = s.dirty_tx := by
  unfold hw_tx_complete
  by_cases h : (s.tx_bd s.hw_tx).cbd_sc &&& K.BD_ENET_TX_READY ≠ 0
  · simp only [h, if_true, ne_eq, not_false_eq_true]
  · simp only [h, if_false]

theorem hw_tx_complete_idle (K : Params) (s : State) (e : Nat)
    (h : (s.tx_bd s.hw_tx).cbd_sc &&& K.BD_ENET_TX_READY = 0) : hw_tx_complete K s e = s := by
  unfold hw_tx_complete
  simp [h]

theorem TxFresh.inv {K : Params} (_hK : K.TxMasks) {s : State} (hf : TxFresh K s) :
    TxInvAt K s 0 0 0 s.dirty_tx := by
  obtain ⟨hc, hd, hfull, _, _, hhw, hl, hsc, _⟩ := hf
  refine ⟨?_, hl, by rw [hc]; rfl, by rw [hhw]; rfl, by rw [hd]; rfl, Nat.le_refl _, Nat.le_refl _,
    Nat.zero_le _, ?_, ?_⟩
  · intro i hi
    exact (hsc i hi).1
  · intro i hi
    rw [(hsc i hi).2]
    simp
  · intro h; exact absurd hfull h

/-- Every state reached from a fresh ring satisfies the ring invariant for
some numbers of accepted, completed and reclaimed frames. -/
theorem TxReach.inv_exists {K : Params} (hK : K.TxMasks) {s : State} (hr : TxReach K s) :
    ∃ n h j, TxInvAt K s n h j s.dirty_tx := by
  induction hr with
  | fresh s hf => exact ⟨0, 0, 0, hf.inv hK⟩
  | xmit s skb _ ih =>
    obtain ⟨n, h, j, hi⟩ := ih
    unfold fec_enet_start_xmit
    by_cases hl : s.link = 0
    · exact absurd hl hi.2.1
    · rw [if_neg hl]
      by_cases hrd : (s.tx_bd s.cur_tx).cbd_sc &&& K.BD_ENET_TX_READY ≠ 0
      · rw [if_pos hrd]; exact ⟨n, h, j, hi⟩
      · rw [if_neg hrd]
        have hr0 : (s.tx_bd s.cur_tx).cbd_sc &&& K.BD_ENET_TX_READY = 0 := by simpa using hrd
        exact ⟨n + 1, h, j, hi.xmit_ok hK hr0 skb⟩
  | drain s s' fuel _ hrun ih =>
    obtain ⟨n, h, j, hi⟩ := ih
    obtain ⟨j', _, hi', _⟩ := tx_loop_inv K n h fuel s s.dirty_tx j s' hi hrun
    exact ⟨n, h, j', hi'⟩
  | hw s e _ ih =>
    obtain ⟨n, h, j, hi⟩ := ih
    by_cases hlt : h < n
    · refine ⟨n, h + 1, j, ?_⟩
      rw [hw_tx_complete_dirty]
      exact hi.hw_step hK hlt e
    · have h0 : (s.tx_bd s.hw_tx).cbd_sc &&& K.BD_ENET_TX_READY = 0 := by
        by_contra hne; exact hlt (hi.ready_hw.1 hne)
      rw [hw_tx_complete_idle K s e h0]
      exact ⟨n, h, j, hi⟩

end Fec

namespace Fec

theorem TxInvAt.ring_ok {K : Params} {s : State} {n h j bdp : Nat} (hi : TxInvAt K s n h j bdp) :
    TxRingOk K s bdp :=
  ⟨hi.1, hi.cur_lt.1, hi.cur_lt.2.1⟩

theorem TxRingOk.next_lt {K : Params} {s : State} {bdp : Nat} (hr : TxRingOk K s bdp) :
    tx_next K s bdp < 16 ∧ (tx_next K s bdp = (bdp + 1) % 16) := by
  obtain ⟨hw, _, hb⟩ := hr
  simp only [TX_RING_SIZE] at hw hb
  have hwb := hw bdp hb
  unfold tx_next
  by_cases h15 : bdp = 15
  · rw [if_pos (hwb.2 h15)]; omega
  · rw [if_neg (fun e => h15 (hwb.1 e))]; omega

/-- On a well-formed ring the drain loop returns once it has more fuel than
the occupancy the driver computes. -/
theorem tx_loop_terminates (K : Params) :
    ∀ (m fuel : Nat) (s : State) (bdp : Nat), TxRingOk K s bdp →
      (if s.tx_full ≠ 0 then 16 else (s.cur_tx + 16 - bdp) % 16) ≤ m → m < fuel →
      ∃ s', fec_enet_tx_loop K fuel s bdp = some s' ∧ TxRingOk K s' s'.dirty_tx := by
  intro m
  induction m with
  | zero =>
    intro fuel s bdp hr hm hf
    obtain ⟨f, rfl⟩ : ∃ f, fuel = f + 1 := ⟨fuel - 1, by omega⟩
    unfold fec_enet_tx_loop
    by_cases hrd : (s.tx_bd bdp).cbd_sc &&& K.BD_ENET_TX_READY ≠ 0
    · rw [if_pos hrd]; exact ⟨_, rfl, hr⟩
    · rw [if_neg hrd]
      have hfull : s.tx_full = 0 := by
        by_contra hne; rw [if_pos hne] at hm; omega
      have hcb : bdp = s.cur_tx := by
        have h1 := hr.2.1
        have h2 := hr.2.2
        simp only [TX_RING_SIZE] at h1 h2
        rw [if_neg (by simpa using hfull)] at hm
        omega
      rw [if_pos ⟨hcb, hfull⟩]; exact ⟨_, rfl, hr⟩
  | succ m ih =>
    intro fuel s bdp hr hm hf
    obtain ⟨f, rfl⟩ : ∃ f, fuel = f + 1 := ⟨fuel - 1, by omega⟩
    unfold fec_enet_tx_loop
    by_cases hrd : (s.tx_bd bdp).cbd_sc &&& K.BD_ENET_TX_READY ≠ 0
    · rw [if_pos hrd]; exact ⟨_, rfl, hr⟩
    · rw [if_neg hrd]
      by_cases hb : bdp = s.cur_tx ∧ s.tx_full = 0
      · rw [if_pos hb]; exact ⟨_, rfl, hr⟩
      · rw [if_neg hb]
        obtain ⟨hsc, hcur, _, _, hfull, _, _⟩ := fec_enet_tx_one_fields K s bdp
        have hnx := hr.next_lt
        have hr' : TxRingOk K (fec_enet_tx_one K s bdp) (tx_next K s bdp) := by
          refine ⟨?_, ?_, ?_⟩
          · intro i hi; rw [hsc]; exact hr.1 i hi
          · rw [hcur]; exact hr.2.1
          · simp only [TX_RING_SIZE]; exact hnx.1
        apply ih f _ _ hr' _ (by omega)
        rw [hfull, hcur, hnx.2]
        simp only [ne_eq, not_true_eq_false, if_false]
        have h1 := hr.2.1
        have h2 := hr.2.2
        simp only [TX_RING_SIZE] at h1 h2
        by_cases hne : s.tx_full ≠ 0
        · rw [if_pos hne] at hm
          omega
        · rw [if_neg hne] at hm
          have hcb : bdp ≠ s.cur_tx := fun e => hb ⟨e, by simpa using hne⟩
          omega

theorem tx_loop_returns (K : Params) (s : State) (bdp : Nat) (hr : TxRingOk K s bdp) :
    ∃ s', fec_enet_tx_loop K TX_FUEL s bdp = some s' ∧ TxRingOk K s' s'.dirty_tx := by
  apply tx_loop_terminates K 16 TX_FUEL s bdp hr
  · have h1 := hr.2.1
    simp only [TX_RING_SIZE] at h1
    split
    · exact Nat.le_refl _
    · omega
  · simp [TX_FUEL, TX_RING_SIZE]

/-- The drain loop leaves the producer cursor, the link state, the controller
position and every status word as they are. -/
theorem tx_loop_frame (K : Params) :
    ∀ (fuel : Nat) (s : State) (bdp : Nat) (s' : State),
      fec_enet_tx_loop K fuel s bdp = some s' →
      s'.cur_tx = s.cur_tx ∧ s'.link = s.link ∧ s'.hw_tx = s.hw_tx ∧
      (∀ i, (s'.tx_bd i).cbd_sc = (s.tx_bd i).cbd_sc) := by
  intro fuel
  induction fuel with
  | zero => intro s bdp s' hrun; simp [fec_enet_tx_loop] at hrun
  | succ fuel ih =>
    intro s bdp s' hrun
    unfold fec_enet_tx_loop at hrun
    by_cases hrd : (s.tx_bd bdp).cbd_sc &&& K.BD_ENET_TX_READY ≠ 0
    · rw [if_pos hrd] at hrun; cases hrun; exact ⟨rfl, rfl, rfl, fun _ => rfl⟩
    · rw [if_neg hrd] at hrun
      by_cases hb : bdp = s.cur_tx ∧ s.tx_full = 0
      · rw [if_pos hb] at hrun; cases hrun; exact ⟨rfl, rfl, rfl, fun _ => rfl⟩
      · rw [if_neg hb] at hrun
        obtain ⟨h1, h2, h3, h4⟩ := ih _ _ _ hrun
        obtain ⟨hsc, hcur, hhw, hlink, _, _, _⟩ := fec_enet_tx_one_fields K s bdp
        exact ⟨by rw [h1, hcur], by rw [h2, hlink], by rw [h3, hhw], fun i => by rw [h4, hsc]⟩

/-- A drain that released a frame found the descriptor at `dirty_tx` not ready. -/
theorem tx_loop_freed (K : Params) (fuel : Nat) (s : State) (bdp : Nat) (s' : State)
    (hrun : fec_enet_tx_loop K fuel s bdp = some s')
    (hfree : kfree_count s'.trace ≠ kfree_count s.trace) :
    (s.tx_bd bdp).cbd_sc &&& K.BD_ENET_TX_READY = 0 := by
  cases fuel with
  | zero => simp [fec_enet_tx_loop] at hrun
  | succ fuel =>
    unfold fec_enet_tx_loop at hrun
    by_cases hrd : (s.tx_bd bdp).cbd_sc &&& K.BD_ENET_TX_READY ≠ 0
    · rw [if_pos hrd] at hrun; cases hrun; exact absurd rfl hfree
    · simpa using hrd

end Fec

namespace Fec

/-! ## Claims about the transmit ring -/

/-- In every state reached from a fresh ring (descriptors as
`fec_enet_init` leaves them) with the link up, after a completion drain that
released at least one frame, the next `fec_enet_start_xmit` returns
`NETDEV_TX_OK`, for every frame (a 64-byte one in particular). -/
theorem xmit_ok_after_drain (K : Params) (hK : K.TxMasks) (s s' : State) (fuel : Nat)
    (skb : SkBuff) (hr : TxReach K s) (hd : fec_enet_tx K fuel s = some s')
    (hfree : kfree_count s.trace < kfree_count s'.trace) :
    (fec_enet_start_xmit K s' skb).1 = NetdevTx.NETDEV_TX_OK := by
  obtain ⟨n, h, j, hi⟩ := hr.inv_exists hK
  have hnr := tx_loop_freed K fuel s s.dirty_tx s' hd (by omega)
  obtain ⟨hcur, hlink, _, hsc⟩ := tx_loop_frame K fuel s s.dirty_tx s' hd
  have hdl := hi.cur_lt.2.1
  have hnh : ¬ n = h + 16 := by
    intro e
    have := (hi.2.2.2.2.2.2.2.2.1 s.dirty_tx hdl).2 (by simp only [TX_RING_SIZE]; omega)
    exact this hnr
  have hc0 : (s.tx_bd s.cur_tx).cbd_sc &&& K.BD_ENET_TX_READY = 0 := by
    by_contra hne; exact hnh (hi.ready_cur.1 hne)
  unfold fec_enet_start_xmit
  rw [hlink, hcur, hsc, if_neg hi.2.1, if_neg (by simpa using hc0)]

theorem xmit_ok_after_drain_witness :
    mx28.TxMasks ∧ TxReach mx28 dev1_done ∧
    fec_enet_tx mx28 TX_FUEL dev1_done = some dev1_drained ∧
    kfree_count dev1_done.trace < kfree_count dev1_drained.trace ∧
    (fec_enet_start_xmit mx28 dev1_drained frame64).1 = NetdevTx.NETDEV_TX_OK :=
  ⟨by decide,
   TxReach.hw _ 0 (TxReach.xmit dev0 frame64 (TxReach.fresh dev0 (by decide))),
   rfl, by decide,
   xmit_ok_after_drain mx28 (by decide) dev1_done dev1_drained TX_FUEL frame64
     (TxReach.hw _ 0 (TxReach.xmit dev0 frame64 (TxReach.fresh dev0 (by decide)))) rfl
     (by decide)⟩

set_option maxRecDepth 100000

/-- C5 fails after a restart on a ring that still holds frames.  The watchdog
fires (`fec_timeout`, which runs `fec_restart`) on the full ring whose oldest
frame the controller has completed; the queue is awake afterwards.  A frame is
accepted, the controller completes it, and `fec_enet_tx` releases it (the
count of `dev_kfree_skb_any` calls goes from 16 to 17).  The link is up and the
queue is awake, and yet the next `fec_enet_start_xmit` of a 64-byte frame
returns `NETDEV_TX_BUSY`: descriptor 1, where `cur_tx` now stands, still has
the `BD_ENET_TX_READY` bit that `fec_restart` left on it. -/
theorem xmit_busy_after_restart_drain :
    dev_timeout = fec_timeout mx28 dev16_one_done ∧
    dev_timeout.queue_stopped = false ∧
    (fec_enet_start_xmit mx28 dev_timeout frame64).1 = NetdevTx.NETDEV_TX_OK ∧
    dev_timeout_sent = hw_tx_complete mx28 (fec_enet_start_xmit mx28 dev_timeout frame64).2 0 ∧
    fec_enet_tx mx28 TX_FUEL dev_timeout_sent = some dev_timeout_drained ∧
    kfree_count dev_timeout_sent.trace = 16 ∧
    kfree_count dev_timeout_drained.trace = 17 ∧
    dev_timeout_drained.link ≠ 0 ∧
    dev_timeout_drained.queue_stopped = false ∧
    dev_timeout_drained.cur_tx = 1 ∧
    (dev_timeout_drained.tx_bd 1).cbd_sc &&& mx28.BD_ENET_TX_READY ≠ 0 ∧
    (fec_enet_start_xmit mx28 dev_timeout_drained frame64).1 = NetdevTx.NETDEV_TX_BUSY :=
  ⟨rfl, by decide, by decide, rfl, rfl, by decide, by decide, by decide, by decide, by decide,
   by decide, by decide⟩

end Fec

namespace Fec

/-! ## The ring while frames are only offered when the ring is not full -/

theorem TxFresh.norm {K : Params} (hK : K.TxMasks) {s : State} (hf : TxFresh K s) :
    TxNormAt K s 0 0 0 s.dirty_tx := by
  refine ⟨hf.inv hK, by simp [TX_RING_SIZE], ?_, ?_⟩
  · rw [hf.2.2.1]; exact Nat.zero_le _
  · rw [hf.2.2.1]; simp [TX_RING_SIZE]

theorem TxNormAt.occupancy {K : Params} {s : State} {n h j : Nat}
    (hn : TxNormAt K s n h j s.dirty_tx) : tx_occupancy s = (n : Int) - (j : Int) := by
  obtain ⟨hi, hnj, _, hfull⟩ := hn
  obtain ⟨_, _, hc, _, hd, hjh, hhn, _⟩ := hi
  simp only [TX_RING_SIZE] at hc hd hnj hfull
  unfold tx_occupancy
  by_cases hf : s.tx_full ≠ 0
  · rw [if_pos hf]
    have := hfull.1 hf
    simp only [TX_RING_SIZE]; omega
  · rw [if_neg hf]
    have hne : ¬ n = j + 16 := fun e => hf (hfull.2 e)
    simp only [TX_RING_SIZE]; omega

theorem TxNormAt.xmit {K : Params} (hK : K.TxMasks) {s : State} {n h j : Nat}
    (hn : TxNormAt K s n h j s.dirty_tx) (hlt : n < j + 16) (skb : SkBuff) :
    (fec_enet_start_xmit K s skb).1 = NetdevTx.NETDEV_TX_OK ∧
    TxNormAt K (fec_enet_start_xmit K s skb).2 (n + 1) h j
      (fec_enet_start_xmit K s skb).2.dirty_tx := by
  obtain ⟨hi, hnj, hle, hfull⟩ := hn
  have hjh := hi.2.2.2.2.2.1
  have hhn := hi.2.2.2.2.2.2.1
  simp only [TX_RING_SIZE] at hnj
  have hc0 : (s.tx_bd s.cur_tx).cbd_sc &&& K.BD_ENET_TX_READY = 0 := by
    by_contra hne
    have := hi.ready_cur.1 hne
    omega
  have hi' := hi.xmit_ok hK hc0 skb
  obtain ⟨_, hcur, hdirty, _, _, hfl⟩ := xmit_enqueue_fields K s skb
  unfold fec_enet_start_xmit
  rw [if_neg hi.2.1, if_neg (by simpa using hc0)]
  refine ⟨rfl, hi', by simp only [TX_RING_SIZE]; omega, ?_, ?_⟩
  · show (xmit_enqueue K s skb).tx_full ≤ 1
    rw [hfl]; split
    · exact Nat.le_refl _
    · exact hle
  · show ((xmit_enqueue K s skb).tx_full ≠ 0 ↔ _)
    have hc' := hi'.2.2.1
    have hd' := hi'.2.2.2.2.1
    rw [hcur] at hc'
    rw [hdirty] at hd'
    have hf0 : s.tx_full = 0 := by
      by_contra hne
      have := hfull.1 hne
      simp only [TX_RING_SIZE] at this
      omega
    simp only [TX_RING_SIZE] at hc' hd' ⊢
    rw [hfl, hf0]
    by_cases hx : xmit_next K s skb = s.dirty_tx
    · rw [if_pos hx]
      constructor
      · intro _; omega
      · intro _; exact Nat.one_ne_zero
    · rw [if_neg hx]
      constructor
      · intro hne; exact absurd rfl hne
      · intro e; exfalso; apply hx; omega

theorem TxNormAt.xmit_all {K : Params} (hK : K.TxMasks) {h j : Nat} :
    ∀ (l : List SkBuff) (s : State) (n : Nat), TxNormAt K s n h j s.dirty_tx →
      n + l.length ≤ j + 16 →
      (Fec.xmit_all K s l).1 = List.replicate l.length NetdevTx.NETDEV_TX_OK ∧
      TxNormAt K (Fec.xmit_all K s l).2 (n + l.length) h j (Fec.xmit_all K s l).2.dirty_tx := by
  intro l
  induction l with
  | nil => intro s n hn _; exact ⟨rfl, hn⟩
  | cons skb rest ih =>
    intro s n hn hlen
    simp only [List.length_cons] at hlen
    obtain ⟨hok, hn'⟩ := hn.xmit hK (by omega) skb
    obtain ⟨h1, h2⟩ := ih _ (n + 1) hn' (by omega)
    simp only [Fec.xmit_all, List.length_cons, List.replicate_succ]
    refine ⟨by rw [hok, h1], ?_⟩
    have e : n + (rest.length + 1) = n + 1 + rest.length := by omega
    rw [e]; exact h2

theorem TxNormAt.busy {K : Params} {s : State} {n h j : Nat}
    (hn : TxNormAt K s n h j s.dirty_tx) (hfull : n = h + 16) (skb : SkBuff) :
    fec_enet_start_xmit K s skb = (NetdevTx.NETDEV_TX_BUSY, s) := by
  have hrd := hn.1.ready_cur.2 hfull
  unfold fec_enet_start_xmit
  rw [if_neg hn.1.2.1, if_pos hrd]

theorem hw_tx_complete_tx_full (K : Params) (s : State) (e : Nat) :
    (hw_tx_complete K s e).tx_full = s.tx_full := by
  unfold hw_tx_complete
  by_cases h : (s.tx_bd s.hw_tx).cbd_sc &&& K.BD_ENET_TX_READY ≠ 0
  · simp only [h, if_true, ne_eq, not_false_eq_true]
  · simp only [h, if_false]

theorem TxNormAt.hw_step_norm {K : Params} (hK : K.TxMasks) {s : State} {n h j : Nat}
    (hn : TxNormAt K s n h j s.dirty_tx) (hlt : h < n) (e : Nat) :
    TxNormAt K (hw_tx_complete K s e) n (h + 1) j (hw_tx_complete K s e).dirty_tx := by
  obtain ⟨hi, hnj, hle, hfull⟩ := hn
  rw [hw_tx_complete_dirty]
  refine ⟨hi.hw_step hK hlt e, hnj, ?_, ?_⟩
  · rw [hw_tx_complete_tx_full]; exact hle
  · rw [hw_tx_complete_tx_full]; exact hfull

/-- In this regime the drain loop reclaims every descriptor the controller
has completed. -/
theorem tx_loop_norm (K : Params) (n h : Nat) :
    ∀ (fuel : Nat) (s : State) (bdp j : Nat), TxNormAt K s n h j bdp → h - j < fuel →
      ∃ s', fec_enet_tx_loop K fuel s bdp = some s' ∧ TxNormAt K s' n h h s'.dirty_tx := by
  intro fuel
  induction fuel with
  | zero => intro s bdp j _ hlt; omega
  | succ fuel ih =>
    intro s bdp j hn hlt
    obtain ⟨hi, hnj, hle, hfull⟩ := hn
    have hblt := hi.cur_lt.2.1
    have hjh := hi.2.2.2.2.2.1
    have hhn := hi.2.2.2.2.2.2.1
    have hbj := hi.2.2.2.2.1
    have hcn := hi.2.2.1
    have hrd := hi.2.2.2.2.2.2.2.2.1 bdp hblt
    simp only [TX_RING_SIZE] at hnj hfull hrd hbj hcn
    unfold fec_enet_tx_loop
    by_cases hjeq : j = h
    · subst hjeq
      by_cases hr : (s.tx_bd bdp).cbd_sc &&& K.BD_ENET_TX_READY ≠ 0
      · rw [if_pos hr]
        exact ⟨_, rfl, hi, by simp only [TX_RING_SIZE]; exact hnj, hle,
          by simp only [TX_RING_SIZE]; exact hfull⟩
      · rw [if_neg hr]
        have hnr : ¬ (n + (16 - 1) - bdp) % 16 < n - j := fun e => hr (hrd.2 e)
        have hnj' : n = j := by omega
        have hf0 : s.tx_full = 0 := by
          by_contra hne
          have := hfull.1 hne
          omega
        rw [if_pos ⟨by omega, hf0⟩]
        exact ⟨_, rfl, hi, by simp only [TX_RING_SIZE]; exact hnj, hle,
          by simp only [TX_RING_SIZE]; exact hfull⟩
    · have hjlt : j < h := by omega
      have hr0 : (s.tx_bd bdp).cbd_sc &&& K.BD_ENET_TX_READY = 0 := by
        by_contra hne
        have := hrd.1 hne
        omega
      have hb : ¬ (bdp = s.cur_tx ∧ s.tx_full = 0) := by
        rintro ⟨e1, e2⟩
        have hne : ¬ n = j + 16 := fun e => (hfull.2 e) e2
        omega
      rw [if_neg (by simpa using hr0), if_neg hb]
      have hi' := hi.reclaim hr0 hb
      have hf' := (fec_enet_tx_one_fields K s bdp).2.2.2.2.1
      apply ih _ _ (j + 1) _ (by omega)
      refine ⟨hi', by simp only [TX_RING_SIZE]; omega, by rw [hf']; exact Nat.zero_le _, ?_⟩
      rw [hf']
      simp only [TX_RING_SIZE]
      constructor
      · intro hne; exact absurd rfl hne
      · intro e; omega

theorem TxNormAt.drain {K : Params} {s : State} {n h j : Nat}
    (hn : TxNormAt K s n h j s.dirty_tx) :
    ∃ s', fec_enet_tx K TX_FUEL s = some s' ∧ TxNormAt K s' n h h s'.dirty_tx := by
  have h1 := hn.2.1
  have h2 := hn.1.2.2.2.2.2.2.1
  simp only [TX_RING_SIZE] at h1
  exact tx_loop_norm K n h TX_FUEL s s.dirty_tx j hn (by simp only [TX_FUEL, TX_RING_SIZE]; omega)

/-- C6: on a fresh 16-slot ring with the link up and no completion by the
controller before the 17th call, 16 calls of `fec_enet_start_xmit` all return
`NETDEV_TX_OK`, `tx_full` is clear after the 15th and set by the 16th, the
17th call returns `NETDEV_TX_BUSY` and changes nothing; once the controller
has released the 3 oldest descriptors, `fec_enet_tx` returns, the occupancy is
13 and the next `fec_enet_start_xmit` returns `NETDEV_TX_OK`.  This holds for
frames of any length, 64-byte frames in particular. -/
theorem scenario_fill_drain_three (K : Params) (hK : K.TxMasks) (s : State)
    (hf : TxFresh K s) (skbs : List SkBuff) (hlen : skbs.length = 16)
    (skb17 skb18 : SkBuff) (e1 e2 e3 : Nat) :
    (xmit_all K s skbs).1 = List.replicate 16 NetdevTx.NETDEV_TX_OK ∧
    (xmit_all K s (skbs.take 15)).2.tx_full = 0 ∧
    (xmit_all K s skbs).2.tx_full = 1 ∧
    fec_enet_start_xmit K (xmit_all K s skbs).2 skb17
      = (NetdevTx.NETDEV_TX_BUSY, (xmit_all K s skbs).2) ∧
    ∃ sd,
      fec_enet_tx K TX_FUEL
        (hw_tx_complete K (hw_tx_complete K (hw_tx_complete K (xmit_all K s skbs).2 e1) e2) e3)
        = some sd ∧
      tx_occupancy sd = 13 ∧
      (fec_enet_start_xmit K sd skb18).1 = NetdevTx.NETDEV_TX_OK := by
  have h0 := hf.norm hK
  obtain ⟨hret, h16⟩ := h0.xmit_all hK skbs s 0 (by omega)
  obtain ⟨_, h15⟩ := h0.xmit_all hK (skbs.take 15) s 0 (by simp)
  rw [hlen] at hret
  simp only [hlen, Nat.zero_add] at h16
  have hl15 : (skbs.take 15).length = 15 := by simp [hlen]
  simp only [hl15, Nat.zero_add] at h15
  have hfull15 : (xmit_all K s (skbs.take 15)).2.tx_full = 0 := by
    by_contra hne
    have := h15.2.2.2.1 hne
    simp only [TX_RING_SIZE] at this
    omega
  have hfull16 : (xmit_all K s skbs).2.tx_full = 1 := by
    have hne := h16.2.2.2.2 (by simp [TX_RING_SIZE])
    have hle := h16.2.2.1
    omega
  have ha := h16.hw_step_norm hK (by omega) e1
  have hb := ha.hw_step_norm hK (by omega) e2
  have hc := hb.hw_step_norm hK (by omega) e3
  obtain ⟨sd, hsd, hd⟩ := hc.drain
  refine ⟨hret, hfull15, hfull16, h16.busy (by omega) skb17, sd, hsd, ?_, ?_⟩
  · rw [hd.occupancy]; norm_num
  · exact (hd.xmit hK (by omega) skb18).1

theorem scenario_fill_drain_three_witness :
    mx28.TxMasks ∧ TxFresh mx28 dev0 ∧ (List.replicate 16 frame64).length = 16 ∧
    ((xmit_all mx28 dev0 (List.replicate 16 frame64)).1 = List.replicate 16 NetdevTx.NETDEV_TX_OK ∧
    (xmit_all mx28 dev0 ((List.replicate 16 frame64).take 15)).2.tx_full = 0 ∧
    (xmit_all mx28 dev0 (List.replicate 16 frame64)).2.tx_full = 1 ∧
    fec_enet_start_xmit mx28 (xmit_all mx28 dev0 (List.replicate 16 frame64)).2 frame64
      = (NetdevTx.NETDEV_TX_BUSY, (xmit_all mx28 dev0 (List.replicate 16 frame64)).2) ∧
    ∃ sd,
      fec_enet_tx mx28 TX_FUEL
        (hw_tx_complete mx28 (hw_tx_complete mx28 (hw_tx_complete mx28
          (xmit_all mx28 dev0 (List.replicate 16 frame64)).2 0) 0) 0)
        = some sd ∧
      tx_occupancy sd = 13 ∧
      (fec_enet_start_xmit mx28 sd frame64).1 = NetdevTx.NETDEV_TX_OK) :=
  ⟨by decide, by decide, by decide,
   scenario_fill_drain_three mx28 (by decide) dev0 (by decide) (List.replicate 16 frame64)
     (by decide) frame64 frame64 0 0 0⟩

end Fec

namespace Fec

/-! ## Return value of the submission path -/

/-- C10: with the link down `fec_enet_start_xmit` returns `NETDEV_TX_BUSY`
and enqueues nothing: the cursors, `tx_full`, `skb_cur`, `skb_dirty`, every
descriptor, the retained frames, the statistics and the trace of outside
calls are as before; only the queue is stopped. -/
theorem xmit_link_down (K : Params) (s : State) (skb : SkBuff) (hl : s.link = 0) :
    (fec_enet_start_xmit K s skb).1 = NetdevTx.NETDEV_TX_BUSY ∧
    (fec_enet_start_xmit K s skb).2 = netif_stop_queue s ∧
    (fec_enet_start_xmit K s skb).2.cur_tx = s.cur_tx ∧
    (fec_enet_start_xmit K s skb).2.dirty_tx = s.dirty_tx ∧
    (fec_enet_start_xmit K s skb).2.tx_full = s.tx_full ∧
    (fec_enet_start_xmit K s skb).2.skb_cur = s.skb_cur ∧
    (fec_enet_start_xmit K s skb).2.skb_dirty = s.skb_dirty ∧
    (fec_enet_start_xmit K s skb).2.tx_bd = s.tx_bd ∧
    (fec_enet_start_xmit K s skb).2.tx_skbuff = s.tx_skbuff ∧
    (fec_enet_start_xmit K s skb).2.stats = s.stats ∧
    (fec_enet_start_xmit K s skb).2.trace = s.trace := by
  unfold fec_enet_start_xmit
  rw [if_pos hl]
  exact ⟨rfl, rfl, rfl, rfl, rfl, rfl, rfl, rfl, rfl, rfl, rfl⟩

theorem xmit_link_down_witness :
    dev0_down.link = 0 ∧
    ((fec_enet_start_xmit mx28 dev0_down frame64).1 = NetdevTx.NETDEV_TX_BUSY ∧
    (fec_enet_start_xmit mx28 dev0_down frame64).2 = netif_stop_queue dev0_down ∧
    (fec_enet_start_xmit mx28 dev0_down frame64).2.cur_tx = dev0_down.cur_tx ∧
    (fec_enet_start_xmit mx28 dev0_down frame64).2.dirty_tx = dev0_down.dirty_tx ∧
    (fec_enet_start_xmit mx28 dev0_down frame64).2.tx_full = dev0_down.tx_full ∧
    (fec_enet_start_xmit mx28 dev0_down frame64).2.skb_cur = dev0_down.skb_cur ∧
    (fec_enet_start_xmit mx28 dev0_down frame64).2.skb_dirty = dev0_down.skb_dirty ∧
    (fec_enet_start_xmit mx28 dev0_down frame64).2.tx_bd = dev0_down.tx_bd ∧
    (fec_enet_start_xmit mx28 dev0_down frame64).2.tx_skbuff = dev0_down.tx_skbuff ∧
    (fec_enet_start_xmit mx28 dev0_down frame64).2.stats = dev0_down.stats ∧
    (fec_enet_start_xmit mx28 dev0_down frame64).2.trace = dev0_down.trace) :=
  ⟨rfl, xmit_link_down mx28 dev0_down frame64 rfl⟩

/-- C2, as stated, fails in both directions.  With the link down and
`tx_full` clear the call returns `NETDEV_TX_BUSY`; and on the ring filled by
16 frames, once the controller has completed the oldest one and before a drain
has run, `tx_full` is set and the call returns `NETDEV_TX_OK`. -/
theorem xmit_busy_not_iff_tx_full :
    (dev0_down.tx_full = 0 ∧
      (fec_enet_start_xmit mx28 dev0_down frame64).1 = NetdevTx.NETDEV_TX_BUSY) ∧
    (dev16_one_done.link = 1 ∧ dev16_one_done.tx_full = 1 ∧
      (fec_enet_start_xmit mx28 dev16_one_done frame64).1 = NetdevTx.NETDEV_TX_OK) := by
  decide

/-- C2, amended: for every device state `fec_enet_start_xmit` returns
`NETDEV_TX_BUSY` if and only if the link is down or the descriptor at `cur_tx`
still has `BD_ENET_TX_READY` set; `tx_full` is not consulted. -/
theorem xmit_busy_iff (K : Params) (s : State) (skb : SkBuff) :
    (fec_enet_start_xmit K s skb).1 = NetdevTx.NETDEV_TX_BUSY ↔
      (s.link = 0 ∨ (s.tx_bd s.cur_tx).cbd_sc &&& K.BD_ENET_TX_READY ≠ 0) := by
  unfold fec_enet_start_xmit
  by_cases hl : s.link = 0
  · rw [if_pos hl]; exact ⟨fun _ => Or.inl hl, fun _ => rfl⟩
  · rw [if_neg hl]
    by_cases hr : (s.tx_bd s.cur_tx).cbd_sc &&& K.BD_ENET_TX_READY ≠ 0
    · rw [if_pos hr]; exact ⟨fun _ => Or.inr hr, fun _ => rfl⟩
    · rw [if_neg hr]
      constructor
      · intro h; cases h
      · rintro (h | h)
        · exact absurd h hl
        · exact absurd h hr

/-! ## Restart -/

/-- C3 at a concrete input: on the ring filled by 16 accepted frames
(`tx_full` is 1), `fec_restart` puts `cur_tx`, `dirty_tx` and `cur_rx` back to
the base and releases the retained frames, and leaves `tx_full` at 1. -/
theorem fec_restart_full_ring :
    dev16.tx_full = 1 ∧
    (fec_restart mx28 dev16 1).cur_tx = 0 ∧
    (fec_restart mx28 dev16 1).dirty_tx = 0 ∧
    (fec_restart mx28 dev16 1).cur_rx = 0 ∧
    (∀ i, i < TX_RING_SIZE → (fec_restart mx28 dev16 1).tx_skbuff i = none) ∧
    (fec_restart mx28 dev16 1).tx_full = 1 ∧
    (fec_timeout mx28 dev16).tx_full = 1 := by
  decide

end Fec

namespace Fec

/-! ## What `fec_restart` changes -/

theorem restart_free_skb_shape (s : State) (i : Nat) :
    restart_free_skb s i =
      { s with
        tx_skbuff := Function.update s.tx_skbuff i none
        trace := s.trace ++
          (match s.tx_skbuff i with
            | some skb => [Call.dev_kfree_skb_any (some skb)]
            | none => []) } := by
  unfold restart_free_skb dev_kfree_skb_any
  cases h : s.tx_skbuff i with
  | none =>
    have e : Function.update s.tx_skbuff i none = s.tx_skbuff := by
      rw [← h]; exact Function.update_eq_self i s.tx_skbuff
    simp only [e, List.append_nil]
  | some skb => rfl

theorem restart_free_fold (l : List Nat) :
    ∀ s : State, l.Nodup →
      ∃ f t, l.foldl restart_free_skb s = { s with tx_skbuff := f, trace := t } ∧
        (∀ i, i ∈ l → f i = none) ∧ (∀ i, i ∉ l → f i = s.tx_skbuff i) ∧
        kfree_count t = kfree_count s.trace + l.countP (fun i => (s.tx_skbuff i).isSome) := by
  induction l with
  | nil =>
    intro s _
    exact ⟨s.tx_skbuff, s.trace, rfl, fun i hi => absurd hi (List.not_mem_nil i),
      fun _ _ => rfl, by simp⟩
  | cons k rest ih =>
    intro s hnd
    obtain ⟨hk, hrest⟩ := List.nodup_cons.1 hnd
    obtain ⟨f, t, hfold, hin, hout, hcnt⟩ := ih (restart_free_skb s k) hrest
    refine ⟨f, t, ?_, ?_, ?_, ?_⟩
    · rw [List.foldl_cons, hfold, restart_free_skb_shape]
    · intro i hi
      rcases List.mem_cons.1 hi with rfl | hi'
      · by_cases hir : i ∈ rest
        · exact hin i hir
        · rw [hout i hir, restart_free_skb_shape]
          exact Function.update_same _ _ _
      · exact hin i hi'
    · intro i hi
      have h1 : i ≠ k := fun e => hi (e ▸ List.mem_cons_self _ _)
      have h2 : i ∉ rest := fun e => hi (List.mem_cons_of_mem _ e)
      rw [hout i h2, restart_free_skb_shape]
      exact Function.update_noteq h1 _ _
    · rw [hcnt, restart_free_skb_shape]
      have hc : rest.countP (fun i => ((Function.update s.tx_skbuff k none) i).isSome)
          = rest.countP (fun i => (s.tx_skbuff i).isSome) := by
        apply List.countP_congr
        intro i hi
        have : i ≠ k := fun e => hk (e ▸ hi)
        simp only [Function.update_noteq this]
      simp only [hc, List.countP_cons]
      cases hsk : s.tx_skbuff k with
      | none => simp [kfree_count]
      | some skb => simp [kfree_count, List.countP_append]; omega

theorem restart_head_shape (K : Params) (s : State) :
    ∃ r h t, restart_head K s = { s with regs := r, hw_tx := h, trace := t } ∧
      kfree_count t = kfree_count s.trace := by
  unfold restart_head writel
  cases K.CONFIG_M5272
  · exact ⟨_, _, _, rfl, by simp [kfree_count, List.countP_append]⟩
  · exact ⟨_, _, _, rfl, by simp [kfree_count, List.countP_append]⟩

theorem restart_rings_shape (s : State) :
    ∃ f t, restart_rings s =
        { s with dirty_tx := 0, cur_tx := 0, cur_rx := 0, skb_cur := 0, skb_dirty := 0,
                 tx_skbuff := f, trace := t } ∧
      (∀ i, i < TX_RING_SIZE → f i = none) ∧
      (∀ i, TX_RING_SIZE ≤ i → f i = s.tx_skbuff i) ∧
      kfree_count t = kfree_count s.trace
        + (List.range TX_RING_SIZE).countP (fun i => (s.tx_skbuff i).isSome) := by
  obtain ⟨f, t, hfold, hin, hout, hcnt⟩ :=
    restart_free_fold (List.range (TX_RING_MOD_MASK + 1))
      { s with dirty_tx := 0, cur_tx := 0, cur_rx := 0, skb_cur := 0, skb_dirty := 0 }
      (List.nodup_range _)
  refine ⟨f, t, ?_, ?_, ?_, ?_⟩
  · unfold restart_rings; rw [hfold]
  · intro i hi; exact hin i (List.mem_range.2 hi)
  · intro i hi
    exact hout i (fun e => by
      have := List.mem_range.1 e
      simp only [TX_RING_MOD_MASK, TX_RING_SIZE] at this hi
      omega)
  · exact hcnt

theorem restart_duplex_shape (K : Params) (s : State) (duplex : Nat) :
    ∃ r h t, restart_duplex K s duplex
        = { s with regs := r, hw_tx := h, trace := t, full_duplex := duplex } ∧
      kfree_count t = kfree_count s.trace := by
  unfold restart_duplex writel
  by_cases hd : duplex ≠ 0
  · simp only [hd, if_true, ne_eq, not_false_eq_true]
    exact ⟨_, _, _, rfl, by simp [kfree_count, List.countP_append]⟩
  · simp only [hd, if_false]
    exact ⟨_, _, _, rfl, by simp [kfree_count, List.countP_append]⟩

theorem restart_mxs_rcntrl_shape (s : State) :
    ∃ r h t, restart_mxs_rcntrl s = { s with regs := r, hw_tx := h, trace := t } ∧
      kfree_count t = kfree_count s.trace := by
  unfold restart_mxs_rcntrl writel
  exact ⟨_, _, _, rfl, by simp [kfree_count, List.countP_append]⟩

theorem restart_miigsk_shape (s : State) :
    ∃ r h t, restart_miigsk s = { s with regs := r, hw_tx := h, trace := t } ∧
      kfree_count t = kfree_count s.trace := by
  unfold restart_miigsk writel
  by_cases hi : s.phy_interface = PhyInterface.PHY_INTERFACE_MODE_RMII
  · simp only [hi, if_true]
    exact ⟨_, _, _, rfl, by simp [kfree_count, List.countP_append]⟩
  · simp only [hi, if_false]
    exact ⟨s.regs, s.hw_tx, s.trace, rfl, rfl⟩

theorem restart_tail_shape (K : Params) (s : State) :
    ∃ r h t p, restart_tail K s = { s with regs := r, hw_tx := h, trace := t, ptimer_present := p } ∧
      kfree_count t = kfree_count s.trace := by
  have hA : ∃ r h t, (if K.CONFIG_ARCH_MXS then restart_mxs_rcntrl s else s)
      = { s with regs := r, hw_tx := h, trace := t } ∧ kfree_count t = kfree_count s.trace := by
    cases K.CONFIG_ARCH_MXS
    · exact ⟨s.regs, s.hw_tx, s.trace, rfl, rfl⟩
    · exact restart_mxs_rcntrl_shape s
  obtain ⟨r1, h1, t1, e1, k1⟩ := hA
  unfold restart_tail
  simp only [e1]
  generalize hs3 : (if s.ptimer_present ≠ 0 ∧ s.ptp_start_ret ≠ 0
      then { writel { s with regs := r1, hw_tx := h1, trace := t1 } s.phy_speed
              FecReg.FEC_MII_SPEED with ptimer_present := 0 }
      else writel { s with regs := r1, hw_tx := h1, trace := t1 } s.phy_speed
              FecReg.FEC_MII_SPEED) = s3
  have hB : ∃ r h t p, s3 = { s with regs := r, hw_tx := h, trace := t, ptimer_present := p } ∧
      kfree_count t = kfree_count s.trace := by
    rw [← hs3]
    unfold writel
    by_cases hc : s.ptimer_present ≠ 0 ∧ s.ptp_start_ret ≠ 0
    · rw [if_pos hc]
      exact ⟨_, _, _, _, rfl, by simp [kfree_count, List.countP_append] at k1 ⊢; exact k1⟩
    · rw [if_neg hc]
      exact ⟨_, _, _, s.ptimer_present, rfl,
        by simp [kfree_count, List.countP_append] at k1 ⊢; exact k1⟩
  obtain ⟨r3, h3, t3, p3, e3, k3⟩ := hB
  have hC : ∃ r h t, (if K.HAVE_FEC_MIIGSK_ENR then restart_miigsk s3 else s3)
      = { s with regs := r, hw_tx := h, trace := t, ptimer_present := p3 } ∧
      kfree_count t = kfree_count s.trace := by
    cases K.HAVE_FEC_MIIGSK_ENR
    · exact ⟨r3, h3, t3, e3, k3⟩
    · clear hs3
      subst e3
      obtain ⟨r, h, t, e, k⟩ := restart_miigsk_shape
        { s with regs := r3, hw_tx := h3, trace := t3, ptimer_present := p3 }
      exact ⟨r, h, t, by rw [if_pos rfl, e], by rw [k]; exact k3⟩
  obtain ⟨r4, h4, t4, e4, k4⟩ := hC
  rw [e4]
  unfold writel
  exact ⟨_, _, _, p3, rfl, by simp [kfree_count, List.countP_append] at k4 ⊢; exact k4⟩

/-- Everything `fec_restart` does to the device: registers, the controller
position, the trace and `ptimer_present` may change, the cursors and the frame
indices become 0, `full_duplex` becomes `duplex`, the 16 entries of `tx_skbuff`
become `NULL` with one `dev_kfree_skb_any` per entry that was not; every other
field, `tx_full`, the descriptors and the statistics among them, keeps its
value. -/
theorem fec_restart_shape (K : Params) (s : State) (duplex : Nat) :
    ∃ r h t f p, fec_restart K s duplex =
        { s with regs := r, hw_tx := h, trace := t, tx_skbuff := f, ptimer_present := p,
                 dirty_tx := 0, cur_tx := 0, cur_rx := 0, skb_cur := 0, skb_dirty := 0,
                 full_duplex := duplex } ∧
      (∀ i, i < TX_RING_SIZE → f i = none) ∧
      kfree_count t = kfree_count s.trace
        + (List.range TX_RING_SIZE).countP (fun i => (s.tx_skbuff i).isSome) := by
  obtain ⟨r1, h1, t1, e1, k1⟩ := restart_head_shape K s
  obtain ⟨f2, t2, e2, hf2, _, k2⟩ := restart_rings_shape (restart_head K s)
  obtain ⟨r3, h3, t3, e3, k3⟩ := restart_duplex_shape K (restart_rings (restart_head K s)) duplex
  obtain ⟨r4, h4, t4, p4, e4, k4⟩ :=
    restart_tail_shape K (restart_duplex K (restart_rings (restart_head K s)) duplex)
  refine ⟨r4, h4, t4, f2, p4, ?_, hf2, ?_⟩
  · unfold fec_restart
    rw [e4, e3, e2, e1]
  · rw [k4, e3]
    simp only []
    rw [k3, e2]
    simp only []
    rw [k2, e1]
    simp only []
    rw [k1]

/-! ## The controller position across a restart -/

theorem restart_head_hw (K : Params) (s : State) : (restart_head K s).hw_tx = 0 := by
  unfold restart_head writel
  cases K.CONFIG_M5272 <;> simp

theorem restart_rings_hw (s : State) : (restart_rings s).hw_tx = s.hw_tx := by
  obtain ⟨f, t, e, _⟩ := restart_rings_shape s
  rw [e]

theorem restart_duplex_hw (K : Params) (s : State) (duplex : Nat) :
    (restart_duplex K s duplex).hw_tx = s.hw_tx := by
  unfold restart_duplex writel
  by_cases hd : duplex ≠ 0
  · simp [hd]
  · simp [hd]

theorem restart_mxs_rcntrl_hw (s : State) : (restart_mxs_rcntrl s).hw_tx = s.hw_tx := by
  unfold restart_mxs_rcntrl writel
  simp

theorem restart_miigsk_hw (s : State) : (restart_miigsk s).hw_tx = s.hw_tx := by
  unfold restart_miigsk writel
  split <;> simp

theorem restart_tail_hw (K : Params) (s : State) : (restart_tail K s).hw_tx = s.hw_tx := by
  have h1 : (if K.CONFIG_ARCH_MXS then restart_mxs_rcntrl s else s).hw_tx = s.hw_tx := by
    cases K.CONFIG_ARCH_MXS
    · rfl
    · exact restart_mxs_rcntrl_hw s
  have hv : ∀ c : Prop, [Decidable c] → ((if c then 0x00000010 else 0x0) ||| 0x00000002) &&& 1 = 0 := by
    intro c _
    by_cases hc : c
    · rw [if_pos hc]; decide
    · rw [if_neg hc]; decide
  unfold restart_tail
  simp only []
  generalize hs3 : (if s.ptimer_present ≠ 0 ∧ s.ptp_start_ret ≠ 0
      then { writel (if K.CONFIG_ARCH_MXS then restart_mxs_rcntrl s else s) s.phy_speed
          FecReg.FEC_MII_SPEED with ptimer_present := 0 }
      else writel (if K.CONFIG_ARCH_MXS then restart_mxs_rcntrl s else s) s.phy_speed
          FecReg.FEC_MII_SPEED) = s3
  have h3 : s3.hw_tx = s.hw_tx := by
    rw [← hs3]
    split <;> simp [writel, h1]
  have h4 : (if K.HAVE_FEC_MIIGSK_ENR then restart_miigsk s3 else s3).hw_tx = s.hw_tx := by
    cases K.HAVE_FEC_MIIGSK_ENR
    · exact h3
    · exact (restart_miigsk_hw s3).trans h3
  simp only [writel, hv, h4]
  simp [h4]

theorem fec_restart_hw_tx (K : Params) (s : State) (duplex : Nat) :
    (fec_restart K s duplex).hw_tx = 0 := by
  unfold fec_restart
  rw [restart_tail_hw, restart_duplex_hw, restart_rings_hw, restart_head_hw]

/-- A restart of a ring with no frame in flight gives a fresh ring: when the
wrap bit is on the last descriptor only, no descriptor has
`BD_ENET_TX_READY`, `tx_full` is clear and the link is up, the state
`fec_restart` returns has all cursors and the controller at the base and
retains nothing. -/
theorem fec_restart_fresh (K : Params) (s : State) (duplex : Nat)
    (hbd : ∀ i, i < TX_RING_SIZE →
      ((s.tx_bd i).cbd_sc &&& K.BD_ENET_TX_WRAP ≠ 0 ↔ i = TX_RING_SIZE - 1) ∧
      (s.tx_bd i).cbd_sc &&& K.BD_ENET_TX_READY = 0)
    (hfull : s.tx_full = 0) (hl : s.link ≠ 0) : TxFresh K (fec_restart K s duplex) := by
  have hhw := fec_restart_hw_tx K s duplex
  obtain ⟨r, h, t, f, p, e, hf, _⟩ := fec_restart_shape K s duplex
  rw [e] at hhw ⊢
  exact ⟨rfl, rfl, hfull, rfl, rfl, hhw, hl, hbd, hf⟩

end Fec

namespace Fec

/-! ## A link change with frames in flight -/

theorem xmit_enqueue_more (K : Params) (s : State) (skb : SkBuff) :
    (xmit_enqueue K s skb).tx_skbuff
      = Function.update s.tx_skbuff s.skb_cur (some (xmit_skb K skb)) ∧
    (xmit_enqueue K s skb).skb_cur = (s.skb_cur + 1) &&& TX_RING_MOD_MASK ∧
    (xmit_enqueue K s skb).phy_dev = s.phy_dev ∧
    (xmit_enqueue K s skb).full_duplex = s.full_duplex ∧
    (xmit_enqueue K s skb).mii_timeout = s.mii_timeout ∧
    (xmit_enqueue K s skb).stats.tx_errors = s.stats.tx_errors ∧
    (xmit_enqueue K s skb).stats.tx_packets = s.stats.tx_packets ∧
    (xmit_enqueue K s skb).trace = s.trace ++ [Call.writel 0 FecReg.FEC_X_DES_ACTIVE] := by
  unfold xmit_enqueue
  simp only [writel, netif_stop_queue]
  by_cases hn : xmit_next K s skb = s.dirty_tx
  · simp [hn]
  · simp [hn]

/-- A PHY report of link up that differs from what the driver has recorded, in
the duplex or in the link state, makes `fec_enet_adjust_link` run
`fec_restart` (once or twice): the transmit cursors go back to the base, the
retained frames are released, one `dev_kfree_skb_any` each, and `tx_full` and
the statistics are left as they were. -/
theorem adjust_link_restarts (K : Params) (s : State) (phy : PhyDevice)
    (hphy : s.phy_dev = some phy) (hup : phy.link ≠ 0)
    (hev : s.full_duplex ≠ phy.duplex ∨ s.link ≠ phy.link)
    (hnh : ¬ (s.mii_timeout ≠ 0 ∧ phy.state = PhyState.PHY_HALTED)) :
    ∃ s', fec_enet_adjust_link K s = some s' ∧
      s'.cur_tx = 0 ∧ s'.dirty_tx = 0 ∧ s'.tx_full = s.tx_full ∧ s'.stats = s.stats ∧
      s'.full_duplex = phy.duplex ∧ s'.link = phy.link ∧
      (∀ i, i < TX_RING_SIZE → s'.tx_skbuff i = none) ∧
      kfree_count s'.trace = kfree_count s.trace
        + (List.range TX_RING_SIZE).countP (fun i => (s.tx_skbuff i).isSome) := by
  by_cases hdup : s.full_duplex ≠ phy.duplex
  · obtain ⟨r1, h1, t1, f1, p1, e1, hf1, k1⟩ := fec_restart_shape K s phy.duplex
    unfold fec_enet_adjust_link
    rw [hphy]
    simp only [if_neg hnh, hup, hdup, ne_eq, not_false_eq_true, and_self, if_true]
    by_cases hl : phy.link = (fec_restart K s phy.duplex).link
    · simp only [hl, not_true_eq_false, if_false]
      refine ⟨_, rfl, ?_⟩
      rw [e1]
      refine ⟨?_, ?_, ?_, ?_, ?_, ?_, hf1, k1⟩
      all_goals rfl
    · simp only [hl, not_false_eq_true, if_true]
      obtain ⟨r2, h2, t2, f2, p2, e2, hf2, k2⟩ :=
        fec_restart_shape K { fec_restart K s phy.duplex with link := phy.link } phy.duplex
      have hz : (List.range TX_RING_SIZE).countP (fun i => (f1 i).isSome) = 0 := by
        rw [List.countP_eq_zero]
        intro i hi
        rw [hf1 i (List.mem_range.1 hi)]
        simp
      have k2' : kfree_count t2 = kfree_count t1 := by
        rw [k2, e1]; simp only []; rw [hz]; rfl
      refine ⟨_, rfl, ?_⟩
      simp only [netif_queue_stopped, netif_wake_queue, netif_start_queue]
      rw [e2, e1]
      by_cases hq : s.queue_stopped = true
      · simp only [hq, if_true]
        refine ⟨?_, ?_, ?_, ?_, ?_, ?_, hf2, k2'.trans k1⟩
        all_goals first | rfl | trivial
      · simp only [hq, if_false]
        refine ⟨?_, ?_, ?_, ?_, ?_, ?_, hf2, k2'.trans k1⟩
        all_goals rfl
  · have hdup' : s.full_duplex = phy.duplex := by simpa using hdup
    have hl : phy.link ≠ s.link := fun e => (hev.resolve_left hdup) e.symm
    obtain ⟨r2, h2, t2, f2, p2, e2, hf2, k2⟩ :=
      fec_restart_shape K { s with link := phy.link } phy.duplex
    unfold fec_enet_adjust_link
    rw [hphy]
    have hc : ¬ (phy.link ≠ 0 ∧ s.full_duplex ≠ phy.duplex) := fun h => hdup h.2
    simp only [if_neg hnh, if_neg hc, if_pos hl, if_pos hup]
    refine ⟨_, rfl, ?_⟩
    simp only [netif_queue_stopped, netif_wake_queue, netif_start_queue]
    rw [e2]
    by_cases hq : s.queue_stopped = true
    · simp only [hq, if_true]
      refine ⟨?_, ?_, ?_, ?_, ?_, ?_, hf2, k2⟩
      all_goals first | rfl | trivial
    · simp only [hq, if_false]
      refine ⟨?_, ?_, ?_, ?_, ?_, ?_, hf2, k2⟩
      all_goals rfl

theorem count_two_retained (f : Nat → Option SkBuff) (a b : SkBuff)
    (hf : ∀ i, i < TX_RING_SIZE → f i = none) :
    (List.range TX_RING_SIZE).countP
      (fun i => ((Function.update (Function.update f 0 (some a)) 1 (some b)) i).isSome) = 2 := by
  have hr : List.range TX_RING_SIZE = [0, 1, 2, 3, 4, 5, 6, 7, 8, 9, 10, 11, 12, 13, 14, 15] := by
    decide
  simp only [TX_RING_SIZE] at hf
  rw [hr]
  simp [List.countP_cons, Function.update, hf 2, hf 3, hf 4, hf 5, hf 6, hf 7, hf 8, hf 9, hf 10,
    hf 11, hf 12, hf 13, hf 14, hf 15]

/-- Two frames accepted on a fresh ring and not yet completed: both calls
return `NETDEV_TX_OK`, the occupancy is 2, and exactly two entries of
`tx_skbuff` are not `NULL`. -/
theorem two_accepted_in_flight (K : Params) (hK : K.TxMasks) (s0 : State)
    (hf : TxFresh K s0) (skb1 skb2 : SkBuff) :
    (xmit_all K s0 [skb1, skb2]).1 = [NetdevTx.NETDEV_TX_OK, NetdevTx.NETDEV_TX_OK] ∧
    tx_occupancy (xmit_all K s0 [skb1, skb2]).2 = 2 ∧
    (List.range TX_RING_SIZE).countP
      (fun i => ((xmit_all K s0 [skb1, skb2]).2.tx_skbuff i).isSome) = 2 ∧
    (xmit_all K s0 [skb1, skb2]).2.phy_dev = s0.phy_dev ∧
    (xmit_all K s0 [skb1, skb2]).2.full_duplex = s0.full_duplex ∧
    (xmit_all K s0 [skb1, skb2]).2.mii_timeout = s0.mii_timeout ∧
    (xmit_all K s0 [skb1, skb2]).2.stats.tx_errors = s0.stats.tx_errors := by
  have h0 := hf.norm hK
  obtain ⟨hret, h2⟩ := h0.xmit_all hK [skb1, skb2] s0 0 (by simp)
  have hocc := h2.occupancy
  obtain ⟨hc, hd, hfl, hsc, hsd, hhw, hl, hbd, hsk⟩ := hf
  have hr0 : (s0.tx_bd s0.cur_tx).cbd_sc &&& K.BD_ENET_TX_READY = 0 := by
    by_contra hne
    have := h0.1.ready_cur.1 hne
    omega
  have hx1 : fec_enet_start_xmit K s0 skb1 = (NetdevTx.NETDEV_TX_OK, xmit_enqueue K s0 skb1) := by
    unfold fec_enet_start_xmit
    rw [if_neg hl, if_neg (by simpa using hr0)]
  have hn1 := (h0.xmit hK (by omega) skb1).2
  rw [hx1] at hn1
  have hr1 : ((xmit_enqueue K s0 skb1).tx_bd (xmit_enqueue K s0 skb1).cur_tx).cbd_sc
      &&& K.BD_ENET_TX_READY = 0 := by
    by_contra hne
    have := hn1.1.ready_cur.1 hne
    omega
  have hx2 : fec_enet_start_xmit K (xmit_enqueue K s0 skb1) skb2
      = (NetdevTx.NETDEV_TX_OK, xmit_enqueue K (xmit_enqueue K s0 skb1) skb2) := by
    unfold fec_enet_start_xmit
    rw [if_neg hn1.1.2.1, if_neg (by simpa using hr1)]
  have hall : (xmit_all K s0 [skb1, skb2]).2 = xmit_enqueue K (xmit_enqueue K s0 skb1) skb2 := by
    simp only [xmit_all, hx1, hx2]
  obtain ⟨a1, a2, a3, a4, a5, a6, _, _⟩ := xmit_enqueue_more K s0 skb1
  obtain ⟨b1, b2, b3, b4, b5, b6, _, _⟩ := xmit_enqueue_more K (xmit_enqueue K s0 skb1) skb2
  have hcur1 : (xmit_enqueue K s0 skb1).skb_cur = 1 := by
    rw [a2, hsc]; decide
  have hskb : (xmit_all K s0 [skb1, skb2]).2.tx_skbuff
      = Function.update (Function.update s0.tx_skbuff 0 (some (xmit_skb K skb1))) 1
          (some (xmit_skb K skb2)) := by
    rw [hall, b1, hcur1, a1, hsc]
  refine ⟨by simpa using hret, by rw [hocc]; norm_num, ?_, ?_, ?_, ?_, ?_⟩
  · rw [hskb]; exact count_two_retained _ _ _ hsk
  · rw [hall, b3, a3]
  · rw [hall, b4, a4]
  · rw [hall, b5, a5]
  · rw [hall, b6, a6]

/-- C7 at concrete inputs: two frames accepted and not completed (occupancy
2, two entries of `tx_skbuff` not `NULL`, `tx_errors` 0).  On `dev2_fd` the
PHY reports the link up at full duplex on a half-duplex link; on `dev2_found`
it reports the link up at full duplex after a link loss.  Either way
`fec_enet_adjust_link` runs `fec_restart`, and afterwards the occupancy is 0
and `tx_errors` is 0 as before (not 2). -/
theorem two_in_flight_tx_errors_unchanged :
    tx_occupancy dev2_fd = 2 ∧ dev2_fd.stats.tx_errors = 0 ∧
    (fec_enet_adjust_link mx28 dev2_fd).map (fun s => (tx_occupancy s, s.stats.tx_errors))
      = some (0, 0) ∧
    tx_occupancy dev2_found = 2 ∧ dev2_found.stats.tx_errors = 0 ∧
    (fec_enet_adjust_link mx28 dev2_found).map (fun s => (tx_occupancy s, s.stats.tx_errors))
      = some (0, 0) := by
  decide

/-- C7, amended: with exactly two frames submitted and not yet completed
(occupancy 2, two entries of `tx_skbuff` not `NULL`), a PHY report of link up
that makes `fec_enet_adjust_link` run `fec_restart` (the duplex reported, full
duplex in particular, differs from the current one, or the link was down)
leaves the occupancy 0 and every entry of `tx_skbuff` `NULL`; exactly two
frames are released by `dev_kfree_skb_any`; and the statistics, `tx_errors`
included, are unchanged: the frames released at restart are not counted. -/
theorem adjust_link_two_in_flight (K : Params) (s : State) (phy : PhyDevice)
    (hphy : s.phy_dev = some phy) (hup : phy.link ≠ 0)
    (hev : s.full_duplex ≠ phy.duplex ∨ s.link ≠ phy.link)
    (hnh : ¬ (s.mii_timeout ≠ 0 ∧ phy.state = PhyState.PHY_HALTED))
    (hocc : tx_occupancy s = 2)
    (hret : (List.range TX_RING_SIZE).countP (fun i => (s.tx_skbuff i).isSome) = 2) :
    ∃ s', fec_enet_adjust_link K s = some s' ∧
      tx_occupancy s' = 0 ∧
      (∀ i, i < TX_RING_SIZE → s'.tx_skbuff i = none) ∧
      kfree_count s'.trace = kfree_count s.trace + 2 ∧
      s'.stats = s.stats ∧
      s'.stats.tx_errors = s.stats.tx_errors ∧
      s'.link = phy.link ∧ s'.full_duplex = phy.duplex := by
  obtain ⟨s', hs', c1, c2, c3, c4, c5, c6, c7, c8⟩ := adjust_link_restarts K s phy hphy hup hev hnh
  have hfull : s.tx_full = 0 := by
    by_contra hne
    unfold tx_occupancy at hocc
    rw [if_pos hne] at hocc
    simp [TX_RING_SIZE] at hocc
  refine ⟨s', hs', ?_, c7, by rw [c8, hret], c4, by rw [c4], c6, c5⟩
  unfold tx_occupancy
  rw [c3, hfull, c1, c2]
  simp [TX_RING_SIZE]

theorem adjust_link_two_in_flight_witness :
    (dev2_fd.phy_dev = some phy_fd ∧ phy_fd.link ≠ 0 ∧
      (dev2_fd.full_duplex ≠ phy_fd.duplex ∨ dev2_fd.link ≠ phy_fd.link) ∧
      ¬ (dev2_fd.mii_timeout ≠ 0 ∧ phy_fd.state = PhyState.PHY_HALTED) ∧
      tx_occupancy dev2_fd = 2 ∧
      (List.range TX_RING_SIZE).countP (fun i => (dev2_fd.tx_skbuff i).isSome) = 2 ∧
      dev2_fd.link = phy_fd.link ∧
      ∃ s', fec_enet_adjust_link mx28 dev2_fd = some s' ∧
        tx_occupancy s' = 0 ∧
        (∀ i, i < TX_RING_SIZE → s'.tx_skbuff i = none) ∧
        kfree_count s'.trace = kfree_count dev2_fd.trace + 2 ∧
        s'.stats = dev2_fd.stats ∧
        s'.stats.tx_errors = dev2_fd.stats.tx_errors ∧
        s'.link = phy_fd.link ∧ s'.full_duplex = phy_fd.duplex) ∧
    (dev2_found.phy_dev = some phy_fd ∧
      dev2_found.full_duplex = phy_fd.duplex ∧ dev2_found.link ≠ phy_fd.link ∧
      tx_occupancy dev2_found = 2 ∧
      (List.range TX_RING_SIZE).countP (fun i => (dev2_found.tx_skbuff i).isSome) = 2 ∧
      ∃ s', fec_enet_adjust_link mx28 dev2_found = some s' ∧
        tx_occupancy s' = 0 ∧
        (∀ i, i < TX_RING_SIZE → s'.tx_skbuff i = none) ∧
        kfree_count s'.trace = kfree_count dev2_found.trace + 2 ∧
        s'.stats = dev2_found.stats ∧
        s'.stats.tx_errors = dev2_found.stats.tx_errors ∧
        s'.link = phy_fd.link ∧ s'.full_duplex = phy_fd.duplex) :=
  ⟨⟨rfl, by decide, by decide, by decide, by decide, by decide, by decide,
    adjust_link_two_in_flight mx28 dev2_fd phy_fd rfl (by decide) (by decide) (by decide)
      (by decide) (by decide)⟩,
   ⟨rfl, by decide, by decide, by decide, by decide,
    adjust_link_two_in_flight mx28 dev2_found phy_fd rfl (by decide) (by decide) (by decide)
      (by decide) (by decide)⟩⟩

end Fec

namespace Fec

/-! ## Completion statistics -/

/-- Every pass of the drain loop adds one to `tx_packets + tx_errors` and
makes one call of `dev_kfree_skb_any`. -/
theorem tx_loop_count (K : Params) :
    ∀ (fuel : Nat) (s : State) (bdp : Nat) (s' : State),
      fec_enet_tx_loop K fuel s bdp = some s' →
      s'.stats.tx_packets + s'.stats.tx_errors + kfree_count s.trace
        = s.stats.tx_packets + s.stats.tx_errors + kfree_count s'.trace ∧
      kfree_count s.trace ≤ kfree_count s'.trace := by
  intro fuel
  induction fuel with
  | zero => intro s bdp s' hrun; simp [fec_enet_tx_loop] at hrun
  | succ fuel ih =>
    intro s bdp s' hrun
    unfold fec_enet_tx_loop at hrun
    by_cases hrd : (s.tx_bd bdp).cbd_sc &&& K.BD_ENET_TX_READY ≠ 0
    · rw [if_pos hrd] at hrun; cases hrun; exact ⟨rfl, Nat.le_refl _⟩
    · rw [if_neg hrd] at hrun
      by_cases hb : bdp = s.cur_tx ∧ s.tx_full = 0
      · rw [if_pos hb] at hrun; cases hrun; exact ⟨rfl, Nat.le_refl _⟩
      · rw [if_neg hb] at hrun
        obtain ⟨h1, h2⟩ := ih _ _ _ hrun
        obtain ⟨_, _, _, _, _, htr, hst⟩ := fec_enet_tx_one_fields K s bdp
        rw [htr, kfree_count_append_kfree] at h1 h2
        rw [hst] at h1
        have := tx_stats_sum K s.stats (s.tx_bd bdp).cbd_sc
        constructor <;> omega

theorem xmit_ring_ok {K : Params} (hK : K.TxMasks) {s : State}
    (hr : TxRingOk K s s.dirty_tx) (skb : SkBuff) :
    TxRingOk K (fec_enet_start_xmit K s skb).2 (fec_enet_start_xmit K s skb).2.dirty_tx ∧
    (fec_enet_start_xmit K s skb).2.stats.tx_packets = s.stats.tx_packets ∧
    (fec_enet_start_xmit K s skb).2.stats.tx_errors = s.stats.tx_errors := by
  unfold fec_enet_start_xmit
  by_cases hl : s.link = 0
  · rw [if_pos hl]; exact ⟨hr, rfl, rfl⟩
  · rw [if_neg hl]
    by_cases hrd : (s.tx_bd s.cur_tx).cbd_sc &&& K.BD_ENET_TX_READY ≠ 0
    · rw [if_pos hrd]; exact ⟨hr, rfl, rfl⟩
    · rw [if_neg hrd]
      obtain ⟨hbd, hcur, hdirty, _, _, _⟩ := xmit_enqueue_fields K s skb
      obtain ⟨_, _, _, _, _, he, hp, _⟩ := xmit_enqueue_more K s skb
      obtain ⟨hw, hc, hd⟩ := hr
      have hsw := xmit_status_wrap K hK s skb
      have hwc := hw s.cur_tx hc
      simp only [TX_RING_SIZE] at hw hc hd hwc
      refine ⟨⟨?_, ?_, ?_⟩, hp, he⟩
      · intro i hi
        simp only [TX_RING_SIZE] at hi ⊢
        show ((xmit_enqueue K s skb).tx_bd i).cbd_sc &&& K.BD_ENET_TX_WRAP ≠ 0 ↔ _
        rw [hbd]
        by_cases hic : i = s.cur_tx
        · subst hic
          rw [Function.update_same]
          show (xmit_status K s skb &&& K.BD_ENET_TX_WRAP ≠ 0 ↔ _)
          rw [hsw]; exact hwc
        · rw [Function.update_noteq hic]; exact hw i hi
      · show (xmit_enqueue K s skb).cur_tx < TX_RING_SIZE
        rw [hcur, xmit_next, hsw]
        simp only [TX_RING_SIZE]
        by_cases h15 : s.cur_tx = 15
        · rw [if_pos (hwc.2 h15)]; omega
        · rw [if_neg (fun e => h15 (hwc.1 e))]; omega
      · show (xmit_enqueue K s skb).dirty_tx < TX_RING_SIZE
        rw [hdirty]; exact hd

theorem hw_ring_ok {K : Params} (hK : K.TxMasks) {s : State}
    (hr : TxRingOk K s s.dirty_tx) (e : Nat) :
    TxRingOk K (hw_tx_complete K s e) (hw_tx_complete K s e).dirty_tx ∧
    (hw_tx_complete K s e).stats = s.stats := by
  unfold hw_tx_complete
  by_cases hrd : (s.tx_bd s.hw_tx).cbd_sc &&& K.BD_ENET_TX_READY ≠ 0
  · simp only [hrd, if_true, ne_eq, not_false_eq_true]
    refine ⟨⟨?_, hr.2.1, hr.2.2⟩, trivial⟩
    intro i hi
    by_cases hic : i = s.hw_tx
    · subst hic
      simp only [Function.update_same]
      rw [hw_status_wrap K hK]; exact hr.1 _ hi
    · simp only [Function.update_noteq hic]; exact hr.1 i hi
  · simp only [hrd, if_false]
    exact ⟨hr, trivial⟩

theorem restart_ring_ok {K : Params} {s : State} (hr : TxRingOk K s s.dirty_tx) (duplex : Nat) :
    TxRingOk K (fec_restart K s duplex) (fec_restart K s duplex).dirty_tx ∧
    (fec_restart K s duplex).stats = s.stats := by
  obtain ⟨r, h, t, f, p, e, _, _⟩ := fec_restart_shape K s duplex
  rw [e]
  exact ⟨⟨hr.1, by simp [TX_RING_SIZE], by simp [TX_RING_SIZE]⟩, rfl⟩

theorem tx_run_count (K : Params) (hK : K.TxMasks) :
    ∀ (evs : List TxEvent) (s : State), TxRingOk K s s.dirty_tx →
      ∃ s', tx_run K s evs = some s' ∧ TxRingOk K s' s'.dirty_tx ∧
        s'.stats.tx_packets + s'.stats.tx_errors
          = s.stats.tx_packets + s.stats.tx_errors + tx_reclaimed K s evs := by
  intro evs
  induction evs with
  | nil => intro s hr; exact ⟨s, rfl, hr, rfl⟩
  | cons ev rest ih =>
    intro s hr
    cases ev with
    | xmit skb =>
      obtain ⟨hr1, hp, he⟩ := xmit_ring_ok hK hr skb
      obtain ⟨s', hs', hr', hc⟩ := ih _ hr1
      refine ⟨s', by simp only [tx_run, tx_step]; exact hs', hr', ?_⟩
      simp only [tx_reclaimed, tx_step]
      rw [hc, hp, he]; omega
    | hw e =>
      obtain ⟨hr1, hst⟩ := hw_ring_ok hK hr e
      obtain ⟨s', hs', hr', hc⟩ := ih _ hr1
      refine ⟨s', by simp only [tx_run, tx_step]; exact hs', hr', ?_⟩
      simp only [tx_reclaimed, tx_step]
      rw [hc, hst]; omega
    | restart d =>
      obtain ⟨hr1, hst⟩ := restart_ring_ok hr d
      obtain ⟨s', hs', hr', hc⟩ := ih _ hr1
      refine ⟨s', by simp only [tx_run, tx_step]; exact hs', hr', ?_⟩
      simp only [tx_reclaimed, tx_step]
      rw [hc, hst]; omega
    | drain =>
      obtain ⟨s1, hs1, hr1⟩ := tx_loop_returns K s s.dirty_tx hr
      obtain ⟨hcnt, hle⟩ := tx_loop_count K TX_FUEL s s.dirty_tx s1 hs1
      obtain ⟨s', hs', hr', hc⟩ := ih _ hr1
      have hstep : tx_step K s TxEvent.drain = some s1 := hs1
      refine ⟨s', by simp only [tx_run, hstep]; exact hs', hr', ?_⟩
      simp only [tx_reclaimed, hstep]
      rw [hc]; omega

end Fec

namespace Fec

/-- In a run without restart the ring invariant follows the counts: `n`
grows by the number of accepted frames and `j` by the number of frames the
drains released. -/
theorem tx_run_inv (K : Params) (hK : K.TxMasks) :
    ∀ (evs : List TxEvent) (s : State) (n h j : Nat), TxInvAt K s n h j s.dirty_tx →
      (∀ ev, ev ∈ evs → ev.is_restart = false) →
      ∃ s' h', tx_run K s evs = some s' ∧
        TxInvAt K s' (n + tx_accepted K s evs) h' (j + tx_reclaimed K s evs) s'.dirty_tx := by
  intro evs
  induction evs with
  | nil => intro s n h j hi _; exact ⟨s, h, rfl, hi⟩
  | cons ev rest ih =>
    intro s n h j hi hnr
    have hrest : ∀ ev, ev ∈ rest → ev.is_restart = false :=
      fun e he => hnr e (List.mem_cons_of_mem _ he)
    cases ev with
    | xmit skb =>
      by_cases hrd : (s.tx_bd s.cur_tx).cbd_sc &&& K.BD_ENET_TX_READY ≠ 0
      · have hx : fec_enet_start_xmit K s skb = (NetdevTx.NETDEV_TX_BUSY, s) := by
          unfold fec_enet_start_xmit
          rw [if_neg hi.2.1, if_pos hrd]
        obtain ⟨s', h', hs', hi'⟩ := ih s n h j hi hrest
        refine ⟨s', h', by simp only [tx_run, tx_step, hx]; exact hs', ?_⟩
        simp only [tx_accepted, tx_reclaimed, tx_step, hx]
        simpa using hi'
      · have hr0 : (s.tx_bd s.cur_tx).cbd_sc &&& K.BD_ENET_TX_READY = 0 := by simpa using hrd
        have hx : fec_enet_start_xmit K s skb = (NetdevTx.NETDEV_TX_OK, xmit_enqueue K s skb) := by
          unfold fec_enet_start_xmit
          rw [if_neg hi.2.1, if_neg hrd]
        obtain ⟨s', h', hs', hi'⟩ := ih _ (n + 1) h j (hi.xmit_ok hK hr0 skb) hrest
        refine ⟨s', h', by simp only [tx_run, tx_step, hx]; exact hs', ?_⟩
        simp only [tx_accepted, tx_reclaimed, tx_step, hx]
        have e1 : n + (1 + tx_accepted K (xmit_enqueue K s skb) rest)
            = n + 1 + tx_accepted K (xmit_enqueue K s skb) rest := by omega
        simp only [if_true, Nat.zero_add, e1]
        exact hi'
    | hw e =>
      have hstep : ∃ h1, TxInvAt K (hw_tx_complete K s e) n h1 j (hw_tx_complete K s e).dirty_tx := by
        by_cases hlt : h < n
        · refine ⟨h + 1, ?_⟩
          rw [hw_tx_complete_dirty]; exact hi.hw_step hK hlt e
        · have h0 : (s.tx_bd s.hw_tx).cbd_sc &&& K.BD_ENET_TX_READY = 0 := by
            by_contra hne; exact hlt (hi.ready_hw.1 hne)
          rw [hw_tx_complete_idle K s e h0]
          exact ⟨h, hi⟩
      obtain ⟨h1, hi1⟩ := hstep
      obtain ⟨s', h', hs', hi'⟩ := ih _ n h1 j hi1 hrest
      refine ⟨s', h', by simp only [tx_run, tx_step]; exact hs', ?_⟩
      simp only [tx_accepted, tx_reclaimed, tx_step]
      simpa using hi'
    | restart d =>
      have := hnr (TxEvent.restart d) (List.mem_cons_self _ _)
      simp [TxEvent.is_restart] at this
    | drain =>
      obtain ⟨s1, hs1, _⟩ := tx_loop_returns K s s.dirty_tx hi.ring_ok
      obtain ⟨j1, hj1, hi1, hk⟩ := tx_loop_inv K n h TX_FUEL s s.dirty_tx j s1 hi hs1
      have hstep : tx_step K s TxEvent.drain = some s1 := hs1
      obtain ⟨s', h', hs', hi'⟩ := ih _ n h j1 hi1 hrest
      refine ⟨s', h', by simp only [tx_run, hstep]; exact hs', ?_⟩
      simp only [tx_accepted, tx_reclaimed, hstep]
      have e1 : kfree_count s1.trace - kfree_count s.trace = j1 - j := by omega
      have e2 : j + (j1 - j + tx_reclaimed K s1 rest) = j1 + tx_reclaimed K s1 rest := by omega
      simp only [e1, e2, Nat.zero_add]
      exact hi'

end Fec

namespace Fec

/-! ## Receive drain -/

theorem delivered_append (t u : List Call) : delivered (t ++ u) = delivered t ++ delivered u := by
  simp [delivered, List.filterMap_append]

theorem rx_rearm_empty (K : Params) (hK : K.BD_ENET_RX_EMPTY ≠ 0) (status : Nat) :
    rx_rearm K status &&& K.BD_ENET_RX_EMPTY ≠ 0 :=
  or_and_ne_zero _ hK

/-- The four ways the part of a receive pass before `rx_processing_done` can
return, and the one way it does not. -/
theorem rx_process_cases (K : Params) (s : State) (bdp : Nat) :
    (s.opened = 0 ∧ rx_process K s bdp = some s) ∨
    (s.opened ≠ 0 ∧ (s.rx_bd bdp).cbd_sc &&& K.BD_ENET_RX_CL ≠ 0 ∧
      rx_process K s bdp = some
        { s with stats := { rx_err_stats K s.stats (s.rx_bd bdp).cbd_sc with
            rx_errors := (rx_err_stats K s.stats (s.rx_bd bdp).cbd_sc).rx_errors + 1
            rx_frame_errors :=
              (rx_err_stats K s.stats (s.rx_bd bdp).cbd_sc).rx_frame_errors + 1 } }) ∨
    (s.opened ≠ 0 ∧ (s.rx_bd bdp).cbd_sc &&& K.BD_ENET_RX_CL = 0 ∧
      s.alloc_fails.headD false = true ∧
      rx_process K s bdp = some
        { s with
          stats := { rx_err_stats K s.stats (s.rx_bd bdp).cbd_sc with
            rx_packets := (rx_err_stats K s.stats (s.rx_bd bdp).cbd_sc).rx_packets + 1
            rx_bytes := (rx_err_stats K s.stats (s.rx_bd bdp).cbd_sc).rx_bytes
              + (s.rx_bd bdp).cbd_datlen
            rx_dropped := (rx_err_stats K s.stats (s.rx_bd bdp).cbd_sc).rx_dropped + 1 }
          rx_buf := Function.update s.rx_buf bdp (rx_data K s bdp)
          alloc_fails := s.alloc_fails.tail }) ∨
    (s.opened ≠ 0 ∧ (s.rx_bd bdp).cbd_sc &&& K.BD_ENET_RX_CL = 0 ∧
      s.alloc_fails.headD false = false ∧ 4 ≤ (s.rx_bd bdp).cbd_datlen ∧
      rx_process K s bdp = some
        { s with
          stats := { rx_err_stats K s.stats (s.rx_bd bdp).cbd_sc with
            rx_packets := (rx_err_stats K s.stats (s.rx_bd bdp).cbd_sc).rx_packets + 1
            rx_bytes := (rx_err_stats K s.stats (s.rx_bd bdp).cbd_sc).rx_bytes
              + (s.rx_bd bdp).cbd_datlen }
          rx_buf := Function.update s.rx_buf bdp (rx_data K s bdp)
          alloc_fails := s.alloc_fails.tail
          trace := s.trace ++ [Call.netif_rx bdp (rx_frame K s bdp)] }) ∨
    (s.opened ≠ 0 ∧ (s.rx_bd bdp).cbd_sc &&& K.BD_ENET_RX_CL = 0 ∧
      s.alloc_fails.headD false = false ∧ (s.rx_bd bdp).cbd_datlen < 4 ∧
      rx_process K s bdp = none) := by
  unfold rx_process
  by_cases ho : s.opened = 0
  · exact Or.inl ⟨ho, by rw [if_pos ho]⟩
  · by_cases hcl : (s.rx_bd bdp).cbd_sc &&& K.BD_ENET_RX_CL ≠ 0
    · refine Or.inr (Or.inl ⟨ho, hcl, ?_⟩)
      simp only [ho, hcl, if_true, if_false, ne_eq, not_false_eq_true]
    · have hcl0 : (s.rx_bd bdp).cbd_sc &&& K.BD_ENET_RX_CL = 0 := by simpa using hcl
      by_cases ha : s.alloc_fails.headD false = true
      · refine Or.inr (Or.inr (Or.inl ⟨ho, hcl0, ha, ?_⟩))
        simp only [ho, hcl, if_false, fec_enet_rx_frame, ha, if_true]
        rfl
      · have ha' : s.alloc_fails.headD false = false := by simpa using ha
        by_cases hl : (s.rx_bd bdp).cbd_datlen < 4
        · refine Or.inr (Or.inr (Or.inr (Or.inr ⟨ho, hcl0, ha', hl, ?_⟩)))
          simp only [ho, hcl, if_false, fec_enet_rx_frame, ha', Bool.false_eq_true, hl, if_true]
        · refine Or.inr (Or.inr (Or.inr (Or.inl ⟨ho, hcl0, ha', by omega, ?_⟩)))
          simp only [ho, hcl, if_false, fec_enet_rx_frame, ha', Bool.false_eq_true, hl]
          rfl

/-- A receive pass does not return exactly when the frame would be handed up
(device opened, no late collision, allocation succeeding) and the length in
the descriptor is below 4. -/
theorem fec_enet_rx_one_none (K : Params) (s : State) (bdp : Nat) :
    fec_enet_rx_one K s bdp = none ↔
      (s.opened ≠ 0 ∧ (s.rx_bd bdp).cbd_sc &&& K.BD_ENET_RX_CL = 0 ∧
        s.alloc_fails.headD false = false ∧ (s.rx_bd bdp).cbd_datlen < 4) := by
  unfold fec_enet_rx_one
  rw [Option.map_eq_none']
  rcases rx_process_cases K s bdp with ⟨h1, h⟩ | ⟨h1, h2, h⟩ | ⟨h1, h2, h3, h⟩ |
    ⟨h1, h2, h3, h4, h⟩ | ⟨h1, h2, h3, h4, h⟩
  · rw [h]
    exact ⟨(fun e => nomatch e), fun ⟨a, _, _, _⟩ => absurd h1 a⟩
  · rw [h]
    exact ⟨(fun e => nomatch e), fun ⟨_, b, _, _⟩ => absurd b h2⟩
  · rw [h]
    exact ⟨(fun e => nomatch e), fun ⟨_, _, c, _⟩ => by rw [h3] at c; cases c⟩
  · rw [h]
    exact ⟨(fun e => nomatch e), fun ⟨_, _, _, d⟩ => by omega⟩
  · rw [h]
    exact ⟨fun _ => ⟨h1, h2, h3, h4⟩, fun _ => rfl⟩

/-- A receive pass returns when the length in the descriptor is at least 4. -/
theorem fec_enet_rx_one_some (K : Params) (s : State) (bdp : Nat)
    (h : s.opened ≠ 0 → (s.rx_bd bdp).cbd_sc &&& K.BD_ENET_RX_CL = 0 →
      s.alloc_fails.headD false = false → 4 ≤ (s.rx_bd bdp).cbd_datlen) :
    ∃ s1, fec_enet_rx_one K s bdp = some s1 := by
  cases hn : fec_enet_rx_one K s bdp with
  | some s1 => exact ⟨s1, rfl⟩
  | none =>
    obtain ⟨a, b, c, d⟩ := (fec_enet_rx_one_none K s bdp).1 hn
    have := h a b c
    omega

/-- What one pass of the receive loop that returns does to the status words,
to the list of frames handed up, and to the frame counters. -/
theorem fec_enet_rx_one_fields (K : Params) (s : State) (bdp : Nat) (s1 : State)
    (h1 : fec_enet_rx_one K s bdp = some s1) :
    (∀ i, (s1.rx_bd i).cbd_sc
      = if i = bdp then rx_rearm K (s.rx_bd bdp).cbd_sc else (s.rx_bd i).cbd_sc) ∧
    delivered s1.trace
      = delivered s.trace ++
        (if s.opened ≠ 0 ∧ (s.rx_bd bdp).cbd_sc &&& K.BD_ENET_RX_CL = 0 ∧
            s.alloc_fails.headD false = false
          then [(bdp, rx_frame K s bdp)] else []) ∧
    ((s.rx_bd bdp).cbd_sc &&& K.BD_ENET_RX_CL ≠ 0 →
      s1.stats.rx_packets = s.stats.rx_packets ∧
      s1.stats.rx_bytes = s.stats.rx_bytes) := by
  have hsc : ∀ (f : Nat → Bufdesc) (d : Bufdesc) (v : Nat) (i : Nat), d.cbd_sc = v →
      ((Function.update f bdp d) i).cbd_sc = if i = bdp then v else (f i).cbd_sc := by
    intro f d v i hd
    by_cases hi : i = bdp
    · subst hi; rw [Function.update_same, if_pos rfl, hd]
    · rw [Function.update_noteq hi, if_neg hi]
  have hstat : (rx_err_stats K s.stats (s.rx_bd bdp).cbd_sc).rx_packets = s.stats.rx_packets ∧
      (rx_err_stats K s.stats (s.rx_bd bdp).cbd_sc).rx_bytes = s.stats.rx_bytes := by
    unfold rx_err_stats
    split <;> exact ⟨rfl, rfl⟩
  unfold fec_enet_rx_one at h1
  rcases rx_process_cases K s bdp with ⟨ho, h⟩ | ⟨ho, hcl, h⟩ | ⟨ho, hcl, ha, h⟩ |
    ⟨ho, hcl, ha, hl, h⟩ | ⟨ho, hcl, ha, hl, h⟩
  · rw [h, Option.map_some'] at h1
    cases h1
    simp only [rx_processing_done, writel]
    refine ⟨?_, ?_, ?_⟩
    · intro i
      apply hsc
      cases K.CONFIG_ENHANCED_BD <;> rfl
    · rw [if_neg (fun hc => hc.1 ho)]
      simp [delivered_append, delivered]
    · intro _; constructor <;> first | rfl | trivial
  · rw [h, Option.map_some'] at h1
    cases h1
    simp only [rx_processing_done, writel]
    refine ⟨?_, ?_, ?_⟩
    · intro i
      apply hsc
      cases K.CONFIG_ENHANCED_BD <;> rfl
    · rw [if_neg (fun hc => hcl hc.2.1)]
      simp [delivered_append, delivered]
    · intro _; exact hstat
  · rw [h, Option.map_some'] at h1
    cases h1
    simp only [rx_processing_done, writel]
    refine ⟨?_, ?_, ?_⟩
    · intro i
      apply hsc
      cases K.CONFIG_ENHANCED_BD <;> rfl
    · rw [if_neg (fun hc => by rw [ha] at hc; cases hc.2.2)]
      simp [delivered_append, delivered]
    · intro hc; exact absurd hcl hc
  · rw [h, Option.map_some'] at h1
    cases h1
    simp only [rx_processing_done, writel]
    refine ⟨?_, ?_, ?_⟩
    · intro i
      apply hsc
      cases K.CONFIG_ENHANCED_BD <;> rfl
    · rw [if_pos ⟨ho, hcl, ha⟩]
      simp [delivered_append, delivered]
    · intro hc; exact absurd hcl hc
  · rw [h] at h1
    cases h1

end Fec

namespace Fec

/-- The frames a receive drain hands up come from descriptors that were
released and had no late collision when the drain began. -/
theorem rx_loop_deliveries (K : Params) (hK : K.BD_ENET_RX_EMPTY ≠ 0) (s0 : State) :
    ∀ (fuel : Nat) (s : State) (bdp : Nat) (s' : State),
      (∀ i, (s.rx_bd i).cbd_sc = (s0.rx_bd i).cbd_sc ∨
        (s.rx_bd i).cbd_sc &&& K.BD_ENET_RX_EMPTY ≠ 0) →
      fec_enet_rx_loop K fuel s bdp = some s' →
      ∃ new, delivered s'.trace = delivered s.trace ++ new ∧
        ∀ p, p ∈ new → (s0.rx_bd p.1).cbd_sc &&& K.BD_ENET_RX_EMPTY = 0 ∧
          (s0.rx_bd p.1).cbd_sc &&& K.BD_ENET_RX_CL = 0 := by
  intro fuel
  induction fuel with
  | zero => intro s bdp s' _ hrun; simp [fec_enet_rx_loop] at hrun
  | succ fuel ih =>
    intro s bdp s' hinv hrun
    unfold fec_enet_rx_loop at hrun
    by_cases he : (s.rx_bd bdp).cbd_sc &&& K.BD_ENET_RX_EMPTY ≠ 0
    · rw [if_pos he] at hrun
      cases hrun
      exact ⟨[], by simp, fun p hp => absurd hp (List.not_mem_nil p)⟩
    · rw [if_neg he] at hrun
      have he0 : (s.rx_bd bdp).cbd_sc &&& K.BD_ENET_RX_EMPTY = 0 := by simpa using he
      have hsame : (s.rx_bd bdp).cbd_sc = (s0.rx_bd bdp).cbd_sc := by
        rcases hinv bdp with h | h
        · exact h
        · exact absurd h he
      cases h1 : fec_enet_rx_one K s bdp with
      | none => rw [h1] at hrun; cases hrun
      | some s1 =>
      rw [h1] at hrun
      obtain ⟨hsc, hdel, _⟩ := fec_enet_rx_one_fields K s bdp s1 h1
      have hinv' : ∀ i, (s1.rx_bd i).cbd_sc = (s0.rx_bd i).cbd_sc ∨
          (s1.rx_bd i).cbd_sc &&& K.BD_ENET_RX_EMPTY ≠ 0 := by
        intro i
        rw [hsc i]
        by_cases hi : i = bdp
        · rw [if_pos hi]; exact Or.inr (rx_rearm_empty K hK _)
        · rw [if_neg hi]; exact hinv i
      obtain ⟨new, hnew, hall⟩ := ih _ _ _ hinv' hrun
      refine ⟨(if s.opened ≠ 0 ∧ (s.rx_bd bdp).cbd_sc &&& K.BD_ENET_RX_CL = 0 ∧
            s.alloc_fails.headD false = false
          then [(bdp, rx_frame K s bdp)] else []) ++ new,
        by rw [hnew, hdel, List.append_assoc], ?_⟩
      intro p hp
      rcases List.mem_append.1 hp with h1 | h2
      · by_cases hc : s.opened ≠ 0 ∧ (s.rx_bd bdp).cbd_sc &&& K.BD_ENET_RX_CL = 0 ∧
            s.alloc_fails.headD false = false
        · rw [if_pos hc] at h1
          have hp1 : p = (bdp, rx_frame K s bdp) := by simpa using h1
          subst hp1
          exact ⟨by rw [← hsame]; exact he0, by rw [← hsame]; exact hc.2.1⟩
        · rw [if_neg hc] at h1
          exact absurd h1 (List.not_mem_nil p)
      · exact hall p h2

/-- C9: `fec_enet_rx` never hands up a frame flagged late-collision.  For a
descriptor with `BD_ENET_RX_CL` set, one pass of the receive loop returns,
calls `netif_rx` for nothing, leaves `rx_packets` and `rx_bytes` unchanged and
re-arms the slot with `BD_ENET_RX_EMPTY` set; and every frame a whole drain
hands up comes from a descriptor that was released and had `BD_ENET_RX_CL`
clear when the drain began. -/
theorem rx_never_delivers_late_collision (K : Params) (hK : K.BD_ENET_RX_EMPTY ≠ 0)
    (s : State) (bdp fuel : Nat) (s' : State) :
    ((s.rx_bd bdp).cbd_sc &&& K.BD_ENET_RX_CL ≠ 0 →
      ∃ s1, fec_enet_rx_one K s bdp = some s1 ∧
        delivered s1.trace = delivered s.trace ∧
        s1.stats.rx_packets = s.stats.rx_packets ∧
        s1.stats.rx_bytes = s.stats.rx_bytes ∧
        (s1.rx_bd bdp).cbd_sc &&& K.BD_ENET_RX_EMPTY ≠ 0) ∧
    (fec_enet_rx K fuel s = some s' →
      ∃ new, delivered s'.trace = delivered s.trace ++ new ∧
        ∀ p, p ∈ new → (s.rx_bd p.1).cbd_sc &&& K.BD_ENET_RX_EMPTY = 0 ∧
          (s.rx_bd p.1).cbd_sc &&& K.BD_ENET_RX_CL = 0) := by
  constructor
  · intro hcl
    obtain ⟨s1, h1⟩ := fec_enet_rx_one_some K s bdp (fun _ h => absurd h hcl)
    obtain ⟨hsc, hdel, hst⟩ := fec_enet_rx_one_fields K s bdp s1 h1
    refine ⟨s1, h1, ?_, (hst hcl).1, (hst hcl).2, ?_⟩
    · rw [hdel, if_neg (fun h => hcl h.2.1), List.append_nil]
    · rw [hsc bdp, if_pos rfl]; exact rx_rearm_empty K hK _
  · intro hrun
    exact rx_loop_deliveries K hK s fuel s s.cur_rx s' (fun _ => Or.inl rfl) hrun

theorem rx_never_delivers_late_collision_witness :
    mx28.BD_ENET_RX_EMPTY ≠ 0 ∧
    (dev_rx_cl.rx_bd 0).cbd_sc &&& mx28.BD_ENET_RX_CL ≠ 0 ∧
    fec_enet_rx mx28 3 dev_rx_cl = some dev_rx_cl_done ∧
    (∃ s1, fec_enet_rx_one mx28 dev_rx_cl 0 = some s1 ∧
      delivered s1.trace = delivered dev_rx_cl.trace ∧
      s1.stats.rx_packets = dev_rx_cl.stats.rx_packets ∧
      s1.stats.rx_bytes = dev_rx_cl.stats.rx_bytes ∧
      (s1.rx_bd 0).cbd_sc &&& mx28.BD_ENET_RX_EMPTY ≠ 0) ∧
    (∃ new, delivered dev_rx_cl_done.trace = delivered dev_rx_cl.trace ++ new ∧
        ∀ p, p ∈ new → (dev_rx_cl.rx_bd p.1).cbd_sc &&& mx28.BD_ENET_RX_EMPTY = 0 ∧
          (dev_rx_cl.rx_bd p.1).cbd_sc &&& mx28.BD_ENET_RX_CL = 0) ∧
    (delivered dev_rx_cl_done.trace).map Prod.fst = [1] :=
  ⟨by decide, by decide, rfl,
   (rx_never_delivers_late_collision mx28 (by decide) dev_rx_cl 0 3 dev_rx_cl_done).1 (by decide),
   (rx_never_delivers_late_collision mx28 (by decide) dev_rx_cl 0 3 dev_rx_cl_done).2 rfl,
   by decide⟩

end Fec

namespace Fec

/-! ## PHY notifications -/

theorem writes_to_append (r : FecReg) (t u : List Call) :
    writes_to r (t ++ u) = writes_to r t ++ writes_to r u := by
  simp [writes_to, List.filterMap_append]

theorem writes_to_kfree (r : FecReg) (skb : Option SkBuff) :
    writes_to r [Call.dev_kfree_skb_any skb] = [] := rfl

theorem writes_to_writel (r r' : FecReg) (v : Nat) :
    writes_to r [Call.writel v r'] = if r' = r then [v] else [] := by
  by_cases h : r' = r <;> simp [writes_to, h]

theorem testBit_ffffffff (i : Nat) : (0xFFFFFFFF : Nat).testBit i = decide (i < 32) := by
  have h : (0xFFFFFFFF : Nat) = 2 ^ 32 - 1 := by norm_num
  rw [h, Nat.testBit_two_pow_sub_one]

theorem clear_bits32_and_two (x m : Nat) (hm : 2 &&& m = 0) : clear_bits32 x m &&& 2 = x &&& 2 := by
  apply Nat.eq_of_testBit_eq
  intro i
  simp only [clear_bits32, Nat.testBit_and, Nat.testBit_xor, testBit_ffffffff]
  cases hwi : (2 : Nat).testBit i
  · simp
  · have h2 := and_disjoint_testBit hm i hwi
    have h1 : i < 32 := by
      by_contra hge
      have hlt : (2 : Nat) < 2 ^ i :=
        lt_of_lt_of_le (by norm_num : (2 : Nat) < 2 ^ 32)
          (Nat.pow_le_pow_right (by norm_num) (Nat.le_of_not_lt hge))
      rw [Nat.testBit_lt_two_pow hlt] at hwi
      exact Bool.noConfusion hwi
    simp [h1, h2]

/-- C15: a repeated or out-of-order PHY notification is a no-op.  When the
reported link equals `fep->link`, and the link is down or the reported duplex
equals `fep->full_duplex`, and the halted-after-timeout condition does not
hold, `fec_enet_adjust_link` returns the device exactly as it was: neither
`fec_restart` nor `fec_stop` runs, and link state, duplex, cursors,
descriptors, retained frames, statistics and the trace of outside calls are
unchanged. -/
theorem adjust_link_noop (K : Params) (s : State) (phy : PhyDevice)
    (hphy : s.phy_dev = some phy) (hl : phy.link = s.link)
    (hd : s.link = 0 ∨ phy.duplex = s.full_duplex)
    (hnh : ¬ (s.mii_timeout ≠ 0 ∧ phy.state = PhyState.PHY_HALTED)) :
    fec_enet_adjust_link K s = some s := by
  unfold fec_enet_adjust_link
  rw [hphy]
  have h1 : ¬ (phy.link ≠ 0 ∧ s.full_duplex ≠ phy.duplex) := by
    rintro ⟨ha, hb⟩
    rcases hd with h | h
    · exact ha (hl.trans h)
    · exact hb h.symm
  simp only [if_neg hnh, if_neg h1]
  rw [if_neg (fun h => h hl)]

theorem adjust_link_noop_witness :
    dev0.phy_dev = some { link := 1, duplex := 0, speed := 100, state := PhyState.PHY_RUNNING } ∧
    (1 : Nat) = dev0.link ∧ (dev0.link = 0 ∨ (0 : Nat) = dev0.full_duplex) ∧
    fec_enet_adjust_link mx28 dev0 = some dev0 :=
  ⟨rfl, rfl, Or.inr rfl,
   adjust_link_noop mx28 dev0
     { link := 1, duplex := 0, speed := 100, state := PhyState.PHY_RUNNING } rfl rfl (Or.inr rfl)
     (by decide)⟩

/-- C13: on a link-establish notification while the link state is down,
with the halted-after-timeout condition not holding, `fec_enet_adjust_link`
records the reported link, runs `fec_restart` with the reported duplex and
leaves the queue running: afterwards `fep->link` is the reported link (1),
`fep->full_duplex` the reported duplex, the cursors of both rings are at the
base, and the queue is not stopped. -/
theorem adjust_link_up (K : Params) (s : State) (phy : PhyDevice)
    (hphy : s.phy_dev = some phy) (hup : phy.link ≠ 0) (hdown : s.link = 0)
    (hnh : ¬ (s.mii_timeout ≠ 0 ∧ phy.state = PhyState.PHY_HALTED)) :
    ∃ s' s1, fec_enet_adjust_link K s = some s' ∧
      (s1 = s ∨ s1 = fec_restart K s phy.duplex) ∧
      s' = { fec_restart K { s1 with link := phy.link } phy.duplex with queue_stopped := false } ∧
      s'.link = phy.link ∧ s'.full_duplex = phy.duplex ∧
      s'.cur_tx = 0 ∧ s'.dirty_tx = 0 ∧ s'.cur_rx = 0 ∧ s'.queue_stopped = false := by
  have key : ∀ s1 : State, s1.link = 0 →
      ∃ s', (if phy.link ≠ s1.link then
          (let s2 : State := { s1 with link := phy.link }
           if phy.link ≠ 0 then
            let s3 := fec_restart K s2 phy.duplex
            some (if netif_queue_stopped s3 then netif_wake_queue (netif_start_queue s3) else s3)
           else some (fec_stop K s2))
        else some s1) = some s' ∧
        s' = { fec_restart K { s1 with link := phy.link } phy.duplex with queue_stopped := false } ∧
        s'.link = phy.link ∧ s'.full_duplex = phy.duplex ∧
        s'.cur_tx = 0 ∧ s'.dirty_tx = 0 ∧ s'.cur_rx = 0 ∧ s'.queue_stopped = false := by
    intro s1 h0
    have hne : phy.link ≠ s1.link := by rw [h0]; exact hup
    obtain ⟨r, h, t, f, p, e, _, _⟩ := fec_restart_shape K { s1 with link := phy.link } phy.duplex
    simp only [if_pos hne, if_pos hup, netif_queue_stopped, netif_wake_queue, netif_start_queue]
    rw [e]
    by_cases hq : s1.queue_stopped = true
    · simp only [hq, if_true]
      exact ⟨_, rfl, rfl, rfl, rfl, rfl, rfl, rfl, rfl⟩
    · have hq' : s1.queue_stopped = false := by simpa using hq
      simp only [hq', Bool.false_eq_true, if_false]
      exact ⟨_, rfl, rfl, rfl, rfl, rfl, rfl, rfl, rfl⟩
  unfold fec_enet_adjust_link
  rw [hphy]
  simp only [if_neg hnh]
  by_cases hd : phy.link ≠ 0 ∧ s.full_duplex ≠ phy.duplex
  · have h0 : (fec_restart K s phy.duplex).link = 0 := by
      obtain ⟨r, h, t, f, p, e, _, _⟩ := fec_restart_shape K s phy.duplex
      rw [e]; exact hdown
    obtain ⟨s', hs', rest⟩ := key (fec_restart K s phy.duplex) h0
    refine ⟨s', fec_restart K s phy.duplex, ?_, Or.inr rfl, rest⟩
    simp only [if_pos hd]
    exact hs'
  · obtain ⟨s', hs', rest⟩ := key s hdown
    refine ⟨s', s, ?_, Or.inl rfl, rest⟩
    simp only [if_neg hd]
    exact hs'

theorem adjust_link_up_witness :
    dev_link_found.phy_dev = some phy_fd ∧ phy_fd.link ≠ 0 ∧ dev_link_found.link = 0 ∧
    ¬ (dev_link_found.mii_timeout ≠ 0 ∧ phy_fd.state = PhyState.PHY_HALTED) ∧
    ∃ s' s1, fec_enet_adjust_link mx28 dev_link_found = some s' ∧
      (s1 = dev_link_found ∨ s1 = fec_restart mx28 dev_link_found phy_fd.duplex) ∧
      s' = { fec_restart mx28 { s1 with link := phy_fd.link } phy_fd.duplex
             with queue_stopped := false } ∧
      s'.link = phy_fd.link ∧ s'.full_duplex = phy_fd.duplex ∧
      s'.cur_tx = 0 ∧ s'.dirty_tx = 0 ∧ s'.cur_rx = 0 ∧ s'.queue_stopped = false :=
  ⟨rfl, by decide, rfl, by decide,
   adjust_link_up mx28 dev_link_found phy_fd rfl (by decide) rfl (by decide)⟩

end Fec

namespace Fec

theorem writes_to_writel_state (r r' : FecReg) (x : State) (v : Nat) :
    writes_to r (writel x v r').trace = writes_to r x.trace ++ (if r' = r then [v] else []) := by
  unfold writel
  simp only [writes_to_append, writes_to_writel]

theorem restart_free_fold_writes (r : FecReg) (l : List Nat) :
    ∀ s : State, writes_to r (l.foldl restart_free_skb s).trace = writes_to r s.trace := by
  induction l with
  | nil => intro s; rfl
  | cons k rest ih =>
    intro s
    rw [List.foldl_cons, ih, restart_free_skb_shape]
    cases s.tx_skbuff k with
    | none => simp
    | some skb => simp [writes_to_append, writes_to_kfree]

theorem restart_head_writes (K : Params) (s : State) :
    writes_to FecReg.FEC_X_CNTRL (restart_head K s).trace = writes_to FecReg.FEC_X_CNTRL s.trace ∧
    writes_to FecReg.FEC_R_CNTRL (restart_head K s).trace = writes_to FecReg.FEC_R_CNTRL s.trace := by
  unfold restart_head
  cases K.CONFIG_M5272 <;> simp [writes_to_writel_state]

theorem restart_rings_writes (r : FecReg) (s : State) :
    writes_to r (restart_rings s).trace = writes_to r s.trace := by
  unfold restart_rings
  rw [restart_free_fold_writes]

theorem restart_duplex_writes (K : Params) (s : State) (duplex : Nat) :
    writes_to FecReg.FEC_X_CNTRL (restart_duplex K s duplex).trace
      = writes_to FecReg.FEC_X_CNTRL s.trace ++ [if duplex ≠ 0 then 0x04 else 0x0] ∧
    writes_to FecReg.FEC_R_CNTRL (restart_duplex K s duplex).trace
      = writes_to FecReg.FEC_R_CNTRL s.trace
        ++ [OPT_FRAME_SIZE K ||| (if duplex ≠ 0 then 0x04 else 0x06)] ∧
    (restart_duplex K s duplex).regs FecReg.FEC_R_CNTRL
      = OPT_FRAME_SIZE K ||| (if duplex ≠ 0 then 0x04 else 0x06) := by
  unfold restart_duplex
  by_cases hd : duplex ≠ 0
  · simp [hd, writel, writes_to, List.filterMap_append]
  · simp [hd, writel, writes_to, List.filterMap_append]

/-- The value the MXS block of `fec_restart` writes to `FEC_R_CNTRL`. -/
theorem mxs_rcntrl_bit (x : Nat) (a b : Prop) [Decidable a] [Decidable b] :
    (if b then
        clear_bits32 (if a then x ||| (0x40000000 ||| 0x00000020) ||| 0x00000100
          else clear_bits32 (x ||| (0x40000000 ||| 0x00000020)) 0x00000100) 0x00000200
      else
        (if a then x ||| (0x40000000 ||| 0x00000020) ||| 0x00000100
          else clear_bits32 (x ||| (0x40000000 ||| 0x00000020)) 0x00000100) ||| 0x00000200) &&& 2
      = x &&& 2 := by
  have h1 : (2 : Nat) &&& 0x00000100 = 0 := by decide
  have h2 : (2 : Nat) &&& 0x00000200 = 0 := by decide
  have h3 : ((0x40000000 : Nat) ||| 0x00000020) &&& 2 = 0 := by decide
  have h4 : (0x00000100 : Nat) &&& 2 = 0 := by decide
  have h5 : (0x00000200 : Nat) &&& 2 = 0 := by decide
  by_cases hb : b <;> by_cases ha : a <;>
    simp only [hb, ha, if_true, if_false, and_or_distrib_r, clear_bits32_and_two _ _ h1,
      clear_bits32_and_two _ _ h2, h3, h4, h5, Nat.or_zero]

theorem restart_mxs_rcntrl_writes (s : State) :
    writes_to FecReg.FEC_X_CNTRL (restart_mxs_rcntrl s).trace
      = writes_to FecReg.FEC_X_CNTRL s.trace ∧
    ∃ v, writes_to FecReg.FEC_R_CNTRL (restart_mxs_rcntrl s).trace
        = writes_to FecReg.FEC_R_CNTRL s.trace ++ [v] ∧
      v &&& 2 = s.regs FecReg.FEC_R_CNTRL &&& 2 := by
  unfold restart_mxs_rcntrl
  dsimp only [readl]
  constructor
  · rw [writes_to_writel_state, if_neg (by decide), List.append_nil]
  · exact ⟨_, by rw [writes_to_writel_state, if_pos rfl], mxs_rcntrl_bit _ _ _⟩

theorem restart_miigsk_writes (s : State) :
    writes_to FecReg.FEC_X_CNTRL (restart_miigsk s).trace
      = writes_to FecReg.FEC_X_CNTRL s.trace ∧
    writes_to FecReg.FEC_R_CNTRL (restart_miigsk s).trace
      = writes_to FecReg.FEC_R_CNTRL s.trace := by
  unfold restart_miigsk
  split <;> simp [writes_to_writel_state]

theorem restart_tail_writes (K : Params) (s : State) :
    writes_to FecReg.FEC_X_CNTRL (restart_tail K s).trace
      = writes_to FecReg.FEC_X_CNTRL s.trace ∧
    ∃ vs, writes_to FecReg.FEC_R_CNTRL (restart_tail K s).trace
        = writes_to FecReg.FEC_R_CNTRL s.trace ++ vs ∧
      ∀ v, v ∈ vs → v &&& 2 = s.regs FecReg.FEC_R_CNTRL &&& 2 := by
  have hA : writes_to FecReg.FEC_X_CNTRL (if K.CONFIG_ARCH_MXS then restart_mxs_rcntrl s else s).trace
        = writes_to FecReg.FEC_X_CNTRL s.trace ∧
      ∃ vs, writes_to FecReg.FEC_R_CNTRL
            (if K.CONFIG_ARCH_MXS then restart_mxs_rcntrl s else s).trace
          = writes_to FecReg.FEC_R_CNTRL s.trace ++ vs ∧
        ∀ v, v ∈ vs → v &&& 2 = s.regs FecReg.FEC_R_CNTRL &&& 2 := by
    cases K.CONFIG_ARCH_MXS
    · exact ⟨rfl, [], by simp, fun v hv => absurd hv (List.not_mem_nil v)⟩
    · obtain ⟨h1, v, h2, h3⟩ := restart_mxs_rcntrl_writes s
      refine ⟨h1, [v], h2, ?_⟩
      intro w hw
      rw [List.mem_singleton.1 hw]; exact h3
  obtain ⟨hx, vs, hr, hvs⟩ := hA
  unfold restart_tail
  generalize (if K.CONFIG_ARCH_MXS then restart_mxs_rcntrl s else s) = s1 at hx hr ⊢
  have hB : ∀ x : State,
      writes_to FecReg.FEC_X_CNTRL (if K.HAVE_FEC_MIIGSK_ENR then restart_miigsk x else x).trace
        = writes_to FecReg.FEC_X_CNTRL x.trace ∧
      writes_to FecReg.FEC_R_CNTRL (if K.HAVE_FEC_MIIGSK_ENR then restart_miigsk x else x).trace
        = writes_to FecReg.FEC_R_CNTRL x.trace := by
    intro x
    cases K.HAVE_FEC_MIIGSK_ENR
    · exact ⟨rfl, rfl⟩
    · exact restart_miigsk_writes x
  have hC : ∀ (r : FecReg) (P : Prop) [Decidable P] (x : State),
      writes_to r (if P then { x with ptimer_present := 0 } else x).trace
        = writes_to r x.trace := by
    intro r P _ x
    split <;> rfl
  refine ⟨?_, vs, ?_, hvs⟩
  · dsimp only
    rw [writes_to_writel_state, writes_to_writel_state, writes_to_writel_state, (hB _).1, hC,
      writes_to_writel_state, hx]
    simp
  · dsimp only
    rw [writes_to_writel_state, writes_to_writel_state, writes_to_writel_state, (hB _).2, hC,
      writes_to_writel_state, hr]
    simp

/-- The writes `fec_restart` makes to the two duplex-dependent registers. -/
theorem fec_restart_writes (K : Params) (s : State) (duplex : Nat) :
    writes_to FecReg.FEC_X_CNTRL (fec_restart K s duplex).trace
      = writes_to FecReg.FEC_X_CNTRL s.trace ++ [if duplex ≠ 0 then 0x04 else 0x0] ∧
    ∃ vs, writes_to FecReg.FEC_R_CNTRL (fec_restart K s duplex).trace
        = writes_to FecReg.FEC_R_CNTRL s.trace ++ vs ∧ vs ≠ [] ∧
      ∀ v, v ∈ vs → v &&& 2 = (if duplex ≠ 0 then 0 else 2) := by
  obtain ⟨a1, a2⟩ := restart_head_writes K s
  have b1 := restart_rings_writes FecReg.FEC_X_CNTRL (restart_head K s)
  have b2 := restart_rings_writes FecReg.FEC_R_CNTRL (restart_head K s)
  obtain ⟨c1, c2, c3⟩ := restart_duplex_writes K (restart_rings (restart_head K s)) duplex
  obtain ⟨d1, vs, d2, d3⟩ :=
    restart_tail_writes K (restart_duplex K (restart_rings (restart_head K s)) duplex)
  have hbit : (OPT_FRAME_SIZE K ||| (if duplex ≠ 0 then 0x04 else 0x06)) &&& 2
      = (if duplex ≠ 0 then 0 else 2) := by
    unfold OPT_FRAME_SIZE PKT_MAXBUF_SIZE
    split <;> split <;> decide
  unfold fec_restart
  refine ⟨by rw [d1, c1, b1, a1],
    (OPT_FRAME_SIZE K ||| (if duplex ≠ 0 then 0x04 else 0x06)) :: vs, ?_,
    List.cons_ne_nil _ _, ?_⟩
  · rw [d2, c2, b2, a2, List.append_assoc]; rfl
  · intro v hv
    rcases List.mem_cons.1 hv with h | h
    · rw [h]; exact hbit
    · rw [d3 v h, c3]; exact hbit

end Fec
namespace Fec

/-- C14: on a duplex change while the link stays up (the reported link is
up and equals `fep->link`, the reported duplex differs from
`fep->full_duplex`, no halted-after-timeout condition),
`fec_enet_adjust_link` runs `fec_restart` once with the reported duplex.
Afterwards `fep->full_duplex` is the reported duplex and `fep->link` is what
it was.  The call writes `FEC_X_CNTRL` once, `0x04` for full duplex and `0`
for half duplex, and every value it writes to `FEC_R_CNTRL` (there is at
least one) has bit `0x02` clear for full duplex and set for half duplex. -/
theorem adjust_link_duplex_change (K : Params) (s : State) (phy : PhyDevice)
    (hphy : s.phy_dev = some phy) (hup : phy.link ≠ 0) (hl : phy.link = s.link)
    (hdup : phy.duplex ≠ s.full_duplex)
    (hnh : ¬ (s.mii_timeout ≠ 0 ∧ phy.state = PhyState.PHY_HALTED)) :
    ∃ s', fec_enet_adjust_link K s = some s' ∧ s' = fec_restart K s phy.duplex ∧
      s'.full_duplex = phy.duplex ∧ s'.link = s.link ∧ s'.link ≠ 0 ∧
      writes_to FecReg.FEC_X_CNTRL s'.trace
        = writes_to FecReg.FEC_X_CNTRL s.trace ++ [if phy.duplex ≠ 0 then 0x04 else 0x0] ∧
      ∃ vs, writes_to FecReg.FEC_R_CNTRL s'.trace = writes_to FecReg.FEC_R_CNTRL s.trace ++ vs ∧
        vs ≠ [] ∧ ∀ v, v ∈ vs → v &&& 2 = (if phy.duplex ≠ 0 then 0 else 2) := by
  obtain ⟨r1, h1, t1, f1, p1, e1, _, _⟩ := fec_restart_shape K s phy.duplex
  have hlink : (fec_restart K s phy.duplex).link = s.link := by rw [e1]
  have hfd : (fec_restart K s phy.duplex).full_duplex = phy.duplex := by rw [e1]
  have hw := fec_restart_writes K s phy.duplex
  refine ⟨fec_restart K s phy.duplex, ?_, rfl, hfd, hlink, ?_, hw.1, hw.2⟩
  · unfold fec_enet_adjust_link
    rw [hphy]
    have hc : phy.link ≠ 0 ∧ s.full_duplex ≠ phy.duplex := ⟨hup, fun h => hdup h.symm⟩
    simp only [if_neg hnh, if_pos hc]
    rw [if_neg (fun h => h (hl.trans hlink.symm))]
  · rw [hlink, ← hl]; exact hup

theorem adjust_link_duplex_change_witness :
    dev0_fd.phy_dev = some phy_fd ∧ phy_fd.link ≠ 0 ∧ phy_fd.link = dev0_fd.link ∧
    phy_fd.duplex ≠ dev0_fd.full_duplex ∧
    ∃ s', fec_enet_adjust_link mx28 dev0_fd = some s' ∧ s' = fec_restart mx28 dev0_fd phy_fd.duplex ∧
      s'.full_duplex = phy_fd.duplex ∧ s'.link = dev0_fd.link ∧ s'.link ≠ 0 ∧
      writes_to FecReg.FEC_X_CNTRL s'.trace
        = writes_to FecReg.FEC_X_CNTRL dev0_fd.trace ++ [if phy_fd.duplex ≠ 0 then 0x04 else 0x0] ∧
      ∃ vs, writes_to FecReg.FEC_R_CNTRL s'.trace
          = writes_to FecReg.FEC_R_CNTRL dev0_fd.trace ++ vs ∧
        vs ≠ [] ∧ ∀ v, v ∈ vs → v &&& 2 = (if phy_fd.duplex ≠ 0 then 0 else 2) :=
  ⟨rfl, by decide, rfl, by decide,
   adjust_link_duplex_change mx28 dev0_fd phy_fd rfl (by decide) rfl (by decide) (by decide)⟩

end Fec
namespace Fec

end Fec
namespace Fec

/-! ## Receive errors and allocation failure -/

/-- What one pass of the receive loop does to `rx_errors` and `rx_dropped`. -/
theorem fec_enet_rx_one_errors (K : Params) (s : State) (bdp : Nat) (s1 : State)
    (h1 : fec_enet_rx_one K s bdp = some s1) :
    s1.stats.rx_errors
      = s.stats.rx_errors +
        (if s.opened ≠ 0 ∧ (s.rx_bd bdp).cbd_sc &&& (K.BD_ENET_RX_LG ||| K.BD_ENET_RX_SH
            ||| K.BD_ENET_RX_NO ||| K.BD_ENET_RX_CR ||| K.BD_ENET_RX_OV) ≠ 0 then 1 else 0) +
        (if s.opened ≠ 0 ∧ (s.rx_bd bdp).cbd_sc &&& K.BD_ENET_RX_CL ≠ 0 then 1 else 0) ∧
    s1.stats.rx_dropped
      = s.stats.rx_dropped +
        (if s.opened ≠ 0 ∧ (s.rx_bd bdp).cbd_sc &&& K.BD_ENET_RX_CL = 0 ∧
            s.alloc_fails.headD false = true then 1 else 0) ∧
    s1.cur_rx = s.cur_rx := by
  have hstat : (rx_err_stats K s.stats (s.rx_bd bdp).cbd_sc).rx_errors
        = s.stats.rx_errors +
          (if (s.rx_bd bdp).cbd_sc &&& (K.BD_ENET_RX_LG ||| K.BD_ENET_RX_SH
            ||| K.BD_ENET_RX_NO ||| K.BD_ENET_RX_CR ||| K.BD_ENET_RX_OV) ≠ 0 then 1 else 0) ∧
      (rx_err_stats K s.stats (s.rx_bd bdp).cbd_sc).rx_dropped = s.stats.rx_dropped := by
    unfold rx_err_stats
    by_cases h : (s.rx_bd bdp).cbd_sc &&& (K.BD_ENET_RX_LG ||| K.BD_ENET_RX_SH
            ||| K.BD_ENET_RX_NO ||| K.BD_ENET_RX_CR ||| K.BD_ENET_RX_OV) ≠ 0
    · rw [if_pos h, if_pos h]; exact ⟨rfl, rfl⟩
    · rw [if_neg h, if_neg h]; exact ⟨rfl, rfl⟩
  have hE : ∀ (x : Nat), (x = s.stats.rx_errors +
        (if (s.rx_bd bdp).cbd_sc &&& (K.BD_ENET_RX_LG ||| K.BD_ENET_RX_SH
            ||| K.BD_ENET_RX_NO ||| K.BD_ENET_RX_CR ||| K.BD_ENET_RX_OV) ≠ 0 then 1 else 0)) →
      s.opened ≠ 0 →
      x = s.stats.rx_errors +
        (if s.opened ≠ 0 ∧ (s.rx_bd bdp).cbd_sc &&& (K.BD_ENET_RX_LG ||| K.BD_ENET_RX_SH
            ||| K.BD_ENET_RX_NO ||| K.BD_ENET_RX_CR ||| K.BD_ENET_RX_OV) ≠ 0 then 1 else 0) := by
    intro x hx ho
    rw [hx]
    by_cases hb : (s.rx_bd bdp).cbd_sc &&& (K.BD_ENET_RX_LG ||| K.BD_ENET_RX_SH
            ||| K.BD_ENET_RX_NO ||| K.BD_ENET_RX_CR ||| K.BD_ENET_RX_OV) ≠ 0
    · rw [if_pos hb, if_pos ⟨ho, hb⟩]
    · rw [if_neg hb, if_neg (fun hc => hb hc.2)]
  unfold fec_enet_rx_one at h1
  rcases rx_process_cases K s bdp with ⟨ho, h⟩ | ⟨ho, hcl, h⟩ | ⟨ho, hcl, ha, h⟩ |
    ⟨ho, hcl, ha, hl, h⟩ | ⟨ho, hcl, ha, hl, h⟩
  · rw [h, Option.map_some'] at h1
    cases h1
    simp only [rx_processing_done, writel]
    rw [if_neg (fun hc => hc.1 ho), if_neg (fun hc => hc.1 ho), if_neg (fun hc => hc.1 ho)]
    refine ⟨?_, ?_, ?_⟩ <;> first | rfl | trivial
  · rw [h, Option.map_some'] at h1
    cases h1
    simp only [rx_processing_done, writel]
    refine ⟨?_, ?_, ?_⟩
    · show (rx_err_stats K s.stats (s.rx_bd bdp).cbd_sc).rx_errors + 1 = _
      have c1 : (if s.opened ≠ 0 ∧ (s.rx_bd bdp).cbd_sc &&& K.BD_ENET_RX_CL ≠ 0 then 1 else 0)
          = 1 := if_pos ⟨ho, hcl⟩
      rw [c1, hE _ hstat.1 ho]
    · show (rx_err_stats K s.stats (s.rx_bd bdp).cbd_sc).rx_dropped = _
      rw [hstat.2, if_neg (fun hc => hcl hc.2.1)]
      rfl
    · first | rfl | trivial
  · rw [h, Option.map_some'] at h1
    cases h1
    simp only [rx_processing_done, writel]
    refine ⟨?_, ?_, ?_⟩
    · show (rx_err_stats K s.stats (s.rx_bd bdp).cbd_sc).rx_errors = _
      have c1 : (if s.opened ≠ 0 ∧ (s.rx_bd bdp).cbd_sc &&& K.BD_ENET_RX_CL ≠ 0 then 1 else 0)
          = 0 := if_neg (fun hc => hc.2 hcl)
      rw [c1, hE _ hstat.1 ho]
      rfl
    · show (rx_err_stats K s.stats (s.rx_bd bdp).cbd_sc).rx_dropped + 1 = _
      rw [hstat.2, if_pos ⟨ho, hcl, ha⟩]
    · first | rfl | trivial
  · rw [h, Option.map_some'] at h1
    cases h1
    simp only [rx_processing_done, writel]
    refine ⟨?_, ?_, ?_⟩
    · show (rx_err_stats K s.stats (s.rx_bd bdp).cbd_sc).rx_errors = _
      have c1 : (if s.opened ≠ 0 ∧ (s.rx_bd bdp).cbd_sc &&& K.BD_ENET_RX_CL ≠ 0 then 1 else 0)
          = 0 := if_neg (fun hc => hc.2 hcl)
      rw [c1, hE _ hstat.1 ho]
      rfl
    · show (rx_err_stats K s.stats (s.rx_bd bdp).cbd_sc).rx_dropped = _
      rw [hstat.2, if_neg (fun hc => by rw [ha] at hc; cases hc.2.2)]
      rfl
    · first | rfl | trivial
  · rw [h] at h1
    cases h1

end Fec
namespace Fec

/-- C18, as stated, fails: on a ring whose first descriptor holds a good
frame, with the allocation failing, `fec_enet_rx` counts one `rx_dropped`,
hands nothing up, and nevertheless re-arms the descriptor as empty
(`0x8800`) and moves `cur_rx` on to the next descriptor. -/
theorem rx_squeeze_rearms_slot :
    dev_rx_squeeze.cur_rx = 0 ∧
    (dev_rx_squeeze.rx_bd 0).cbd_sc &&& mx28.BD_ENET_RX_EMPTY = 0 ∧
    dev_rx_squeeze.alloc_fails.headD false = true ∧
    (fec_enet_rx mx28 2 dev_rx_squeeze).map
      (fun s => (s.stats.rx_dropped, delivered s.trace, (s.rx_bd 0).cbd_sc,
        (s.rx_bd 0).cbd_sc &&& mx28.BD_ENET_RX_EMPTY, s.cur_rx))
      = some (1, [], 0x8800, 0x8000, 1) := by
  decide

/-- C18, amended: when `dev_alloc_skb` fails for the released descriptor at
`cur_rx` (device opened, no late collision), the pass returns, the failure is
counted once in `rx_dropped`, nothing is handed up, and the frame is lost:
the descriptor is re-armed with `BD_ENET_RX_EMPTY` set and the drain goes on
with the next descriptor; when that one is empty, `fec_enet_rx` returns with
`cur_rx` moved on to it. -/
theorem rx_alloc_failure (K : Params) (hE : K.BD_ENET_RX_EMPTY ≠ 0) (s : State) (fuel : Nat)
    (hrel : (s.rx_bd s.cur_rx).cbd_sc &&& K.BD_ENET_RX_EMPTY = 0) (hopen : s.opened ≠ 0)
    (hcl : (s.rx_bd s.cur_rx).cbd_sc &&& K.BD_ENET_RX_CL = 0)
    (hfail : s.alloc_fails.headD false = true) :
    ∃ s1, fec_enet_rx_one K s s.cur_rx = some s1 ∧
      s1.stats.rx_dropped = s.stats.rx_dropped + 1 ∧
      delivered s1.trace = delivered s.trace ∧
      (s1.rx_bd s.cur_rx).cbd_sc = rx_rearm K (s.rx_bd s.cur_rx).cbd_sc ∧
      (s1.rx_bd s.cur_rx).cbd_sc &&& K.BD_ENET_RX_EMPTY ≠ 0 ∧
      fec_enet_rx K (fuel + 1) s = fec_enet_rx_loop K fuel s1 (rx_next K s s.cur_rx) ∧
      ((s.rx_bd (rx_next K s s.cur_rx)).cbd_sc &&& K.BD_ENET_RX_EMPTY ≠ 0 →
        fec_enet_rx K (fuel + 2) s = some { s1 with cur_rx := rx_next K s s.cur_rx }) := by
  obtain ⟨s1, h1⟩ := fec_enet_rx_one_some K s s.cur_rx
    (fun _ _ h => by rw [hfail] at h; cases h)
  obtain ⟨_, hd, _⟩ := fec_enet_rx_one_errors K s s.cur_rx s1 h1
  obtain ⟨hsc, hdel, _⟩ := fec_enet_rx_one_fields K s s.cur_rx s1 h1
  have hne : ¬ ((s.rx_bd s.cur_rx).cbd_sc &&& K.BD_ENET_RX_EMPTY ≠ 0) := fun h => h hrel
  have hstep : ∀ f, fec_enet_rx K (f + 1) s
      = fec_enet_rx_loop K f s1 (rx_next K s s.cur_rx) := by
    intro f
    unfold fec_enet_rx
    rw [fec_enet_rx_loop, if_neg hne, h1]
  refine ⟨s1, h1, ?_, ?_, ?_, ?_, hstep fuel, ?_⟩
  · rw [hd, if_pos ⟨hopen, hcl, hfail⟩]
  · rw [hdel, if_neg, List.append_nil]
    rintro ⟨_, _, h⟩
    rw [hfail] at h
    exact Bool.noConfusion h
  · rw [hsc, if_pos rfl]
  · rw [hsc, if_pos rfl]
    exact rx_rearm_empty K hE _
  · intro hnext
    rw [hstep (fuel + 1), fec_enet_rx_loop, if_pos]
    rw [hsc]
    by_cases hi : rx_next K s s.cur_rx = s.cur_rx
    · rw [if_pos hi]; exact rx_rearm_empty K hE _
    · rw [if_neg hi]; exact hnext

theorem rx_alloc_failure_witness :
    mx28.BD_ENET_RX_EMPTY ≠ 0 ∧
    (dev_rx_squeeze.rx_bd dev_rx_squeeze.cur_rx).cbd_sc &&& mx28.BD_ENET_RX_EMPTY = 0 ∧
    dev_rx_squeeze.opened ≠ 0 ∧
    (dev_rx_squeeze.rx_bd dev_rx_squeeze.cur_rx).cbd_sc &&& mx28.BD_ENET_RX_CL = 0 ∧
    dev_rx_squeeze.alloc_fails.headD false = true ∧
    (dev_rx_squeeze.rx_bd (rx_next mx28 dev_rx_squeeze dev_rx_squeeze.cur_rx)).cbd_sc
      &&& mx28.BD_ENET_RX_EMPTY ≠ 0 ∧
    (∃ s1, fec_enet_rx_one mx28 dev_rx_squeeze dev_rx_squeeze.cur_rx = some s1 ∧
      s1.stats.rx_dropped = dev_rx_squeeze.stats.rx_dropped + 1 ∧
      delivered s1.trace = delivered dev_rx_squeeze.trace ∧
      (s1.rx_bd dev_rx_squeeze.cur_rx).cbd_sc
        = rx_rearm mx28 (dev_rx_squeeze.rx_bd dev_rx_squeeze.cur_rx).cbd_sc ∧
      (s1.rx_bd dev_rx_squeeze.cur_rx).cbd_sc &&& mx28.BD_ENET_RX_EMPTY ≠ 0 ∧
      fec_enet_rx mx28 (0 + 1) dev_rx_squeeze
        = fec_enet_rx_loop mx28 0 s1 (rx_next mx28 dev_rx_squeeze dev_rx_squeeze.cur_rx) ∧
      ((dev_rx_squeeze.rx_bd (rx_next mx28 dev_rx_squeeze dev_rx_squeeze.cur_rx)).cbd_sc
          &&& mx28.BD_ENET_RX_EMPTY ≠ 0 →
        fec_enet_rx mx28 (0 + 2) dev_rx_squeeze
          = some { s1 with cur_rx := rx_next mx28 dev_rx_squeeze dev_rx_squeeze.cur_rx })) ∧
    (fec_enet_rx mx28 2 dev_rx_squeeze).map
      (fun s => (s.stats.rx_dropped, delivered s.trace, s.cur_rx)) = some (1, [], 1) :=
  ⟨by decide, by decide, by decide, by decide, by decide, by decide,
   rx_alloc_failure mx28 (by decide) dev_rx_squeeze 0 (by decide) (by decide) (by decide)
     (by decide),
   by decide⟩

/-- C16, as stated, fails for `mii_timeout`: a read of PHY address 1 that
times out on a device whose `mii_timeout` is 0 returns `-ETIMEDOUT` and leaves
`mii_timeout` at 1. -/
theorem mdio_read_timeout_sets_flag :
    dev0.mii_timeout = 0 ∧
    (fec_enet_mdio_read dev0 1 2 0 0).1 = -ETIMEDOUT ∧
    (fec_enet_mdio_read dev0 1 2 0 0).2.mii_timeout = 1 := by
  decide

/-- C16, amended: a PHY read for an address other than the emulated `0x18`
whose completion does not arrive within the timeout window returns
`-ETIMEDOUT` and sets `mii_timeout` to 1.  Apart from `mii_timeout`, the
completion object, and the command written to `FEC_MII_DATA`, the device is
as before: the ring cursors, the descriptors, `tx_full`, `link`,
`full_duplex`, the retained frames and the statistics keep their values. -/
theorem mdio_read_timeout (s : State) (mii_id regnum data : Nat) (hid : mii_id ≠ 0x18) :
    (fec_enet_mdio_read s mii_id regnum 0 data).1 = -ETIMEDOUT ∧
    (fec_enet_mdio_read s mii_id regnum 0 data).2
      = { s with
          mii_timeout := 1, mdio_done := 0
          regs := Function.update s.regs FecReg.FEC_MII_DATA
            (FEC_MMFR_ST ||| FEC_MMFR_OP_READ ||| FEC_MMFR_PA mii_id ||| FEC_MMFR_RA regnum
              ||| FEC_MMFR_TA)
          trace := s.trace ++ [Call.writel
            (FEC_MMFR_ST ||| FEC_MMFR_OP_READ ||| FEC_MMFR_PA mii_id ||| FEC_MMFR_RA regnum
              ||| FEC_MMFR_TA) FecReg.FEC_MII_DATA] } ∧
    (fec_enet_mdio_read s mii_id regnum 0 data).2.mii_timeout = 1 ∧
    (fec_enet_mdio_read s mii_id regnum 0 data).2.cur_tx = s.cur_tx ∧
    (fec_enet_mdio_read s mii_id regnum 0 data).2.dirty_tx = s.dirty_tx ∧
    (fec_enet_mdio_read s mii_id regnum 0 data).2.cur_rx = s.cur_rx ∧
    (fec_enet_mdio_read s mii_id regnum 0 data).2.tx_bd = s.tx_bd ∧
    (fec_enet_mdio_read s mii_id regnum 0 data).2.rx_bd = s.rx_bd ∧
    (fec_enet_mdio_read s mii_id regnum 0 data).2.tx_skbuff = s.tx_skbuff ∧
    (fec_enet_mdio_read s mii_id regnum 0 data).2.tx_full = s.tx_full ∧
    (fec_enet_mdio_read s mii_id regnum 0 data).2.link = s.link ∧
    (fec_enet_mdio_read s mii_id regnum 0 data).2.full_duplex = s.full_duplex ∧
    (fec_enet_mdio_read s mii_id regnum 0 data).2.stats = s.stats := by
  have h : fec_enet_mdio_read s mii_id regnum 0 data
      = (-ETIMEDOUT, { s with
          mii_timeout := 1, mdio_done := 0
          regs := Function.update s.regs FecReg.FEC_MII_DATA
            (FEC_MMFR_ST ||| FEC_MMFR_OP_READ ||| FEC_MMFR_PA mii_id ||| FEC_MMFR_RA regnum
              ||| FEC_MMFR_TA)
          trace := s.trace ++ [Call.writel
            (FEC_MMFR_ST ||| FEC_MMFR_OP_READ ||| FEC_MMFR_PA mii_id ||| FEC_MMFR_RA regnum
              ||| FEC_MMFR_TA) FecReg.FEC_MII_DATA] }) := by
    unfold fec_enet_mdio_read
    rw [if_neg (fun h => hid h.1), if_neg (fun h => hid h.1), if_neg (fun h => hid h.1),
      if_neg (fun h => hid h.1)]
    simp [writel]
  rw [h]
  exact ⟨rfl, rfl, rfl, rfl, rfl, rfl, rfl, rfl, rfl, rfl, rfl, rfl, rfl⟩

theorem mdio_read_timeout_witness :
    (1 : Nat) ≠ 0x18 ∧
    (fec_enet_mdio_read dev0 1 2 0 0).1 = -ETIMEDOUT ∧
    (fec_enet_mdio_read dev0 1 2 0 0).2.mii_timeout = 1 ∧
    (fec_enet_mdio_read dev0 1 2 0 0).2.cur_tx = dev0.cur_tx ∧
    (fec_enet_mdio_read dev0 1 2 0 0).2.stats = dev0.stats :=
  ⟨by decide, (mdio_read_timeout dev0 1 2 0 (by decide)).1,
   (mdio_read_timeout dev0 1 2 0 (by decide)).2.2.1,
   (mdio_read_timeout dev0 1 2 0 (by decide)).2.2.2.1,
   (mdio_read_timeout dev0 1 2 0 (by decide)).2.2.2.2.2.2.2.2.2.2.2.2⟩

end Fec
namespace Fec

/-! ## The full flag -/

theorem TxReach.xmit_list {K : Params} :
    ∀ (l : List SkBuff) (s : State), TxReach K s → TxReach K (xmit_all K s l).2 := by
  intro l
  induction l with
  | nil => intro s hr; exact hr
  | cons skb rest ih =>
    intro s hr
    exact ih _ (TxReach.xmit s skb hr)

/-- A drain either releases nothing and leaves `tx_full` as it is, or releases
at least one frame and leaves `tx_full` clear. -/
theorem tx_loop_flag (K : Params) :
    ∀ (fuel : Nat) (s : State) (bdp : Nat) (s' : State),
      fec_enet_tx_loop K fuel s bdp = some s' →
      (kfree_count s'.trace = kfree_count s.trace ∧ s'.tx_full = s.tx_full) ∨
      (kfree_count s.trace < kfree_count s'.trace ∧ s'.tx_full = 0) := by
  intro fuel
  induction fuel with
  | zero => intro s bdp s' hrun; simp [fec_enet_tx_loop] at hrun
  | succ fuel ih =>
    intro s bdp s' hrun
    unfold fec_enet_tx_loop at hrun
    by_cases hrd : (s.tx_bd bdp).cbd_sc &&& K.BD_ENET_TX_READY ≠ 0
    · rw [if_pos hrd] at hrun; cases hrun; exact Or.inl ⟨rfl, rfl⟩
    · rw [if_neg hrd] at hrun
      by_cases hb : bdp = s.cur_tx ∧ s.tx_full = 0
      · rw [if_pos hb] at hrun; cases hrun; exact Or.inl ⟨rfl, rfl⟩
      · rw [if_neg hb] at hrun
        obtain ⟨_, _, _, _, hfull, htr, _⟩ := fec_enet_tx_one_fields K s bdp
        right
        rcases ih _ _ _ hrun with ⟨h1, h2⟩ | ⟨h1, h2⟩
        · rw [htr, kfree_count_append_kfree] at h1
          exact ⟨by omega, by rw [h2, hfull]⟩
        · rw [htr, kfree_count_append_kfree] at h1
          exact ⟨by omega, h2⟩

/-- A frame submitted on a queue the driver has stopped is accepted with
`tx_full` set: the state `dev16_one_done` (16 frames accepted on the fresh
ring, the oldest completed by the controller, no drain yet) is reachable,
`fec_enet_start_xmit` accepts a frame there, and afterwards `tx_full` is 1 although the new `cur_tx` (1) is not `dirty_tx`
(0). -/
theorem tx_full_set_cursors_apart :
    TxReach mx28 dev16_one_done ∧
    (fec_enet_start_xmit mx28 dev16_one_done frame64).1 = NetdevTx.NETDEV_TX_OK ∧
    (fec_enet_start_xmit mx28 dev16_one_done frame64).2.tx_full = 1 ∧
    (fec_enet_start_xmit mx28 dev16_one_done frame64).2.cur_tx = 1 ∧
    (fec_enet_start_xmit mx28 dev16_one_done frame64).2.dirty_tx = 0 :=
  ⟨TxReach.hw _ 0 (TxReach.xmit_list _ _ (TxReach.fresh dev0 (by decide))),
   by decide, by decide, by decide, by decide⟩

/-- In every state reachable from a fresh ring by submit, drain and
hardware-completion steps, after an accepted `fec_enet_start_xmit`
`tx_full` is 1 if and only if the new `cur_tx` equals `dirty_tx` or `tx_full`
was 1 already before the call; `fec_enet_tx` returns, and when it reclaimed
at least one slot `tx_full` is 0, and when it reclaimed nothing it left
`tx_full` unchanged. -/
theorem tx_full_flag (K : Params) (hK : K.TxMasks) (s : State) (hr : TxReach K s)
    (skb : SkBuff) :
    ((fec_enet_start_xmit K s skb).1 = NetdevTx.NETDEV_TX_OK →
      ((fec_enet_start_xmit K s skb).2.tx_full = 1 ↔
        ((fec_enet_start_xmit K s skb).2.cur_tx = (fec_enet_start_xmit K s skb).2.dirty_tx ∨
          s.tx_full = 1))) ∧
    ∃ s', fec_enet_tx K TX_FUEL s = some s' ∧
      (kfree_count s.trace < kfree_count s'.trace → s'.tx_full = 0) ∧
      (kfree_count s'.trace = kfree_count s.trace → s'.tx_full = s.tx_full) := by
  constructor
  · intro hok
    have hst : fec_enet_start_xmit K s skb = (NetdevTx.NETDEV_TX_OK, xmit_enqueue K s skb) := by
      unfold fec_enet_start_xmit at hok ⊢
      by_cases hl : s.link = 0
      · rw [if_pos hl] at hok; cases hok
      · rw [if_neg hl] at hok ⊢
        by_cases hrd : (s.tx_bd s.cur_tx).cbd_sc &&& K.BD_ENET_TX_READY ≠ 0
        · rw [if_pos hrd] at hok; cases hok
        · rw [if_neg hrd]
    obtain ⟨_, hc, hd, _, _, hf⟩ := xmit_enqueue_fields K s skb
    rw [hst]
    show (xmit_enqueue K s skb).tx_full = 1 ↔
      ((xmit_enqueue K s skb).cur_tx = (xmit_enqueue K s skb).dirty_tx ∨ s.tx_full = 1)
    rw [hf, hc, hd]
    by_cases hn : xmit_next K s skb = s.dirty_tx
    · rw [if_pos hn]; exact ⟨fun _ => Or.inl hn, fun _ => rfl⟩
    · rw [if_neg hn]
      exact ⟨fun h => Or.inr h, fun h => h.resolve_left hn⟩
  · obtain ⟨n, h, j, hi⟩ := TxReach.inv_exists hK hr
    obtain ⟨s', hs', _⟩ := tx_loop_returns K s s.dirty_tx hi.ring_ok
    refine ⟨s', hs', ?_, ?_⟩
    · intro hlt
      rcases tx_loop_flag K _ _ _ _ hs' with ⟨h1, _⟩ | ⟨_, h2⟩
      · omega
      · exact h2
    · intro heq
      rcases tx_loop_flag K _ _ _ _ hs' with ⟨_, h2⟩ | ⟨h1, _⟩
      · exact h2
      · omega

theorem tx_full_flag_witness :
    mx28.TxMasks ∧ TxReach mx28 dev16_one_done ∧
    (fec_enet_start_xmit mx28 dev16_one_done frame64).1 = NetdevTx.NETDEV_TX_OK ∧
    ((fec_enet_start_xmit mx28 dev16_one_done frame64).2.tx_full = 1 ↔
      ((fec_enet_start_xmit mx28 dev16_one_done frame64).2.cur_tx
          = (fec_enet_start_xmit mx28 dev16_one_done frame64).2.dirty_tx ∨
        dev16_one_done.tx_full = 1)) ∧
    ∃ s', fec_enet_tx mx28 TX_FUEL dev16_one_done = some s' ∧
      (kfree_count dev16_one_done.trace < kfree_count s'.trace → s'.tx_full = 0) ∧
      (kfree_count s'.trace = kfree_count dev16_one_done.trace
        → s'.tx_full = dev16_one_done.tx_full) :=
  ⟨by decide, TxReach.hw _ 0 (TxReach.xmit_list _ _ (TxReach.fresh dev0 (by decide))),
   by decide,
   (tx_full_flag mx28 (by decide) dev16_one_done
     (TxReach.hw _ 0 (TxReach.xmit_list _ _ (TxReach.fresh dev0 (by decide)))) frame64).1
     (by decide),
   (tx_full_flag mx28 (by decide) dev16_one_done
     (TxReach.hw _ 0 (TxReach.xmit_list _ _ (TxReach.fresh dev0 (by decide)))) frame64).2⟩

set_option maxRecDepth 100000

/-- C19 fails after a restart on a full ring.  The watchdog fires
(`fec_timeout`, which runs `fec_restart`) on the full ring whose oldest frame
the controller has completed: afterwards both cursors are at the base, the
queue is awake and `tx_full` is still 1.  The next `fec_enet_start_xmit` is
accepted, and after it `tx_full` is 1 although the new `cur_tx` (1) is not
`dirty_tx` (0). -/
theorem restart_tx_full_cursors_apart :
    (fec_timeout mx28 dev16_one_done).tx_full = 1 ∧
    (fec_timeout mx28 dev16_one_done).queue_stopped = false ∧
    (fec_timeout mx28 dev16_one_done).cur_tx = 0 ∧
    (fec_timeout mx28 dev16_one_done).dirty_tx = 0 ∧
    (fec_enet_start_xmit mx28 (fec_timeout mx28 dev16_one_done) frame64).1
      = NetdevTx.NETDEV_TX_OK ∧
    (fec_enet_start_xmit mx28 (fec_timeout mx28 dev16_one_done) frame64).2.tx_full = 1 ∧
    (fec_enet_start_xmit mx28 (fec_timeout mx28 dev16_one_done) frame64).2.cur_tx = 1 ∧
    (fec_enet_start_xmit mx28 (fec_timeout mx28 dev16_one_done) frame64).2.dirty_tx = 0 := by
  decide

end Fec
namespace Fec

/-! ## Retained frames -/

theorem kfreed_append (t u : List Call) : kfreed (t ++ u) = kfreed t ++ kfreed u := by
  simp [kfreed, List.filterMap_append]

theorem fec_enet_tx_one_skb (K : Params) (s : State) (bdp : Nat) :
    (fec_enet_tx_one K s bdp).tx_skbuff = Function.update s.tx_skbuff s.skb_dirty none ∧
    (fec_enet_tx_one K s bdp).skb_dirty = (s.skb_dirty + 1) &&& TX_RING_MOD_MASK ∧
    (fec_enet_tx_one K s bdp).skb_cur = s.skb_cur ∧
    kfreed (fec_enet_tx_one K s bdp).trace = kfreed s.trace ++ [s.tx_skbuff s.skb_dirty] := by
  have hk : kfreed (s.trace ++ [Call.dev_kfree_skb_any (s.tx_skbuff s.skb_dirty)])
      = kfreed s.trace ++ [s.tx_skbuff s.skb_dirty] := by
    rw [kfreed_append]; rfl
  unfold fec_enet_tx_one
  simp only [dev_kfree_skb_any, netif_queue_stopped, netif_wake_queue]
  by_cases hf : s.tx_full ≠ 0
  · by_cases hq : s.queue_stopped = true
    · simp only [hf, hq, if_true, ne_eq, not_false_eq_true]
      refine ⟨?_, ?_, ?_, ?_⟩ <;> trivial
    · simp only [hf, hq, if_true, if_false, ne_eq, not_false_eq_true]
      refine ⟨?_, ?_, ?_, ?_⟩ <;> trivial
  · simp only [hf, if_false]
    refine ⟨?_, ?_, ?_, ?_⟩ <;> trivial

theorem xmit_enqueue_skb (K : Params) (s : State) (skb : SkBuff) :
    (xmit_enqueue K s skb).skb_dirty = s.skb_dirty ∧
    kfreed (xmit_enqueue K s skb).trace = kfreed s.trace ∧
    ((s.tx_full ≠ 0 → s.queue_stopped = true) →
      (xmit_enqueue K s skb).tx_full ≠ 0 → (xmit_enqueue K s skb).queue_stopped = true) := by
  have hk : kfreed (s.trace ++ [Call.writel 0 FecReg.FEC_X_DES_ACTIVE]) = kfreed s.trace := by
    rw [kfreed_append]; exact List.append_nil _
  unfold xmit_enqueue
  simp only [writel, netif_stop_queue]
  by_cases hn : xmit_next K s skb = s.dirty_tx
  · simp only [hn, if_true]
    refine ⟨?_, ?_, ?_⟩ <;> first | trivial | exact fun _ _ => trivial
  · simp only [hn, if_false]
    refine ⟨?_, ?_, ?_⟩ <;> first | trivial | exact fun h => h

theorem hw_tx_complete_skb (K : Params) (s : State) (e : Nat) :
    (hw_tx_complete K s e).tx_skbuff = s.tx_skbuff ∧
    (hw_tx_complete K s e).skb_cur = s.skb_cur ∧
    (hw_tx_complete K s e).skb_dirty = s.skb_dirty ∧
    (hw_tx_complete K s e).trace = s.trace ∧
    (hw_tx_complete K s e).tx_full = s.tx_full ∧
    (hw_tx_complete K s e).queue_stopped = s.queue_stopped := by
  unfold hw_tx_complete
  by_cases h : (s.tx_bd s.hw_tx).cbd_sc &&& K.BD_ENET_TX_READY ≠ 0
  · simp only [h, if_true, ne_eq, not_false_eq_true]
    refine ⟨?_, ?_, ?_, ?_, ?_, ?_⟩ <;> trivial
  · simp only [h, if_false]
    refine ⟨?_, ?_, ?_, ?_, ?_, ?_⟩ <;> trivial

theorem TxFresh.skb {K : Params} {s : State} (hf : TxFresh K s) :
    TxSkbAt K s 0 0 [] (kfreed s.trace) := by
  obtain ⟨_, _, hfull, hc, hd, _, _, _, hn⟩ := hf
  refine ⟨hc, hd, rfl, ?_, ?_, by simp, ?_⟩
  · intro k _ hk; omega
  · intro i hi _; exact hn i hi
  · intro h; exact absurd hfull h

/-- An accepted frame on a ring that is not full keeps the invariant of the
retained frames. -/
theorem TxSkbAt.enqueue {K : Params} {s : State} {n j : Nat} {acc : List SkBuff}
    {base : List (Option SkBuff)} (hs : TxSkbAt K s n j acc base) (hjn : j ≤ n)
    (hlt : n < j + 16) (skb : SkBuff) :
    TxSkbAt K (xmit_enqueue K s skb) (n + 1) j (acc ++ [skb]) base := by
  obtain ⟨hc, hd, hlen, hin, hout, hk, hq⟩ := hs
  obtain ⟨hsk, hcur, _⟩ := xmit_enqueue_more K s skb
  obtain ⟨hdir, hkf, hqs⟩ := xmit_enqueue_skb K s skb
  unfold TxSkbAt
  simp only [TX_RING_SIZE] at hc hd hin hout ⊢
  refine ⟨?_, ?_, ?_, ?_, ?_, ?_, hqs hq⟩
  · rw [hcur, and_15_eq_mod, hc]; omega
  · rw [hdir, hd]
  · rw [List.length_append, hlen]; rfl
  · intro k hjk hkn
    rw [hsk, hc]
    by_cases hkeq : k = n
    · subst hkeq
      rw [Function.update_same, ← hlen, List.getElem?_append_right (Nat.le_refl _)]
      simp
    · have hne : k % 16 ≠ n % 16 := by omega
      rw [Function.update_noteq hne, hin k hjk (by omega),
        List.getElem?_append_left (by omega)]
  · intro i hi hno
    rw [hsk, hc]
    have hne : i ≠ n % 16 := fun e => hno n hjn (by omega) e.symm
    rw [Function.update_noteq hne]
    exact hout i hi (fun k h1 h2 => hno k h1 (by omega))
  · rw [hkf, hk, List.take_append_of_le_length (by omega)]

/-- One reclaimed descriptor keeps the invariant of the retained frames and
releases the oldest retained frame. -/
theorem TxSkbAt.release {K : Params} {s : State} {n j : Nat} {acc : List SkBuff}
    {base : List (Option SkBuff)} (hs : TxSkbAt K s n j acc base) (hjn : j < n)
    (hle : n ≤ j + 16) (bdp : Nat) :
    TxSkbAt K (fec_enet_tx_one K s bdp) n (j + 1) acc base := by
  obtain ⟨hc, hd, hlen, hin, hout, hk, hq⟩ := hs
  obtain ⟨hsk, hdir, hcur, hkf⟩ := fec_enet_tx_one_skb K s bdp
  have hfull := (fec_enet_tx_one_fields K s bdp).2.2.2.2.1
  unfold TxSkbAt
  simp only [TX_RING_SIZE] at hc hd hin hout ⊢
  refine ⟨?_, ?_, hlen, ?_, ?_, ?_, ?_⟩
  · rw [hcur, hc]
  · rw [hdir, and_15_eq_mod, hd]; omega
  · intro k hjk hkn
    rw [hsk, hd]
    have hne : k % 16 ≠ j % 16 := by omega
    rw [Function.update_noteq hne]
    exact hin k (by omega) hkn
  · intro i hi hno
    rw [hsk, hd]
    by_cases hij : i = j % 16
    · rw [hij, Function.update_same]
    · rw [Function.update_noteq hij]
      apply hout i hi
      intro k h1 h2
      by_cases hkj : k = j
      · rw [hkj]; exact fun e => hij e.symm
      · exact hno k (by omega) h2
  · rw [hkf, hk, hd, hin j (Nat.le_refl _) hjn, List.take_succ, List.map_append,
      List.append_assoc]
    congr 1
    congr 1
    have hj : j < acc.length := by omega
    rw [List.getElem?_eq_getElem hj]
    rfl
  · intro h; exact absurd hfull h

end Fec
namespace Fec

theorem sub_succ_lt {j h n : Nat} (hjlt : j < h) (hhn : h ≤ n) (hnj : n ≤ j + 16) :
    h - (j + 1) < 16 := by omega

theorem sub_succ_shift {j h : Nat} (hjlt : j < h) : h - j = h - (j + 1) + 1 := by omega

/-- The slots a drain releases after the first are those following `bdp`,
with the contents they had before the first was released. -/
theorem tx_one_slots (K : Params) (s : State) (bdp k k' : Nat) (hsd : s.skb_dirty = bdp)
    (hb : bdp < 16) (hnx : tx_next K s bdp = (bdp + 1) % 16) (hk : k < 16) (hk' : k' = k + 1) :
    (kfreed s.trace ++ [s.tx_skbuff s.skb_dirty]) ++
      (List.range k).map (fun m => (fec_enet_tx_one K s bdp).tx_skbuff ((tx_next K s bdp + m) % 16))
    = kfreed s.trace ++ (List.range k').map (fun m => s.tx_skbuff ((bdp + m) % 16)) := by
  have hsk := (fec_enet_tx_one_skb K s bdp).1
  rw [hk', hsd, List.append_assoc, List.range_succ_eq_map, List.map_cons, List.map_map]
  have h0 : (bdp + 0) % 16 = bdp := by omega
  rw [h0, List.singleton_append]
  congr 2
  apply List.map_congr_left
  intro m hm
  have hm' : m < k := List.mem_range.1 hm
  have hne : (tx_next K s bdp + m) % 16 ≠ bdp := by rw [hnx]; omega
  show (fec_enet_tx_one K s bdp).tx_skbuff ((tx_next K s bdp + m) % 16)
    = s.tx_skbuff ((bdp + (m + 1)) % 16)
  rw [hsk, hsd, Function.update_noteq hne, hnx]
  congr 1
  omega

/-- In the regime where no frame is accepted on a full ring, the drain loop
releases the retained frames of the completed descriptors, slot by slot from
`bdp` on, and keeps the invariant of the retained frames. -/
theorem tx_loop_skb (K : Params) (n h : Nat) (acc : List SkBuff) (base : List (Option SkBuff)) :
    ∀ (fuel : Nat) (s : State) (bdp j : Nat), TxNormAt K s n h j bdp →
      TxSkbAt K s n j acc base → h - j < fuel →
      ∃ s', fec_enet_tx_loop K fuel s bdp = some s' ∧ TxNormAt K s' n h h s'.dirty_tx ∧
        TxSkbAt K s' n h acc base ∧
        kfree_count s'.trace = kfree_count s.trace + (h - j) ∧
        kfreed s'.trace = kfreed s.trace
          ++ (List.range (h - j)).map (fun m => s.tx_skbuff ((bdp + m) % 16)) := by
  intro fuel
  induction fuel with
  | zero => intro s bdp j _ _ hlt; omega
  | succ fuel ih =>
    intro s bdp j hn hs hlt
    obtain ⟨hi, hnj, hle, hfull⟩ := hn
    have hblt := hi.cur_lt.2.1
    have hjh := hi.2.2.2.2.2.1
    have hhn := hi.2.2.2.2.2.2.1
    have hbj := hi.2.2.2.2.1
    have hcn := hi.2.2.1
    have hrd := hi.2.2.2.2.2.2.2.2.1 bdp hblt
    simp only [TX_RING_SIZE] at hnj hfull hrd hbj hcn
    unfold fec_enet_tx_loop
    by_cases hjeq : j = h
    · subst hjeq
      have hnorm : TxNormAt K s n j j bdp :=
        ⟨hi, by simp only [TX_RING_SIZE]; exact hnj, hle, by simp only [TX_RING_SIZE]; exact hfull⟩
      by_cases hr : (s.tx_bd bdp).cbd_sc &&& K.BD_ENET_TX_READY ≠ 0
      · rw [if_pos hr]
        exact ⟨_, rfl, hnorm, hs, by simp, by simp⟩
      · rw [if_neg hr]
        have hnr : ¬ (n + (16 - 1) - bdp) % 16 < n - j := fun e => hr (hrd.2 e)
        have hnj' : n = j := by omega
        have hf0 : s.tx_full = 0 := by
          by_contra hne
          have := hfull.1 hne
          omega
        rw [if_pos ⟨by omega, hf0⟩]
        exact ⟨_, rfl, hnorm, hs, by simp, by simp⟩
    · have hjlt : j < h := by omega
      have hr0 : (s.tx_bd bdp).cbd_sc &&& K.BD_ENET_TX_READY = 0 := by
        by_contra hne
        have := hrd.1 hne
        omega
      have hb : ¬ (bdp = s.cur_tx ∧ s.tx_full = 0) := by
        rintro ⟨e1, e2⟩
        have hne : ¬ n = j + 16 := fun e => (hfull.2 e) e2
        omega
      rw [if_neg (by simpa using hr0), if_neg hb]
      have hi' := hi.reclaim hr0 hb
      have hf' := (fec_enet_tx_one_fields K s bdp).2.2.2.2.1
      have htr := (fec_enet_tx_one_fields K s bdp).2.2.2.2.2.1
      have hn' : TxNormAt K (fec_enet_tx_one K s bdp) n h (j + 1) (tx_next K s bdp) := by
        refine ⟨hi', by simp only [TX_RING_SIZE]; omega, by rw [hf']; exact Nat.zero_le _, ?_⟩
        rw [hf']
        simp only [TX_RING_SIZE]
        constructor
        · intro hne; exact absurd rfl hne
        · intro e; omega
      have hs' := hs.release (by omega : j < n) hnj bdp
      obtain ⟨s', hrun, hnorm, hskb, hcnt, hkf⟩ := ih _ _ (j + 1) hn' hs' (by omega)
      obtain ⟨hsk, _, _, hkf1⟩ := fec_enet_tx_one_skb K s bdp
      have hsd : s.skb_dirty = bdp := by
        rw [hs.2.1, hbj]; rfl
      have hnx := (hi.ring_ok).next_lt.2
      have e1 : h - (j + 1) < 16 := sub_succ_lt hjlt hhn hnj
      have e2 : h - j = h - (j + 1) + 1 := sub_succ_shift hjlt
      refine ⟨s', hrun, hnorm, hskb, ?_, ?_⟩
      · rw [hcnt, htr, kfree_count_append_kfree, e2, Nat.add_assoc, Nat.add_comm 1]
      · rw [hkf, hkf1]
        exact tx_one_slots K s bdp (h - (j + 1)) (h - j) hsd hblt hnx e1 e2

end Fec
namespace Fec

theorem TxSkbAt.hw_step_skb {K : Params} {s : State} {n j : Nat} {acc : List SkBuff}
    {base : List (Option SkBuff)} (hs : TxSkbAt K s n j acc base) (e : Nat) :
    TxSkbAt K (hw_tx_complete K s e) n j acc base := by
  obtain ⟨h1, h2, h3, h4, h5, h6⟩ := hw_tx_complete_skb K s e
  unfold TxSkbAt
  rw [h1, h2, h3, h4, h5, h6]
  exact hs

/-- With the queue not stopped the ring is not full, and the frame offered is
accepted. -/
theorem TxNormAt.gated_xmit {K : Params} (hK : K.TxMasks) {s : State} {n h j : Nat}
    {acc : List SkBuff} {base : List (Option SkBuff)}
    (hn : TxNormAt K s n h j s.dirty_tx) (hs : TxSkbAt K s n j acc base)
    (hq : s.queue_stopped = false) (skb : SkBuff) :
    fec_enet_start_xmit K s skb = (NetdevTx.NETDEV_TX_OK, xmit_enqueue K s skb) ∧
    TxNormAt K (xmit_enqueue K s skb) (n + 1) h j (xmit_enqueue K s skb).dirty_tx ∧
    TxSkbAt K (xmit_enqueue K s skb) (n + 1) j (acc ++ [skb]) base := by
  have hf0 : s.tx_full = 0 := by
    by_contra hne
    have := hs.2.2.2.2.2.2 hne
    rw [hq] at this
    exact Bool.noConfusion this
  have hnj := hn.2.1
  have hjh := hn.1.2.2.2.2.2.1
  have hhn := hn.1.2.2.2.2.2.2.1
  have hne : n ≠ j + TX_RING_SIZE := fun e => (hn.2.2.2.2 e) hf0
  simp only [TX_RING_SIZE] at hnj hne
  have hlt : n < j + 16 := by omega
  have hc0 : (s.tx_bd s.cur_tx).cbd_sc &&& K.BD_ENET_TX_READY = 0 := by
    by_contra hr
    have := hn.1.ready_cur.1 hr
    omega
  have hx : fec_enet_start_xmit K s skb = (NetdevTx.NETDEV_TX_OK, xmit_enqueue K s skb) := by
    unfold fec_enet_start_xmit
    rw [if_neg hn.1.2.1, if_neg (by simpa using hc0)]
  have hnx := (hn.xmit hK hlt skb).2
  rw [hx] at hnx
  exact ⟨hx, hnx, hs.enqueue (by omega) hlt skb⟩

end Fec
namespace Fec

theorem add_sub_shift {j h r : Nat} (hjh : j ≤ h) : j + (h - j + r) = h + r := by omega

/-- In a run without restart whose submissions all happen with the queue not
stopped, both invariants follow the counts of accepted, completed and
reclaimed frames, the accepted frames are appended in order, and the trace
grows by what the drains released. -/
theorem tx_run_skb (K : Params) (hK : K.TxMasks) (base : List (Option SkBuff)) :
    ∀ (evs : List TxEvent) (s : State) (n h j : Nat) (acc : List SkBuff),
      TxNormAt K s n h j s.dirty_tx → TxSkbAt K s n j acc base →
      tx_gated K s evs = true → (∀ ev, ev ∈ evs → ev.is_restart = false) →
      ∃ s' h', tx_run K s evs = some s' ∧
        TxNormAt K s' (n + tx_accepted K s evs) h' (j + tx_reclaimed K s evs) s'.dirty_tx ∧
        TxSkbAt K s' (n + tx_accepted K s evs) (j + tx_reclaimed K s evs)
          (acc ++ tx_accepted_frames K s evs) base ∧
        kfreed s'.trace = kfreed s.trace ++ tx_released K s evs ∧
        h' = h + tx_completed K s evs := by
  intro evs
  induction evs with
  | nil =>
    intro s n h j acc hn hs _ _
    refine ⟨s, h, rfl, hn, ?_, ?_, ?_⟩
    · simp only [tx_accepted, tx_reclaimed, tx_accepted_frames, List.append_nil, Nat.add_zero]
      exact hs
    · simp only [tx_released, List.append_nil]
    · simp only [tx_completed, Nat.add_zero]
  | cons ev rest ih =>
    intro s n h j acc hn hs hg hnr
    have hrest : ∀ ev, ev ∈ rest → ev.is_restart = false :=
      fun e he => hnr e (List.mem_cons_of_mem _ he)
    cases ev with
    | xmit skb =>
      simp only [tx_gated, tx_step, Bool.and_eq_true, netif_queue_stopped,
        Bool.not_eq_true'] at hg
      obtain ⟨hx, hn1, hs1⟩ := hn.gated_xmit hK hs hg.1 skb
      have hg2 := hg.2
      rw [hx] at hg2
      obtain ⟨s', h', hs', hn', hk', hr', hh'⟩ :=
        ih _ (n + 1) h j (acc ++ [skb]) hn1 hs1 hg2 hrest
      have hkx := (xmit_enqueue_skb K s skb).2.1
      refine ⟨s', h', by simp only [tx_run, tx_step, hx]; exact hs', ?_, ?_, ?_, ?_⟩
      · simp only [tx_accepted, tx_reclaimed, tx_step, hx]
        simp only [if_true, Nat.zero_add, ← Nat.add_assoc]
        exact hn'
      · simp only [tx_accepted, tx_reclaimed, tx_accepted_frames, tx_step, hx]
        simp only [if_true, Nat.zero_add, ← Nat.add_assoc, ← List.append_assoc]
        exact hk'
      · simp only [tx_released, tx_step, hx, List.nil_append]
        rw [hr', hkx]
      · simp only [tx_completed, tx_step, hx, Nat.zero_add]
        exact hh'
    | hw e =>
      simp only [tx_gated, tx_step, Bool.true_and] at hg
      have hstep : ∃ h1, TxNormAt K (hw_tx_complete K s e) n h1 j (hw_tx_complete K s e).dirty_tx ∧
          h1 = h + (if (s.tx_bd s.hw_tx).cbd_sc &&& K.BD_ENET_TX_READY ≠ 0 then 1 else 0) := by
        by_cases hlt : h < n
        · exact ⟨h + 1, hn.hw_step_norm hK hlt e, by rw [if_pos (hn.1.ready_hw.2 hlt)]⟩
        · have h0 : (s.tx_bd s.hw_tx).cbd_sc &&& K.BD_ENET_TX_READY = 0 := by
            by_contra hne; exact hlt (hn.1.ready_hw.1 hne)
          rw [hw_tx_complete_idle K s e h0]
          exact ⟨h, hn, by rw [if_neg (by simpa using h0)]; rfl⟩
      obtain ⟨h1, hn1, hh1⟩ := hstep
      obtain ⟨s', h', hs', hn', hk', hr', hh'⟩ :=
        ih _ n h1 j acc hn1 (hs.hw_step_skb e) hg hrest
      have htr := (hw_tx_complete_skb K s e).2.2.2.1
      refine ⟨s', h', by simp only [tx_run, tx_step]; exact hs', ?_, ?_, ?_, ?_⟩
      · simp only [tx_accepted, tx_reclaimed, tx_step, Nat.zero_add]
        exact hn'
      · simp only [tx_accepted, tx_reclaimed, tx_accepted_frames, tx_step, Nat.zero_add,
          List.nil_append]
        exact hk'
      · simp only [tx_released, tx_step, List.nil_append]
        rw [hr', htr]
      · simp only [tx_completed, tx_step]
        rw [hh', hh1, Nat.add_assoc]
    | restart d =>
      have := hnr (TxEvent.restart d) (List.mem_cons_self _ _)
      simp [TxEvent.is_restart] at this
    | drain =>
      have hjh := hn.1.2.2.2.2.2.1
      have hhn := hn.1.2.2.2.2.2.2.1
      have hnj := hn.2.1
      have hfuel : h - j < TX_FUEL := by
        simp only [TX_FUEL, TX_RING_SIZE] at hnj ⊢
        omega
      obtain ⟨s1, hs1, hn1, hk1, hc1, hf1⟩ :=
        tx_loop_skb K n h acc base TX_FUEL s s.dirty_tx j hn hs hfuel
      have hstep : tx_step K s TxEvent.drain = some s1 := hs1
      simp only [tx_gated, hstep, Bool.true_and] at hg
      obtain ⟨s', h', hs', hn', hk', hr', hh'⟩ := ih _ n h h acc hn1 hk1 hg hrest
      have e1 : kfree_count s1.trace - kfree_count s.trace = h - j := by
        rw [hc1]; exact Nat.add_sub_cancel_left _ _
      have e2 := @add_sub_shift j h (tx_reclaimed K s1 rest) hjh
      refine ⟨s', h', by simp only [tx_run, hstep]; exact hs', ?_, ?_, ?_, ?_⟩
      · simp only [tx_accepted, tx_reclaimed, hstep, e1, e2, Nat.zero_add]
        exact hn'
      · simp only [tx_accepted, tx_reclaimed, tx_accepted_frames, hstep, e1, e2, Nat.zero_add,
          List.nil_append]
        exact hk'
      · simp only [tx_released, hstep]
        rw [hr', hf1, List.drop_left, List.append_assoc]
      · simp only [tx_completed, hstep, Nat.zero_add]
        exact hh'

end Fec
namespace Fec

set_option maxRecDepth 100000

end Fec
namespace Fec

/-! ## Accepted, completed and reclaimed frames -/

set_option maxRecDepth 100000

end Fec
namespace Fec

/-! ## Order of release -/

theorem mod_shift (bdp m : Nat) : ((bdp + 1) % 16 + m) % 16 = (bdp + (m + 1)) % 16 := by omega

theorem lt_sub_succ {m a b : Nat} (h : m + 1 < a - b) : m < a - (b + 1) := by omega

/-- Every descriptor the drain loop passes has `BD_ENET_TX_READY` clear. -/
theorem tx_loop_passed (K : Params) :
    ∀ (fuel : Nat) (s : State) (bdp : Nat) (s' : State), TxRingOk K s bdp →
      fec_enet_tx_loop K fuel s bdp = some s' →
      ∀ m, m < kfree_count s'.trace - kfree_count s.trace →
        (s.tx_bd ((bdp + m) % 16)).cbd_sc &&& K.BD_ENET_TX_READY = 0 := by
  intro fuel
  induction fuel with
  | zero => intro s bdp s' _ hrun; simp [fec_enet_tx_loop] at hrun
  | succ fuel ih =>
    intro s bdp s' hr hrun m hm
    unfold fec_enet_tx_loop at hrun
    by_cases hrd : (s.tx_bd bdp).cbd_sc &&& K.BD_ENET_TX_READY ≠ 0
    · rw [if_pos hrd] at hrun; cases hrun
      exact absurd hm (by simp)
    · rw [if_neg hrd] at hrun
      by_cases hb : bdp = s.cur_tx ∧ s.tx_full = 0
      · rw [if_pos hb] at hrun; cases hrun
        exact absurd hm (by simp)
      · rw [if_neg hb] at hrun
        obtain ⟨hsc, hcur, _, _, _, htr, _⟩ := fec_enet_tx_one_fields K s bdp
        have hnx := hr.next_lt
        have hblt : bdp < 16 := hr.2.2
        have hr' : TxRingOk K (fec_enet_tx_one K s bdp) (tx_next K s bdp) := by
          refine ⟨?_, ?_, ?_⟩
          · intro i hi; rw [hsc]; exact hr.1 i hi
          · rw [hcur]; exact hr.2.1
          · simp only [TX_RING_SIZE]; exact hnx.1
        have hih := ih _ _ _ hr' hrun
        rw [htr, kfree_count_append_kfree] at hih
        cases m with
        | zero =>
          rw [Nat.add_zero, Nat.mod_eq_of_lt hblt]
          simpa using hrd
        | succ m' =>
          have := hih m' (lt_sub_succ hm)
          rw [hsc, hnx.2, mod_shift] at this
          exact this

set_option maxRecDepth 100000

/-- A frame submitted on a queue the driver has stopped breaks the order of
release.  In the run `run_overrun` from the fresh device (no restart in it)
frame 16 is accepted on the full ring after the controller
has completed frame 0 and before a drain has run; the frames accepted are
frames 0 to 16 in this order, and the only frame the drain releases is frame
16, which is not a prefix of them. -/
theorem overrun_release_order :
    TxFresh mx28 dev0 ∧ (∀ ev, ev ∈ run_overrun → ev.is_restart = false) ∧
    tx_accepted_frames mx28 dev0 run_overrun = (List.range 17).map frame_at ∧
    tx_released mx28 dev0 run_overrun = [some (frame_at 16)] := by
  decide

/-- In every run without restart that starts from a fresh ring, every drain returns and no drain moves `dirty_tx` past a descriptor
whose `BD_ENET_TX_READY` bit is set: each descriptor passed had the bit clear
when the drain began.  When in addition every frame is submitted while the
queue is not stopped, the frames released by `fec_enet_tx` over all drains
are, in order, the first frames accepted by `fec_enet_start_xmit` (each as
the submit left it in memory, `xmit_skb`), as many as were reclaimed. -/
theorem tx_fifo_order (K : Params) (hK : K.TxMasks) (s : State) (hf : TxFresh K s)
    (evs : List TxEvent) (hnr : ∀ ev, ev ∈ evs → ev.is_restart = false) :
    (∃ s', tx_run K s evs = some s') ∧
    (tx_gated K s evs = true →
      tx_released K s evs
        = ((tx_accepted_frames K s evs).take (tx_reclaimed K s evs)).map
            (fun skb => some (xmit_skb K skb))) ∧
    (∀ pre post s1 s2, evs = pre ++ TxEvent.drain :: post → tx_run K s pre = some s1 →
      fec_enet_tx K TX_FUEL s1 = some s2 →
      ∀ m, m < kfree_count s2.trace - kfree_count s1.trace →
        (s1.tx_bd ((s1.dirty_tx + m) % TX_RING_SIZE)).cbd_sc &&& K.BD_ENET_TX_READY = 0) := by
  have hring : TxRingOk K s s.dirty_tx := (hf.inv hK).ring_ok
  refine ⟨?_, ?_, ?_⟩
  · obtain ⟨s', hs', _⟩ := tx_run_count K hK evs s hring
    exact ⟨s', hs'⟩
  · intro hg
    obtain ⟨s', h', _, _, hk, hr, _⟩ :=
      tx_run_skb K hK (kfreed s.trace) evs s 0 0 0 [] (hf.norm hK) hf.skb hg hnr
    have hk' := hk.2.2.2.2.2.1
    rw [hr, List.nil_append, Nat.zero_add] at hk'
    exact List.append_cancel_left hk'
  · intro pre post s1 s2 _ hpre hdrain m hm
    obtain ⟨s1', hs1', hr1, _⟩ := tx_run_count K hK pre s hring
    rw [hpre] at hs1'
    cases hs1'
    exact tx_loop_passed K TX_FUEL s1 s1.dirty_tx s2 hr1 hdrain m hm

theorem tx_fifo_order_witness :
    mx28.TxMasks ∧ TxFresh mx28 dev0 ∧ (∀ ev, ev ∈ run_gated → ev.is_restart = false) ∧
    tx_gated mx28 dev0 run_gated = true ∧
    tx_released mx28 dev0 run_gated
      = ((tx_accepted_frames mx28 dev0 run_gated).take (tx_reclaimed mx28 dev0 run_gated)).map
          (fun skb => some (xmit_skb mx28 skb)) ∧
    tx_released mx28 dev0 run_gated = (List.range 5).map (fun a => some (frame_at a)) :=
  ⟨by decide, by decide, by decide, by decide,
   (tx_fifo_order mx28 (by decide) dev0 (by decide) run_gated (by decide)).2.1 (by decide),
   by decide⟩

/-- C11 fails after a restart on a ring that still holds frames.  The watchdog
fires (`fec_timeout`, which runs `fec_restart`) on the full ring whose oldest
frame the controller has completed; the queue is awake afterwards.  A drain
right after it releases one entry, the `NULL` of `tx_skbuff[0]`, although no
frame has been accepted since the restart.  When a frame is then accepted, the
controller completes two descriptors and a second drain runs, the drains have
released two `NULL` entries and not the frame accepted: what `fec_enet_tx`
releases is not a prefix of what `fec_enet_start_xmit` accepted. -/
theorem restart_release_not_accepted :
    tx_gated mx28 (fec_timeout mx28 dev16_one_done) [TxEvent.drain] = true ∧
    tx_accepted_frames mx28 (fec_timeout mx28 dev16_one_done) [TxEvent.drain] = [] ∧
    tx_released mx28 (fec_timeout mx28 dev16_one_done) [TxEvent.drain] = [none] ∧
    tx_gated mx28 (fec_timeout mx28 dev16_one_done)
      [TxEvent.drain, TxEvent.xmit (frame_at 16), TxEvent.hw 0, TxEvent.hw 0, TxEvent.drain]
      = true ∧
    tx_accepted_frames mx28 (fec_timeout mx28 dev16_one_done)
      [TxEvent.drain, TxEvent.xmit (frame_at 16), TxEvent.hw 0, TxEvent.hw 0, TxEvent.drain]
      = [frame_at 16] ∧
    tx_released mx28 (fec_timeout mx28 dev16_one_done)
      [TxEvent.drain, TxEvent.xmit (frame_at 16), TxEvent.hw 0, TxEvent.hw 0, TxEvent.drain]
      = [none, none] := by
  decide

end Fec
namespace Fec

/-! ## Frames indexed by slot -/

theorem win_in {i j n : Nat} (hi : i < 16) (hd : (i + 16 - j % 16) % 16 < n - j) :
    (j + (i + 16 - j % 16) % 16) % 16 = i ∧ j ≤ j + (i + 16 - j % 16) % 16 ∧
      j + (i + 16 - j % 16) % 16 < n := by
  omega

theorem win_out {i j n k : Nat} (hnd : ¬ (i + 16 - j % 16) % 16 < n - j)
    (hjk : j ≤ k) (hkn : k < n) (hle : n ≤ j + 16) : k % 16 ≠ i := by
  omega

/-- Under the two invariants the retained frames sit in the window of
`n - j` slots that starts at `dirty_tx`, each slot with the frame accepted for
it, and every other slot is empty. -/
theorem TxSkbAt.window {K : Params} {s : State} {n h j : Nat} {acc : List SkBuff}
    {base : List (Option SkBuff)} (hn : TxNormAt K s n h j s.dirty_tx)
    (hs : TxSkbAt K s n j acc base) (i : Nat) (hi : i < TX_RING_SIZE) :
    s.tx_skbuff i
      = (if (i + TX_RING_SIZE - s.dirty_tx) % TX_RING_SIZE < n - j
          then (acc[j + (i + TX_RING_SIZE - s.dirty_tx) % TX_RING_SIZE]?).map (xmit_skb K)
          else none) ∧
    (s.tx_skbuff i ≠ none ↔ (i + TX_RING_SIZE - s.dirty_tx) % TX_RING_SIZE < n - j) := by
  obtain ⟨_, _, hlen, hin, hout, _, _⟩ := hs
  have hdj : s.dirty_tx = j % TX_RING_SIZE := hn.1.2.2.2.2.1
  have hnj := hn.2.1
  rw [hdj]
  simp only [TX_RING_SIZE] at hin hout hi hnj ⊢
  by_cases hd : (i + 16 - j % 16) % 16 < n - j
  · obtain ⟨e1, e2, e3⟩ := win_in hi hd
    have hval := hin _ e2 e3
    rw [e1] at hval
    rw [if_pos hd]
    refine ⟨hval, ?_⟩
    rw [hval, List.getElem?_eq_getElem (by rw [hlen]; exact e3)]
    exact ⟨fun _ => hd, fun _ => by simp⟩
  · have hnone := hout i hi (fun k hjk hkn => win_out hd hjk hkn hnj)
    rw [if_neg hd]
    refine ⟨hnone, ?_⟩
    rw [hnone]
    exact ⟨fun h => absurd rfl h, fun h => absurd h hd⟩

set_option maxRecDepth 100000

/-- Frames submitted on a queue the driver has stopped are left outside the
window.  In the run `run_overrun2` from the fresh device (submits, completions
by the controller and one drain) two frames are accepted on the full ring
before a drain has run.  Afterwards `dirty_tx` is 1, `cur_tx`
is 2 and `tx_full` is clear, so slot 1 alone lies between the cursors, and yet
`tx_skbuff[2]` still holds frame 2. -/
theorem overrun_strands_frames :
    TxFresh mx28 dev0 ∧
    (tx_run mx28 dev0 run_overrun2).map (fun s => (s.dirty_tx, s.cur_tx, s.tx_full))
      = some (1, 2, 0) ∧
    (tx_run mx28 dev0 run_overrun2).map (fun s => (s.skb_dirty, s.skb_cur)) = some (1, 2) ∧
    (tx_run mx28 dev0 run_overrun2).map (fun s => s.tx_skbuff 2) = some (some (frame_at 2)) := by
  decide

/-- In every state reached from a fresh ring by a run of submits made while the queue is not stopped, completions by the controller
and drains, `skb_cur` is the index of `cur_tx` and `skb_dirty` the index of
`dirty_tx`; the occupancy is the number of frames accepted and not yet
reclaimed; `tx_skbuff[i]` is non-NULL exactly for the slots of the occupancy
window that starts at `dirty_tx`, and each of them holds the frame
`fec_enet_start_xmit` accepted for it; and the next `fec_enet_tx` returns and
releases, slot by slot from `dirty_tx` on, exactly the frames retained on the
slots it reclaims. -/
theorem tx_skbuff_window (K : Params) (hK : K.TxMasks) (s : State) (hf : TxFresh K s)
    (evs : List TxEvent) (hg : tx_gated K s evs = true)
    (hnr : ∀ ev, ev ∈ evs → ev.is_restart = false) :
    ∃ s', tx_run K s evs = some s' ∧
      s'.skb_cur = s'.cur_tx ∧ s'.skb_dirty = s'.dirty_tx ∧
      tx_occupancy s' = (tx_accepted K s evs : Int) - (tx_reclaimed K s evs : Int) ∧
      (∀ i, i < TX_RING_SIZE →
        s'.tx_skbuff i
          = (if (i + TX_RING_SIZE - s'.dirty_tx) % TX_RING_SIZE
                < tx_accepted K s evs - tx_reclaimed K s evs
              then ((tx_accepted_frames K s evs)[tx_reclaimed K s evs
                + (i + TX_RING_SIZE - s'.dirty_tx) % TX_RING_SIZE]?).map (xmit_skb K)
              else none) ∧
        (s'.tx_skbuff i ≠ none ↔
          (i + TX_RING_SIZE - s'.dirty_tx) % TX_RING_SIZE
            < tx_accepted K s evs - tx_reclaimed K s evs)) ∧
      ∃ s'' k, fec_enet_tx K TX_FUEL s' = some s'' ∧
        k ≤ tx_accepted K s evs - tx_reclaimed K s evs ∧
        kfree_count s''.trace = kfree_count s'.trace + k ∧
        kfreed s''.trace = kfreed s'.trace
          ++ (List.range k).map (fun m => s'.tx_skbuff ((s'.dirty_tx + m) % 16)) := by
  obtain ⟨s', h', hrun, hn, hk, _⟩ :=
    tx_run_skb K hK (kfreed s.trace) evs s 0 0 0 [] (hf.norm hK) hf.skb hg hnr
  rw [Nat.zero_add, Nat.zero_add] at hn hk
  rw [List.nil_append] at hk
  have hjh := hn.1.2.2.2.2.2.1
  have hhn := hn.1.2.2.2.2.2.2.1
  have hnj := hn.2.1
  have hfuel : h' - tx_reclaimed K s evs < TX_FUEL := by
    simp only [TX_FUEL, TX_RING_SIZE] at hnj ⊢
    omega
  obtain ⟨s'', hs'', _, _, hc, hkf⟩ := tx_loop_skb K _ h' _ _ TX_FUEL s' s'.dirty_tx _ hn hk hfuel
  refine ⟨s', hrun, ?_, ?_, ?_, ?_, s'', h' - tx_reclaimed K s evs, hs'', ?_, hc, hkf⟩
  · rw [hk.1, hn.1.2.2.1]
  · rw [hk.2.1, hn.1.2.2.2.2.1]
  · have := hn.occupancy
    rw [this]
  · intro i hi
    exact hk.window hn i hi
  · exact Nat.sub_le_sub_right hhn _

theorem tx_skbuff_window_witness :
    mx28.TxMasks ∧ TxFresh mx28 dev0 ∧ tx_gated mx28 dev0 run_gated = true ∧
    (∀ ev, ev ∈ run_gated → ev.is_restart = false) ∧
    ∃ s', tx_run mx28 dev0 run_gated = some s' ∧
      s'.skb_cur = s'.cur_tx ∧ s'.skb_dirty = s'.dirty_tx ∧
      tx_occupancy s' = (tx_accepted mx28 dev0 run_gated : Int)
        - (tx_reclaimed mx28 dev0 run_gated : Int) ∧
      (∀ i, i < TX_RING_SIZE →
        s'.tx_skbuff i
          = (if (i + TX_RING_SIZE - s'.dirty_tx) % TX_RING_SIZE
                < tx_accepted mx28 dev0 run_gated - tx_reclaimed mx28 dev0 run_gated
              then ((tx_accepted_frames mx28 dev0 run_gated)[tx_reclaimed mx28 dev0 run_gated
                + (i + TX_RING_SIZE - s'.dirty_tx) % TX_RING_SIZE]?).map (xmit_skb mx28)
              else none) ∧
        (s'.tx_skbuff i ≠ none ↔
          (i + TX_RING_SIZE - s'.dirty_tx) % TX_RING_SIZE
            < tx_accepted mx28 dev0 run_gated - tx_reclaimed mx28 dev0 run_gated)) ∧
      ∃ s'' k, fec_enet_tx mx28 TX_FUEL s' = some s'' ∧
        k ≤ tx_accepted mx28 dev0 run_gated - tx_reclaimed mx28 dev0 run_gated ∧
        kfree_count s''.trace = kfree_count s'.trace + k ∧
        kfreed s''.trace = kfreed s'.trace
          ++ (List.range k).map (fun m => s'.tx_skbuff ((s'.dirty_tx + m) % 16)) :=
  ⟨by decide, by decide, by decide, by decide,
   tx_skbuff_window mx28 (by decide) dev0 (by decide) run_gated (by decide) (by decide)⟩

/-- C20 fails after a restart on a full ring.  On the full ring whose oldest
frame the controller has completed every slot of `tx_skbuff` holds the frame
`fec_enet_start_xmit` placed on it.  The watchdog fires (`fec_timeout`, which
runs `fec_restart`): `skb_cur` and `skb_dirty` still match the cursors, every
entry of `tx_skbuff` is `NULL`, and `tx_full` is still 1.  The next
`fec_enet_tx` reclaims slot 0 and releases `NULL`, not the frame placed on that
slot; afterwards `dirty_tx` is 1, `cur_tx` is 0 and `tx_full` is 0, so slots 1
to 15 lie between `dirty_tx` and `cur_tx`, and every entry of `tx_skbuff` is
`NULL`. -/
theorem restart_window_slots_empty :
    (∀ i, i < TX_RING_SIZE → dev16_one_done.tx_skbuff i = some frame64) ∧
    (fec_timeout mx28 dev16_one_done).tx_full = 1 ∧
    (fec_timeout mx28 dev16_one_done).skb_cur = (fec_timeout mx28 dev16_one_done).cur_tx ∧
    (fec_timeout mx28 dev16_one_done).skb_dirty = (fec_timeout mx28 dev16_one_done).dirty_tx ∧
    (∀ i, i < TX_RING_SIZE → (fec_timeout mx28 dev16_one_done).tx_skbuff i = none) ∧
    tx_released mx28 (fec_timeout mx28 dev16_one_done) [TxEvent.drain] = [none] ∧
    (fec_enet_tx mx28 TX_FUEL (fec_timeout mx28 dev16_one_done)).map
      (fun s => (s.dirty_tx, s.cur_tx, s.tx_full, s.skb_dirty, s.skb_cur,
        decide (∀ i, i < TX_RING_SIZE → s.tx_skbuff i = none)))
      = some (1, 0, 0, 1, 0, true) := by
  decide

end Fec
namespace Fec

/-! ## The descriptor of an accepted frame -/

theorem xmit_ok_eq (K : Params) (s : State) (skb : SkBuff)
    (hok : (fec_enet_start_xmit K s skb).1 = NetdevTx.NETDEV_TX_OK) :
    fec_enet_start_xmit K s skb = (NetdevTx.NETDEV_TX_OK, xmit_enqueue K s skb) := by
  unfold fec_enet_start_xmit at hok ⊢
  by_cases hl : s.link = 0
  · rw [if_pos hl] at hok; cases hok
  · rw [if_neg hl] at hok ⊢
    by_cases hrd : (s.tx_bd s.cur_tx).cbd_sc &&& K.BD_ENET_TX_READY ≠ 0
    · rw [if_pos hrd] at hok; cases hok
    · rw [if_neg hrd]

theorem xmit_enqueue_bounce (K : Params) (s : State) (skb : SkBuff) :
    (xmit_enqueue K s skb).tx_bounce = s.tx_bounce ∧
    (xmit_enqueue K s skb).tx_bounce_buf
      = Function.update s.tx_bounce_buf s.cur_tx (xmit_bounce_buf K s skb) := by
  unfold xmit_enqueue
  simp only [writel, netif_stop_queue]
  by_cases hn : xmit_next K s skb = s.dirty_tx
  · simp [hn]
  · simp [hn]

/-- C21: for every accepted `fec_enet_start_xmit` on the descriptor at
`cur_tx` with prior status word `s` and a frame whose length `n` fits the
16-bit length field, the new status word is `(s & ~BD_ENET_TX_STATS)`,
or-ed with `BD_ENET_TX_PTP` exactly when a timer is present and the frame
asks for a time stamp, or-ed with
`BD_ENET_TX_READY | BD_ENET_TX_INTR | BD_ENET_TX_LAST | BD_ENET_TX_TC`; the
length field is `n` (`n mod 2^16` in general); the wrap bit of `s` is
preserved; no other descriptor changes; and the one call that leaves the
driver is the write of 0 to `FEC_X_DES_ACTIVE`. -/
theorem xmit_descriptor (K : Params) (hK : K.TxMasks) (s : State) (skb : SkBuff)
    (hok : (fec_enet_start_xmit K s skb).1 = NetdevTx.NETDEV_TX_OK) :
    ((fec_enet_start_xmit K s skb).2.tx_bd s.cur_tx).cbd_sc
      = (if s.ptimer_present ≠ 0 ∧ skb.txstamp = true
          then clear_bits (s.tx_bd s.cur_tx).cbd_sc K.BD_ENET_TX_STATS ||| K.BD_ENET_TX_PTP
          else clear_bits (s.tx_bd s.cur_tx).cbd_sc K.BD_ENET_TX_STATS)
        ||| (K.BD_ENET_TX_READY ||| K.BD_ENET_TX_INTR ||| K.BD_ENET_TX_LAST
          ||| K.BD_ENET_TX_TC) ∧
    ((fec_enet_start_xmit K s skb).2.tx_bd s.cur_tx).cbd_datlen = skb.len % 65536 ∧
    (skb.len < 65536 →
      ((fec_enet_start_xmit K s skb).2.tx_bd s.cur_tx).cbd_datlen = skb.len) ∧
    ((fec_enet_start_xmit K s skb).2.tx_bd s.cur_tx).cbd_sc &&& K.BD_ENET_TX_WRAP
      = (s.tx_bd s.cur_tx).cbd_sc &&& K.BD_ENET_TX_WRAP ∧
    (∀ i, i ≠ s.cur_tx → (fec_enet_start_xmit K s skb).2.tx_bd i = s.tx_bd i) ∧
    (fec_enet_start_xmit K s skb).2.trace
      = s.trace ++ [Call.writel 0 FecReg.FEC_X_DES_ACTIVE] := by
  rw [xmit_ok_eq K s skb hok]
  have hbd := (xmit_enqueue_fields K s skb).1
  have htr := (xmit_enqueue_more K s skb).2.2.2.2.2.2.2
  have hsc : ((xmit_enqueue K s skb).tx_bd s.cur_tx).cbd_sc = xmit_status K s skb := by
    rw [hbd, Function.update_same]; rfl
  have hlen : ((xmit_enqueue K s skb).tx_bd s.cur_tx).cbd_datlen = skb.len % 65536 := by
    rw [hbd, Function.update_same]; rfl
  refine ⟨?_, hlen, ?_, ?_, ?_, htr⟩
  · show ((xmit_enqueue K s skb).tx_bd s.cur_tx).cbd_sc = _
    rw [hsc]
    unfold xmit_status
    by_cases hp : s.ptimer_present ≠ 0 ∧ skb.txstamp = true
    · simp only [if_pos hp]
    · simp only [if_neg hp]
  · intro hlt
    show ((xmit_enqueue K s skb).tx_bd s.cur_tx).cbd_datlen = _
    rw [hlen, Nat.mod_eq_of_lt hlt]
  · show ((xmit_enqueue K s skb).tx_bd s.cur_tx).cbd_sc &&& _ = _
    rw [hsc]
    exact xmit_status_wrap K hK s skb
  · intro i hi
    show (xmit_enqueue K s skb).tx_bd i = _
    rw [hbd, Function.update_noteq hi]

theorem xmit_descriptor_witness :
    mx28.TxMasks ∧ (fec_enet_start_xmit mx28 dev0 frame64).1 = NetdevTx.NETDEV_TX_OK ∧
    frame64.len < 65536 ∧
    ((fec_enet_start_xmit mx28 dev0 frame64).2.tx_bd dev0.cur_tx).cbd_datlen = frame64.len ∧
    ((fec_enet_start_xmit mx28 dev0 frame64).2.tx_bd dev0.cur_tx).cbd_sc &&& mx28.BD_ENET_TX_WRAP
      = (dev0.tx_bd dev0.cur_tx).cbd_sc &&& mx28.BD_ENET_TX_WRAP ∧
    (fec_enet_start_xmit mx28 dev0 frame64).2.trace
      = dev0.trace ++ [Call.writel 0 FecReg.FEC_X_DES_ACTIVE] :=
  ⟨by decide, by decide, by decide,
   (xmit_descriptor mx28 (by decide) dev0 frame64 (by decide)).2.2.1 (by decide),
   (xmit_descriptor mx28 (by decide) dev0 frame64 (by decide)).2.2.2.1,
   (xmit_descriptor mx28 (by decide) dev0 frame64 (by decide)).2.2.2.2.2⟩

/-! ## Statistics of a reclaimed descriptor -/

/-- C23: one pass of the loop of `fec_enet_tx` over the descriptor `bdp`
with status word `s`.  When `s` has any of `BD_ENET_TX_HB`, `BD_ENET_TX_LC`,
`BD_ENET_TX_RL`, `BD_ENET_TX_UN`, `BD_ENET_TX_CSL`, `tx_errors` grows by one,
`tx_packets` is unchanged, and each of `tx_heartbeat_errors`,
`tx_window_errors`, `tx_aborted_errors`, `tx_fifo_errors`,
`tx_carrier_errors` grows by one exactly when its bit is set.  Otherwise
`tx_packets` grows by one and none of the six error counters changes.  In
both cases the frame retained at `skb_dirty` is passed to
`dev_kfree_skb_any` and its entry set to NULL. -/
theorem tx_reclaim_accounting (K : Params) (s : State) (bdp : Nat) :
    ((s.tx_bd bdp).cbd_sc &&& (K.BD_ENET_TX_HB ||| K.BD_ENET_TX_LC ||| K.BD_ENET_TX_RL
        ||| K.BD_ENET_TX_UN ||| K.BD_ENET_TX_CSL) ≠ 0 →
      (fec_enet_tx_one K s bdp).stats.tx_errors = s.stats.tx_errors + 1 ∧
      (fec_enet_tx_one K s bdp).stats.tx_packets = s.stats.tx_packets ∧
      (fec_enet_tx_one K s bdp).stats.tx_heartbeat_errors = s.stats.tx_heartbeat_errors
        + (if (s.tx_bd bdp).cbd_sc &&& K.BD_ENET_TX_HB ≠ 0 then 1 else 0) ∧
      (fec_enet_tx_one K s bdp).stats.tx_window_errors = s.stats.tx_window_errors
        + (if (s.tx_bd bdp).cbd_sc &&& K.BD_ENET_TX_LC ≠ 0 then 1 else 0) ∧
      (fec_enet_tx_one K s bdp).stats.tx_aborted_errors = s.stats.tx_aborted_errors
        + (if (s.tx_bd bdp).cbd_sc &&& K.BD_ENET_TX_RL ≠ 0 then 1 else 0) ∧
      (fec_enet_tx_one K s bdp).stats.tx_fifo_errors = s.stats.tx_fifo_errors
        + (if (s.tx_bd bdp).cbd_sc &&& K.BD_ENET_TX_UN ≠ 0 then 1 else 0) ∧
      (fec_enet_tx_one K s bdp).stats.tx_carrier_errors = s.stats.tx_carrier_errors
        + (if (s.tx_bd bdp).cbd_sc &&& K.BD_ENET_TX_CSL ≠ 0 then 1 else 0)) ∧
    ((s.tx_bd bdp).cbd_sc &&& (K.BD_ENET_TX_HB ||| K.BD_ENET_TX_LC ||| K.BD_ENET_TX_RL
        ||| K.BD_ENET_TX_UN ||| K.BD_ENET_TX_CSL) = 0 →
      (fec_enet_tx_one K s bdp).stats.tx_packets = s.stats.tx_packets + 1 ∧
      (fec_enet_tx_one K s bdp).stats.tx_errors = s.stats.tx_errors ∧
      (fec_enet_tx_one K s bdp).stats.tx_heartbeat_errors = s.stats.tx_heartbeat_errors ∧
      (fec_enet_tx_one K s bdp).stats.tx_window_errors = s.stats.tx_window_errors ∧
      (fec_enet_tx_one K s bdp).stats.tx_aborted_errors = s.stats.tx_aborted_errors ∧
      (fec_enet_tx_one K s bdp).stats.tx_fifo_errors = s.stats.tx_fifo_errors ∧
      (fec_enet_tx_one K s bdp).stats.tx_carrier_errors = s.stats.tx_carrier_errors) ∧
    (fec_enet_tx_one K s bdp).trace
      = s.trace ++ [Call.dev_kfree_skb_any (s.tx_skbuff s.skb_dirty)] ∧
    (fec_enet_tx_one K s bdp).tx_skbuff s.skb_dirty = none := by
  have hst := (fec_enet_tx_one_fields K s bdp).2.2.2.2.2.2
  have htr := (fec_enet_tx_one_fields K s bdp).2.2.2.2.2.1
  have hsk := (fec_enet_tx_one_skb K s bdp).1
  have hb : ∀ (c : Prop) [Decidable c] (n : Nat), bump (decide c) n = n + (if c then 1 else 0) := by
    intro c _ n
    by_cases h : c <;> simp [bump, h]
  refine ⟨?_, ?_, htr, by rw [hsk, Function.update_same]⟩
  · intro he
    rw [hst]
    unfold tx_stats
    simp only [if_pos he]
    refine ⟨?_, ?_, ?_, ?_, ?_, ?_, ?_⟩ <;> first | trivial | exact hb _ _
  · intro he
    rw [hst]
    unfold tx_stats
    have hne : ¬ ((s.tx_bd bdp).cbd_sc &&& (K.BD_ENET_TX_HB ||| K.BD_ENET_TX_LC
        ||| K.BD_ENET_TX_RL ||| K.BD_ENET_TX_UN ||| K.BD_ENET_TX_CSL) ≠ 0) := fun h => h he
    simp only [if_neg hne]
    refine ⟨?_, ?_, ?_, ?_, ?_, ?_, ?_⟩ <;> trivial

theorem tx_reclaim_accounting_witness :
    (dev1_underrun.tx_bd 0).cbd_sc &&& (mx28.BD_ENET_TX_HB ||| mx28.BD_ENET_TX_LC
        ||| mx28.BD_ENET_TX_RL ||| mx28.BD_ENET_TX_UN ||| mx28.BD_ENET_TX_CSL) ≠ 0 ∧
    ((fec_enet_tx_one mx28 dev1_underrun 0).stats.tx_errors = dev1_underrun.stats.tx_errors + 1 ∧
      (fec_enet_tx_one mx28 dev1_underrun 0).stats.tx_packets = dev1_underrun.stats.tx_packets ∧
      (fec_enet_tx_one mx28 dev1_underrun 0).stats.tx_heartbeat_errors
        = dev1_underrun.stats.tx_heartbeat_errors
          + (if (dev1_underrun.tx_bd 0).cbd_sc &&& mx28.BD_ENET_TX_HB ≠ 0 then 1 else 0) ∧
      (fec_enet_tx_one mx28 dev1_underrun 0).stats.tx_window_errors
        = dev1_underrun.stats.tx_window_errors
          + (if (dev1_underrun.tx_bd 0).cbd_sc &&& mx28.BD_ENET_TX_LC ≠ 0 then 1 else 0) ∧
      (fec_enet_tx_one mx28 dev1_underrun 0).stats.tx_aborted_errors
        = dev1_underrun.stats.tx_aborted_errors
          + (if (dev1_underrun.tx_bd 0).cbd_sc &&& mx28.BD_ENET_TX_RL ≠ 0 then 1 else 0) ∧
      (fec_enet_tx_one mx28 dev1_underrun 0).stats.tx_fifo_errors
        = dev1_underrun.stats.tx_fifo_errors
          + (if (dev1_underrun.tx_bd 0).cbd_sc &&& mx28.BD_ENET_TX_UN ≠ 0 then 1 else 0) ∧
      (fec_enet_tx_one mx28 dev1_underrun 0).stats.tx_carrier_errors
        = dev1_underrun.stats.tx_carrier_errors
          + (if (dev1_underrun.tx_bd 0).cbd_sc &&& mx28.BD_ENET_TX_CSL ≠ 0 then 1 else 0)) ∧
    (dev1_done.tx_bd 0).cbd_sc &&& (mx28.BD_ENET_TX_HB ||| mx28.BD_ENET_TX_LC
        ||| mx28.BD_ENET_TX_RL ||| mx28.BD_ENET_TX_UN ||| mx28.BD_ENET_TX_CSL) = 0 ∧
    (fec_enet_tx_one mx28 dev1_done 0).stats.tx_packets = dev1_done.stats.tx_packets + 1 ∧
    (fec_enet_tx_one mx28 dev1_underrun 0).stats.tx_fifo_errors = 1 :=
  ⟨by decide, (tx_reclaim_accounting mx28 dev1_underrun 0).1 (by decide), by decide,
   ((tx_reclaim_accounting mx28 dev1_done 0).2.1 (by decide)).1, by decide⟩

end Fec
namespace Fec

/-! ## The buffer handed to the controller -/

theorem and_3_eq_mod (x : Nat) : x &&& 3 = x % 4 := by
  have h : (3 : Nat) = 2 ^ 2 - 1 := by norm_num
  rw [h, Nat.and_pow_two_sub_one_eq_mod]

theorem and_f_eq_mod (x : Nat) : x &&& 0xf = x % 16 := by
  have h : (0xf : Nat) = 2 ^ 4 - 1 := by norm_num
  rw [h, Nat.and_pow_two_sub_one_eq_mod]

theorem mem_read_length (buf : List Nat) (n : Nat) : (mem_read buf n).length = n := by
  simp [mem_read]

theorem getD_map_range (f : Nat → Nat) (n i : Nat) :
    ((List.range n).map f).getD i 0 = if i < n then f i else 0 := by
  rw [List.getD_eq_getElem?_getD, List.getElem?_map]
  by_cases h : i < n
  · rw [if_pos h, List.getElem?_range h]; rfl
  · rw [if_neg h, List.getElem?_eq_none (by simpa using h)]; rfl

/-- Byte `i` of the first `n` bytes of a buffer. -/
theorem mem_read_getD (buf : List Nat) (n i : Nat) :
    (mem_read buf n).getD i 0 = if i < n then buf.getD i 0 else 0 := by
  unfold mem_read
  exact getD_map_range _ n i

theorem getD_of_le (buf : List Nat) (i : Nat) (h : buf.length ≤ i) : buf.getD i 0 = 0 := by
  rw [List.getD_eq_getElem?_getD, List.getElem?_eq_none h]
  rfl

/-- Byte `i` of a buffer after `swap_buffer`. -/
theorem swap_buffer_getD (buf : List Nat) (len i : Nat) :
    (swap_buffer buf len).getD i 0
      = if i < 4 * ((len + 3) / 4) then buf.getD (i / 4 * 4 + (3 - i % 4)) 0
        else buf.getD i 0 := by
  unfold swap_buffer
  rw [getD_map_range]
  by_cases h : i < max buf.length (4 * ((len + 3) / 4))
  · rw [if_pos h]
  · rw [if_neg h]
    have h1 : ¬ i < 4 * ((len + 3) / 4) := by omega
    have h2 : buf.length ≤ i := by omega
    rw [if_neg h1, getD_of_le buf i h2]

/-- Byte `i` of a buffer after `memcpy`. -/
theorem memcpy_getD (dst src : List Nat) (n i : Nat) :
    (memcpy dst src n).getD i 0 = if i < n then src.getD i 0 else dst.getD i 0 := by
  unfold memcpy
  rw [List.getD_eq_getElem?_getD, List.getD_eq_getElem?_getD, List.getD_eq_getElem?_getD]
  by_cases h : i < n
  · rw [if_pos h, List.getElem?_append_left (by rw [mem_read_length]; exact h)]
    have := mem_read_getD src n i
    rw [if_pos h, List.getD_eq_getElem?_getD, List.getD_eq_getElem?_getD] at this
    exact this
  · rw [if_neg h, List.getElem?_append_right (by rw [mem_read_length]; omega), mem_read_length,
      List.getElem?_drop]
    congr 2
    omega

/-- C25, as stated, fails on MXS.  A frame at an address that is not 16-byte
aligned is accepted and sent through the bounce buffer of slot 0, and when
`fec_enet_start_xmit` returns the first 8 bytes of that buffer are not the 8
bytes of the frame: each 32-bit word has its bytes reversed. -/
theorem bounce_buffer_swapped :
    (fec_enet_start_xmit mx28 dev0 frame_odd).1 = NetdevTx.NETDEV_TX_OK ∧
    frame_odd.data &&& FEC_ALIGNMENT mx28 ≠ 0 ∧
    ((fec_enet_start_xmit mx28 dev0 frame_odd).2.tx_bd 0).cbd_bufaddr = dev0.tx_bounce 0 ∧
    frame_odd.buf.take frame_odd.len = [1, 2, 3, 4, 5, 6, 7, 8] ∧
    ((fec_enet_start_xmit mx28 dev0 frame_odd).2.tx_bounce_buf 0).take frame_odd.len
      = [4, 3, 2, 1, 8, 7, 6, 5] := by
  decide

/-- C25, amended: in an accepted `fec_enet_start_xmit` the buffer handed to
the controller is the frame's own data buffer when its address has none of
the `FEC_ALIGNMENT` bits set (a multiple of 16 on MXC and MXS, of 4
otherwise), and no bounce buffer is written then; otherwise it is the bounce
buffer `tx_bounce[i]` of the producer slot `i = cur_tx - tx_bd_base`.  For
every frame length, byte `k < skb->len` of that bounce buffer is, without
MXS, byte `k` of the frame's payload; on MXS, where `swap_buffer` reverses the
bytes of each of the `(skb->len + 3) / 4` words after the copy, it is byte
`4 * (k / 4) + 3 - k % 4` of the payload, or of the previous contents of the
bounce buffer when that index is not below `skb->len` (last word of a length
that is no multiple of 4).  The array `tx_bounce` itself is never written on
the submit path. -/
theorem xmit_buffer_choice (K : Params) (s : State) (skb : SkBuff)
    (hok : (fec_enet_start_xmit K s skb).1 = NetdevTx.NETDEV_TX_OK) :
    (skb.data &&& FEC_ALIGNMENT K = 0 ↔
      skb.data % (if K.CONFIG_ARCH_MXC || K.CONFIG_ARCH_MXS then 16 else 4) = 0) ∧
    (skb.data &&& FEC_ALIGNMENT K = 0 →
      ((fec_enet_start_xmit K s skb).2.tx_bd s.cur_tx).cbd_bufaddr = skb.data ∧
      (fec_enet_start_xmit K s skb).2.tx_bounce_buf = s.tx_bounce_buf) ∧
    (skb.data &&& FEC_ALIGNMENT K ≠ 0 →
      ((fec_enet_start_xmit K s skb).2.tx_bd s.cur_tx).cbd_bufaddr = s.tx_bounce s.cur_tx ∧
      ∀ k, k < skb.len →
        ((fec_enet_start_xmit K s skb).2.tx_bounce_buf s.cur_tx).getD k 0
          = (if K.CONFIG_ARCH_MXS then
              (if k / 4 * 4 + (3 - k % 4) < skb.len
                then skb.buf.getD (k / 4 * 4 + (3 - k % 4)) 0
                else (s.tx_bounce_buf s.cur_tx).getD (k / 4 * 4 + (3 - k % 4)) 0)
            else skb.buf.getD k 0)) ∧
    (fec_enet_start_xmit K s skb).2.tx_bounce = s.tx_bounce := by
  rw [xmit_ok_eq K s skb hok]
  have hbd := (xmit_enqueue_fields K s skb).1
  obtain ⟨hb, hbb⟩ := xmit_enqueue_bounce K s skb
  have haddr : ((xmit_enqueue K s skb).tx_bd s.cur_tx).cbd_bufaddr
      = if xmit_bounce K skb then s.tx_bounce s.cur_tx else skb.data := by
    rw [hbd, Function.update_same]; rfl
  refine ⟨?_, ?_, ?_, hb⟩
  · unfold FEC_ALIGNMENT
    cases K.CONFIG_ARCH_MXC <;> cases K.CONFIG_ARCH_MXS <;>
      simp [and_3_eq_mod, and_f_eq_mod]
  · intro ha
    have hx : xmit_bounce K skb = false := by simp [xmit_bounce, ha]
    constructor
    · show ((xmit_enqueue K s skb).tx_bd s.cur_tx).cbd_bufaddr = _
      rw [haddr, hx]; rfl
    · show (xmit_enqueue K s skb).tx_bounce_buf = _
      rw [hbb]
      unfold xmit_bounce_buf
      rw [hx]
      simp
  · intro ha
    have hx : xmit_bounce K skb = true := by simp [xmit_bounce, ha]
    have hbuf : (xmit_enqueue K s skb).tx_bounce_buf s.cur_tx
        = (if K.CONFIG_ARCH_MXS
            then swap_buffer (memcpy (s.tx_bounce_buf s.cur_tx) skb.buf skb.len) skb.len
            else memcpy (s.tx_bounce_buf s.cur_tx) skb.buf skb.len) := by
      rw [hbb, Function.update_same]
      unfold xmit_bounce_buf
      rw [hx]
      simp
    refine ⟨?_, ?_⟩
    · show ((xmit_enqueue K s skb).tx_bd s.cur_tx).cbd_bufaddr = _
      rw [haddr, hx]; rfl
    · intro k hk
      show ((xmit_enqueue K s skb).tx_bounce_buf s.cur_tx).getD k 0 = _
      rw [hbuf]
      cases K.CONFIG_ARCH_MXS
      · simp only [Bool.false_eq_true, if_false]
        rw [memcpy_getD, if_pos hk]
      · simp only [if_true]
        have hw : k < 4 * ((skb.len + 3) / 4) := by omega
        rw [swap_buffer_getD, if_pos hw, memcpy_getD]

theorem xmit_buffer_choice_witness :
    (fec_enet_start_xmit mx28 dev0 frame6).1 = NetdevTx.NETDEV_TX_OK ∧
    frame6.data &&& FEC_ALIGNMENT mx28 ≠ 0 ∧
    (((fec_enet_start_xmit mx28 dev0 frame6).2.tx_bd dev0.cur_tx).cbd_bufaddr
        = dev0.tx_bounce dev0.cur_tx ∧
      ∀ k, k < frame6.len →
        ((fec_enet_start_xmit mx28 dev0 frame6).2.tx_bounce_buf dev0.cur_tx).getD k 0
          = (if mx28.CONFIG_ARCH_MXS then
              (if k / 4 * 4 + (3 - k % 4) < frame6.len
                then frame6.buf.getD (k / 4 * 4 + (3 - k % 4)) 0
                else (dev0.tx_bounce_buf dev0.cur_tx).getD (k / 4 * 4 + (3 - k % 4)) 0)
            else frame6.buf.getD k 0)) ∧
    (fec_enet_start_xmit mx28 dev0 frame6).2.tx_bounce_buf 0 = [4, 3, 2, 1, 0, 0, 6, 5] ∧
    (fec_enet_start_xmit mx28 dev0 frame_odd).2.tx_bounce_buf 0 = [4, 3, 2, 1, 8, 7, 6, 5] ∧
    (fec_enet_start_xmit mx28 dev0 frame64).1 = NetdevTx.NETDEV_TX_OK ∧
    frame64.data &&& FEC_ALIGNMENT mx28 = 0 ∧
    ((fec_enet_start_xmit mx28 dev0 frame64).2.tx_bd dev0.cur_tx).cbd_bufaddr = frame64.data :=
  ⟨by decide, by decide,
   (xmit_buffer_choice mx28 dev0 frame6 (by decide)).2.2.1 (by decide),
   by decide, by decide, by decide, by decide,
   ((xmit_buffer_choice mx28 dev0 frame64 (by decide)).2.1 (by decide)).1⟩

end Fec
namespace Fec

/-! ## The receive ring: wrap bit, termination -/

theorem rx_rearm_wrap (K : Params) (hK : K.RxMasks) (st : Nat) :
    rx_rearm K st &&& K.BD_ENET_RX_WRAP = st &&& K.BD_ENET_RX_WRAP := by
  obtain ⟨_, hw, _, _, _, _, hws, hwe, _, _⟩ := hK
  have he : K.BD_ENET_RX_EMPTY &&& K.BD_ENET_RX_WRAP = 0 := by rw [Nat.and_comm]; exact hwe
  unfold rx_rearm
  rw [and_or_distrib_r, clear_bits_and_of_disjoint st hw hws, he, Nat.or_zero]

theorem rx_rearm_stats (K : Params) (hK : K.RxMasks) (st : Nat) :
    rx_rearm K st &&& K.BD_ENET_RX_STATS = 0 := by
  obtain ⟨_, _, hs, _, _, _, _, _, hes, _⟩ := hK
  unfold rx_rearm
  rw [and_or_distrib_r, clear_bits_and_self st hs, hes]
  rfl

theorem RxRingOk.next {K : Params} (hK : K.RxMasks) {s : State} {bdp : Nat}
    (hr : RxRingOk K s bdp) :
    rx_next K s bdp = (if bdp + 1 = RX_RING_SIZE K then 0 else bdp + 1) ∧
    rx_next K s bdp < RX_RING_SIZE K := by
  have hw := hr.1 bdp hr.2
  have hlt := hr.2
  unfold rx_next
  rw [rx_rearm_wrap K hK]
  by_cases h : bdp + 1 = RX_RING_SIZE K
  · rw [if_pos (hw.2 h), if_pos h]
    exact ⟨rfl, hK.2.2.2.2.2.2.2.2.2⟩
  · rw [if_neg (fun e => h (hw.1 e)), if_neg h]
    exact ⟨rfl, by omega⟩

theorem fec_enet_rx_one_frame (K : Params) (s : State) (bdp : Nat) (s1 : State)
    (h1 : fec_enet_rx_one K s bdp = some s1) :
    s1.tx_bd = s.tx_bd ∧
    s1.cur_tx = s.cur_tx ∧
    s1.dirty_tx = s.dirty_tx ∧
    s1.tx_full = s.tx_full ∧
    rx_processed s1.trace = rx_processed s.trace + 1 ∧
    s1.opened = s.opened ∧
    (∀ i, (s1.rx_bd i).cbd_datlen = (s.rx_bd i).cbd_datlen) := by
  have hp : ∀ t : List Call, rx_processed (t ++ [Call.writel 0 FecReg.FEC_R_DES_ACTIVE])
      = rx_processed t + 1 := by
    intro t
    simp [rx_processed, writes_to_append, writes_to_writel]
  have hn : ∀ (t : List Call) (i : Nat) (f : List Nat),
      rx_processed (t ++ [Call.netif_rx i f] ++ [Call.writel 0 FecReg.FEC_R_DES_ACTIVE])
        = rx_processed t + 1 := by
    intro t i f
    simp [rx_processed, writes_to_append, writes_to_writel, writes_to]
  have hd : ∀ (f : Nat → Bufdesc) (d : Bufdesc) (i : Nat), d.cbd_datlen = (f bdp).cbd_datlen →
      ((Function.update f bdp d) i).cbd_datlen = (f i).cbd_datlen := by
    intro f d i hd
    by_cases hi : i = bdp
    · subst hi; rw [Function.update_same, hd]
    · rw [Function.update_noteq hi]
  unfold fec_enet_rx_one at h1
  rcases rx_process_cases K s bdp with ⟨ho, h⟩ | ⟨ho, hcl, h⟩ | ⟨ho, hcl, ha, h⟩ |
    ⟨ho, hcl, ha, hl, h⟩ | ⟨ho, hcl, ha, hl, h⟩
  · rw [h, Option.map_some'] at h1
    cases h1
    simp only [rx_processing_done, writel]
    refine ⟨?_, ?_, ?_, ?_, hp _, ?_, ?_⟩
    iterate 5 trivial
    intro i; apply hd; cases K.CONFIG_ENHANCED_BD <;> rfl
  · rw [h, Option.map_some'] at h1
    cases h1
    simp only [rx_processing_done, writel]
    refine ⟨?_, ?_, ?_, ?_, hp _, ?_, ?_⟩
    iterate 5 trivial
    intro i; apply hd; cases K.CONFIG_ENHANCED_BD <;> rfl
  · rw [h, Option.map_some'] at h1
    cases h1
    simp only [rx_processing_done, writel]
    refine ⟨?_, ?_, ?_, ?_, hp _, ?_, ?_⟩
    iterate 5 trivial
    intro i; apply hd; cases K.CONFIG_ENHANCED_BD <;> rfl
  · rw [h, Option.map_some'] at h1
    cases h1
    simp only [rx_processing_done, writel]
    refine ⟨?_, ?_, ?_, ?_, hn _ _ _, ?_, ?_⟩
    iterate 5 trivial
    intro i; apply hd; cases K.CONFIG_ENHANCED_BD <;> rfl
  · rw [h] at h1
    cases h1

/-- One processed descriptor keeps the receive ring well formed and lowers the
number of released descriptors. -/
theorem rx_one_ring (K : Params) (hK : K.RxMasks) (s : State) (bdp : Nat) (s1 : State)
    (h1 : fec_enet_rx_one K s bdp = some s1)
    (hr : RxRingOk K s bdp) (he : (s.rx_bd bdp).cbd_sc &&& K.BD_ENET_RX_EMPTY = 0) :
    RxRingOk K s1 (rx_next K s bdp) ∧
    rx_released K s1 < rx_released K s := by
  obtain ⟨hsc, _, _⟩ := fec_enet_rx_one_fields K s bdp s1 h1
  constructor
  · refine ⟨?_, (hr.next hK).2⟩
    intro i hi
    rw [hsc i]
    by_cases hib : i = bdp
    · rw [if_pos hib, rx_rearm_wrap K hK, ← hib]; exact hr.1 i hi
    · rw [if_neg hib]; exact hr.1 i hi
  · unfold rx_released
    apply countP_lt_of_flip _ _ bdp
    · simpa using he
    · rw [hsc bdp, if_pos rfl]
      simpa using rx_rearm_empty K hK.2.2.2.1 _
    · intro x hx
      rw [hsc x] at hx
      by_cases hxb : x = bdp
      · rw [hxb]; simpa using he
      · rw [if_neg hxb] at hx; exact hx
    · exact List.mem_range.2 hr.2

/-- A pass of the receive loop keeps the lengths of the released descriptors
in order. -/
theorem rx_one_len_ok (K : Params) (hK : K.RxMasks) (s : State) (bdp : Nat) (s1 : State)
    (h1 : fec_enet_rx_one K s bdp = some s1) (hl : RxLenOk K s) : RxLenOk K s1 := by
  obtain ⟨hsc, _, _⟩ := fec_enet_rx_one_fields K s bdp s1 h1
  obtain ⟨_, _, _, _, _, ho, hd⟩ := fec_enet_rx_one_frame K s bdp s1 h1
  intro hopen i hi hrel hcl
  rw [ho] at hopen
  rw [hd i]
  rw [hsc i] at hrel hcl
  by_cases hib : i = bdp
  · rw [if_pos hib] at hrel
    exact absurd hrel (rx_rearm_empty K hK.2.2.2.1 _)
  · rw [if_neg hib] at hrel hcl
    exact hl hopen i hi hrel hcl

/-- With the lengths in order a pass over a descriptor of the ring returns. -/
theorem rx_one_returns (K : Params) (s : State) (bdp : Nat) (hl : RxLenOk K s)
    (hb : bdp < RX_RING_SIZE K) (he : (s.rx_bd bdp).cbd_sc &&& K.BD_ENET_RX_EMPTY = 0) :
    ∃ s1, fec_enet_rx_one K s bdp = some s1 :=
  fec_enet_rx_one_some K s bdp (fun ho hcl _ => hl ho bdp hb he hcl)

end Fec
namespace Fec

/-- The receive loop returns on a well-formed ring whose released descriptors
carry lengths of at least 4, once it has more fuel than there are released
descriptors; it stops on an empty descriptor, processes no more descriptors
than were released, leaves the ring well formed and the transmit side alone,
and every descriptor is either as it was or was released and is now re-armed
as empty. -/
theorem rx_loop_terminates (K : Params) (hK : K.RxMasks) (s0 : State) :
    ∀ (m fuel : Nat) (s : State) (bdp : Nat), RxRingOk K s bdp → RxLenOk K s →
      rx_released K s ≤ m → m < fuel →
      (∀ i, (s.rx_bd i).cbd_sc = (s0.rx_bd i).cbd_sc ∨
        ((s.rx_bd i).cbd_sc = rx_rearm K (s0.rx_bd i).cbd_sc ∧
          (s0.rx_bd i).cbd_sc &&& K.BD_ENET_RX_EMPTY = 0)) →
      ∃ s', fec_enet_rx_loop K fuel s bdp = some s' ∧ RxRingOk K s' s'.cur_rx ∧
        (s'.rx_bd s'.cur_rx).cbd_sc &&& K.BD_ENET_RX_EMPTY ≠ 0 ∧
        rx_processed s'.trace ≤ rx_processed s.trace + m ∧
        (∀ i, (s'.rx_bd i).cbd_sc = (s0.rx_bd i).cbd_sc ∨
          ((s'.rx_bd i).cbd_sc = rx_rearm K (s0.rx_bd i).cbd_sc ∧
            (s0.rx_bd i).cbd_sc &&& K.BD_ENET_RX_EMPTY = 0)) ∧
        s'.tx_bd = s.tx_bd ∧ s'.cur_tx = s.cur_tx ∧ s'.dirty_tx = s.dirty_tx ∧
        s'.tx_full = s.tx_full ∧ RxLenOk K s' := by
  intro m
  induction m with
  | zero =>
    intro fuel s bdp hr hlen hm hf hinv
    obtain ⟨f, rfl⟩ : ∃ f, fuel = f + 1 := ⟨fuel - 1, by omega⟩
    have he : (s.rx_bd bdp).cbd_sc &&& K.BD_ENET_RX_EMPTY ≠ 0 := by
      intro h0
      have hpos : 0 < rx_released K s := by
        unfold rx_released
        exact List.countP_pos_iff.2 ⟨bdp, List.mem_range.2 hr.2, by simpa using h0⟩
      omega
    unfold fec_enet_rx_loop
    rw [if_pos he]
    exact ⟨_, rfl, hr, he, Nat.le_refl _, hinv, rfl, rfl, rfl, rfl, hlen⟩
  | succ m ih =>
    intro fuel s bdp hr hlen hm hf hinv
    obtain ⟨f, rfl⟩ : ∃ f, fuel = f + 1 := ⟨fuel - 1, by omega⟩
    unfold fec_enet_rx_loop
    by_cases he : (s.rx_bd bdp).cbd_sc &&& K.BD_ENET_RX_EMPTY ≠ 0
    · rw [if_pos he]
      exact ⟨_, rfl, hr, he, Nat.le_add_right _ _, hinv, rfl, rfl, rfl, rfl, hlen⟩
    · rw [if_neg he]
      have he0 : (s.rx_bd bdp).cbd_sc &&& K.BD_ENET_RX_EMPTY = 0 := by simpa using he
      obtain ⟨s1, h1⟩ := rx_one_returns K s bdp hlen hr.2 he0
      rw [h1]
      obtain ⟨hr1, hlt⟩ := rx_one_ring K hK s bdp s1 h1 hr he0
      have hlen1 := rx_one_len_ok K hK s bdp s1 h1 hlen
      obtain ⟨hsc, _, _⟩ := fec_enet_rx_one_fields K s bdp s1 h1
      obtain ⟨f1, f2, f3, f4, f5, _, _⟩ := fec_enet_rx_one_frame K s bdp s1 h1
      have hsame : (s.rx_bd bdp).cbd_sc = (s0.rx_bd bdp).cbd_sc := by
        rcases hinv bdp with h | ⟨h, _⟩
        · exact h
        · exact absurd (by rw [h]; exact rx_rearm_empty K hK.2.2.2.1 _) he
      have hinv1 : ∀ i, (s1.rx_bd i).cbd_sc = (s0.rx_bd i).cbd_sc ∨
          ((s1.rx_bd i).cbd_sc = rx_rearm K (s0.rx_bd i).cbd_sc ∧
            (s0.rx_bd i).cbd_sc &&& K.BD_ENET_RX_EMPTY = 0) := by
        intro i
        rw [hsc i]
        by_cases hib : i = bdp
        · rw [if_pos hib, hib]
          exact Or.inr ⟨by rw [hsame], by rw [← hsame]; exact he0⟩
        · rw [if_neg hib]; exact hinv i
      obtain ⟨s', hrun, hr', he', hp', hinv', g1, g2, g3, g4, g5⟩ :=
        ih f _ _ hr1 hlen1 (Nat.le_of_lt_succ (Nat.lt_of_lt_of_le hlt hm))
          (Nat.lt_of_succ_lt_succ hf) hinv1
      refine ⟨s', hrun, hr', he', ?_, hinv', g1.trans f1, g2.trans f2, g3.trans f3,
        g4.trans f4, g5⟩
      rw [f5] at hp'
      rw [Nat.add_succ, ← Nat.succ_add]
      exact hp'

theorem rx_released_le (K : Params) (s : State) : rx_released K s ≤ RX_RING_SIZE K := by
  unfold rx_released
  have := List.countP_le_length (fun i => decide ((s.rx_bd i).cbd_sc &&& K.BD_ENET_RX_EMPTY = 0))
    (l := List.range (RX_RING_SIZE K))
  rw [List.length_range] at this
  exact this

/-- C28, as stated, fails: the ring content is not arbitrary.  With a
released descriptor of length 2 at `cur_rx`, on an opened device with
the allocation succeeding: `fec_enet_rx` does not return, with whatever
fuel. -/
theorem rx_short_frame_never_returns :
    RxRingOk mx28 dev_rx_short dev_rx_short.cur_rx ∧
    (dev_rx_short.rx_bd 0).cbd_sc &&& mx28.BD_ENET_RX_EMPTY = 0 ∧
    (dev_rx_short.rx_bd 0).cbd_datlen = 2 ∧
    dev_rx_short.opened ≠ 0 ∧ dev_rx_short.alloc_fails.headD false = false ∧
    ∀ fuel, fec_enet_rx mx28 fuel dev_rx_short = none := by
  refine ⟨by decide, by decide, by decide, by decide, by decide, ?_⟩
  intro fuel
  cases fuel with
  | zero => rfl
  | succ f =>
    have h1 : fec_enet_rx_one mx28 dev_rx_short 0 = none :=
      (fec_enet_rx_one_none mx28 dev_rx_short 0).2 (by decide)
    unfold fec_enet_rx
    rw [fec_enet_rx_loop, if_neg (by decide)]
    show (match fec_enet_rx_one mx28 dev_rx_short 0 with
      | none => none
      | some s1 => fec_enet_rx_loop mx28 f s1 (rx_next mx28 dev_rx_short 0)) = none
    rw [h1]

/-- C28, amended: with the wrap bit on the last receive descriptor and on no
other, `cur_rx` in the ring, no change of the descriptors by the controller
during the call, and a length of at least 4 in every released descriptor
whose frame is to be handed up, `fec_enet_rx` returns for every content of the
ring (all descriptors released included) after processing at most
`RX_RING_SIZE` descriptors; on return the descriptor at `cur_rx` has
`BD_ENET_RX_EMPTY` set, and every descriptor is either untouched or was
released and has been re-armed, with `BD_ENET_RX_EMPTY` set. -/
theorem rx_terminates (K : Params) (hK : K.RxMasks) (s : State)
    (hr : RxRingOk K s s.cur_rx) (hlen : RxLenOk K s) :
    ∃ s', fec_enet_rx K (RX_FUEL K) s = some s' ∧
      (s'.rx_bd s'.cur_rx).cbd_sc &&& K.BD_ENET_RX_EMPTY ≠ 0 ∧
      rx_processed s'.trace ≤ rx_processed s.trace + RX_RING_SIZE K ∧
      (∀ i, (s'.rx_bd i).cbd_sc = (s.rx_bd i).cbd_sc ∨
        ((s.rx_bd i).cbd_sc &&& K.BD_ENET_RX_EMPTY = 0 ∧
          (s'.rx_bd i).cbd_sc = rx_rearm K (s.rx_bd i).cbd_sc ∧
          (s'.rx_bd i).cbd_sc &&& K.BD_ENET_RX_EMPTY ≠ 0)) ∧
      RxRingOk K s' s'.cur_rx := by
  obtain ⟨s', hrun, hr', he', hp', hinv', _⟩ :=
    rx_loop_terminates K hK s (RX_RING_SIZE K) (RX_FUEL K) s s.cur_rx hr hlen
      (rx_released_le K s) (Nat.lt_succ_self _) (fun _ => Or.inl rfl)
  refine ⟨s', hrun, he', hp', ?_, hr'⟩
  intro i
  rcases hinv' i with h | ⟨h1, h2⟩
  · exact Or.inl h
  · exact Or.inr ⟨h2, h1, by rw [h1]; exact rx_rearm_empty K hK.2.2.2.1 _⟩

theorem rx_terminates_witness :
    mx28.RxMasks ∧ RxRingOk mx28 dev_rx_all dev_rx_all.cur_rx ∧ RxLenOk mx28 dev_rx_all ∧
    (∀ i, i < RX_RING_SIZE mx28 → (dev_rx_all.rx_bd i).cbd_sc &&& mx28.BD_ENET_RX_EMPTY = 0) ∧
    (∃ s', fec_enet_rx mx28 (RX_FUEL mx28) dev_rx_all = some s' ∧
      (s'.rx_bd s'.cur_rx).cbd_sc &&& mx28.BD_ENET_RX_EMPTY ≠ 0 ∧
      rx_processed s'.trace ≤ rx_processed dev_rx_all.trace + RX_RING_SIZE mx28 ∧
      (∀ i, (s'.rx_bd i).cbd_sc = (dev_rx_all.rx_bd i).cbd_sc ∨
        ((dev_rx_all.rx_bd i).cbd_sc &&& mx28.BD_ENET_RX_EMPTY = 0 ∧
          (s'.rx_bd i).cbd_sc = rx_rearm mx28 (dev_rx_all.rx_bd i).cbd_sc ∧
          (s'.rx_bd i).cbd_sc &&& mx28.BD_ENET_RX_EMPTY ≠ 0)) ∧
      RxRingOk mx28 s' s'.cur_rx) ∧
    (fec_enet_rx mx28 (RX_FUEL mx28) dev_rx_all).map (fun s => (s.cur_rx, rx_processed s.trace))
      = some (0, 16) :=
  ⟨by decide, by decide, by decide, by decide,
   rx_terminates mx28 (by decide) dev_rx_all (by decide) (by decide), by decide⟩

end Fec
namespace Fec

/-! ## A frame received without error -/

theorem fec_enet_rx_one_buf (K : Params) (s : State) (bdp : Nat) (s1 : State)
    (h1 : fec_enet_rx_one K s bdp = some s1) (hopen : s.opened ≠ 0)
    (hcl : (s.rx_bd bdp).cbd_sc &&& K.BD_ENET_RX_CL = 0) :
    s1.rx_buf bdp = rx_data K s bdp := by
  unfold fec_enet_rx_one at h1
  rcases rx_process_cases K s bdp with ⟨ho, h⟩ | ⟨ho, hcl', h⟩ | ⟨ho, hcl', ha, h⟩ |
    ⟨ho, hcl', ha, hl, h⟩ | ⟨ho, hcl', ha, hl, h⟩
  · exact absurd ho hopen
  · exact absurd hcl hcl'
  · rw [h, Option.map_some'] at h1
    cases h1
    simp only [rx_processing_done, writel]
    rw [Function.update_same]
  · rw [h, Option.map_some'] at h1
    cases h1
    simp only [rx_processing_done, writel]
    rw [Function.update_same]
  · rw [h] at h1
    cases h1

/-- C24, as stated, fails on MXS.  On a ring whose first descriptor was
released with a good 64-byte frame (device opened, allocation succeeding),
the frame `fec_enet_rx` hands up has 60 bytes, but they are not the first 60
bytes of the receive buffer as the controller filled it: the buffer begins
`0, 1, 2, 3, 4, 5, 6, 7` and the frame begins `3, 2, 1, 0, 7, 6, 5, 4`. -/
theorem rx_frame_swapped :
    (dev_rx_one.rx_bd 0).cbd_sc &&& mx28.BD_ENET_RX_EMPTY = 0 ∧
    (dev_rx_one.rx_bd 0).cbd_datlen = 64 ∧
    (dev_rx_one.rx_bd 0).cbd_sc &&& mx28.BD_ENET_RX_CL = 0 ∧
    dev_rx_one.opened ≠ 0 ∧ dev_rx_one.alloc_fails.headD false = false ∧
    (dev_rx_one.rx_buf 0).take 8 = [0, 1, 2, 3, 4, 5, 6, 7] ∧
    (fec_enet_rx mx28 2 dev_rx_one).map
      (fun s => (delivered s.trace).map (fun p => (p.1, p.2.length, p.2.take 8)))
      = some [(0, 60, [3, 2, 1, 0, 7, 6, 5, 4])] := by
  decide

/-- C24, amended: for a released descriptor at `cur_rx` with payload length
`n ≥ 4`, no late collision, the device opened and the allocation succeeding,
the pass of `fec_enet_rx` returns and hands up one frame for the slot, of
length exactly `n - 4`: the 4 bytes of the frame-check sequence are trimmed.
Without MXS byte `k` of the frame is byte `k` of the slot's receive buffer;
on MXS, where `swap_buffer` first reverses the bytes of each 32-bit word of
the buffer in place, byte `k` of the frame is byte `4 * (k / 4) + 3 - k % 4`
of the buffer as the controller filled it.  The slot is re-armed with
`BD_ENET_RX_EMPTY` set and the status bits cleared, the wrap bit kept, and the
drain goes on one slot further (to the base after the last slot); when that
slot is empty `fec_enet_rx` returns with `cur_rx` there. -/
theorem rx_success (K : Params) (hK : K.RxMasks) (s : State) (fuel : Nat)
    (hr : RxRingOk K s s.cur_rx)
    (hrel : (s.rx_bd s.cur_rx).cbd_sc &&& K.BD_ENET_RX_EMPTY = 0) (hopen : s.opened ≠ 0)
    (hcl : (s.rx_bd s.cur_rx).cbd_sc &&& K.BD_ENET_RX_CL = 0)
    (halloc : s.alloc_fails.headD false = false)
    (hn : 4 ≤ (s.rx_bd s.cur_rx).cbd_datlen) :
    ∃ s1, fec_enet_rx_one K s s.cur_rx = some s1 ∧
      delivered s1.trace = delivered s.trace ++ [(s.cur_rx, rx_frame K s s.cur_rx)] ∧
      (rx_frame K s s.cur_rx).length = (s.rx_bd s.cur_rx).cbd_datlen - 4 ∧
      (∀ k, k < (s.rx_bd s.cur_rx).cbd_datlen - 4 →
        (rx_frame K s s.cur_rx).getD k 0
          = (if K.CONFIG_ARCH_MXS then (s.rx_buf s.cur_rx).getD (k / 4 * 4 + (3 - k % 4)) 0
            else (s.rx_buf s.cur_rx).getD k 0)) ∧
      s1.rx_buf s.cur_rx
        = (if K.CONFIG_ARCH_MXS
            then swap_buffer (s.rx_buf s.cur_rx) (s.rx_bd s.cur_rx).cbd_datlen
            else s.rx_buf s.cur_rx) ∧
      (s1.rx_bd s.cur_rx).cbd_sc
        = clear_bits (s.rx_bd s.cur_rx).cbd_sc K.BD_ENET_RX_STATS ||| K.BD_ENET_RX_EMPTY ∧
      (s1.rx_bd s.cur_rx).cbd_sc &&& K.BD_ENET_RX_EMPTY ≠ 0 ∧
      (s1.rx_bd s.cur_rx).cbd_sc &&& K.BD_ENET_RX_STATS = 0 ∧
      (s1.rx_bd s.cur_rx).cbd_sc &&& K.BD_ENET_RX_WRAP
        = (s.rx_bd s.cur_rx).cbd_sc &&& K.BD_ENET_RX_WRAP ∧
      rx_next K s s.cur_rx = (if s.cur_rx + 1 = RX_RING_SIZE K then 0 else s.cur_rx + 1) ∧
      fec_enet_rx K (fuel + 1) s = fec_enet_rx_loop K fuel s1 (rx_next K s s.cur_rx) ∧
      ((s.rx_bd (rx_next K s s.cur_rx)).cbd_sc &&& K.BD_ENET_RX_EMPTY ≠ 0 →
        fec_enet_rx K (fuel + 2) s = some { s1 with cur_rx := rx_next K s s.cur_rx }) := by
  obtain ⟨s1, h1⟩ := fec_enet_rx_one_some K s s.cur_rx (fun _ _ _ => hn)
  obtain ⟨hsc, hdel, _⟩ := fec_enet_rx_one_fields K s s.cur_rx s1 h1
  have hE := hK.2.2.2.1
  have hne : ¬ ((s.rx_bd s.cur_rx).cbd_sc &&& K.BD_ENET_RX_EMPTY ≠ 0) := fun h => h hrel
  have hstep : ∀ f, fec_enet_rx K (f + 1) s
      = fec_enet_rx_loop K f s1 (rx_next K s s.cur_rx) := by
    intro f
    unfold fec_enet_rx
    rw [fec_enet_rx_loop, if_neg hne, h1]
  have hb := fec_enet_rx_one_buf K s s.cur_rx s1 h1 hopen hcl
  have hsc' : (s1.rx_bd s.cur_rx).cbd_sc = rx_rearm K (s.rx_bd s.cur_rx).cbd_sc := by
    rw [hsc, if_pos rfl]
  refine ⟨s1, h1, ?_, ?_, ?_, ?_, ?_, ?_, ?_, ?_, (hr.next hK).1, hstep fuel, ?_⟩
  · rw [hdel, if_pos ⟨hopen, hcl, halloc⟩]
  · unfold rx_frame
    exact mem_read_length _ _
  · intro k hk
    unfold rx_frame
    rw [mem_read_getD, if_pos hk]
    unfold rx_data
    cases K.CONFIG_ARCH_MXS
    · rfl
    · simp only [if_true]
      rw [swap_buffer_getD, if_pos (by omega)]
  · rw [hb]; rfl
  · rw [hsc']; rfl
  · rw [hsc']; exact rx_rearm_empty K hE _
  · rw [hsc']; exact rx_rearm_stats K hK _
  · rw [hsc']; exact rx_rearm_wrap K hK _
  · intro hnext
    rw [hstep (fuel + 1), fec_enet_rx_loop, if_pos]
    rw [hsc]
    by_cases hi : rx_next K s s.cur_rx = s.cur_rx
    · rw [if_pos hi]; exact rx_rearm_empty K hE _
    · rw [if_neg hi]; exact hnext

theorem rx_success_witness :
    mx28.RxMasks ∧ RxRingOk mx28 dev_rx_one dev_rx_one.cur_rx ∧
    (dev_rx_one.rx_bd dev_rx_one.cur_rx).cbd_sc &&& mx28.BD_ENET_RX_EMPTY = 0 ∧
    dev_rx_one.opened ≠ 0 ∧
    (dev_rx_one.rx_bd dev_rx_one.cur_rx).cbd_sc &&& mx28.BD_ENET_RX_CL = 0 ∧
    dev_rx_one.alloc_fails.headD false = false ∧
    4 ≤ (dev_rx_one.rx_bd dev_rx_one.cur_rx).cbd_datlen ∧
    (∃ s1, fec_enet_rx_one mx28 dev_rx_one dev_rx_one.cur_rx = some s1 ∧
      delivered s1.trace
        = delivered dev_rx_one.trace
          ++ [(dev_rx_one.cur_rx, rx_frame mx28 dev_rx_one dev_rx_one.cur_rx)] ∧
      (rx_frame mx28 dev_rx_one dev_rx_one.cur_rx).length
        = (dev_rx_one.rx_bd dev_rx_one.cur_rx).cbd_datlen - 4 ∧
      (∀ k, k < (dev_rx_one.rx_bd dev_rx_one.cur_rx).cbd_datlen - 4 →
        (rx_frame mx28 dev_rx_one dev_rx_one.cur_rx).getD k 0
          = (if mx28.CONFIG_ARCH_MXS
              then (dev_rx_one.rx_buf dev_rx_one.cur_rx).getD (k / 4 * 4 + (3 - k % 4)) 0
            else (dev_rx_one.rx_buf dev_rx_one.cur_rx).getD k 0)) ∧
      s1.rx_buf dev_rx_one.cur_rx
        = (if mx28.CONFIG_ARCH_MXS
            then swap_buffer (dev_rx_one.rx_buf dev_rx_one.cur_rx)
              (dev_rx_one.rx_bd dev_rx_one.cur_rx).cbd_datlen
            else dev_rx_one.rx_buf dev_rx_one.cur_rx) ∧
      (s1.rx_bd dev_rx_one.cur_rx).cbd_sc
        = clear_bits (dev_rx_one.rx_bd dev_rx_one.cur_rx).cbd_sc mx28.BD_ENET_RX_STATS
          ||| mx28.BD_ENET_RX_EMPTY ∧
      (s1.rx_bd dev_rx_one.cur_rx).cbd_sc &&& mx28.BD_ENET_RX_EMPTY ≠ 0 ∧
      (s1.rx_bd dev_rx_one.cur_rx).cbd_sc &&& mx28.BD_ENET_RX_STATS = 0 ∧
      (s1.rx_bd dev_rx_one.cur_rx).cbd_sc &&& mx28.BD_ENET_RX_WRAP
        = (dev_rx_one.rx_bd dev_rx_one.cur_rx).cbd_sc &&& mx28.BD_ENET_RX_WRAP ∧
      rx_next mx28 dev_rx_one dev_rx_one.cur_rx
        = (if dev_rx_one.cur_rx + 1 = RX_RING_SIZE mx28 then 0 else dev_rx_one.cur_rx + 1) ∧
      fec_enet_rx mx28 (0 + 1) dev_rx_one
        = fec_enet_rx_loop mx28 0 s1 (rx_next mx28 dev_rx_one dev_rx_one.cur_rx) ∧
      ((dev_rx_one.rx_bd (rx_next mx28 dev_rx_one dev_rx_one.cur_rx)).cbd_sc
          &&& mx28.BD_ENET_RX_EMPTY ≠ 0 →
        fec_enet_rx mx28 (0 + 2) dev_rx_one
          = some { s1 with cur_rx := rx_next mx28 dev_rx_one dev_rx_one.cur_rx })) ∧
    (rx_frame mx28 dev_rx_one 0).length = 60 ∧
    (rx_frame mx28 dev_rx_one 0).take 8 = [3, 2, 1, 0, 7, 6, 5, 4] ∧
    (rx_frame mx28 dev_rx_one 0).drop 56 = [59, 58, 57, 56] ∧
    (fec_enet_rx mx28 2 dev_rx_one).map (fun s => s.cur_rx) = some 1 :=
  ⟨by decide, by decide, by decide, by decide, by decide, by decide, by decide,
   rx_success mx28 (by decide) dev_rx_one 0 (by decide) (by decide) (by decide) (by decide)
     (by decide) (by decide),
   by decide, by decide, by decide, by decide⟩

end Fec
namespace Fec

/-! ## Initialisation of the rings -/

theorem init_rx_fold (n : Nat) (s : State) :
    ∃ g, (List.range n).foldl (fun x i => set_rx_sc x i 0) s = { s with rx_bd := g } ∧
      ∀ j, (g j).cbd_sc = if j < n then 0 else (s.rx_bd j).cbd_sc := by
  induction n with
  | zero => exact ⟨s.rx_bd, rfl, fun j => by simp⟩
  | succ n ih =>
    obtain ⟨g, hg, hsc⟩ := ih
    rw [List.range_succ, List.foldl_append, hg]
    refine ⟨Function.update g n { g n with cbd_sc := 0 }, rfl, ?_⟩
    intro j
    by_cases hj : j = n
    · subst hj
      rw [Function.update_same, if_pos (Nat.lt_succ_self _)]
    · rw [Function.update_noteq hj, hsc j]
      by_cases hlt : j < n
      · rw [if_pos hlt, if_pos (Nat.lt_succ_of_lt hlt)]
      · rw [if_neg hlt, if_neg (by omega)]

theorem init_tx_fold (n : Nat) (s : State) :
    ∃ g, (List.range n).foldl init_tx_bd s = { s with tx_bd := g } ∧
      ∀ j, (g j).cbd_sc = if j < n then 0 else (s.tx_bd j).cbd_sc := by
  induction n with
  | zero => exact ⟨s.tx_bd, rfl, fun j => by simp⟩
  | succ n ih =>
    obtain ⟨g, hg, hsc⟩ := ih
    rw [List.range_succ, List.foldl_append, hg]
    refine ⟨Function.update g n { g n with cbd_sc := 0, cbd_bufaddr := 0 }, rfl, ?_⟩
    intro j
    by_cases hj : j = n
    · subst hj
      rw [Function.update_same, if_pos (Nat.lt_succ_self _)]
    · rw [Function.update_noteq hj, hsc j]
      by_cases hlt : j < n
      · rw [if_pos hlt, if_pos (Nat.lt_succ_of_lt hlt)]
      · rw [if_neg hlt, if_neg (by omega)]

theorem alloc_tx_fold (K : Params) (bounce : Nat → Nat) (n : Nat) (s : State) :
    ∃ g b, (List.range n).foldl (alloc_tx_bd K bounce) s = { s with tx_bd := g, tx_bounce := b } ∧
      ∀ j, (g j).cbd_sc = if j < n then 0 else (s.tx_bd j).cbd_sc := by
  induction n with
  | zero => exact ⟨s.tx_bd, s.tx_bounce, rfl, fun j => by simp⟩
  | succ n ih =>
    obtain ⟨g, b, hg, hsc⟩ := ih
    rw [List.range_succ, List.foldl_append, hg]
    refine ⟨Function.update g n
      { g n with
        cbd_sc := 0
        cbd_bufaddr := 0
        cbd_esc := if K.CONFIG_ENHANCED_BD then K.BD_ENET_TX_INT else (g n).cbd_esc },
      Function.update b n (bounce n), rfl, ?_⟩
    intro j
    by_cases hj : j = n
    · subst hj
      rw [Function.update_same, if_pos (Nat.lt_succ_self _)]
    · rw [Function.update_noteq hj, hsc j]
      by_cases hlt : j < n
      · rw [if_pos hlt, if_pos (Nat.lt_succ_of_lt hlt)]
      · rw [if_neg hlt, if_neg (by omega)]

theorem alloc_rx_loop_ok (K : Params) (d : Nat → Nat) :
    ∀ (n i : Nat) (s : State), (alloc_rx_loop K d n i s).1 = false →
      ∃ g a, (alloc_rx_loop K d n i s).2 = { s with rx_bd := g, alloc_fails := a } ∧
        ∀ j, (g j).cbd_sc
          = if i ≤ j ∧ j < i + n then K.BD_ENET_RX_EMPTY else (s.rx_bd j).cbd_sc := by
  intro n
  induction n with
  | zero =>
    intro i s _
    refine ⟨s.rx_bd, s.alloc_fails, rfl, fun j => ?_⟩
    rw [if_neg (by omega)]
  | succ n ih =>
    intro i s h
    unfold alloc_rx_loop at h ⊢
    by_cases hf : s.alloc_fails.headD false = true
    · rw [if_pos hf] at h; cases h
    · rw [if_neg hf] at h ⊢
      obtain ⟨g, a, hg, hsc⟩ := ih (i + 1) (alloc_rx_bd K s i (d i)) h
      refine ⟨g, a, by rw [hg]; rfl, ?_⟩
      intro j
      rw [hsc j]
      by_cases hj : j = i
      · subst hj
        rw [if_neg (by omega), if_pos (by omega)]
        show ((Function.update s.rx_bd j _) j).cbd_sc = _
        rw [Function.update_same]
      · by_cases hc : i + 1 ≤ j ∧ j < i + 1 + n
        · rw [if_pos hc, if_pos (by omega)]
        · rw [if_neg hc, if_neg (by omega)]
          show ((Function.update s.rx_bd i _) j).cbd_sc = _
          rw [Function.update_noteq hj]

theorem fec_get_mac_shape (K : Params) (s : State) (valid : List Nat → Bool)
    (mac_default : List Nat) (flashmac : Option (List Nat)) (index : Nat) :
    ∃ d, (fec_get_mac K s valid mac_default flashmac index).1 = { s with dev_addr := d } := by
  have key : ∀ (c : Bool) (a b : State × Nat), (∃ d, a.1 = { s with dev_addr := d }) →
      (∃ d, b.1 = { s with dev_addr := d }) →
      ∃ d, (if c = true then a else b).1 = { s with dev_addr := d } := by
    intro c a b ha hb
    cases c
    · simpa using hb
    · simpa using ha
  unfold fec_get_mac
  exact key _ _ _ ⟨_, rfl⟩ ⟨_, rfl⟩

theorem wrap_word_tx (K : Params) (hK : K.TxMasks) :
    ((0 ||| K.BD_SC_WRAP) % 65536) &&& K.BD_ENET_TX_WRAP ≠ 0 := by
  obtain ⟨_, hw, _, hw0, he, _⟩ := hK
  rw [he, Nat.zero_or, Nat.mod_eq_of_lt hw, Nat.and_self]
  exact hw0

theorem wrap_word_rx (K : Params) (hK : K.RxMasks) (x : Nat) (hx : x < 65536) :
    ((x ||| K.BD_SC_WRAP) % 65536) &&& K.BD_ENET_RX_WRAP ≠ 0 := by
  obtain ⟨_, hw, _, _, hw0, he, _⟩ := hK
  have hlt : x ||| K.BD_ENET_RX_WRAP < 65536 := Nat.or_lt_two_pow (n := 16) hx hw
  rw [he, Nat.mod_eq_of_lt hlt]
  exact or_and_ne_zero x hw0

end Fec
namespace Fec

theorem tx_set_wrap_ok (K : Params) (hK : K.TxMasks) (s : State)
    (h0 : ∀ j, j < TX_RING_SIZE → (s.tx_bd j).cbd_sc = 0) :
    ∀ i, i < TX_RING_SIZE →
      (((tx_set_wrap K s (TX_RING_SIZE - 1)).tx_bd i).cbd_sc &&& K.BD_ENET_TX_WRAP ≠ 0
        ↔ i = TX_RING_SIZE - 1) := by
  intro i hi
  unfold tx_set_wrap set_tx_sc
  by_cases h : i = TX_RING_SIZE - 1
  · subst h
    simp only [Function.update_same]
    rw [h0 _ hi]
    exact ⟨fun _ => trivial, fun _ => wrap_word_tx K hK⟩
  · simp only [Function.update_noteq h]
    rw [h0 i hi, Nat.zero_and]
    exact ⟨fun e => absurd rfl e, fun e => absurd e h⟩

theorem rx_set_wrap_ok (K : Params) (hK : K.RxMasks) (s : State) (x : Nat) (hx : x < 65536)
    (hxw : x &&& K.BD_ENET_RX_WRAP = 0)
    (h0 : ∀ j, j < RX_RING_SIZE K → (s.rx_bd j).cbd_sc = x) :
    ∀ i, i < RX_RING_SIZE K →
      (((rx_set_wrap K s (RX_RING_SIZE K - 1)).rx_bd i).cbd_sc &&& K.BD_ENET_RX_WRAP ≠ 0
        ↔ i + 1 = RX_RING_SIZE K) := by
  intro i hi
  unfold rx_set_wrap set_rx_sc
  by_cases h : i = RX_RING_SIZE K - 1
  · have hi1 : i + 1 = RX_RING_SIZE K := by omega
    rw [← h]
    simp only [Function.update_same]
    rw [h0 i hi]
    exact ⟨fun _ => hi1, fun _ => wrap_word_rx K hK x hx⟩
  · have hi1 : ¬ i + 1 = RX_RING_SIZE K := by omega
    simp only [Function.update_noteq h]
    rw [h0 i hi, hxw]
    exact ⟨fun e => absurd rfl e, fun e => absurd e hi1⟩

/-- The descriptor part of `fec_enet_init` puts the wrap bit on the last
descriptor of each ring and on no other, whatever the memory held before. -/
theorem init_descriptors (K : Params) (hT : K.TxMasks) (hR : K.RxMasks) (x : State) :
    (∀ i, i < TX_RING_SIZE →
      (((tx_set_wrap K ((List.range TX_RING_SIZE).foldl init_tx_bd
          (rx_set_wrap K ((List.range (RX_RING_SIZE K)).foldl (fun x i => set_rx_sc x i 0) x)
            (RX_RING_SIZE K - 1))) (TX_RING_SIZE - 1)).tx_bd i).cbd_sc
        &&& K.BD_ENET_TX_WRAP ≠ 0 ↔ i = TX_RING_SIZE - 1)) ∧
    (∀ i, i < RX_RING_SIZE K →
      (((tx_set_wrap K ((List.range TX_RING_SIZE).foldl init_tx_bd
          (rx_set_wrap K ((List.range (RX_RING_SIZE K)).foldl (fun x i => set_rx_sc x i 0) x)
            (RX_RING_SIZE K - 1))) (TX_RING_SIZE - 1)).rx_bd i).cbd_sc
        &&& K.BD_ENET_RX_WRAP ≠ 0 ↔ i + 1 = RX_RING_SIZE K)) := by
  obtain ⟨g1, hg1, hsc1⟩ := init_rx_fold (RX_RING_SIZE K) x
  rw [hg1]
  obtain ⟨g2, hg2, hsc2⟩ := init_tx_fold TX_RING_SIZE
    (rx_set_wrap K { x with rx_bd := g1 } (RX_RING_SIZE K - 1))
  rw [hg2]
  constructor
  · apply tx_set_wrap_ok K hT
    intro j hj
    show (g2 j).cbd_sc = 0
    rw [hsc2 j, if_pos hj]
  · have := rx_set_wrap_ok K hR { x with rx_bd := g1 } 0 (by norm_num) (Nat.zero_and _)
      (fun j hj => by show (g1 j).cbd_sc = 0; rw [hsc1 j, if_pos hj])
    exact this

/-- After a successful `fec_enet_init` both rings are well
formed, whatever the device held before. -/
theorem fec_enet_init_rings (K : Params) (hT : K.TxMasks) (hR : K.RxMasks) (s : State)
    (valid : List Nat → Bool) (mac_default : List Nat) (flashmac : Option (List Nat))
    (index bd_dma : Nat) :
    (fec_enet_init K s valid mac_default flashmac index (some bd_dma)).1 = 0 ∧
    RingsOk K (fec_enet_init K s valid mac_default flashmac index (some bd_dma)).2.1 := by
  refine ⟨rfl, ?_⟩
  unfold fec_enet_init
  simp only []
  obtain ⟨h1, h2⟩ := init_descriptors K hT hR
    (fec_get_mac K { s with bd_dma := bd_dma } valid mac_default flashmac index).1
  obtain ⟨r, h, t, f, p, e, _, _⟩ := fec_restart_shape K
    (tx_set_wrap K ((List.range TX_RING_SIZE).foldl init_tx_bd
      (rx_set_wrap K ((List.range (RX_RING_SIZE K)).foldl (fun x i => set_rx_sc x i 0)
        (fec_get_mac K { s with bd_dma := bd_dma } valid mac_default flashmac index).1)
        (RX_RING_SIZE K - 1))) (TX_RING_SIZE - 1)) 0
  rw [e]
  exact ⟨⟨h1, by simp [TX_RING_SIZE], by simp [TX_RING_SIZE]⟩, h2, hR.2.2.2.2.2.2.2.2.2⟩

/-- A successful `fec_enet_alloc_buffers` on a device with
well-formed rings leaves them well formed. -/
theorem fec_enet_alloc_buffers_rings (K : Params) (hT : K.TxMasks) (hR : K.RxMasks) (s : State)
    (skb_data bounce : Nat → Nat) (hs : RingsOk K s)
    (hok : (fec_enet_alloc_buffers K s skb_data bounce).1 = 0) :
    RingsOk K (fec_enet_alloc_buffers K s skb_data bounce).2 := by
  unfold fec_enet_alloc_buffers at hok ⊢
  simp only [] at hok ⊢
  by_cases hf : (alloc_rx_loop K skb_data (RX_RING_SIZE K) 0 s).1 = true
  · rw [if_pos hf] at hok
    simp [ENOMEM] at hok
  · rw [if_neg hf]
    have hf' : (alloc_rx_loop K skb_data (RX_RING_SIZE K) 0 s).1 = false := by simpa using hf
    obtain ⟨g, a, hg, hsc⟩ := alloc_rx_loop_ok K skb_data (RX_RING_SIZE K) 0 s hf'
    rw [hg]
    obtain ⟨g2, b2, hg2, hsc2⟩ := alloc_tx_fold K bounce TX_RING_SIZE
      (rx_set_wrap K { s with rx_bd := g, alloc_fails := a } (RX_RING_SIZE K - 1))
    rw [hg2]
    have hE := hR.1
    have hwe := hR.2.2.2.2.2.2.2.1
    have hew : K.BD_ENET_RX_EMPTY &&& K.BD_ENET_RX_WRAP = 0 := by rw [Nat.and_comm]; exact hwe
    refine ⟨⟨?_, hs.1.2.1, hs.1.2.2⟩, ?_, hs.2.2⟩
    · apply tx_set_wrap_ok K hT
      intro j hj
      show (g2 j).cbd_sc = 0
      rw [hsc2 j, if_pos hj]
    · have := rx_set_wrap_ok K hR { s with rx_bd := g, alloc_fails := a } K.BD_ENET_RX_EMPTY hE hew
        (fun j hj => by
          show (g j).cbd_sc = K.BD_ENET_RX_EMPTY
          rw [hsc j, if_pos ⟨Nat.zero_le _, by omega⟩])
      exact this

/-- After a successful `fec_enet_alloc_buffers` every receive descriptor is
empty, so no released descriptor is left whose length could be wrong. -/
theorem fec_enet_alloc_buffers_len (K : Params) (hR : K.RxMasks) (s : State)
    (skb_data bounce : Nat → Nat)
    (hok : (fec_enet_alloc_buffers K s skb_data bounce).1 = 0) :
    RxLenOk K (fec_enet_alloc_buffers K s skb_data bounce).2 := by
  unfold fec_enet_alloc_buffers at hok ⊢
  simp only [] at hok ⊢
  by_cases hf : (alloc_rx_loop K skb_data (RX_RING_SIZE K) 0 s).1 = true
  · rw [if_pos hf] at hok
    simp [ENOMEM] at hok
  · rw [if_neg hf]
    have hf' : (alloc_rx_loop K skb_data (RX_RING_SIZE K) 0 s).1 = false := by simpa using hf
    obtain ⟨g, a, hg, hsc⟩ := alloc_rx_loop_ok K skb_data (RX_RING_SIZE K) 0 s hf'
    rw [hg]
    obtain ⟨g2, b2, hg2, hsc2⟩ := alloc_tx_fold K bounce TX_RING_SIZE
      (rx_set_wrap K { s with rx_bd := g, alloc_fails := a } (RX_RING_SIZE K - 1))
    rw [hg2]
    have hE := hR.1
    have hW := hR.2.1
    have hE0 := hR.2.2.2.1
    have he := hR.2.2.2.2.2.1
    intro _ i hi hrel _
    exfalso
    have hgi : (g i).cbd_sc = K.BD_ENET_RX_EMPTY := by
      rw [hsc i, if_pos ⟨Nat.zero_le _, by omega⟩]
    have hlt : K.BD_ENET_RX_EMPTY ||| K.BD_ENET_RX_WRAP < 65536 :=
      Nat.or_lt_two_pow (n := 16) hE hW
    have hne : ((tx_set_wrap K
        { rx_set_wrap K { s with rx_bd := g, alloc_fails := a } (RX_RING_SIZE K - 1) with
          tx_bd := g2, tx_bounce := b2 } (TX_RING_SIZE - 1)).rx_bd i).cbd_sc
        &&& K.BD_ENET_RX_EMPTY ≠ 0 := by
      show ((rx_set_wrap K { s with rx_bd := g, alloc_fails := a } (RX_RING_SIZE K - 1)).rx_bd
        i).cbd_sc &&& K.BD_ENET_RX_EMPTY ≠ 0
      unfold rx_set_wrap set_rx_sc
      by_cases h : i = RX_RING_SIZE K - 1
      · rw [← h]
        simp only [Function.update_same]
        rw [hgi, he, Nat.mod_eq_of_lt hlt, and_or_distrib_r, Nat.and_self]
        intro h0
        exact hE0 ((or_eq_zero_iff _ _).1 h0).1
      · simp only [Function.update_noteq h]
        rw [hgi, Nat.and_self]
        exact hE0
    exact hne hrel

end Fec
namespace Fec

/-! ## Both rings along a run -/

theorem xmit_rx_frame (K : Params) (s : State) (skb : SkBuff) :
    (fec_enet_start_xmit K s skb).2.rx_bd = s.rx_bd ∧
    (fec_enet_start_xmit K s skb).2.cur_rx = s.cur_rx ∧
    (fec_enet_start_xmit K s skb).2.opened = s.opened := by
  unfold fec_enet_start_xmit
  by_cases hl : s.link = 0
  · rw [if_pos hl]; exact ⟨rfl, rfl, rfl⟩
  · rw [if_neg hl]
    by_cases hrd : (s.tx_bd s.cur_tx).cbd_sc &&& K.BD_ENET_TX_READY ≠ 0
    · rw [if_pos hrd]; exact ⟨rfl, rfl, rfl⟩
    · rw [if_neg hrd]
      show (xmit_enqueue K s skb).rx_bd = s.rx_bd ∧ (xmit_enqueue K s skb).cur_rx = s.cur_rx ∧
        (xmit_enqueue K s skb).opened = s.opened
      unfold xmit_enqueue
      simp only [writel, netif_stop_queue]
      by_cases hn : xmit_next K s skb = s.dirty_tx
      · simp [hn]
      · simp [hn]

theorem fec_enet_tx_one_rx_frame (K : Params) (s : State) (bdp : Nat) :
    (fec_enet_tx_one K s bdp).rx_bd = s.rx_bd ∧ (fec_enet_tx_one K s bdp).cur_rx = s.cur_rx ∧
    (fec_enet_tx_one K s bdp).opened = s.opened := by
  unfold fec_enet_tx_one
  simp only [dev_kfree_skb_any, netif_queue_stopped, netif_wake_queue]
  by_cases hf : s.tx_full ≠ 0
  · by_cases hq : s.queue_stopped = true
    · simp only [hf, hq, if_true, ne_eq, not_false_eq_true]
      refine ⟨?_, ?_, ?_⟩ <;> trivial
    · simp only [hf, hq, if_true, if_false, ne_eq, not_false_eq_true]
      refine ⟨?_, ?_, ?_⟩ <;> trivial
  · simp only [hf, if_false]
    refine ⟨?_, ?_, ?_⟩ <;> trivial

theorem tx_loop_rx_frame (K : Params) :
    ∀ (fuel : Nat) (s : State) (bdp : Nat) (s' : State),
      fec_enet_tx_loop K fuel s bdp = some s' →
        s'.rx_bd = s.rx_bd ∧ s'.cur_rx = s.cur_rx ∧ s'.opened = s.opened := by
  intro fuel
  induction fuel with
  | zero => intro s bdp s' hrun; simp [fec_enet_tx_loop] at hrun
  | succ fuel ih =>
    intro s bdp s' hrun
    unfold fec_enet_tx_loop at hrun
    by_cases hrd : (s.tx_bd bdp).cbd_sc &&& K.BD_ENET_TX_READY ≠ 0
    · rw [if_pos hrd] at hrun; cases hrun; exact ⟨rfl, rfl, rfl⟩
    · rw [if_neg hrd] at hrun
      by_cases hb : bdp = s.cur_tx ∧ s.tx_full = 0
      · rw [if_pos hb] at hrun; cases hrun; exact ⟨rfl, rfl, rfl⟩
      · rw [if_neg hb] at hrun
        obtain ⟨h1, h2, h3⟩ := ih _ _ _ hrun
        obtain ⟨g1, g2, g3⟩ := fec_enet_tx_one_rx_frame K s bdp
        exact ⟨h1.trans g1, h2.trans g2, h3.trans g3⟩

theorem hw_tx_complete_rx_frame (K : Params) (s : State) (e : Nat) :
    (hw_tx_complete K s e).rx_bd = s.rx_bd ∧ (hw_tx_complete K s e).cur_rx = s.cur_rx ∧
    (hw_tx_complete K s e).opened = s.opened := by
  unfold hw_tx_complete
  by_cases h : (s.tx_bd s.hw_tx).cbd_sc &&& K.BD_ENET_TX_READY ≠ 0
  · simp only [h, if_true, ne_eq, not_false_eq_true]
    refine ⟨?_, ?_, ?_⟩ <;> trivial
  · simp only [h, if_false]
    refine ⟨?_, ?_, ?_⟩ <;> trivial

theorem RxLenOk.of_rx_fields {K : Params} {s s' : State} (hl : RxLenOk K s)
    (e1 : s'.rx_bd = s.rx_bd) (e2 : s'.opened = s.opened) : RxLenOk K s' := by
  unfold RxLenOk
  rw [e1, e2]
  exact hl

/-- An event of the transmit side returns and keeps both rings well formed
and the lengths of the released receive descriptors in order. -/
theorem tx_step_rings (K : Params) (hT : K.TxMasks) (hR : K.RxMasks) (s : State)
    (hs : RingsOk K s) (ev : TxEvent) :
    ∃ s', tx_step K s ev = some s' ∧ RingsOk K s' ∧ (RxLenOk K s → RxLenOk K s') := by
  obtain ⟨s', hrun, hring, _⟩ := tx_run_count K hT [ev] s hs.1
  have hstep : tx_step K s ev = some s' := by
    simp only [tx_run] at hrun
    cases h : tx_step K s ev with
    | none => rw [h] at hrun; cases hrun
    | some s1 => rw [h] at hrun; exact hrun
  have keep : s'.rx_bd = s.rx_bd → s'.cur_rx = s.cur_rx → s'.opened = s.opened →
      RxRingOk K s' s'.cur_rx ∧ (RxLenOk K s → RxLenOk K s') := by
    intro e1 e2 e3
    refine ⟨?_, fun hl => hl.of_rx_fields e1 e3⟩
    unfold RxRingOk
    rw [e1, e2]
    exact hs.2
  have hall : RxRingOk K s' s'.cur_rx ∧ (RxLenOk K s → RxLenOk K s') := by
    cases ev with
    | xmit skb =>
      simp only [tx_step] at hstep
      cases hstep
      exact keep (xmit_rx_frame K s skb).1 (xmit_rx_frame K s skb).2.1
        (xmit_rx_frame K s skb).2.2
    | hw e =>
      simp only [tx_step] at hstep
      cases hstep
      exact keep (hw_tx_complete_rx_frame K s e).1 (hw_tx_complete_rx_frame K s e).2.1
        (hw_tx_complete_rx_frame K s e).2.2
    | drain =>
      obtain ⟨e1, e2, e3⟩ := tx_loop_rx_frame K _ _ _ _ hstep
      exact keep e1 e2 e3
    | restart d =>
      simp only [tx_step] at hstep
      cases hstep
      obtain ⟨r, h, t, f, p, e, _, _⟩ := fec_restart_shape K s d
      rw [e]
      exact ⟨⟨hs.2.1, hR.2.2.2.2.2.2.2.2.2⟩, fun hl => hl⟩
  exact ⟨s', hstep, ⟨hring, hall.1⟩, hall.2⟩

/-- A receive loop that returns leaves the receive ring well formed and the
transmit side alone. -/
theorem rx_loop_rings (K : Params) (hK : K.RxMasks) :
    ∀ (fuel : Nat) (s : State) (bdp : Nat) (s' : State), RxRingOk K s bdp →
      fec_enet_rx_loop K fuel s bdp = some s' →
      RxRingOk K s' s'.cur_rx ∧ s'.tx_bd = s.tx_bd ∧ s'.cur_tx = s.cur_tx ∧
        s'.dirty_tx = s.dirty_tx := by
  intro fuel
  induction fuel with
  | zero => intro s bdp s' _ hrun; simp [fec_enet_rx_loop] at hrun
  | succ fuel ih =>
    intro s bdp s' hr hrun
    unfold fec_enet_rx_loop at hrun
    by_cases he : (s.rx_bd bdp).cbd_sc &&& K.BD_ENET_RX_EMPTY ≠ 0
    · rw [if_pos he] at hrun; cases hrun; exact ⟨hr, rfl, rfl, rfl⟩
    · rw [if_neg he] at hrun
      have he0 : (s.rx_bd bdp).cbd_sc &&& K.BD_ENET_RX_EMPTY = 0 := by simpa using he
      cases h1 : fec_enet_rx_one K s bdp with
      | none => rw [h1] at hrun; cases hrun
      | some s1 =>
        rw [h1] at hrun
        obtain ⟨hr1, _⟩ := rx_one_ring K hK s bdp s1 h1 hr he0
        obtain ⟨f1, f2, f3, _⟩ := fec_enet_rx_one_frame K s bdp s1 h1
        obtain ⟨g0, g1, g2, g3⟩ := ih _ _ _ hr1 hrun
        exact ⟨g0, g1.trans f1, g2.trans f2, g3.trans f3⟩

/-- A receive drain that returns keeps both rings well formed. -/
theorem rx_step_rings (K : Params) (hR : K.RxMasks) (s : State) (hs : RingsOk K s)
    (fuel : Nat) (s' : State) (hrun : fec_enet_rx K fuel s = some s') : RingsOk K s' := by
  obtain ⟨hr', g1, g2, g3⟩ := rx_loop_rings K hR fuel s s.cur_rx s' hs.2 hrun
  refine ⟨?_, hr'⟩
  unfold TxRingOk
  rw [g1, g2, g3]
  exact hs.1

/-- With the lengths of the released descriptors in order a receive drain
returns, and both rings and the lengths stay in order. -/
theorem rx_step_returns (K : Params) (hR : K.RxMasks) (s : State) (hs : RingsOk K s)
    (hl : RxLenOk K s) :
    ∃ s', fec_enet_rx K (RX_FUEL K) s = some s' ∧ RingsOk K s' ∧ RxLenOk K s' := by
  obtain ⟨s', hrun, _, _, _, _, _, _, _, _, hl'⟩ :=
    rx_loop_terminates K hR s (RX_RING_SIZE K) (RX_FUEL K) s s.cur_rx hs.2 hl
      (rx_released_le K s) (Nat.lt_succ_self _) (fun _ => Or.inl rfl)
  exact ⟨s', hrun, rx_step_rings K hR s hs _ s' hrun, hl'⟩

theorem hw_rx_complete_rings (K : Params) (hR : K.RxMasks) (s : State) (hs : RingsOk K s)
    (i e len : Nat) : RingsOk K (hw_rx_complete K s i e len) := by
  unfold hw_rx_complete
  by_cases h : (s.rx_bd i).cbd_sc &&& K.BD_ENET_RX_EMPTY ≠ 0
  · simp only [h, if_true, ne_eq, not_false_eq_true]
    obtain ⟨_, hw, _, _, _, _, hws, hwe, _, _⟩ := hR
    have hsw : K.BD_ENET_RX_STATS &&& K.BD_ENET_RX_WRAP = 0 := by rw [Nat.and_comm]; exact hws
    refine ⟨hs.1, ?_, hs.2.2⟩
    intro j hj
    show ((Function.update s.rx_bd i _ j).cbd_sc &&& K.BD_ENET_RX_WRAP ≠ 0 ↔ _)
    by_cases hji : j = i
    · subst hji
      rw [Function.update_same]
      show ((clear_bits (s.rx_bd j).cbd_sc K.BD_ENET_RX_EMPTY ||| (e &&& K.BD_ENET_RX_STATS))
        &&& K.BD_ENET_RX_WRAP ≠ 0 ↔ _)
      rw [and_or_distrib_r, clear_bits_and_of_disjoint _ hw hwe, Nat.and_assoc, hsw,
        Nat.and_zero, Nat.or_zero]
      exact hs.2.1 j hj
    · rw [Function.update_noteq hji]
      exact hs.2.1 j hj
  · simp only [h, if_false]
    exact hs

/-- A descriptor filled by the controller with a length of at least 4 keeps
the lengths of the released descriptors in order. -/
theorem hw_rx_complete_len (K : Params) (s : State) (hl : RxLenOk K s) (i e len : Nat)
    (h4 : 4 ≤ len % 65536) : RxLenOk K (hw_rx_complete K s i e len) := by
  unfold hw_rx_complete
  by_cases h : (s.rx_bd i).cbd_sc &&& K.BD_ENET_RX_EMPTY ≠ 0
  · simp only [h, if_true, ne_eq, not_false_eq_true]
    intro hopen j hj hrel hcl
    by_cases hji : j = i
    · subst hji
      show ((Function.update s.rx_bd j _) j).cbd_datlen ≥ 4
      rw [Function.update_same]
      exact h4
    · have e1 : (Function.update s.rx_bd i
          { s.rx_bd i with
            cbd_sc := clear_bits (s.rx_bd i).cbd_sc K.BD_ENET_RX_EMPTY
              ||| (e &&& K.BD_ENET_RX_STATS)
            cbd_datlen := len % 65536 }) j = s.rx_bd j := Function.update_noteq hji _ _
      show 4 ≤ ((Function.update s.rx_bd i _) j).cbd_datlen
      rw [e1]
      apply hl hopen j hj
      · have := hrel
        show (s.rx_bd j).cbd_sc &&& K.BD_ENET_RX_EMPTY = 0
        rw [← e1]; exact this
      · have := hcl
        show (s.rx_bd j).cbd_sc &&& K.BD_ENET_RX_CL = 0
        rw [← e1]; exact this
  · simp only [h, if_false]
    exact hl

/-- Every state a run reaches has both rings well formed. -/
theorem dev_run_rings (K : Params) (hT : K.TxMasks) (hR : K.RxMasks) :
    ∀ (evs : List DevEvent) (s s' : State), RingsOk K s →
      dev_run K s evs = some s' → RingsOk K s' := by
  intro evs
  induction evs with
  | nil => intro s s' hs hrun; cases hrun; exact hs
  | cons ev rest ih =>
    intro s s' hs hrun
    simp only [dev_run] at hrun
    cases h1 : dev_step K s ev with
    | none => rw [h1] at hrun; cases hrun
    | some s1 =>
      rw [h1] at hrun
      refine ih s1 s' ?_ hrun
      cases ev with
      | tx e =>
        obtain ⟨s2, h2, hs2, _⟩ := tx_step_rings K hT hR s hs e
        have : s1 = s2 := by
          have h3 : tx_step K s e = some s1 := h1
          rw [h2] at h3; cases h3; rfl
        rw [this]; exact hs2
      | rx => exact rx_step_rings K hR s hs _ s1 h1
      | hw_rx i e len =>
        cases h1
        exact hw_rx_complete_rings K hR s hs i e len

/-- Every event of a run returns when the controller reports lengths of at
least 4. -/
theorem dev_run_returns (K : Params) (hT : K.TxMasks) (hR : K.RxMasks) :
    ∀ (evs : List DevEvent) (s : State), RingsOk K s → RxLenOk K s →
      (∀ ev, ev ∈ evs → ev.len_ok = true) →
      ∃ s', dev_run K s evs = some s' := by
  intro evs
  induction evs with
  | nil => intro s _ _ _; exact ⟨s, rfl⟩
  | cons ev rest ih =>
    intro s hs hl hev
    have hstep : ∃ s1, dev_step K s ev = some s1 ∧ RingsOk K s1 ∧ RxLenOk K s1 := by
      cases ev with
      | tx e =>
        obtain ⟨s2, h2, hs2, hl2⟩ := tx_step_rings K hT hR s hs e
        exact ⟨s2, h2, hs2, hl2 hl⟩
      | rx => exact rx_step_returns K hR s hs hl
      | hw_rx i e len =>
        have h4 : 4 ≤ len % 65536 := by
          have := hev (DevEvent.hw_rx i e len) (List.mem_cons_self _ _)
          simpa [DevEvent.len_ok] using this
        exact ⟨_, rfl, hw_rx_complete_rings K hR s hs i e len,
          hw_rx_complete_len K s hl i e len h4⟩
    obtain ⟨s1, h1, hs1, hl1⟩ := hstep
    obtain ⟨s', h'⟩ := ih s1 hs1 hl1 (fun e he => hev e (List.mem_cons_of_mem _ he))
    exact ⟨s', by simp only [dev_run, h1]; exact h'⟩

end Fec
namespace Fec

/-- C22: the wrap marker stays on exactly the last descriptor of each
ring.  After `fec_enet_init` (on whatever the descriptor memory held), after a
successful `fec_enet_alloc_buffers` that follows it, and in every state
reached from there by a sequence of `fec_enet_start_xmit`, `fec_enet_tx`,
`fec_enet_rx` and `fec_restart` calls and of descriptor updates by the
controller, the wrap bit is set in descriptor `TX_RING_SIZE - 1` of the
transmit ring and in descriptor `RX_RING_SIZE - 1` of the receive ring and in
no other descriptor of the rings, and `cur_tx`, `dirty_tx` and `cur_rx` point
inside their rings.  Every call of such a sequence returns when the
controller reports lengths of at least 4 for the frames it receives. -/
theorem wrap_marker_invariant (K : Params) (hT : K.TxMasks) (hR : K.RxMasks)
    (s s0 s1 : State) (valid : List Nat → Bool) (mac_default : List Nat)
    (flashmac : Option (List Nat)) (index bd_dma : Nat) (skb_data bounce : Nat → Nat)
    (h0 : s0 = (fec_enet_init K s valid mac_default flashmac index (some bd_dma)).2.1)
    (h1 : fec_enet_alloc_buffers K s0 skb_data bounce = (0, s1)) (evs : List DevEvent) :
    RingsOk K s0 ∧ RingsOk K s1 ∧
    (∀ s', dev_run K s1 evs = some s' →
      (∀ i, i < TX_RING_SIZE →
        ((s'.tx_bd i).cbd_sc &&& K.BD_ENET_TX_WRAP ≠ 0 ↔ i = TX_RING_SIZE - 1)) ∧
      (∀ i, i < RX_RING_SIZE K →
        ((s'.rx_bd i).cbd_sc &&& K.BD_ENET_RX_WRAP ≠ 0 ↔ i + 1 = RX_RING_SIZE K)) ∧
      s'.cur_tx < TX_RING_SIZE ∧ s'.dirty_tx < TX_RING_SIZE ∧ s'.cur_rx < RX_RING_SIZE K) ∧
    ((∀ ev, ev ∈ evs → ev.len_ok = true) → ∃ s', dev_run K s1 evs = some s') := by
  have hs0 : RingsOk K s0 := by
    rw [h0]
    exact (fec_enet_init_rings K hT hR s valid mac_default flashmac index bd_dma).2
  have hs1 : RingsOk K s1 := by
    have := fec_enet_alloc_buffers_rings K hT hR s0 skb_data bounce hs0 (by rw [h1])
    rw [h1] at this
    exact this
  have hl1 : RxLenOk K s1 := by
    have := fec_enet_alloc_buffers_len K hR s0 skb_data bounce (by rw [h1])
    rw [h1] at this
    exact this
  refine ⟨hs0, hs1, ?_, fun hev => dev_run_returns K hT hR evs s1 hs1 hl1 hev⟩
  intro s' hrun
  obtain ⟨⟨ht1, ht2, ht3⟩, hr1, hr2⟩ := dev_run_rings K hT hR evs s1 s' hs1 hrun
  exact ⟨ht1, hr1, ht2, ht3, hr2⟩

theorem wrap_marker_invariant_witness :
    mx28.TxMasks ∧ mx28.RxMasks ∧
    dev_init = (fec_enet_init mx28 dev_raw (fun _ => false) [0, 0, 0, 0, 0, 0] none 0
      (some 0x40000000)).2.1 ∧
    fec_enet_alloc_buffers mx28 dev_init (fun i => 0x300000 + 2048 * i)
      (fun i => 0x100000 + 2048 * i) = (0, dev_alloc) ∧
    (RingsOk mx28 dev_init ∧ RingsOk mx28 dev_alloc ∧
    (∀ s', dev_run mx28 dev_alloc run_both = some s' →
      (∀ i, i < TX_RING_SIZE →
        ((s'.tx_bd i).cbd_sc &&& mx28.BD_ENET_TX_WRAP ≠ 0 ↔ i = TX_RING_SIZE - 1)) ∧
      (∀ i, i < RX_RING_SIZE mx28 →
        ((s'.rx_bd i).cbd_sc &&& mx28.BD_ENET_RX_WRAP ≠ 0 ↔ i + 1 = RX_RING_SIZE mx28)) ∧
      s'.cur_tx < TX_RING_SIZE ∧ s'.dirty_tx < TX_RING_SIZE ∧
      s'.cur_rx < RX_RING_SIZE mx28) ∧
    ((∀ ev, ev ∈ run_both → ev.len_ok = true) → ∃ s', dev_run mx28 dev_alloc run_both = some s')) ∧
    (∀ ev, ev ∈ run_both → ev.len_ok = true) ∧
    (dev_run mx28 dev_alloc run_both).map (fun s => (s.cur_tx, s.dirty_tx, s.cur_rx))
      = some (1, 0, 0) :=
  ⟨by decide, by decide, rfl, rfl,
   wrap_marker_invariant mx28 (by decide) (by decide) dev_raw dev_init dev_alloc
     (fun _ => false) [0, 0, 0, 0, 0, 0] none 0 0x40000000 (fun i => 0x300000 + 2048 * i)
     (fun i => 0x100000 + 2048 * i) rfl rfl run_both,
   by decide, by decide⟩

end Fec
namespace Fec

/-! ## The interrupt handler -/

/-- One pass of the handler's loop is one round of the dispatcher, followed by
the loop test on the value read. -/
theorem irq_iter (K : Params) (v : Nat) (hv : v < 2 ^ 32) (reads : List Nat) (s : State)
    (ret : IrqReturn) :
    fec_enet_interrupt_loop K (v :: reads) s ret
      = (irq_round K v s).bind (fun s' =>
          if v ≠ 0 then
            fec_enet_interrupt_loop K reads s' (if irq_claims v then IrqReturn.IRQ_HANDLED else ret)
          else some ((if irq_claims v then IrqReturn.IRQ_HANDLED else ret), s')) := by
  rw [fec_enet_interrupt_loop]
  unfold irq_round irq_claims
  simp only [Nat.mod_eq_of_lt hv]
  by_cases h1 : v &&& FEC_ENET_RXF ≠ 0
  · simp only [if_pos h1]
    cases hrx : fec_enet_rx K (RX_FUEL K) (writel s v FecReg.FEC_IEVENT) with
    | none => rfl
    | some s2 =>
      simp only [Option.map_some', Option.some_bind]
      by_cases h2 : v &&& FEC_ENET_TXF ≠ 0
      · simp only [if_pos h2]
        cases htx : fec_enet_tx K TX_FUEL s2 with
        | none => rfl
        | some s3 =>
          simp only [Option.map_some', Option.some_bind]
          by_cases h3 : v &&& FEC_ENET_TS_TIMER ≠ 0 <;> by_cases h4 : v &&& FEC_ENET_MII ≠ 0 <;>
            by_cases hp : s3.ptimer_present ≠ 0 <;> by_cases hz : v ≠ 0 <;>
            simp [h1, h2, h3, h4, hp, hz]
      · simp only [if_neg h2, Option.map_some', Option.some_bind]
        by_cases h3 : v &&& FEC_ENET_TS_TIMER ≠ 0 <;> by_cases h4 : v &&& FEC_ENET_MII ≠ 0 <;>
          by_cases hp : s2.ptimer_present ≠ 0 <;> by_cases hz : v ≠ 0 <;>
          simp [h1, h2, h3, h4, hp, hz]
  · simp only [if_neg h1, Option.some_bind]
    by_cases h2 : v &&& FEC_ENET_TXF ≠ 0
    · simp only [if_pos h2]
      cases htx : fec_enet_tx K TX_FUEL (writel s v FecReg.FEC_IEVENT) with
      | none => rfl
      | some s3 =>
        simp only [Option.map_some', Option.some_bind]
        by_cases h3 : v &&& FEC_ENET_TS_TIMER ≠ 0 <;> by_cases h4 : v &&& FEC_ENET_MII ≠ 0 <;>
          by_cases hp : s3.ptimer_present ≠ 0 <;> by_cases hz : v ≠ 0 <;>
          simp [h1, h2, h3, h4, hp, hz]
    · simp only [if_neg h2, Option.map_some', Option.some_bind]
      by_cases h3 : v &&& FEC_ENET_TS_TIMER ≠ 0 <;> by_cases h4 : v &&& FEC_ENET_MII ≠ 0 <;>
        by_cases hp : (writel s v FecReg.FEC_IEVENT).ptimer_present ≠ 0 <;>
        by_cases hz : v ≠ 0 <;>
        simp [h1, h2, h3, h4, hp, hz]

end Fec
namespace Fec

theorem fec_enet_rx_one_writes (K : Params) (s : State) (bdp : Nat) (r : FecReg)
    (hr : FecReg.FEC_R_DES_ACTIVE ≠ r) (s1 : State) (h1 : fec_enet_rx_one K s bdp = some s1) :
    writes_to r s1.trace = writes_to r s.trace := by
  have hp : ∀ t : List Call, writes_to r (t ++ [Call.writel 0 FecReg.FEC_R_DES_ACTIVE])
      = writes_to r t := by
    intro t
    rw [writes_to_append, writes_to_writel, if_neg hr, List.append_nil]
  have hn : ∀ (t : List Call) (i : Nat) (f : List Nat),
      writes_to r (t ++ [Call.netif_rx i f] ++ [Call.writel 0 FecReg.FEC_R_DES_ACTIVE])
        = writes_to r t := by
    intro t i f
    rw [hp, writes_to_append]
    exact List.append_nil _
  unfold fec_enet_rx_one at h1
  rcases rx_process_cases K s bdp with ⟨ho, h⟩ | ⟨ho, hcl, h⟩ | ⟨ho, hcl, ha, h⟩ |
    ⟨ho, hcl, ha, hl, h⟩ | ⟨ho, hcl, ha, hl, h⟩
  · rw [h, Option.map_some'] at h1
    cases h1
    exact hp _
  · rw [h, Option.map_some'] at h1
    cases h1
    exact hp _
  · rw [h, Option.map_some'] at h1
    cases h1
    exact hp _
  · rw [h, Option.map_some'] at h1
    cases h1
    exact hn _ _ _
  · rw [h] at h1
    cases h1

theorem rx_loop_writes (K : Params) (r : FecReg) (hr : FecReg.FEC_R_DES_ACTIVE ≠ r) :
    ∀ (fuel : Nat) (s : State) (bdp : Nat) (s' : State),
      fec_enet_rx_loop K fuel s bdp = some s' → writes_to r s'.trace = writes_to r s.trace := by
  intro fuel
  induction fuel with
  | zero => intro s bdp s' hrun; simp [fec_enet_rx_loop] at hrun
  | succ fuel ih =>
    intro s bdp s' hrun
    unfold fec_enet_rx_loop at hrun
    by_cases he : (s.rx_bd bdp).cbd_sc &&& K.BD_ENET_RX_EMPTY ≠ 0
    · rw [if_pos he] at hrun; cases hrun; rfl
    · rw [if_neg he] at hrun
      cases h1 : fec_enet_rx_one K s bdp with
      | none => rw [h1] at hrun; cases hrun
      | some s1 =>
        rw [h1] at hrun
        rw [ih _ _ _ hrun, fec_enet_rx_one_writes K s bdp r hr s1 h1]

theorem tx_loop_writes (K : Params) (r : FecReg) :
    ∀ (fuel : Nat) (s : State) (bdp : Nat) (s' : State),
      fec_enet_tx_loop K fuel s bdp = some s' → writes_to r s'.trace = writes_to r s.trace := by
  intro fuel
  induction fuel with
  | zero => intro s bdp s' hrun; simp [fec_enet_tx_loop] at hrun
  | succ fuel ih =>
    intro s bdp s' hrun
    unfold fec_enet_tx_loop at hrun
    by_cases hrd : (s.tx_bd bdp).cbd_sc &&& K.BD_ENET_TX_READY ≠ 0
    · rw [if_pos hrd] at hrun; cases hrun; rfl
    · rw [if_neg hrd] at hrun
      by_cases hb : bdp = s.cur_tx ∧ s.tx_full = 0
      · rw [if_pos hb] at hrun; cases hrun; rfl
      · rw [if_neg hb] at hrun
        have htr := (fec_enet_tx_one_fields K s bdp).2.2.2.2.2.1
        rw [ih _ _ _ hrun, htr, writes_to_append, writes_to_kfree, List.append_nil]

theorem RingsOk.of_fields {K : Params} {s s' : State} (hs : RingsOk K s)
    (e1 : s'.tx_bd = s.tx_bd) (e2 : s'.rx_bd = s.rx_bd) (e3 : s'.cur_tx = s.cur_tx)
    (e4 : s'.dirty_tx = s.dirty_tx) (e5 : s'.cur_rx = s.cur_rx) : RingsOk K s' := by
  unfold RingsOk TxRingOk RxRingOk
  rw [e1, e2, e3, e4, e5]
  exact hs

theorem irq_tail_fields (v : Nat) (s3 : State) :
    ∀ r : State,
      r = (if v &&& FEC_ENET_MII ≠ 0 then
          { (if v &&& FEC_ENET_TS_TIMER ≠ 0 ∧ s3.ptimer_present ≠ 0
              then { s3 with ptp_prtc := s3.ptp_prtc.map (fun c => c + 1) } else s3) with
            mdio_done := (if v &&& FEC_ENET_TS_TIMER ≠ 0 ∧ s3.ptimer_present ≠ 0
              then { s3 with ptp_prtc := s3.ptp_prtc.map (fun c => c + 1) }
              else s3).mdio_done + 1 }
        else (if v &&& FEC_ENET_TS_TIMER ≠ 0 ∧ s3.ptimer_present ≠ 0
          then { s3 with ptp_prtc := s3.ptp_prtc.map (fun c => c + 1) } else s3)) →
      r.tx_bd = s3.tx_bd ∧ r.rx_bd = s3.rx_bd ∧ r.cur_tx = s3.cur_tx ∧
      r.dirty_tx = s3.dirty_tx ∧ r.cur_rx = s3.cur_rx ∧ r.trace = s3.trace ∧
      r.opened = s3.opened := by
  intro r hr
  rw [hr]
  by_cases c3 : v &&& FEC_ENET_TS_TIMER ≠ 0 ∧ s3.ptimer_present ≠ 0
  · by_cases c4 : v &&& FEC_ENET_MII ≠ 0
    · rw [if_pos c4, if_pos c3]; exact ⟨rfl, rfl, rfl, rfl, rfl, rfl, rfl⟩
    · rw [if_neg c4, if_pos c3]; exact ⟨rfl, rfl, rfl, rfl, rfl, rfl, rfl⟩
  · by_cases c4 : v &&& FEC_ENET_MII ≠ 0
    · rw [if_pos c4, if_neg c3]; exact ⟨rfl, rfl, rfl, rfl, rfl, rfl, rfl⟩
    · rw [if_neg c4, if_neg c3]; exact ⟨rfl, rfl, rfl, rfl, rfl, rfl, rfl⟩

/-- A round of the dispatcher that returns has written to `FEC_IEVENT` the
value read and nothing else. -/
theorem irq_round_writes (K : Params) (v : Nat) (s s' : State)
    (hrun : irq_round K v s = some s') :
    writes_to FecReg.FEC_IEVENT s'.trace = writes_to FecReg.FEC_IEVENT s.trace ++ [v] := by
  have w1 : writes_to FecReg.FEC_IEVENT (writel s v FecReg.FEC_IEVENT).trace
      = writes_to FecReg.FEC_IEVENT s.trace ++ [v] := by
    rw [writes_to_writel_state, if_pos rfl]
  unfold irq_round at hrun
  cases e2 : (if v &&& FEC_ENET_RXF ≠ 0
        then fec_enet_rx K (RX_FUEL K) (writel s v FecReg.FEC_IEVENT)
        else some (writel s v FecReg.FEC_IEVENT)) with
  | none => rw [e2] at hrun; cases hrun
  | some s2 =>
    rw [e2, Option.some_bind] at hrun
    have w2 : writes_to FecReg.FEC_IEVENT s2.trace
        = writes_to FecReg.FEC_IEVENT s.trace ++ [v] := by
      by_cases c : v &&& FEC_ENET_RXF ≠ 0
      · rw [if_pos c] at e2
        exact (rx_loop_writes K _ (by decide) _ _ _ _ e2).trans w1
      · rw [if_neg c] at e2
        cases e2
        exact w1
    cases e3 : (if v &&& FEC_ENET_TXF ≠ 0 then fec_enet_tx K TX_FUEL s2 else some s2) with
    | none => rw [e3] at hrun; cases hrun
    | some s3 =>
      rw [e3, Option.map_some'] at hrun
      have w3 : writes_to FecReg.FEC_IEVENT s3.trace
          = writes_to FecReg.FEC_IEVENT s.trace ++ [v] := by
        by_cases c : v &&& FEC_ENET_TXF ≠ 0
        · rw [if_pos c] at e3
          exact (tx_loop_writes K _ _ _ _ _ e3).trans w2
        · rw [if_neg c] at e3
          cases e3
          exact w2
      cases hrun
      obtain ⟨_, _, _, _, _, f6, _⟩ := irq_tail_fields v s3 _ rfl
      rw [f6]
      exact w3

/-- A round of the dispatcher that returns keeps the rings well formed and
writes to `FEC_IEVENT` the value read and nothing else. -/
theorem irq_round_keeps (K : Params) (hT : K.TxMasks) (hR : K.RxMasks) (v : Nat) (s : State)
    (hs : RingsOk K s) (s' : State) (hrun : irq_round K v s = some s') :
    RingsOk K s' ∧
      writes_to FecReg.FEC_IEVENT s'.trace = writes_to FecReg.FEC_IEVENT s.trace ++ [v] := by
  have h1 : RingsOk K (writel s v FecReg.FEC_IEVENT) := hs
  have w1 : writes_to FecReg.FEC_IEVENT (writel s v FecReg.FEC_IEVENT).trace
      = writes_to FecReg.FEC_IEVENT s.trace ++ [v] := by
    rw [writes_to_writel_state, if_pos rfl]
  unfold irq_round at hrun
  cases e2 : (if v &&& FEC_ENET_RXF ≠ 0
        then fec_enet_rx K (RX_FUEL K) (writel s v FecReg.FEC_IEVENT)
        else some (writel s v FecReg.FEC_IEVENT)) with
  | none => rw [e2] at hrun; cases hrun
  | some s2 =>
    rw [e2, Option.some_bind] at hrun
    have hrx : RingsOk K s2 ∧
        writes_to FecReg.FEC_IEVENT s2.trace = writes_to FecReg.FEC_IEVENT s.trace ++ [v] := by
      by_cases c : v &&& FEC_ENET_RXF ≠ 0
      · rw [if_pos c] at e2
        exact ⟨rx_step_rings K hR _ h1 _ s2 e2,
          (rx_loop_writes K _ (by decide) _ _ _ _ e2).trans w1⟩
      · rw [if_neg c] at e2
        cases e2
        exact ⟨h1, w1⟩
    obtain ⟨r2, w2⟩ := hrx
    have htx : ∃ s3, (if v &&& FEC_ENET_TXF ≠ 0 then fec_enet_tx K TX_FUEL s2 else some s2)
          = some s3 ∧ RingsOk K s3 ∧
        writes_to FecReg.FEC_IEVENT s3.trace
          = writes_to FecReg.FEC_IEVENT s.trace ++ [v] := by
      by_cases c : v &&& FEC_ENET_TXF ≠ 0
      · rw [if_pos c]
        obtain ⟨s3, e3, r3, _⟩ := tx_step_rings K hT hR s2 r2 TxEvent.drain
        exact ⟨s3, e3, r3, (tx_loop_writes K _ _ _ _ _ e3).trans w2⟩
      · rw [if_neg c]
        exact ⟨_, rfl, r2, w2⟩
    obtain ⟨s3, e3, r3, w3⟩ := htx
    rw [e3, Option.map_some'] at hrun
    cases hrun
    obtain ⟨f1, f2, f3, f4, f5, f6, _⟩ := irq_tail_fields v s3 _ rfl
    exact ⟨r3.of_fields f1 f2 f3 f4 f5, by rw [f6]; exact w3⟩

/-- On well-formed rings whose released receive descriptors hold lengths of
at least 4 a round of the dispatcher returns and keeps both properties. -/
theorem irq_round_rings (K : Params) (hT : K.TxMasks) (hR : K.RxMasks) (v : Nat) (s : State)
    (hs : RingsOk K s) (hl : RxLenOk K s) :
    ∃ s', irq_round K v s = some s' ∧ RingsOk K s' ∧ RxLenOk K s' ∧
      writes_to FecReg.FEC_IEVENT s'.trace = writes_to FecReg.FEC_IEVENT s.trace ++ [v] := by
  have h1 : RingsOk K (writel s v FecReg.FEC_IEVENT) := hs
  have l1 : RxLenOk K (writel s v FecReg.FEC_IEVENT) := hl
  have hrx : ∃ s2, (if v &&& FEC_ENET_RXF ≠ 0
        then fec_enet_rx K (RX_FUEL K) (writel s v FecReg.FEC_IEVENT)
        else some (writel s v FecReg.FEC_IEVENT)) = some s2 ∧ RingsOk K s2 ∧ RxLenOk K s2 := by
    by_cases c : v &&& FEC_ENET_RXF ≠ 0
    · rw [if_pos c]
      exact rx_step_returns K hR _ h1 l1
    · rw [if_neg c]
      exact ⟨_, rfl, h1, l1⟩
  obtain ⟨s2, e2, r2, l2⟩ := hrx
  have htx : ∃ s3, (if v &&& FEC_ENET_TXF ≠ 0 then fec_enet_tx K TX_FUEL s2 else some s2)
        = some s3 ∧ RxLenOk K s3 := by
    by_cases c : v &&& FEC_ENET_TXF ≠ 0
    · rw [if_pos c]
      obtain ⟨s3, e3, _, l3⟩ := tx_step_rings K hT hR s2 r2 TxEvent.drain
      exact ⟨s3, e3, l3 l2⟩
    · rw [if_neg c]
      exact ⟨_, rfl, l2⟩
  obtain ⟨s3, e3, l3⟩ := htx
  have hret : ∃ s', irq_round K v s = some s' ∧ RxLenOk K s' := by
    unfold irq_round
    rw [e2, Option.some_bind, e3, Option.map_some']
    obtain ⟨_, f2, _, _, _, _, f7⟩ := irq_tail_fields v s3 _ rfl
    exact ⟨_, rfl, l3.of_rx_fields f2 f7⟩
  obtain ⟨s', hrun, l'⟩ := hret
  obtain ⟨r', w'⟩ := irq_round_keeps K hT hR v s hs s' hrun
  exact ⟨s', hrun, r', l', w'⟩

end Fec
namespace Fec

theorem irq_ret_step (ret : IrqReturn) (a b : Bool) :
    (if (if a = true then IrqReturn.IRQ_HANDLED else ret) = IrqReturn.IRQ_HANDLED ∨ b = true
      then IrqReturn.IRQ_HANDLED else IrqReturn.IRQ_NONE)
    = (if ret = IrqReturn.IRQ_HANDLED ∨ (a || b) = true
      then IrqReturn.IRQ_HANDLED else IrqReturn.IRQ_NONE) := by
  cases ret <;> cases a <;> cases b <;> decide

/-- The handler's loop on reads `vs` (none of them 0) followed by a 0 is the
rounds of the dispatcher for `vs` and the 0, with the return value collected
from the values read. -/
theorem irq_loop_rounds (K : Params) (rest : List Nat) :
    ∀ (vs : List Nat) (s : State) (ret : IrqReturn),
      (∀ v, v ∈ vs → v ≠ 0 ∧ v < 2 ^ 32) →
      fec_enet_interrupt_loop K (vs ++ 0 :: rest) s ret
        = (irq_rounds K (vs ++ [0]) s).map (fun s' =>
            (if ret = IrqReturn.IRQ_HANDLED ∨ vs.any irq_claims = true
              then IrqReturn.IRQ_HANDLED else IrqReturn.IRQ_NONE, s')) := by
  intro vs
  induction vs with
  | nil =>
    intro s ret _
    rw [List.nil_append, irq_iter K 0 (by norm_num) rest s ret]
    simp only [List.nil_append, irq_rounds]
    cases e : irq_round K 0 s with
    | none => rfl
    | some s1 =>
      simp only [Option.some_bind, Option.map_some']
      cases ret <;> simp [irq_claims]
  | cons v vs ih =>
    intro s ret hv
    obtain ⟨hv0, hvlt⟩ := hv v (List.mem_cons_self _ _)
    rw [List.cons_append, irq_iter K v hvlt _ s ret]
    simp only [List.cons_append, irq_rounds]
    cases e : irq_round K v s with
    | none => rfl
    | some s1 =>
      simp only [Option.some_bind]
      rw [if_pos hv0, ih s1 _ (fun x hx => hv x (List.mem_cons_of_mem _ hx)), List.any_cons,
        irq_ret_step]
      rfl

/-- The rounds that return have written to `FEC_IEVENT` the values read, in
order, and nothing else. -/
theorem irq_rounds_writes (K : Params) :
    ∀ (vs : List Nat) (s s' : State), irq_rounds K vs s = some s' →
      writes_to FecReg.FEC_IEVENT s'.trace = writes_to FecReg.FEC_IEVENT s.trace ++ vs := by
  intro vs
  induction vs with
  | nil => intro s s' h; cases h; simp
  | cons v vs ih =>
    intro s s' h
    simp only [irq_rounds] at h
    cases e : irq_round K v s with
    | none => rw [e] at h; cases h
    | some s1 =>
      rw [e, Option.some_bind] at h
      rw [ih s1 s' h, irq_round_writes K v s s1 e]
      simp

/-- On well-formed rings whose released receive descriptors hold lengths of
at least 4 the rounds return. -/
theorem irq_rounds_return (K : Params) (hT : K.TxMasks) (hR : K.RxMasks) :
    ∀ (vs : List Nat) (s : State), RingsOk K s → RxLenOk K s →
      ∃ s', irq_rounds K vs s = some s' := by
  intro vs
  induction vs with
  | nil => intro s _ _; exact ⟨s, rfl⟩
  | cons v vs ih =>
    intro s hs hl
    obtain ⟨s1, e1, r1, l1, _⟩ := irq_round_rings K hT hR v s hs hl
    obtain ⟨s', e'⟩ := ih s1 r1 l1
    exact ⟨s', by simp only [irq_rounds, e1, Option.some_bind]; exact e'⟩

/-- C26: with the event register modelled as the sequence of values that
successive reads return (32-bit values `vs`, none of them 0, followed by a
0), `fec_enet_interrupt` is the rounds of the dispatcher for the values read up
to and including the first 0 (`irq_round`: the value read is written back to
`FEC_IEVENT`, then the receive drain runs if and only if `FEC_ENET_RXF` is set,
then the transmit drain if and only if `FEC_ENET_TXF` is set, and the MDIO
completion is signalled if and only if `FEC_ENET_MII` is set): it returns
exactly when every drain it invokes returns, and then after the read that
returns 0; the values written to `FEC_IEVENT` are then exactly the values
read, the final 0 included, in order; the return value is `IRQ_HANDLED` if and
only if some value read had any of `FEC_ENET_RXF`, `FEC_ENET_TXF`,
`FEC_ENET_TS_TIMER`, `FEC_ENET_MII` set, and `IRQ_NONE` otherwise.  On
well-formed rings whose released receive descriptors hold lengths of at
least 4 every drain returns, and so does `fec_enet_interrupt`. -/
theorem interrupt_dispatch (K : Params) (s : State) (vs rest : List Nat)
    (hv : ∀ v, v ∈ vs → v ≠ 0 ∧ v < 2 ^ 32) :
    fec_enet_interrupt K (vs ++ 0 :: rest) s
      = (irq_rounds K (vs ++ [0]) s).map (fun s' =>
          (if vs.any irq_claims = true then IrqReturn.IRQ_HANDLED else IrqReturn.IRQ_NONE, s')) ∧
    (∀ s', irq_rounds K (vs ++ [0]) s = some s' →
      writes_to FecReg.FEC_IEVENT s'.trace
        = writes_to FecReg.FEC_IEVENT s.trace ++ (vs ++ [0])) ∧
    ((if vs.any irq_claims = true then IrqReturn.IRQ_HANDLED else IrqReturn.IRQ_NONE)
        = IrqReturn.IRQ_HANDLED ↔
      ∃ v, v ∈ vs ∧ (v &&& FEC_ENET_RXF ≠ 0 ∨ v &&& FEC_ENET_TXF ≠ 0 ∨
        v &&& FEC_ENET_TS_TIMER ≠ 0 ∨ v &&& FEC_ENET_MII ≠ 0)) ∧
    ((if vs.any irq_claims = true then IrqReturn.IRQ_HANDLED else IrqReturn.IRQ_NONE)
        = IrqReturn.IRQ_NONE ↔
      ∀ v, v ∈ vs → (v &&& FEC_ENET_RXF = 0 ∧ v &&& FEC_ENET_TXF = 0 ∧
        v &&& FEC_ENET_TS_TIMER = 0 ∧ v &&& FEC_ENET_MII = 0)) ∧
    (K.TxMasks → K.RxMasks → RingsOk K s → RxLenOk K s →
      ∃ s' ret, fec_enet_interrupt K (vs ++ 0 :: rest) s = some (ret, s') ∧
        irq_rounds K (vs ++ [0]) s = some s') := by
  have heq : fec_enet_interrupt K (vs ++ 0 :: rest) s
      = (irq_rounds K (vs ++ [0]) s).map (fun s' =>
          (if vs.any irq_claims = true then IrqReturn.IRQ_HANDLED
            else IrqReturn.IRQ_NONE, s')) := by
    unfold fec_enet_interrupt
    rw [irq_loop_rounds K rest vs s IrqReturn.IRQ_NONE hv]
    simp
  have hany : vs.any irq_claims = true ↔
      ∃ v, v ∈ vs ∧ (v &&& FEC_ENET_RXF ≠ 0 ∨ v &&& FEC_ENET_TXF ≠ 0 ∨
        v &&& FEC_ENET_TS_TIMER ≠ 0 ∨ v &&& FEC_ENET_MII ≠ 0) := by
    rw [List.any_eq_true]
    constructor
    · rintro ⟨v, hm, hc⟩
      refine ⟨v, hm, ?_⟩
      simp only [irq_claims, Bool.or_eq_true, decide_eq_true_eq] at hc
      tauto
    · rintro ⟨v, hm, hc⟩
      refine ⟨v, hm, ?_⟩
      simp only [irq_claims, Bool.or_eq_true, decide_eq_true_eq]
      tauto
  refine ⟨heq, fun s' h => irq_rounds_writes K _ s s' h, ?_, ?_, ?_⟩
  · rw [← hany]
    cases h : vs.any irq_claims <;> simp
  · have hnone : (∀ v, v ∈ vs → (v &&& FEC_ENET_RXF = 0 ∧ v &&& FEC_ENET_TXF = 0 ∧
          v &&& FEC_ENET_TS_TIMER = 0 ∧ v &&& FEC_ENET_MII = 0)) ↔ ¬ (vs.any irq_claims = true) := by
      rw [hany]
      constructor
      · rintro h ⟨v, hm, hc⟩
        obtain ⟨a, b, c, d⟩ := h v hm
        rcases hc with x | x | x | x
        · exact x a
        · exact x b
        · exact x c
        · exact x d
      · intro h v hm
        refine ⟨?_, ?_, ?_, ?_⟩ <;> by_contra hx
        · exact h ⟨v, hm, Or.inl hx⟩
        · exact h ⟨v, hm, Or.inr (Or.inl hx)⟩
        · exact h ⟨v, hm, Or.inr (Or.inr (Or.inl hx))⟩
        · exact h ⟨v, hm, Or.inr (Or.inr (Or.inr hx))⟩
    rw [hnone]
    cases h : vs.any irq_claims <;> simp
  · intro hT hR hs hl
    obtain ⟨s', e⟩ := irq_rounds_return K hT hR (vs ++ [0]) s hs hl
    exact ⟨s', _, by rw [heq, e]; rfl, e⟩

theorem interrupt_dispatch_witness :
    (∀ v, v ∈ [0x0a800000, 0x00000400] → v ≠ 0 ∧ v < 2 ^ 32) ∧
    mx28.TxMasks ∧ mx28.RxMasks ∧ RingsOk mx28 dev_irq ∧ RxLenOk mx28 dev_irq ∧
    (fec_enet_interrupt mx28 ([0x0a800000, 0x00000400] ++ 0 :: [5]) dev_irq
      = (irq_rounds mx28 ([0x0a800000, 0x00000400] ++ [0]) dev_irq).map (fun s' =>
          (if [0x0a800000, 0x00000400].any irq_claims = true then IrqReturn.IRQ_HANDLED
            else IrqReturn.IRQ_NONE, s')) ∧
    (∀ s', irq_rounds mx28 ([0x0a800000, 0x00000400] ++ [0]) dev_irq = some s' →
      writes_to FecReg.FEC_IEVENT s'.trace
        = writes_to FecReg.FEC_IEVENT dev_irq.trace ++ ([0x0a800000, 0x00000400] ++ [0])) ∧
    ((if [0x0a800000, 0x00000400].any irq_claims = true then IrqReturn.IRQ_HANDLED
        else IrqReturn.IRQ_NONE) = IrqReturn.IRQ_HANDLED ↔
      ∃ v, v ∈ [0x0a800000, 0x00000400] ∧ (v &&& FEC_ENET_RXF ≠ 0 ∨ v &&& FEC_ENET_TXF ≠ 0 ∨
        v &&& FEC_ENET_TS_TIMER ≠ 0 ∨ v &&& FEC_ENET_MII ≠ 0)) ∧
    ((if [0x0a800000, 0x00000400].any irq_claims = true then IrqReturn.IRQ_HANDLED
        else IrqReturn.IRQ_NONE) = IrqReturn.IRQ_NONE ↔
      ∀ v, v ∈ [0x0a800000, 0x00000400] → (v &&& FEC_ENET_RXF = 0 ∧ v &&& FEC_ENET_TXF = 0 ∧
        v &&& FEC_ENET_TS_TIMER = 0 ∧ v &&& FEC_ENET_MII = 0)) ∧
    (mx28.TxMasks → mx28.RxMasks → RingsOk mx28 dev_irq → RxLenOk mx28 dev_irq →
      ∃ s' ret, fec_enet_interrupt mx28 ([0x0a800000, 0x00000400] ++ 0 :: [5]) dev_irq
          = some (ret, s') ∧
        irq_rounds mx28 ([0x0a800000, 0x00000400] ++ [0]) dev_irq = some s')) ∧
    (fec_enet_interrupt mx28 [0x0a800000, 0x00000400, 0, 5] dev_irq).map
      (fun r => (r.1, r.2.cur_rx, r.2.dirty_tx, r.2.mdio_done,
        writes_to FecReg.FEC_IEVENT r.2.trace))
      = some (IrqReturn.IRQ_HANDLED, 1, 1, 1,
          writes_to FecReg.FEC_IEVENT dev_irq.trace ++ [0x0a800000, 0x00000400, 0]) ∧
    (fec_enet_interrupt mx28 [0x00000400, 0] dev_irq).map (fun r => r.1)
      = some IrqReturn.IRQ_NONE ∧
    (fec_enet_interrupt mx28 [0x02000000, 0] dev_rx_short).map (fun r => r.1) = none :=
  ⟨by decide, by decide, by decide, by decide, by decide,
   interrupt_dispatch mx28 dev_irq [0x0a800000, 0x00000400] [5] (by decide),
   by decide, by decide, by decide⟩

end Fec
namespace Fec

/-- For every state, `fec_restart` leaves the descriptor memory of both rings
as it was: no status word is rewritten, so a descriptor that was handed to the
controller still has `BD_ENET_TX_READY` set afterwards. -/
theorem fec_restart_keeps_descriptors (K : Params) (s : State) (duplex : Nat) :
    (fec_restart K s duplex).tx_bd = s.tx_bd ∧ (fec_restart K s duplex).rx_bd = s.rx_bd ∧
    (fec_timeout K s).tx_bd = s.tx_bd := by
  obtain ⟨r, h, t, f, p, e, _, _⟩ := fec_restart_shape K s duplex
  refine ⟨?_, ?_, ?_⟩
  · rw [e]
  · rw [e]
  · unfold fec_timeout
    obtain ⟨r, h, t, f, p, e, _, _⟩ := fec_restart_shape K
      { s with stats := { s.stats with tx_errors := s.stats.tx_errors + 1 } } s.full_duplex
    simp only [netif_wake_queue]
    rw [e]

/-- C27 at concrete inputs.  With one accepted frame in flight (`dev1`, link
up), `fec_timeout` (and `fec_restart` alone) empties `tx_skbuff` and puts the
cursors back to the base, but descriptor 0 still has `BD_ENET_TX_READY` set,
and the following `fec_enet_start_xmit` returns `NETDEV_TX_BUSY`.  On the full
ring whose first frame the controller has finished (`dev16_one_done`), after
`fec_timeout` the following `fec_enet_tx` reclaims descriptor 0: `dirty_tx`
moves to 1 and `tx_packets` is counted, although no frame is retained. -/
theorem fec_restart_stale_descriptors :
    dev1.link ≠ 0 ∧
    (∀ i, i < TX_RING_SIZE → (fec_timeout mx28 dev1).tx_skbuff i = none) ∧
    (fec_timeout mx28 dev1).cur_tx = 0 ∧
    (fec_timeout mx28 dev1).link ≠ 0 ∧
    ((fec_timeout mx28 dev1).tx_bd 0).cbd_sc &&& mx28.BD_ENET_TX_READY ≠ 0 ∧
    ((fec_restart mx28 dev1 1).tx_bd 0).cbd_sc &&& mx28.BD_ENET_TX_READY ≠ 0 ∧
    (fec_enet_start_xmit mx28 (fec_timeout mx28 dev1) frame64).1 = NetdevTx.NETDEV_TX_BUSY ∧
    (fec_enet_start_xmit mx28 (fec_restart mx28 dev1 1) frame64).1 = NetdevTx.NETDEV_TX_BUSY ∧
    (∀ i, i < TX_RING_SIZE → (fec_timeout mx28 dev16_one_done).tx_skbuff i = none) ∧
    (fec_timeout mx28 dev16_one_done).dirty_tx = 0 ∧
    (fec_timeout mx28 dev16_one_done).stats.tx_packets = 0 ∧
    (fec_enet_tx mx28 TX_FUEL (fec_timeout mx28 dev16_one_done)).map
      (fun s => (s.dirty_tx, s.stats.tx_packets)) = some (1, 1) := by
  decide

end Fec
namespace Fec

/-! ## Station address -/

theorem pack4 (a b c d : Nat) (hb : b < 256) (hc : c < 256) (hd : d < 256) :
    d ||| (c <<< 8) ||| (b <<< 16) ||| (a <<< 24) = 2 ^ 24 * a + (2 ^ 16 * b + (2 ^ 8 * c + d)) := by
  have h1 : 2 ^ 8 * c + d = 2 ^ 8 * c ||| d := Nat.mul_add_lt_is_or (by omega) _
  have h2 : 2 ^ 16 * b + (2 ^ 8 * c + d) = 2 ^ 16 * b ||| (2 ^ 8 * c + d) :=
    Nat.mul_add_lt_is_or (by omega) _
  have h3 : 2 ^ 24 * a + (2 ^ 16 * b + (2 ^ 8 * c + d))
      = 2 ^ 24 * a ||| (2 ^ 16 * b + (2 ^ 8 * c + d)) := Nat.mul_add_lt_is_or (by omega) _
  rw [h3, h2, h1, Nat.shiftLeft_eq, Nat.shiftLeft_eq, Nat.shiftLeft_eq, Nat.mul_comm c,
    Nat.mul_comm b, Nat.mul_comm a]
  ac_rfl

theorem pack4_restart (a b c d : Nat) :
    (a <<< 24) ||| (b <<< 16) ||| (c <<< 8) ||| d = d ||| (c <<< 8) ||| (b <<< 16) ||| (a <<< 24) := by
  generalize a <<< 24 = w
  generalize b <<< 16 = x
  generalize c <<< 8 = y
  ac_rfl

theorem pack2 (a b g : Nat) (hb : b < 256) (hg : g < 65536) :
    (a <<< 24) ||| (b <<< 16) ||| g = 2 ^ 24 * a + (2 ^ 16 * b + g) := by
  have h2 : 2 ^ 16 * b + g = 2 ^ 16 * b ||| g := Nat.mul_add_lt_is_or (by omega) _
  have h3 : 2 ^ 24 * a + (2 ^ 16 * b + g) = 2 ^ 24 * a ||| (2 ^ 16 * b + g) :=
    Nat.mul_add_lt_is_or (by omega) _
  rw [h3, h2, Nat.shiftLeft_eq, Nat.shiftLeft_eq, Nat.mul_comm b, Nat.mul_comm a]
  ac_rfl

theorem pack2_set (a b : Nat) (hb : b < 256) :
    (b <<< 16) ||| (a <<< 24) = 2 ^ 24 * a + (2 ^ 16 * b + 0) := by
  rw [← pack2 a b 0 hb (by norm_num), Nat.or_zero, Nat.lor_comm]

theorem byte_split (hi lo : Nat) (h : lo < 256) :
    (256 * hi + lo) % 256 = lo ∧ (256 * hi + lo) / 256 = hi := by
  constructor <;> omega

theorem bytes_of_word (a b c d : Nat) (hb : b < 256) (hc : c < 256) (hd : d < 256) :
    let x := 256 * (256 * (256 * a + b) + c) + d
    x % 256 = d ∧ x / 2 ^ 8 % 256 = c ∧ x / 2 ^ 16 % 256 = b ∧ x / 2 ^ 24 = a := by
  intro x
  have h0 := byte_split (256 * (256 * a + b) + c) d hd
  have h1 := byte_split (256 * a + b) c hc
  have h2 := byte_split a b hb
  have d8 : x / 2 ^ 8 = 256 * (256 * a + b) + c := h0.2
  have d16 : x / 2 ^ 16 = 256 * a + b := by
    have : x / 2 ^ 16 = x / 2 ^ 8 / 256 := by
      rw [Nat.div_div_eq_div_mul]; rfl
    rw [this, d8]; exact h1.2
  have d24 : x / 2 ^ 24 = a := by
    have : x / 2 ^ 24 = x / 2 ^ 16 / 256 := by
      rw [Nat.div_div_eq_div_mul]; rfl
    rw [this, d16]; exact h2.2
  exact ⟨h0.1, by rw [d8]; exact h1.1, by rw [d16]; exact h2.1, d24⟩

theorem decode_low (a b c d : Nat) (ha : a < 256) (hb : b < 256) (hc : c < 256) (hd : d < 256) :
    le_bytes32 (be32_to_cpu ((2 ^ 24 * a + (2 ^ 16 * b + (2 ^ 8 * c + d))) % 2 ^ 32))
      = [a, b, c, d] := by
  have e : (2 ^ 24 * a + (2 ^ 16 * b + (2 ^ 8 * c + d))) % 2 ^ 32 % 2 ^ 32
      = 256 * (256 * (256 * a + b) + c) + d := by omega
  obtain ⟨e0, e1, e2, e3⟩ := bytes_of_word a b c d hb hc hd
  obtain ⟨f0, f1, f2, f3⟩ := bytes_of_word d c b a hc hb ha
  have e3' : (256 * (256 * (256 * a + b) + c) + d) / 2 ^ 24 % 256 = a := by
    rw [e3]; exact Nat.mod_eq_of_lt ha
  have f3' : (256 * (256 * (256 * d + c) + b) + a) / 2 ^ 24 % 256 = d := by
    rw [f3]; exact Nat.mod_eq_of_lt hd
  have g : d * 2 ^ 24 + c * 2 ^ 16 + b * 2 ^ 8 + a = 256 * (256 * (256 * d + c) + b) + a := by
    omega
  unfold le_bytes32 be32_to_cpu swab32
  rw [e, e0, e1, e2, e3', g, f0, f1, f2, f3']

theorem high_upper (a b g : Nat) (ha : a < 256) (hb : b < 256) (hg : g < 65536) :
    ((2 ^ 24 * a + (2 ^ 16 * b + g)) % 2 ^ 32) >>> 16 = 2 ^ 8 * a + b := by
  rw [Nat.shiftRight_eq_div_pow]
  omega

theorem decode_high (a b : Nat) (ha : a < 256) (hb : b < 256) :
    le_bytes16 (be16_to_cpu (2 ^ 8 * a + b)) = [a, b] := by
  unfold le_bytes16 be16_to_cpu swab16
  have e : (2 ^ 8 * a + b) % 2 ^ 16 = 2 ^ 8 * a + b := by omega
  rw [e]
  have e0 : (2 ^ 8 * a + b) % 256 = b := by omega
  have e1 : (2 ^ 8 * a + b) / 2 ^ 8 % 256 = a := by omega
  rw [e0, e1]
  have f0 : (b * 2 ^ 8 + a) % 256 = a := by omega
  have f1 : (b * 2 ^ 8 + a) / 2 ^ 8 % 256 = b := by omega
  rw [f0, f1]

theorem restart_tail_addr (K : Params) (s : State) (r : FecReg)
    (hr : r = FecReg.FEC_ADDR_LOW ∨ r = FecReg.FEC_ADDR_HIGH) :
    writes_to r (restart_tail K s).trace = writes_to r s.trace := by
  have n1 : FecReg.FEC_R_CNTRL ≠ r := by rcases hr with rfl | rfl <;> decide
  have n2 : FecReg.FEC_MII_SPEED ≠ r := by rcases hr with rfl | rfl <;> decide
  have n3 : FecReg.FEC_ECNTRL ≠ r := by rcases hr with rfl | rfl <;> decide
  have n4 : FecReg.FEC_R_DES_ACTIVE ≠ r := by rcases hr with rfl | rfl <;> decide
  have n5 : FecReg.FEC_IMASK ≠ r := by rcases hr with rfl | rfl <;> decide
  have n6 : FecReg.FEC_MIIGSK_ENR ≠ r := by rcases hr with rfl | rfl <;> decide
  have n7 : FecReg.FEC_MIIGSK_CFGR ≠ r := by rcases hr with rfl | rfl <;> decide
  have hA : writes_to r (if K.CONFIG_ARCH_MXS then restart_mxs_rcntrl s else s).trace
      = writes_to r s.trace := by
    cases K.CONFIG_ARCH_MXS
    · rfl
    · unfold restart_mxs_rcntrl
      dsimp only [readl]
      rw [if_pos rfl, writes_to_writel_state, if_neg n1, List.append_nil]
  have hB : ∀ x : State,
      writes_to r (if K.HAVE_FEC_MIIGSK_ENR then restart_miigsk x else x).trace
        = writes_to r x.trace := by
    intro x
    cases K.HAVE_FEC_MIIGSK_ENR
    · rfl
    · show writes_to r (restart_miigsk x).trace = _
      unfold restart_miigsk
      split <;> simp [writes_to_writel_state, n6, n7]
  have hC : ∀ (P : Prop) [Decidable P] (x : State),
      writes_to r (if P then { x with ptimer_present := 0 } else x).trace
        = writes_to r x.trace := by
    intro P _ x
    split <;> rfl
  unfold restart_tail
  dsimp only
  rw [writes_to_writel_state, writes_to_writel_state, writes_to_writel_state, hB, hC,
    writes_to_writel_state, hA, if_neg n2, if_neg n3, if_neg n4, if_neg n5]
  simp

/-- The writes `fec_restart` makes to the two station-address registers. -/
theorem fec_restart_addr_writes (K : Params) (s : State) (duplex : Nat) :
    writes_to FecReg.FEC_ADDR_LOW (fec_restart K s duplex).trace
      = writes_to FecReg.FEC_ADDR_LOW s.trace ++ [restart_addr_low s] ∧
    writes_to FecReg.FEC_ADDR_HIGH (fec_restart K s duplex).trace
      = writes_to FecReg.FEC_ADDR_HIGH s.trace ++ [restart_addr_high s] := by
  have hh : writes_to FecReg.FEC_ADDR_LOW (restart_head K s).trace
        = writes_to FecReg.FEC_ADDR_LOW s.trace ++ [restart_addr_low s] ∧
      writes_to FecReg.FEC_ADDR_HIGH (restart_head K s).trace
        = writes_to FecReg.FEC_ADDR_HIGH s.trace ++ [restart_addr_high s] := by
    unfold restart_head
    cases K.CONFIG_M5272 <;> simp [writes_to_writel_state]
  have hd : ∀ (r : FecReg) (x : State), r = FecReg.FEC_ADDR_LOW ∨ r = FecReg.FEC_ADDR_HIGH →
      writes_to r (restart_duplex K x duplex).trace = writes_to r x.trace := by
    intro r x hr
    unfold restart_duplex
    by_cases hd : duplex ≠ 0
    · rcases hr with rfl | rfl <;> simp [hd, writel, writes_to, List.filterMap_append]
    · rcases hr with rfl | rfl <;> simp [hd, writel, writes_to, List.filterMap_append]
  unfold fec_restart
  constructor
  · rw [restart_tail_addr K _ _ (Or.inl rfl), hd _ _ (Or.inl rfl), restart_rings_writes, hh.1]
  · rw [restart_tail_addr K _ _ (Or.inr rfl), hd _ _ (Or.inr rfl), restart_rings_writes, hh.2]

theorem list_of_length_six (a : List Nat) (h : a.length = 6) :
    ∃ a0 a1 a2 a3 a4 a5, a = [a0, a1, a2, a3, a4, a5] := by
  match a, h with
  | [a0, a1, a2, a3, a4, a5], _ => exact ⟨a0, a1, a2, a3, a4, a5, rfl⟩

/-- C29: on a little-endian host, for every 6-byte address `a` that
`is_valid_ether_addr` accepts, `fec_set_mac_address` returns 0, stores `a` in
`dev_addr` and writes one value to `FEC_ADDR_LOW` and one to `FEC_ADDR_HIGH`;
the register branch of `fec_get_mac` decodes these two values to exactly `a`;
and `fec_restart`, run with the same `dev_addr`, writes the same value to
`FEC_ADDR_LOW` and a value with the same upper 16 bits to `FEC_ADDR_HIGH`.  An
address that `is_valid_ether_addr` rejects makes `fec_set_mac_address` return
`-EADDRNOTAVAIL` and leaves the device, `dev_addr` included, unchanged. -/
theorem set_mac_address_round_trip (K : Params) (s : State) (valid : List Nat → Bool)
    (a : List Nat) (duplex : Nat) (hlen : a.length = 6) (hb : ∀ b, b ∈ a → b < 256) :
    (valid a = true →
      ∃ lo hi s', fec_set_mac_address s valid a 6 = (0, s') ∧
        s'.dev_addr = a ++ s.dev_addr.drop 6 ∧
        s'.trace = s.trace ++ [Call.writel lo FecReg.FEC_ADDR_LOW,
          Call.writel hi FecReg.FEC_ADDR_HIGH] ∧
        readl s' FecReg.FEC_ADDR_LOW = lo ∧ readl s' FecReg.FEC_ADDR_HIGH = hi ∧
        get_mac_regs s' = a ∧
        writes_to FecReg.FEC_ADDR_LOW (fec_restart K s' duplex).trace
          = writes_to FecReg.FEC_ADDR_LOW s'.trace ++ [lo] ∧
        ∃ hi', writes_to FecReg.FEC_ADDR_HIGH (fec_restart K s' duplex).trace
            = writes_to FecReg.FEC_ADDR_HIGH s'.trace ++ [hi'] ∧
          hi' >>> 16 = hi >>> 16) ∧
    (∀ (x : List Nat) (n : Nat), valid x = false →
      fec_set_mac_address s valid x n = (-EADDRNOTAVAIL, s) ∧
      (fec_set_mac_address s valid x n).2.dev_addr = s.dev_addr) := by
  constructor
  · intro hv
    obtain ⟨a0, a1, a2, a3, a4, a5, rfl⟩ := list_of_length_six a hlen
    have h0 : a0 < 256 := hb a0 (by simp)
    have h1 : a1 < 256 := hb a1 (by simp)
    have h2 : a2 < 256 := hb a2 (by simp)
    have h3 : a3 < 256 := hb a3 (by simp)
    have h4 : a4 < 256 := hb a4 (by simp)
    have h5 : a5 < 256 := hb a5 (by simp)
    have hm : memcpy s.dev_addr [a0, a1, a2, a3, a4, a5] 6
        = [a0, a1, a2, a3, a4, a5] ++ s.dev_addr.drop 6 := rfl
    have elo : (a3 ||| (a2 <<< 8) ||| (a1 <<< 16) ||| (a0 <<< 24)) % 2 ^ 32
        = (2 ^ 24 * a0 + (2 ^ 16 * a1 + (2 ^ 8 * a2 + a3))) % 2 ^ 32 := by
      rw [pack4 a0 a1 a2 a3 h1 h2 h3]
    have ehi : ((a5 <<< 16) ||| (a4 <<< 24)) % 2 ^ 32
        = (2 ^ 24 * a4 + (2 ^ 16 * a5 + 0)) % 2 ^ 32 := by
      rw [pack2_set a4 a5 h5]
    have elt : 2 ^ 24 * a0 + (2 ^ 16 * a1 + (2 ^ 8 * a2 + a3)) < 2 ^ 32 := by omega
    refine ⟨(2 ^ 24 * a0 + (2 ^ 16 * a1 + (2 ^ 8 * a2 + a3))) % 2 ^ 32,
      (2 ^ 24 * a4 + (2 ^ 16 * a5 + 0)) % 2 ^ 32,
      writel (writel { s with dev_addr := [a0, a1, a2, a3, a4, a5] ++ s.dev_addr.drop 6 }
        ((2 ^ 24 * a0 + (2 ^ 16 * a1 + (2 ^ 8 * a2 + a3))) % 2 ^ 32) FecReg.FEC_ADDR_LOW)
        ((2 ^ 24 * a4 + (2 ^ 16 * a5 + 0)) % 2 ^ 32) FecReg.FEC_ADDR_HIGH,
      ?_, ?_, ?_, ?_, ?_, ?_, ?_, ?_⟩
    · unfold fec_set_mac_address
      rw [hv]
      simp only [Bool.not_true, Bool.false_eq_true, if_false]
      rw [hm]
      simp only [List.cons_append, List.getD_cons_zero, List.getD_cons_succ]
      rw [elo, ehi]
    · rfl
    · simp [writel]
    · simp [readl, writel]
    · simp [readl, writel]
    · unfold get_mac_regs
      simp only [readl, writel, Function.update_same, ne_eq, reduceCtorEq, not_false_eq_true,
        Function.update_noteq]
      rw [high_upper a4 a5 0 h4 h5 (by norm_num), decode_low a0 a1 a2 a3 h0 h1 h2 h3,
        decode_high a4 a5 h4 h5]
      rfl
    · rw [(fec_restart_addr_writes K _ duplex).1]
      unfold restart_addr_low
      simp only [writel, List.cons_append, List.getD_cons_zero, List.getD_cons_succ]
      rw [pack4_restart, pack4 a0 a1 a2 a3 h1 h2 h3, Nat.mod_eq_of_lt elt]
    · refine ⟨_, (fec_restart_addr_writes K _ duplex).2, ?_⟩
      unfold restart_addr_high
      simp only [writel, List.cons_append, List.getD_cons_zero, List.getD_cons_succ]
      rw [pack2 a4 a5 _ h5 (Nat.mod_lt _ (by norm_num)), high_upper a4 a5 0 h4 h5 (by norm_num),
        Nat.shiftRight_eq_div_pow]
      have := Nat.mod_lt s.stack_garbage (show 0 < 65536 by norm_num)
      omega
  · intro x n hx
    unfold fec_set_mac_address
    rw [hx]
    exact ⟨rfl, rfl⟩

theorem set_mac_address_round_trip_witness :
    [0x00, 0x04, 0x9f, 0x01, 0x02, 0xfe].length = 6 ∧
    (∀ b, b ∈ [0x00, 0x04, 0x9f, 0x01, 0x02, 0xfe] → b < 256) ∧
    ((fun _ => true) [0x00, 0x04, 0x9f, 0x01, 0x02, 0xfe] = true →
      ∃ lo hi s', fec_set_mac_address dev0 (fun _ => true) [0x00, 0x04, 0x9f, 0x01, 0x02, 0xfe] 6
          = (0, s') ∧
        s'.dev_addr = [0x00, 0x04, 0x9f, 0x01, 0x02, 0xfe] ++ dev0.dev_addr.drop 6 ∧
        s'.trace = dev0.trace ++ [Call.writel lo FecReg.FEC_ADDR_LOW,
          Call.writel hi FecReg.FEC_ADDR_HIGH] ∧
        readl s' FecReg.FEC_ADDR_LOW = lo ∧ readl s' FecReg.FEC_ADDR_HIGH = hi ∧
        get_mac_regs s' = [0x00, 0x04, 0x9f, 0x01, 0x02, 0xfe] ∧
        writes_to FecReg.FEC_ADDR_LOW (fec_restart mx28 s' 1).trace
          = writes_to FecReg.FEC_ADDR_LOW s'.trace ++ [lo] ∧
        ∃ hi', writes_to FecReg.FEC_ADDR_HIGH (fec_restart mx28 s' 1).trace
            = writes_to FecReg.FEC_ADDR_HIGH s'.trace ++ [hi'] ∧
          hi' >>> 16 = hi >>> 16) ∧
    get_mac_regs (fec_set_mac_address dev0 (fun _ => true) [0x00, 0x04, 0x9f, 0x01, 0x02, 0xfe] 6).2
      = [0x00, 0x04, 0x9f, 0x01, 0x02, 0xfe] ∧
    fec_set_mac_address dev0 (fun _ => false) [0xff, 0xff, 0xff, 0xff, 0xff, 0xff] 6
      = (-EADDRNOTAVAIL, dev0) :=
  ⟨by decide, by decide,
   (set_mac_address_round_trip mx28 dev0 (fun _ => true) [0x00, 0x04, 0x9f, 0x01, 0x02, 0xfe] 1
      (by decide) (by decide)).1,
   by decide,
   ((set_mac_address_round_trip mx28 dev0 (fun _ => false) [0x00, 0x04, 0x9f, 0x01, 0x02, 0xfe] 1
      (by decide) (by decide)).2 [0xff, 0xff, 0xff, 0xff, 0xff, 0xff] 6 rfl).1⟩

end Fec
namespace Fec

/-! ## Multicast hash filter -/

theorem shiftRight_xor (a b i : Nat) : (a ^^^ b) >>> i = a >>> i ^^^ b >>> i := by
  apply Nat.eq_of_testBit_eq
  intro j
  rw [Nat.testBit_shiftRight, Nat.testBit_xor, Nat.testBit_xor, Nat.testBit_shiftRight,
    Nat.testBit_shiftRight]

/-- The bit loop of `set_multicast_list` and the shift register of the usual
description agree: the data bits not yet consumed are the difference. -/
theorem crc_bits_shift : ∀ (n crc data : Nat),
    crc_bits n crc data ^^^ (data >>> n) = crc32_shift n (crc ^^^ data) := by
  intro n
  induction n with
  | zero => intro crc data; rfl
  | succ n ih =>
    intro crc data
    have e : data >>> (n + 1) = data >>> 1 >>> n := by
      rw [Nat.add_comm, Nat.shiftRight_add]
    show crc_bits n _ (data >>> 1) ^^^ (data >>> (n + 1)) = crc32_shift n _
    rw [e, ih]
    congr 1
    by_cases h : (crc ^^^ data) &&& 1 ≠ 0
    · rw [if_pos h, if_pos h, shiftRight_xor]
      ac_rfl
    · rw [if_neg h, if_neg h, shiftRight_xor, Nat.xor_zero]

theorem crc_bits_byte (crc data : Nat) (h : data < 256) :
    crc_bits 8 crc data = crc32_shift 8 (crc ^^^ data) := by
  have e : data >>> 8 = 0 := by
    rw [Nat.shiftRight_eq_div_pow]
    exact Nat.div_eq_of_lt h
  rw [← crc_bits_shift, e, Nat.xor_zero]

theorem foldl_range_getD (f : Nat → Nat → Nat) :
    ∀ (a : List Nat) (init : Nat),
      (List.range a.length).foldl (fun c i => f c (a.getD i 0)) init = a.foldl f init := by
  intro a
  induction a with
  | nil => intro init; rfl
  | cons x a ih =>
    intro init
    rw [List.length_cons, List.range_succ_eq_map, List.foldl_cons, List.foldl_map,
      List.foldl_cons]
    exact ih _

theorem foldl_congr_mem (f g : Nat → Nat → Nat) :
    ∀ (a : List Nat) (init : Nat), (∀ c b, b ∈ a → f c b = g c b) →
      a.foldl f init = a.foldl g init := by
  intro a
  induction a with
  | nil => intro init _; rfl
  | cons x a ih =>
    intro init h
    rw [List.foldl_cons, List.foldl_cons, h init x (List.mem_cons_self _ _)]
    exact ih _ (fun c b hb => h c b (List.mem_cons_of_mem _ hb))

/-- The CRC that `set_multicast_list` computes over an address is the
bit-reflected CRC-32 of its bytes. -/
theorem mc_crc_reflected (a : List Nat) (hb : ∀ b, b ∈ a → b < 256) :
    mc_crc a a.length = crc32_reflected a := by
  unfold mc_crc crc32_reflected
  rw [foldl_range_getD (fun c b => crc_bits 8 c b)]
  exact foldl_congr_mem _ _ a _ (fun c b h => crc_bits_byte c b (hb b h))

theorem crc_bits_lt : ∀ (n crc data : Nat), crc < 2 ^ 32 → crc_bits n crc data < 2 ^ 32 := by
  intro n
  induction n with
  | zero => intro crc data h; exact h
  | succ n ih =>
    intro crc data h
    apply ih
    apply Nat.xor_lt_two_pow
    · rw [Nat.shiftRight_eq_div_pow]; omega
    · split
      · decide
      · decide

theorem mc_crc_lt (a : List Nat) (n : Nat) : mc_crc a n < 2 ^ 32 := by
  unfold mc_crc
  have key : ∀ (l : List Nat) (init : Nat), init < 2 ^ 32 →
      l.foldl (fun crc i => crc_bits 8 crc (a.getD i 0)) init < 2 ^ 32 := by
    intro l
    induction l with
    | nil => intro init h; exact h
    | cons i l ih => intro init h; exact ih _ (crc_bits_lt 8 init _ h)
  exact key _ _ (by decide)

theorem mc_hash_lt (a : List Nat) (n : Nat) :
    mc_hash a n < 64 ∧ mc_hash a n = mc_crc a n / 2 ^ 26 := by
  have h := mc_crc_lt a n
  have e : mc_hash a n = mc_crc a n / 2 ^ 26 := by
    unfold mc_hash HASH_BITS
    rw [Nat.shiftRight_eq_div_pow]
    have : (0x3f : Nat) = 2 ^ 6 - 1 := by decide
    rw [this, Nat.and_pow_two_sub_one_eq_mod]
    apply Nat.mod_eq_of_lt
    omega
  rw [e]
  exact ⟨by omega, rfl⟩

theorem or_bit (x k j : Nat) (hx : x < 2 ^ 32) (hk : k < 32) :
    (x ||| 1 <<< k) % 2 ^ 32 < 2 ^ 32 ∧
    (((x ||| 1 <<< k) % 2 ^ 32).testBit j = true ↔ x.testBit j = true ∨ k = j) := by
  have hp : 2 ^ k < 2 ^ 32 := Nat.pow_lt_pow_right (by norm_num) hk
  have hlt : x ||| 2 ^ k < 2 ^ 32 := Nat.or_lt_two_pow hx hp
  rw [Nat.one_shiftLeft, Nat.mod_eq_of_lt hlt, Nat.testBit_or, Nat.testBit_two_pow]
  exact ⟨hlt, by simp⟩

/-- What one pass of the loop over the multicast list does to the two hash
registers. -/
theorem mc_add_regs (n : Nat) (s : State) (a : List Nat)
    (hl : readl s FecReg.FEC_GRP_HASH_TABLE_LOW < 2 ^ 32)
    (hh : readl s FecReg.FEC_GRP_HASH_TABLE_HIGH < 2 ^ 32) :
    readl (mc_add n s a) FecReg.FEC_GRP_HASH_TABLE_LOW < 2 ^ 32 ∧
    readl (mc_add n s a) FecReg.FEC_GRP_HASH_TABLE_HIGH < 2 ^ 32 ∧
    (∀ j, j < 32 → ((readl (mc_add n s a) FecReg.FEC_GRP_HASH_TABLE_LOW).testBit j = true ↔
      (readl s FecReg.FEC_GRP_HASH_TABLE_LOW).testBit j = true ∨
        (a.getD 0 0 &&& 1 ≠ 0 ∧ mc_hash a n = j))) ∧
    (∀ j, j < 32 → ((readl (mc_add n s a) FecReg.FEC_GRP_HASH_TABLE_HIGH).testBit j = true ↔
      (readl s FecReg.FEC_GRP_HASH_TABLE_HIGH).testBit j = true ∨
        (a.getD 0 0 &&& 1 ≠ 0 ∧ mc_hash a n = j + 32))) := by
  have h64 := (mc_hash_lt a n).1
  unfold mc_add
  by_cases hg : a.getD 0 0 &&& 1 = 0
  · rw [if_pos hg]
    refine ⟨hl, hh, fun j _ => ?_, fun j _ => ?_⟩
    · constructor
      · exact Or.inl
      · rintro (h | ⟨h, _⟩)
        · exact h
        · exact absurd hg h
    · constructor
      · exact Or.inl
      · rintro (h | ⟨h, _⟩)
        · exact h
        · exact absurd hg h
  · rw [if_neg hg]
    by_cases h31 : mc_hash a n > 31
    · simp only [h31, if_true]
      have hk : mc_hash a n - 32 < 32 := by omega
      have e1 : readl (writel s ((readl s FecReg.FEC_GRP_HASH_TABLE_HIGH |||
          1 <<< (mc_hash a n - 32)) % 2 ^ 32) FecReg.FEC_GRP_HASH_TABLE_HIGH)
          FecReg.FEC_GRP_HASH_TABLE_LOW = readl s FecReg.FEC_GRP_HASH_TABLE_LOW := by
        simp [readl, writel]
      have e2 : readl (writel s ((readl s FecReg.FEC_GRP_HASH_TABLE_HIGH |||
          1 <<< (mc_hash a n - 32)) % 2 ^ 32) FecReg.FEC_GRP_HASH_TABLE_HIGH)
          FecReg.FEC_GRP_HASH_TABLE_HIGH
          = (readl s FecReg.FEC_GRP_HASH_TABLE_HIGH ||| 1 <<< (mc_hash a n - 32)) % 2 ^ 32 := by
        simp [readl, writel]
      rw [e1, e2]
      refine ⟨hl, (or_bit _ _ 0 hh hk).1, fun j hj => ?_, fun j _ => ?_⟩
      · constructor
        · exact Or.inl
        · rintro (h | ⟨_, h⟩)
          · exact h
          · omega
      · rw [(or_bit _ _ j hh hk).2]
        constructor
        · rintro (h | h)
          · exact Or.inl h
          · exact Or.inr ⟨hg, by omega⟩
        · rintro (h | ⟨_, h⟩)
          · exact Or.inl h
          · exact Or.inr (by omega)
    · simp only [h31, if_false]
      have hk : mc_hash a n < 32 := by omega
      have e1 : readl (writel s ((readl s FecReg.FEC_GRP_HASH_TABLE_LOW |||
          1 <<< mc_hash a n) % 2 ^ 32) FecReg.FEC_GRP_HASH_TABLE_LOW)
          FecReg.FEC_GRP_HASH_TABLE_HIGH = readl s FecReg.FEC_GRP_HASH_TABLE_HIGH := by
        simp [readl, writel]
      have e2 : readl (writel s ((readl s FecReg.FEC_GRP_HASH_TABLE_LOW |||
          1 <<< mc_hash a n) % 2 ^ 32) FecReg.FEC_GRP_HASH_TABLE_LOW)
          FecReg.FEC_GRP_HASH_TABLE_LOW
          = (readl s FecReg.FEC_GRP_HASH_TABLE_LOW ||| 1 <<< mc_hash a n) % 2 ^ 32 := by
        simp [readl, writel]
      rw [e1, e2]
      refine ⟨(or_bit _ _ 0 hl hk).1, hh, fun j _ => ?_, fun j _ => ?_⟩
      · rw [(or_bit _ _ j hl hk).2]
        constructor
        · rintro (h | h)
          · exact Or.inl h
          · exact Or.inr ⟨hg, h⟩
        · rintro (h | ⟨_, h⟩)
          · exact Or.inl h
          · exact Or.inr h
      · constructor
        · exact Or.inl
        · rintro (h | ⟨_, h⟩)
          · exact h
          · omega

/-- What the loop over the multicast list does to the two hash registers. -/
theorem mc_fold_regs (n : Nat) : ∀ (l : List (List Nat)) (s : State),
    readl s FecReg.FEC_GRP_HASH_TABLE_LOW < 2 ^ 32 →
    readl s FecReg.FEC_GRP_HASH_TABLE_HIGH < 2 ^ 32 →
    readl (l.foldl (mc_add n) s) FecReg.FEC_GRP_HASH_TABLE_LOW < 2 ^ 32 ∧
    readl (l.foldl (mc_add n) s) FecReg.FEC_GRP_HASH_TABLE_HIGH < 2 ^ 32 ∧
    (∀ j, j < 32 →
      ((readl (l.foldl (mc_add n) s) FecReg.FEC_GRP_HASH_TABLE_LOW).testBit j = true ↔
        (readl s FecReg.FEC_GRP_HASH_TABLE_LOW).testBit j = true ∨
          ∃ a, a ∈ l ∧ a.getD 0 0 &&& 1 ≠ 0 ∧ mc_hash a n = j)) ∧
    (∀ j, j < 32 →
      ((readl (l.foldl (mc_add n) s) FecReg.FEC_GRP_HASH_TABLE_HIGH).testBit j = true ↔
        (readl s FecReg.FEC_GRP_HASH_TABLE_HIGH).testBit j = true ∨
          ∃ a, a ∈ l ∧ a.getD 0 0 &&& 1 ≠ 0 ∧ mc_hash a n = j + 32)) := by
  intro l
  induction l with
  | nil =>
    intro s hl hh
    refine ⟨hl, hh, fun j _ => ?_, fun j _ => ?_⟩ <;> simp
  | cons a l ih =>
    intro s hl hh
    obtain ⟨b1, b2, b3, b4⟩ := mc_add_regs n s a hl hh
    obtain ⟨c1, c2, c3, c4⟩ := ih (mc_add n s a) b1 b2
    rw [List.foldl_cons]
    refine ⟨c1, c2, fun j hj => ?_, fun j hj => ?_⟩
    · rw [c3 j hj, b3 j hj]
      constructor
      · rintro ((h | h) | ⟨x, hx, h⟩)
        · exact Or.inl h
        · exact Or.inr ⟨a, List.mem_cons_self _ _, h⟩
        · exact Or.inr ⟨x, List.mem_cons_of_mem _ hx, h⟩
      · rintro (h | ⟨x, hx, h⟩)
        · exact Or.inl (Or.inl h)
        · rcases List.mem_cons.1 hx with rfl | hx
          · exact Or.inl (Or.inr h)
          · exact Or.inr ⟨x, hx, h⟩
    · rw [c4 j hj, b4 j hj]
      constructor
      · rintro ((h | h) | ⟨x, hx, h⟩)
        · exact Or.inl h
        · exact Or.inr ⟨a, List.mem_cons_self _ _, h⟩
        · exact Or.inr ⟨x, List.mem_cons_of_mem _ hx, h⟩
      · rintro (h | ⟨x, hx, h⟩)
        · exact Or.inl (Or.inl h)
        · rcases List.mem_cons.1 hx with rfl | hx
          · exact Or.inl (Or.inr h)
          · exact Or.inr ⟨x, hx, h⟩

/-- C30: with neither `IFF_PROMISC` nor `IFF_ALLMULTI` set in `dev->flags`,
`set_multicast_list` leaves the 64-bit group hash filter
(`FEC_GRP_HASH_TABLE_HIGH` : `FEC_GRP_HASH_TABLE_LOW`, both registers 32 bits
wide) with bit `h` set if and only if some listed address with the group bit
(`addr[0] & 1`) set has hash `h`; bits 0..31 are in LOW and bits 32..63 in
HIGH; the hash of every address is below 64 and is the top 6 bits of the
32-bit CRC the function computes; and for an address of `addr_len` bytes that
CRC is the bit-reflected CRC-32 (polynomial `0xEDB88320`, initial value
`0xffffffff`, no final inversion) of the address bytes.  An address without
the group bit contributes no bit. -/
theorem multicast_hash_filter (s : State) (flags promisc allmulti addr_len : Nat)
    (mc_list : List (List Nat)) (hp : flags &&& promisc = 0) (ha : flags &&& allmulti = 0) :
    (∀ h, h < 64 →
      ((2 ^ 32 * readl (set_multicast_list s flags promisc allmulti addr_len mc_list)
            FecReg.FEC_GRP_HASH_TABLE_HIGH
          + readl (set_multicast_list s flags promisc allmulti addr_len mc_list)
            FecReg.FEC_GRP_HASH_TABLE_LOW).testBit h = true ↔
        ∃ a, a ∈ mc_list ∧ a.getD 0 0 &&& 1 ≠ 0 ∧ mc_hash a addr_len = h)) ∧
    (∀ h, h < 32 →
      ((readl (set_multicast_list s flags promisc allmulti addr_len mc_list)
          FecReg.FEC_GRP_HASH_TABLE_LOW).testBit h = true ↔
        ∃ a, a ∈ mc_list ∧ a.getD 0 0 &&& 1 ≠ 0 ∧ mc_hash a addr_len = h)) ∧
    (∀ h, 32 ≤ h → h < 64 →
      ((readl (set_multicast_list s flags promisc allmulti addr_len mc_list)
          FecReg.FEC_GRP_HASH_TABLE_HIGH).testBit (h - 32) = true ↔
        ∃ a, a ∈ mc_list ∧ a.getD 0 0 &&& 1 ≠ 0 ∧ mc_hash a addr_len = h)) ∧
    readl (set_multicast_list s flags promisc allmulti addr_len mc_list)
      FecReg.FEC_GRP_HASH_TABLE_LOW < 2 ^ 32 ∧
    readl (set_multicast_list s flags promisc allmulti addr_len mc_list)
      FecReg.FEC_GRP_HASH_TABLE_HIGH < 2 ^ 32 ∧
    (∀ a : List Nat, mc_hash a addr_len < 64 ∧ mc_crc a addr_len < 2 ^ 32 ∧
      mc_hash a addr_len = mc_crc a addr_len / 2 ^ 26 ∧
      (a.length = addr_len → (∀ b, b ∈ a → b < 256) →
        mc_hash a addr_len = crc32_reflected a / 2 ^ 26)) := by
  have hs : set_multicast_list s flags promisc allmulti addr_len mc_list
      = mc_list.foldl (mc_add addr_len)
          (writel (writel (writel s (clear_bits32 (readl s FecReg.FEC_R_CNTRL) 0x8)
            FecReg.FEC_R_CNTRL) 0 FecReg.FEC_GRP_HASH_TABLE_HIGH) 0
            FecReg.FEC_GRP_HASH_TABLE_LOW) := by
    unfold set_multicast_list
    rw [if_neg (not_not.2 hp)]
    dsimp only
    rw [if_neg (not_not.2 ha)]
  have z1 : readl (writel (writel (writel s (clear_bits32 (readl s FecReg.FEC_R_CNTRL) 0x8)
      FecReg.FEC_R_CNTRL) 0 FecReg.FEC_GRP_HASH_TABLE_HIGH) 0 FecReg.FEC_GRP_HASH_TABLE_LOW)
      FecReg.FEC_GRP_HASH_TABLE_LOW = 0 := by
    simp [readl, writel]
  have z2 : readl (writel (writel (writel s (clear_bits32 (readl s FecReg.FEC_R_CNTRL) 0x8)
      FecReg.FEC_R_CNTRL) 0 FecReg.FEC_GRP_HASH_TABLE_HIGH) 0 FecReg.FEC_GRP_HASH_TABLE_LOW)
      FecReg.FEC_GRP_HASH_TABLE_HIGH = 0 := by
    simp [readl, writel]
  obtain ⟨c1, c2, c3, c4⟩ := mc_fold_regs addr_len mc_list _
    (by rw [z1]; norm_num) (by rw [z2]; norm_num)
  rw [z1] at c3
  rw [z2] at c4
  simp only [Nat.zero_testBit, Bool.false_eq_true, false_or] at c3 c4
  rw [hs]
  have low : ∀ h, h < 32 → _ := c3
  have high : ∀ h, 32 ≤ h → h < 64 → _ := fun h h1 h2 => by
    have := c4 (h - 32) (by omega)
    rw [Nat.sub_add_cancel h1] at this
    exact this
  refine ⟨fun h hh => ?_, low, high, c1, c2, fun a => ?_⟩
  · rw [Nat.testBit_mul_pow_two_add _ c1]
    by_cases h32 : h < 32
    · rw [if_pos h32]; exact low h h32
    · rw [if_neg h32]; exact high h (by omega) hh
  · obtain ⟨h1, h2⟩ := mc_hash_lt a addr_len
    refine ⟨h1, mc_crc_lt a addr_len, h2, fun hlen hb => ?_⟩
    rw [h2, ← hlen, mc_crc_reflected a hb]

set_option maxRecDepth 100000

theorem multicast_hash_filter_witness :
    (0 : Nat) &&& 0x100 = 0 ∧ (0 : Nat) &&& 0x200 = 0 ∧
    ((2 ^ 32 * readl (set_multicast_list dev0 0 0x100 0x200 6 mc_demo)
          FecReg.FEC_GRP_HASH_TABLE_HIGH
        + readl (set_multicast_list dev0 0 0x100 0x200 6 mc_demo)
          FecReg.FEC_GRP_HASH_TABLE_LOW).testBit 54 = true ↔
      ∃ a, a ∈ mc_demo ∧ a.getD 0 0 &&& 1 ≠ 0 ∧ mc_hash a 6 = 54) ∧
    mc_demo.map (fun a => (a.getD 0 0 &&& 1, mc_hash a 6)) = [(1, 54), (0, 44), (1, 23)] ∧
    readl (set_multicast_list dev0 0 0x100 0x200 6 mc_demo) FecReg.FEC_GRP_HASH_TABLE_HIGH
      = 2 ^ 22 ∧
    readl (set_multicast_list dev0 0 0x100 0x200 6 mc_demo) FecReg.FEC_GRP_HASH_TABLE_LOW
      = 2 ^ 23 ∧
    mc_crc crc_check_input 9 ^^^ 0xffffffff = 0xCBF43926 ∧
    crc32_reflected crc_check_input ^^^ 0xffffffff = 0xCBF43926 :=
  ⟨by decide, by decide,
   (multicast_hash_filter dev0 0 0x100 0x200 6 mc_demo (by decide) (by decide)).1 54 (by decide),
   by decide, by decide, by decide, by decide, by decide⟩

end Fec
